import Mathlib

/-! # Slur layout of the engraving library (libmscore/slur.cpp, slurtie.cpp)

A shallow embedding of the slur layout code and the properties checked on it,
with the curve types of the tremolo bar (libmscore/tremolobar.cpp) and the
indexer of linked elements (rw/linksindexer.h).

Conventions of the embedding.

* `double` values are rational numbers (`ℚ`); the transcendental functions of
  the C library (`atan`, `sin`, `cos`, `log10`) are parameters (`MathFns`).
  The layout functions are embedded with exact sums and products. Where a
  property depends on the rounding of the double operations, the operations
  are rounded with `roundDouble`: the division and multiplication by the
  spatium of the grip offsets that are written and read (`PointF.divide`,
  `PointF.scale`), and the end point of `computeBezier`
  (`SlurSegment.endDouble`).
* `Fraction` ticks are rational numbers.
* Objects reached through pointers are records; a pointer that the source
  tests against null is an `Option`, pointer identity is an `id : Nat`.
* A function that dereferences such a pointer without a test returns `none`
  when the pointer is null; every other result is `some`.
* An `int` counter is an integer that wraps at 32 bits (`wrapInt32`).
* Log statements are not modelled.
-/

set_option autoImplicit false

/-! ## Double arithmetic -/

/-- Rounding of a rational number to the nearest integer, a tie to the even
one. -/
def roundHalfEven (y : ℚ) : ℤ :=
  let f := ⌊y⌋
  if y - f < 1 / 2 then f
  else if 1 / 2 < y - f then f + 1
  else if f % 2 = 0 then f
  else f + 1

/-- The result of a double operation whose exact result is `x`: the nearest
number with a significand of 53 binary digits (IEEE 754 binary64, rounding to
nearest, ties to even). Below `2 ^ (-1022)` the spacing stays `2 ^ (-1074)`.
Results beyond the largest double, which the hardware gives as infinity, are
not modelled. -/
def roundDouble (x : ℚ) : ℚ :=
  if x = 0 then 0
  else
    let e : ℤ := max (Int.log 2 |x|) (-1022)
    let ulp : ℚ := 2 ^ (e - 52)
    (roundHalfEven (x / ulp) : ℚ) * ulp

/-! ## Geometry -/

/-- Two-dimensional point of the draw library (`mu::PointF`). -/
structure PointF where
  x : ℚ
  y : ℚ
deriving DecidableEq, Repr

namespace PointF

/-- Default constructed point `PointF()`. -/
def zero : PointF := ⟨0, 0⟩

/-- Componentwise sum, `operator+`. -/
def add (a b : PointF) : PointF := ⟨a.x + b.x, a.y + b.y⟩

/-- Componentwise difference, `operator-`. -/
def sub (a b : PointF) : PointF := ⟨a.x - b.x, a.y - b.y⟩

/-- Product with a scalar, `operator*`, in double arithmetic: each coordinate
is the rounded product. -/
def scale (a : PointF) (k : ℚ) : PointF := ⟨roundDouble (a.x * k), roundDouble (a.y * k)⟩

/-- Quotient by a scalar, `operator/`, in double arithmetic: each coordinate is
the rounded quotient. -/
def divide (a : PointF) (k : ℚ) : PointF := ⟨roundDouble (a.x / k), roundDouble (a.y / k)⟩

/-- Test `isNull()`: both coordinates are zero. -/
def isNull (a : PointF) : Bool := a.x == 0 && a.y == 0

instance : Add PointF := ⟨add⟩
instance : Sub PointF := ⟨sub⟩

end PointF

/-- Rectangle of the draw library (`mu::RectF`): top-left corner, width, height. -/
structure RectF where
  x : ℚ
  y : ℚ
  w : ℚ
  h : ℚ
deriving DecidableEq, Repr

namespace RectF

/-- Default constructed rectangle `RectF()`. -/
def zero : RectF := ⟨0, 0, 0, 0⟩

/-- Modelled from the spec: the constructor `RectF(topLeft, bottomRight)` of the
draw library, which is not among the sources. -/
def ofPoints (a b : PointF) : RectF := ⟨a.x, a.y, b.x - a.x, b.y - a.y⟩

/-- Modelled from the spec: `RectF::normalized()` of the draw library, which is
not among the sources: a rectangle with the same corners and non-negative
width and height. -/
def normalized (r : RectF) : RectF :=
  let r1 : RectF := if r.w < 0 then ⟨r.x + r.w, r.y, -r.w, r.h⟩ else r
  if r1.h < 0 then ⟨r1.x, r1.y + r1.h, r1.w, -r1.h⟩ else r1

/-- Modelled from the spec: `RectF::adjust(dx1, dy1, dx2, dy2)` of the draw
library, which is not among the sources: moves the top-left corner by
`(dx1, dy1)` and the bottom-right corner by `(dx2, dy2)`. -/
def adjust (r : RectF) (dx1 dy1 dx2 dy2 : ℚ) : RectF :=
  ⟨r.x + dx1, r.y + dy1, r.w + dx2 - dx1, r.h + dy2 - dy1⟩

/-- Accessor `height()`. -/
def height (r : RectF) : ℚ := r.h

end RectF

/-- Collision shape: a sequence of rectangles (`Shape`). -/
abbrev Shape := List RectF

/-- The C library functions used by the layout code. -/
structure MathFns where
  atan : ℚ → ℚ
  sin : ℚ → ℚ
  cos : ℚ → ℚ
  log10 : ℚ → ℚ

/-- Modelled from the spec: the affine `Transform` of the draw library, which
is not among the sources. A point `(x, y)` is mapped to
`(m11 x + m21 y + dx, m12 x + m22 y + dy)`. -/
structure Transform where
  m11 : ℚ
  m12 : ℚ
  m21 : ℚ
  m22 : ℚ
  dx : ℚ
  dy : ℚ
deriving DecidableEq, Repr

namespace Transform

/-- Modelled from the spec: the default constructed `Transform` and the result
of `reset()`, the identity map. -/
def identity : Transform := ⟨1, 0, 0, 1, 0, 0⟩

/-- Modelled from the spec: `Transform::map(PointF)`. -/
def map (t : Transform) (p : PointF) : PointF :=
  ⟨t.m11 * p.x + t.m21 * p.y + t.dx, t.m12 * p.x + t.m22 * p.y + t.dy⟩

/-- Modelled from the spec: `Transform::rotateRadians(a)`; the rotation is
applied to a point before the map held so far. -/
def rotateRadians (M : MathFns) (t : Transform) (a : ℚ) : Transform :=
  let sina := M.sin a
  let cosa := M.cos a
  { t with
    m11 := cosa * t.m11 + sina * t.m21
    m12 := cosa * t.m12 + sina * t.m22
    m21 := -sina * t.m11 + cosa * t.m21
    m22 := -sina * t.m12 + cosa * t.m22 }

/-- Modelled from the spec: `Transform::translate(x, y)`; the translation is
applied to a point before the map held so far. -/
def translate (t : Transform) (x y : ℚ) : Transform :=
  { t with
    dx := t.dx + x * t.m11 + y * t.m21
    dy := t.dy + y * t.m22 + x * t.m12 }

/-- Modelled from the spec: `Transform::inverted()`; the identity when the map
has no inverse. -/
def inverted (t : Transform) : Transform :=
  let det := t.m11 * t.m22 - t.m12 * t.m21
  if det = 0 then identity
  else
    let i11 := t.m22 / det
    let i12 := -t.m12 / det
    let i21 := -t.m21 / det
    let i22 := t.m11 / det
    ⟨i11, i12, i21, i22, -(i11 * t.dx + i21 * t.dy), -(i12 * t.dx + i22 * t.dy)⟩

end Transform

/-- Element of a `PainterPath`. -/
inductive PathElement where
  | moveTo (p : PointF)
  | cubicTo (c1 c2 e : PointF)
deriving DecidableEq, Repr

/-- Path of the draw library (`PainterPath`): the sequence of its elements. -/
abbrev PainterPath := List PathElement

/-- Modelled from the spec: `Transform::map(PainterPath)`, which maps every
point of the path. -/
def Transform.mapPath (t : Transform) (path : PainterPath) : PainterPath :=
  path.map fun e =>
    match e with
    | .moveTo p => .moveTo (t.map p)
    | .cubicTo c1 c2 e => .cubicTo (t.map c1) (t.map c2) (t.map e)

/-! ## Score objects read by the slur layout -/

/-- Grips of a slur segment (`Grip`). -/
inductive Grip where
  | START | BEZIER1 | BEZIER2 | END | SHOULDER | DRAG
deriving DecidableEq, Repr

/-- Position of a grip and the offset the user gave it (`struct UP`). -/
structure UP where
  p : PointF
  off : PointF
deriving DecidableEq, Repr

namespace UP

/-- Default constructed `UP()`. -/
def zero : UP := ⟨PointF.zero, PointF.zero⟩

/-- Accessor `pos()`: position plus user offset. -/
def pos (u : UP) : PointF := u.p + u.off

end UP

/-- Kind of a spanner segment (`SpannerSegmentType`). -/
inductive SpannerSegmentType where
  | SINGLE | BEGIN | MIDDLE | END
deriving DecidableEq, Repr

/-- Direction preference (`DirectionV`). -/
inductive DirectionV where
  | AUTO | UP | DOWN
deriving DecidableEq, Repr

/-- Line style of a slur (`SlurStyleType`). -/
inductive SlurStyleType where
  | Undefined | Solid | Dotted | Dashed | WideDashed
deriving DecidableEq, Repr

/-- What the layout reads of a `Tie`. -/
structure Tie where
  isInside : Bool
  up : Bool
  /-- Result of `segmentAt(0)->ups(Grip::START).pos()` -/
  frontStartPos : PointF
  /-- Result of `segmentAt(0)->ups(Grip::END).pos()` -/
  frontEndPos : PointF
  /-- Result of `backSegment()->ups(Grip::START).pos()` -/
  backStartPos : PointF

/-- What the layout reads of a `Note`. -/
structure Note where
  /-- Result of `pos().y()` -/
  posY : ℚ
  height : ℚ
  tieFor : Option Tie
  tieBack : Option Tie

/-- What the layout reads of a `Stem`. -/
structure Stem where
  length : ℚ
  up : Bool

/-- What the layout reads of a `Beam`. -/
structure Beam where
  cross : Bool
  /-- Result of `elements().front()`, as the identity of the chordrest -/
  front : Nat
  /-- Result of `elements().back()`, as the identity of the chordrest -/
  back : Nat

/-- What `isDirectionMixture` reads of the element of a segment on a track. -/
structure TrackElement where
  isChord : Bool
  up : Bool

/-- What `isDirectionMixture` reads of a `Segment` of a measure. -/
structure MeasureSegment where
  tick : ℚ
  isChordRestType : Bool
  /-- Result of `element(track)` -/
  element : Nat → Option TrackElement

/-- What the layout reads of a `Measure`. -/
structure Measure where
  ticks : ℚ
  /-- Result of `hasVoices(staffIdx, tick, ticks)` -/
  hasVoices : Nat → ℚ → ℚ → Bool
  /-- The segments of the measure, from `first()` on. -/
  segments : List MeasureSegment
  /-- Result of `system()`, as the identity of the system -/
  system : Option Nat

/-- What the layout reads of a `Chord` beyond its `ChordRest` part. -/
structure Chord where
  notes : List Note
  upNote : Note
  downNote : Note
  stem : Option Stem
  isGrace : Bool
  /-- Whether `noteType() == NoteType::NORMAL` -/
  noteTypeNormal : Bool

/-- What the layout reads of a `ChordRest`; `chord` is set when `isChord()`. -/
structure ChordRest where
  id : Nat
  chord : Option Chord
  up : Bool
  tick : ℚ
  track : Nat
  staffIdx : Nat
  beam : Option Beam
  /-- Result of `pagePos()` -/
  pagePos : PointF
  width : ℚ
  measure : Option Measure
  /-- The measures reached from `measure()` by `nextMeasure()`, in order. -/
  nextMeasures : List Measure

/-- What the collision scan of `layoutSegment` reads of a `Segment` of the system. -/
structure ScanSegment where
  id : Nat
  enabled : Bool
  /-- Whether `segmentType() & SegmentType::BarLineType` is non-zero -/
  isBarLineType : Bool
  /-- Result of `pos()`, so that `x()` and `y()` are its coordinates -/
  pos : PointF
  /-- Result of `measure()->pos()` -/
  measurePos : PointF
  width : ℚ
  /-- Result of `staffShape(staffIdx)` -/
  staffShape : Nat → Shape

/-- What the layout reads of a `System`. -/
structure System where
  id : Nat
  vbox : Bool
  /-- Result of `firstMeasure()->tick()` -/
  firstMeasureTick : ℚ
  /-- Result of `lastMeasure()->endTick()` -/
  lastMeasureEndTick : ℚ
  /-- Result of `firstChordRest(track)` -/
  firstChordRest : Nat → Option ChordRest
  /-- Result of `lastChordRest(track)` -/
  lastChordRest : Nat → Option ChordRest
  /-- Result of `firstNoteRestSegmentX(true)` -/
  firstNoteRestSegmentX : ℚ
  /-- Result of `lastNoteRestSegmentX(true)` -/
  lastNoteRestSegmentX : ℚ
  /-- Result of `bbox().width()` -/
  bboxWidth : ℚ
  y : ℚ
  /-- Result of `staves().size()` -/
  stavesSize : Nat
  /-- Result of `staff(idx)->y()` -/
  staffY : Nat → ℚ
  /-- The segments from `firstMeasure()->first()` along `next1()` up to, and
  without, `lastMeasure()->last()`. -/
  scanSegments : List ScanSegment

/-- What the layout reads of the `Staff` of a slur segment. -/
structure Staff where
  /-- Result of `lines(tick())` -/
  lines : ℤ
  /-- Result of `staffMag(slur()->tick())` -/
  staffMag : ℚ

/-- What the layout reads of the `StaffType` of a slur segment. -/
structure StaffType where
  /-- Result of `isHiddenElementOnTab(score(), Sid::slurShowTabCommon, Sid::slurShowTabSimple)` -/
  isHiddenElementOnTab : Bool
  /-- Result of `yoffset().val()` -/
  yoffset : ℚ

/-- Read-only surroundings of a slur segment: score, style, staff and the
functions of the draw library that are not among the sources. -/
structure SegCtx where
  spatium : ℚ
  staff : Option Staff
  staffType : Option StaffType
  /-- Result of `score()->styleMM(Sid::SlurMidWidth)` -/
  slurMidWidth : ℚ
  /-- Result of `score()->styleMM(Sid::SlurEndWidth)` -/
  slurEndWidth : ℚ
  math : MathFns
  /-- Result of `CubicBezier(p1, p2, p3, p4).pointAtPercent(t)` -/
  pointAtPercent : PointF → PointF → PointF → PointF → ℚ → PointF
  /-- Result of `a.intersects(b)` on shapes -/
  intersects : Shape → Shape → Bool
  /-- Result of `a.minVerticalDistance(b)` on shapes -/
  minVerticalDistance : Shape → Shape → ℚ
  /-- Result of `path.boundingRect()` -/
  boundingRect : PainterPath → RectF

/-- State of a `SlurSegment`. -/
structure SlurSegment where
  START : UP
  BEZIER1 : UP
  BEZIER2 : UP
  END : UP
  SHOULDER : UP
  DRAG : UP
  extraHeight : ℚ
  path : PainterPath
  shapePath : PainterPath
  shape : Shape
  bbox : RectF
  pos : PointF
  offset : PointF
  autoplace : Bool
  spannerSegmentType : SpannerSegmentType
  system : Option System
  staffIdx : Nat

/-- State of a `Slur`. -/
structure Slur where
  slurDirection : DirectionV
  up : Bool
  broken : Bool
  styleType : SlurStyleType
  tick : ℚ
  ticks : ℚ
  track : Nat
  /-- Second track; `none` stands for `mu::nidx` -/
  track2 : Option Nat
  startCR : Option ChordRest
  endCR : Option ChordRest
  sourceStemArrangement : ℤ
  /-- Result of `startSegment()`, as the identity of the segment -/
  startSegment : Option Nat
  /-- Result of `endSegment()`, as the identity of the segment -/
  endSegment : Option Nat
  staffIdx : Nat
  pos : PointF
  bbox : RectF

namespace SlurSegment

/-- Accessor `ups(grip)`. -/
def ups (s : SlurSegment) : Grip → UP
  | .START => s.START
  | .BEZIER1 => s.BEZIER1
  | .BEZIER2 => s.BEZIER2
  | .END => s.END
  | .SHOULDER => s.SHOULDER
  | .DRAG => s.DRAG

/-- Modelled from the spec: `EngravingItem::y()`, which is not among the
sources: the vertical position including the overall user offset. -/
def y (s : SlurSegment) : ℚ := s.pos.y + s.offset.y

/-- The lambda `adjustPoint` of `adjustEndpoints`, with
`staffLineMargin = 0.15`. -/
def adjustPoint (up : Bool) (ysp : ℚ) : ℚ :=
  let staffLineMargin : ℚ := 15 / 100
  let y1offset := ysp - (⌊ysp⌋ : ℚ)
  if up then
    if y1offset < staffLineMargin then
      -(y1offset + staffLineMargin)
    else if y1offset > 1 - staffLineMargin then
      -(y1offset - (1 - staffLineMargin))
    else 0
  else
    let adjust : ℚ := if y1offset < staffLineMargin then staffLineMargin - y1offset else 0
    if y1offset > 1 - staffLineMargin then (1 - y1offset) + staffLineMargin else adjust

/-- One of the two guarded statements of `adjustEndpoints`, on the grip `u`
(`START` or `END`): with `ysp = u.p.y() / spatium()`,
`if (ysp > -staffLineMargin && ysp < (lines - 1) + staffLineMargin)
u.p.ry() += adjustPoint(slur()->up(), ysp) * spatium();`. -/
def adjustGrip (spatium : ℚ) (lines : ℤ) (up : Bool) (u : UP) : UP :=
  let staffLineMargin : ℚ := 15 / 100
  let ysp := u.p.y / spatium
  if ysp > -staffLineMargin ∧ ysp < ((lines : ℚ) - 1) + staffLineMargin then
    { u with p := ⟨u.p.x, u.p.y + adjustPoint up ysp * spatium⟩ }
  else u

/-- Function `SlurSegment::adjustEndpoints`: move the endpoints so as not to
collide with staff lines. Reads `staff()` without a test. -/
def adjustEndpoints (ctx : SegCtx) (slur : Slur) (s : SlurSegment) : Option SlurSegment :=
  match ctx.staff with
  | none => none
  | some staff =>
    let lines := staff.lines
    some { s with
      START := adjustGrip ctx.spatium lines slur.up s.START
      END := adjustGrip ctx.spatium lines slur.up s.END }

end SlurSegment

namespace SlurSegment

/-- Body of the loop that fills `_shape` in `computeBezier`: one rectangle from
`start` to the bezier point at `i / 32`, grown to the height `minH`. -/
def shapeRect (minH : ℚ) (start point : PointF) : RectF :=
  let re := (RectF.ofPoints start point).normalized
  if re.height < minH then
    let d1 := (minH - re.height) * (1 / 2)
    re.adjust 0 (-d1) 0 d1
  else re

/-- The loop `for (int i = 1; i <= nbShapes; i++)` of `computeBezier`, run for
the indices in `is`, from the point `start`; `b` is `pointAtPercent` of the
bezier curve. -/
def shapeLoop (b : ℚ → PointF) (nbShapes : ℕ) (minH : ℚ) : PointF → List ℕ → Shape
  | _, [] => []
  | start, i :: is =>
    let point := b ((i : ℚ) / (nbShapes : ℚ))
    shapeRect minH start point :: shapeLoop b nbShapes minH point is

/-- Shoulder height and width chosen by `computeBezier` for the span `d` (in
staff spaces), before the shoulder offset and the bow direction are applied. -/
def shoulder (M : MathFns) (spatium extraHeight d : ℚ) : ℚ × ℚ :=
  let smallH : ℚ := 1 / 2
  if d ≤ 2 then
    (d * (1 / 2) * smallH * spatium, 6 / 10)
  else
    let dd0 := M.log10 (1 + (d - 2) * (1 / 2)) * 2
    let dd := if dd0 > 3 then 3 else dd0
    let shoulderH := (dd + smallH) * spatium + extraHeight
    let shoulderW : ℚ := if d > 18 then 7 / 10 else if d > 10 then 6 / 10 else 5 / 10
    (shoulderH, shoulderW)

/-- The part of `computeBezier` after the test for a zero slur: `s` is the
segment after the staff-line pass, `p6o` the shoulder offset. -/
def buildBezier (ctx : SegCtx) (slur : Slur) (s : SlurSegment) (p6o : PointF) : SlurSegment :=
  let M := ctx.math
  let _spatium := ctx.spatium
  let pp1 := s.START.p + s.START.off
  let pp2 := s.END.p + s.END.off
  let p2 := pp2 - pp1
  let sinb := M.atan (p2.y / p2.x)
  let t := Transform.identity.rotateRadians M (-sinb)
  let p2 := t.map p2
  let p6o := t.map p6o
  let d := p2.x / _spatium
  let sh := shoulder M _spatium s.extraHeight d
  let shoulderW := sh.2
  let shoulderH := sh.1 - p6o.y
  let shoulderH := if !slur.up then -shoulderH else shoulderH
  let c := p2.x
  let c1 := (c - c * shoulderW) * (1 / 2) + p6o.x
  let c2 := c1 + c * shoulderW + p6o.x
  let p5 : PointF := ⟨c * (1 / 2), 0⟩
  let p3 : PointF := ⟨c1, -shoulderH⟩
  let p4 : PointF := ⟨c2, -shoulderH⟩
  let w := ctx.slurMidWidth - ctx.slurEndWidth
  let w := match ctx.staff with
    | some staff => w * staff.staffMag
    | none => w
  let w := if c2 - c1 ≤ _spatium then w * (1 / 2) else w
  let th : PointF := ⟨0, w⟩
  let p3o := p6o + t.map s.BEZIER1.off
  let p4o := p6o + t.map s.BEZIER2.off
  let s : SlurSegment :=
    if !p6o.isNull then
      let p6i := t.inverted.map p6o
      { s with
        BEZIER1 := { s.BEZIER1 with off := s.BEZIER1.off + p6i }
        BEZIER2 := { s.BEZIER2 with off := s.BEZIER2.off + p6i } }
    else s
  -- calculate p6
  let pp3 := p3 + p3o
  let pp4 := p4 + p4o
  let ppp4 := pp4 - pp3
  let r2 := M.atan (ppp4.y / ppp4.x)
  let t := Transform.identity.rotateRadians M (-r2)
  let p6 : PointF := ⟨(t.map ppp4).x * (1 / 2), 0⟩
  let t := t.rotateRadians M (2 * r2)
  let p6 := t.map p6 + pp3 - p6o
  -- the stroke and the outline used for the collision shape
  let path : PainterPath :=
    [.moveTo PointF.zero, .cubicTo (p3 + p3o - th) (p4 + p4o - th) p2]
    ++ (if slur.styleType = SlurStyleType.Solid then
          [.cubicTo (p4 + p4o + th) (p3 + p3o + th) PointF.zero]
        else [])
  let th : PointF := ⟨0, 3 * w⟩
  let shapePath : PainterPath :=
    [.moveTo PointF.zero, .cubicTo (p3 + p3o - th) (p4 + p4o - th) p2,
     .cubicTo (p4 + p4o + th) (p3 + p3o + th) PointF.zero]
  -- translate back
  let t := (Transform.identity.translate pp1.x pp1.y).rotateRadians M sinb
  let s : SlurSegment :=
    { s with
      path := t.mapPath path
      shapePath := t.mapPath shapePath
      BEZIER1 := { s.BEZIER1 with p := t.map p3 }
      BEZIER2 := { s.BEZIER2 with p := t.map p4 }
      END := { s.END with p := t.map p2 - s.END.off }
      DRAG := { s.DRAG with p := t.map p5 }
      SHOULDER := { s.SHOULDER with p := t.map p6 } }
  let nbShapes : ℕ := 32
  let minH := |3 * w|
  let b := ctx.pointAtPercent pp1 s.BEZIER1.pos s.BEZIER2.pos s.END.pos
  { s with shape := shapeLoop b nbShapes minH pp1 (List.range' 1 nbShapes) }

/-- The statement `if (autoplace()) adjustEndpoints();` that opens
`computeBezier`. -/
def staffLinePass (ctx : SegCtx) (slur : Slur) (s : SlurSegment) : Option SlurSegment :=
  if s.autoplace then adjustEndpoints ctx slur s else some s

/-- Function `SlurSegment::computeBezier`: compute the help points of the slur
bezier segment. The result is the slur (whose `broken` flag may be set) and the
segment; `none` when a null `staff()`, `startCR()` or `endCR()` is dereferenced. -/
def computeBezier (ctx : SegCtx) (slur : Slur) (s : SlurSegment) (p6o : PointF) :
    Option (Slur × SlurSegment) :=
  match staffLinePass ctx slur s with
  | none => none
  | some s =>
    let pp1 := s.START.p + s.START.off
    let pp2 := s.END.p + s.END.off
    let p2 := pp2 - pp1
    if p2.x = 0 ∧ p2.y = 0 then
      match slur.startCR, slur.endCR with
      | some _, some _ => some ({ slur with broken := true }, s)
      | _, _ => none
    else
      some (slur, buildBezier ctx slur s p6o)

end SlurSegment

/-- Modelled from the spec: `Shape::translated(pt)` of the draw library, which
is not among the sources: every rectangle moved by `pt`. -/
def Shape.translated (sh : Shape) (pt : PointF) : Shape :=
  sh.map fun r => ⟨r.x + pt.x, r.y + pt.y, r.w, r.h⟩

/-- Default argument of `computeBezier(mu::PointF so = mu::PointF())`, declared
in `slur.h`. -/
def computeBezierDefaultArg : PointF := PointF.zero

/-- Variables of the collision scan of `layoutSegment` that one pass of the
avoidance loop computes. -/
structure ScanState where
  intersection : Bool
  end1Dist : ℚ
  end2Dist : ℚ
  midpointDist : ℚ
  segRelativeX : ℚ

/-- The array `adjusted[3]` of `layoutSegment`. -/
structure Adjusted where
  a0 : Bool
  a1 : Bool
  a2 : Bool
deriving DecidableEq, Repr

/-- What `layoutSegment` leaves: the slur, the segment, and two records of the
run that the source does not keep: the number of calls of `computeBezier` and,
for every pass of the avoidance loop that ran, whether it found an
intersection. -/
structure LayoutSegmentResult where
  slur : Slur
  seg : SlurSegment
  bezierCalls : ℕ
  passLog : List Bool

namespace SlurSegment

/-- The statement `u.p.ry() += dy`. -/
def moveY (u : UP) (dy : ℚ) : UP := { u with p := ⟨u.p.x, u.p.y + dy⟩ }

/-- The inner loop `for (Segment* s = fs; s && s != ls; s = s->next1())` of
`layoutSegment` over the segments still to visit. -/
def scan (ctx : SegCtx) (slur : Slur) (seg : SlurSegment) (up : Bool) (pp1 pp2 : PointF)
    (slurWidth : ℚ) : ScanState → List ScanSegment → ScanState
  | st, [] => st
  | st, s :: rest =>
    let maxHeightAdjust := 4 * ctx.spatium
    let maxEndpointAdjust := 3 * ctx.spatium
    let slurEndSectionPercent : ℚ := 3 / 10
    let collisionMargin := (1 / 2) * ctx.spatium
    if !s.enabled then scan ctx slur seg up pp1 pp2 slurWidth st rest
    else if slur.startSegment = some s.id ∨ slur.endSegment = some s.id then
      scan ctx slur seg up pp1 pp2 slurWidth st rest
    else if s.isBarLineType then scan ctx slur seg up pp1 pp2 slurWidth st rest
    else
      let x1 := s.pos.x + s.measurePos.x
      let x2 := x1 + s.width
      if pp1.x > x2 then scan ctx slur seg up pp1 pp2 slurWidth st rest
      else if pp2.x < x1 then st
      else
        let segShape := Shape.translated (s.staffShape seg.staffIdx) (s.pos + s.measurePos)
        let segRelativeX := ((x1 + (s.width / 2)) - pp1.x) / slurWidth
        let st := { st with segRelativeX := segRelativeX }
        if ctx.intersects segShape seg.shape then
          let dist : ℚ :=
            if up then
              ctx.minVerticalDistance seg.shape segShape + collisionMargin
                + (seg.y - s.pos.y) / (3 / 2)
            else
              ctx.minVerticalDistance segShape seg.shape + collisionMargin
                + (s.pos.y - seg.y) / (3 / 2)
          let st := { st with intersection := true }
          let st :=
            if dist > 0 then
              if segRelativeX < slurEndSectionPercent then
                { st with end1Dist := min (max st.end1Dist dist) maxEndpointAdjust }
              else if segRelativeX > 1 - slurEndSectionPercent then
                { st with end2Dist := min (max st.end2Dist dist) maxEndpointAdjust }
              else
                { st with midpointDist := min (max st.midpointDist dist) maxHeightAdjust }
            else st
          scan ctx slur seg up pp1 pp2 slurWidth st rest
        else
          scan ctx slur seg up pp1 pp2 slurWidth st rest

/-- The corrective action of one pass of the avoidance loop of `layoutSegment`
(from `double maxDist = ...` to the call of `computeBezier`). -/
def correct (ctx : SegCtx) (up : Bool) (sc : ScanState) (adj : Adjusted) (seg : SlurSegment) :
    SlurSegment × Adjusted :=
  let maxHeightAdjust := 4 * ctx.spatium
  let sign : ℚ := if up then -1 else 1
  let end1Dist := sc.end1Dist
  let end2Dist := sc.end2Dist
  let midpointDist := sc.midpointDist
  let maxDist := max (max end1Dist end2Dist) midpointDist
  if maxDist = end1Dist then
    if !adj.a0 then
      ({ seg with START := moveY seg.START (end1Dist * sign) }, { adj with a0 := true })
    else if !adj.a1 then
      ({ seg with extraHeight := 4 * min end1Dist maxHeightAdjust / 3 }, { adj with a1 := true })
    else if !adj.a2 then
      ({ seg with END := moveY seg.END (end1Dist * sign) }, { adj with a2 := true })
    else (seg, adj)
  else if maxDist = end2Dist then
    if !adj.a2 then
      ({ seg with END := moveY seg.END (end2Dist * sign) }, { adj with a2 := true })
    else if !adj.a1 then
      ({ seg with extraHeight := 4 * min end2Dist maxHeightAdjust / 3 }, { adj with a1 := true })
    else if !adj.a0 then
      ({ seg with START := moveY seg.START (end2Dist * sign) }, { adj with a0 := true })
    else (seg, adj)
  else if maxDist = midpointDist then
    let seg := { seg with extraHeight := 4 * midpointDist / 3 }
    if !adj.a1 then
      ({ seg with extraHeight := 4 * midpointDist / 3 }, { adj with a1 := true })
    else if sc.segRelativeX < 1 / 2 then
      if !adj.a0 then
        ({ seg with START := moveY seg.START (min midpointDist maxHeightAdjust * sign) },
         { adj with a0 := true })
      else
        ({ seg with END := moveY seg.END (min midpointDist maxHeightAdjust * sign) },
         { adj with a2 := true })
    else
      if !adj.a2 then
        ({ seg with END := moveY seg.END (min midpointDist maxHeightAdjust * sign) },
         { adj with a2 := true })
      else
        ({ seg with START := moveY seg.START (min midpointDist maxHeightAdjust * sign) },
         { adj with a0 := true })
  else (seg, adj)

/-- State carried from one pass of the avoidance loop to the next. -/
structure LoopState where
  slur : Slur
  seg : SlurSegment
  adjusted : Adjusted
  segRelativeX : ℚ
  bezierCalls : ℕ
  passLog : List Bool

/-- The loop `for (int tries = 0; tries < 3; ++tries)` of `layoutSegment`; the
first argument is the number of values of `tries` still to run, `3 - tries`. -/
def avoidanceLoop (ctx : SegCtx) (up : Bool) (pp1 pp2 : PointF) (segs : List ScanSegment) :
    ℕ → LoopState → Option LoopState
  | 0, st => some st
  | n + 1, st =>
    let adj : Adjusted :=
      if st.adjusted.a0 && st.adjusted.a1 && st.adjusted.a2 then ⟨false, false, false⟩
      else st.adjusted
    let slurWidth := pp2.x - pp1.x
    let sc := scan ctx st.slur st.seg up pp1 pp2 slurWidth
      ⟨false, 0, 0, 0, st.segRelativeX⟩ segs
    if !sc.intersection then
      some { st with adjusted := adj, segRelativeX := sc.segRelativeX,
                     passLog := st.passLog ++ [false] }
    else
      let r := correct ctx up sc adj st.seg
      match computeBezier ctx st.slur r.1 computeBezierDefaultArg with
      | none => none
      | some (slur, seg) =>
        avoidanceLoop ctx up pp1 pp2 segs n
          { slur := slur, seg := seg, adjusted := r.2, segRelativeX := sc.segRelativeX,
            bezierCalls := st.bezierCalls + 1, passLog := st.passLog ++ [true] }

/-- The statements of `layoutSegment` between the test for a hidden slur and
the first call of `computeBezier`: position, end points and extra height are
set, and the position is moved by the y offset of the staff type. -/
def layoutSegmentStart (ctx : SegCtx) (s : SlurSegment) (p1 p2 : PointF) : SlurSegment :=
  let s : SlurSegment :=
    { s with pos := PointF.zero
             START := { s.START with p := p1 }
             END := { s.END with p := p2 }
             extraHeight := 0 }
  -- adjust Y pos to staff type yOffset before other calculations
  match ctx.staffType with
  | some stType => { s with pos := ⟨s.pos.x, s.pos.y + stType.yoffset * ctx.spatium⟩ }
  | none => s

/-- Function `SlurSegment::layoutSegment`. -/
def layoutSegment (ctx : SegCtx) (slur : Slur) (s : SlurSegment) (p1 p2 : PointF) :
    Option LayoutSegmentResult :=
  let hidden : Bool :=
    match ctx.staffType with
    | some stType => stType.isHiddenElementOnTab
    | none => false
  if hidden then
    some { slur := slur, seg := { s with bbox := RectF.zero }, bezierCalls := 0, passLog := [] }
  else
    match computeBezier ctx slur (layoutSegmentStart ctx s p1 p2) computeBezierDefaultArg with
    | none => none
    | some (slur, s) =>
      let st0 : LoopState :=
        { slur := slur, seg := s, adjusted := ⟨false, false, false⟩, segRelativeX := 0,
          bezierCalls := 1, passLog := [] }
      let looped : Option LoopState :=
        match s.autoplace, s.system with
        | true, some system =>
          avoidanceLoop ctx slur.up s.START.p s.END.p system.scanSegments 3 st0
        | _, _ => some st0
      match looped with
      | none => none
      | some st =>
        some { slur := st.slur
               seg := { st.seg with bbox := ctx.boundingRect st.seg.path }
               bezierCalls := st.bezierCalls
               passLog := st.passLog }

end SlurSegment

/-! ## Slur: direction, anchors, segments -/

/-- Result of `slurPos`: the two anchor points and the systems (by identity)
of the start and of the end of the slur (`struct SlurPos`). -/
structure SlurPos where
  p1 : PointF
  p2 : PointF
  system1 : Option Nat
  system2 : Option Nat

/-- Function `calcStemArrangement`, for the two chords (or null pointers) that
`layoutSystem` passes. -/
def calcStemArrangement (start endChord : Option Chord) : ℤ :=
  (match start with
   | some c =>
     match c.stem with
     | some stem => if stem.up then 2 else 0
     | none => 0
   | none => 0)
  +
  (match endChord with
   | some c =>
     match c.stem with
     | some stem => if stem.up then 4 else 0
     | none => 0
   | none => 0)

/-- The segments that the inner loop of `isDirectionMixture` visits in one
measure: `first()`, then the segments of type `ChordRest` after it. -/
def mixtureSegments (m : Measure) : List MeasureSegment :=
  match m.segments with
  | [] => []
  | s :: rest => s :: rest.filter fun x => x.isChordRestType

/-- The inner loop of `isDirectionMixture` over the segments still to visit:
`some b` when the function returns `b` there, `none` when the loop ends. -/
def mixtureScan (up : Bool) (track : Nat) (tick1 tick2 : ℚ) : List MeasureSegment → Option Bool
  | [] => none
  | seg :: rest =>
    if seg.tick < tick1 ∨ !seg.isChordRestType then mixtureScan up track tick1 tick2 rest
    else if seg.tick > tick2 then some false
    else
      match seg.element track with
      | none => mixtureScan up track tick1 tick2 rest
      | some e =>
        if !e.isChord then mixtureScan up track tick1 tick2 rest
        else if e.up ≠ up then some true
        else mixtureScan up track tick1 tick2 rest

/-- The outer loop of `isDirectionMixture` over the measures still to visit. -/
def mixtureMeasures (up : Bool) (track : Nat) (tick1 tick2 : ℚ) : List Measure → Bool
  | [] => false
  | m :: rest =>
    match mixtureScan up track tick1 tick2 (mixtureSegments m) with
    | some b => b
    | none => mixtureMeasures up track tick1 tick2 rest

/-- Function `isDirectionMixture(c1, c2)` for two chords. -/
def isDirectionMixture (c1 c2 : ChordRest) : Bool :=
  if c1.track ≠ c2.track then false
  else
    let measures : List Measure :=
      match c1.measure with
      | some m => m :: c1.nextMeasures
      | none => []
    mixtureMeasures c1.up c1.track c1.tick c2.tick measures

namespace Slur

/-- Modelled from the spec: `Spanner::tick2()`, which is not among the sources:
the end of the time span, `tick + ticks`. -/
def tick2 (s : Slur) : ℚ := s.tick + s.ticks

/-- Modelled from the spec: `Spanner::setTick2(f)`, which is not among the
sources: keeps `tick` and makes `tick2()` equal to `f`. -/
def setTick2 (s : Slur) (f : ℚ) : Slur := { s with ticks := f - s.tick }

/-- The statement `if (track2() == mu::nidx) setTrack2(track());`. -/
def fixTrack2 (s : Slur) : Slur :=
  match s.track2 with
  | none => { s with track2 := some s.track }
  | some _ => s

/-- The sanity check `if (endCR() == 0) { setEndElement(startCR()); setTick2(tick()); }`. -/
def fixEnd (s : Slur) : Slur :=
  match s.endCR with
  | none => ({ s with endCR := s.startCR }).setTick2 s.tick
  | some _ => s

/-- The test `c && normal(c)` on the chord pointer `c` of a chordrest
(`cr->isChord() ? toChord(cr) : 0`). -/
def chordAnd (cr : ChordRest) (normal : Chord → Bool) : Bool :=
  match cr.chord with
  | some c => normal c
  | none => false

/-- The `switch (_slurDirection)` of `Slur::layoutSystem`, for a slur whose
start chordrest `scr`, its measure `m1` and end chordrest `ecr` are set (the
switch is reached only then, so its test `startCR() == 0 || endCR() == 0` does
not hold): the new value of `_up` and whether the grips of the segment are
reset to `UP()`. -/
def directionSystem (slur : Slur) (scr : ChordRest) (m1 : Measure) (ecr : ChordRest) :
    Bool × Bool :=
  match slur.slurDirection with
  | .UP => (true, false)
  | .DOWN => (false, false)
  | .AUTO =>
    let reset : Bool :=
      slur.sourceStemArrangement ≠ -1
        ∧ slur.sourceStemArrangement ≠ calcStemArrangement scr.chord ecr.chord
    let crossBeam : Bool :=
      match scr.chord, scr.beam with
      | some _, some beam => beam.cross
      | _, _ => false
    if crossBeam then (true, reset)
    else
      let bothChords : Bool := scr.chord.isSome && ecr.chord.isSome
      if bothChords && chordAnd scr (fun c => !c.isGrace) && isDirectionMixture scr ecr then
        (true, reset)
      else if m1.hasVoices scr.staffIdx slur.tick slur.ticks
                && chordAnd scr (fun c => !c.isGrace) then
        (scr.up, reset)
      else
        (!scr.up, reset)

/-- The `switch (_slurDirection)` of `Slur::layout`, for a slur whose start
chordrest `scr`, its measure `m1` and end chordrest `ecr` are set (the switch is
reached only then, so its test `startCR() == 0 || endCR() == 0` does not hold):
the new value of `_up`. -/
def directionLayout (slur : Slur) (scr : ChordRest) (m1 : Measure) (ecr : ChordRest) : Bool :=
  match slur.slurDirection with
  | .UP => true
  | .DOWN => false
  | .AUTO =>
    let up0 : Bool :=
      if ecr.tick - scr.tick > m1.ticks then true  -- long slurs are always above
      else !scr.up
    let bothChords : Bool := scr.chord.isSome && ecr.chord.isSome
    if bothChords && isDirectionMixture scr ecr && chordAnd scr (fun c => c.noteTypeNormal) then
      true
    else if m1.hasVoices scr.staffIdx slur.tick slur.ticks
              && chordAnd scr (fun c => c.noteTypeNormal) then
      scr.up
    else up0

end Slur

namespace Slur

/-- The adjustment of an anchor for a tie on the same side, as written four
times in `layoutSystem`: with `_up` and `tie->up()` the anchor is raised to
`endPoint.y() - tieClearance` when it is closer, with neither it is lowered to
`endPoint.y() + tieClearance`. The result is the new `y` and whether it was
assigned. -/
def tieAdjust (up tieUp : Bool) (endPointY tieClearance y : ℚ) : ℚ × Bool :=
  if up && tieUp then
    if endPointY - y < tieClearance then (endPointY - tieClearance, true) else (y, false)
  else if !up && !tieUp then
    if y - endPointY < tieClearance then (endPointY + tieClearance, true) else (y, false)
  else (y, false)

/-- A tie pointer that is kept when the tie is not inside and on the side `up`:
`tie && (tie->isInside() || tie->up() != _up)` resets the pointer. -/
def sameSideTie (up : Bool) (tie : Option Tie) : Option Tie :=
  match tie with
  | some t => if t.isInside || t.up != up then none else some t
  | none => none

/-- Vertical position of a continued slur next to the chord `cr` (`chord`) at
the border of a system, as computed twice in `layoutSystem`; `countStem` is the
extra condition on the stem (`firstCr != endCR()` at the start of a system,
`true` at its end). -/
def continuedY (up : Bool) (cr : ChordRest) (chord : Chord) (countStem : Bool)
    (continuedSlurOffsetY : ℚ) : ℚ :=
  let upNote := chord.upNote
  let downNote := chord.downNote
  let stemLength : ℚ :=
    match chord.stem with
    | some stem => stem.length - (downNote.posY - upNote.posY)
    | none => 0
  let y : ℚ :=
    if up then
      let y := chord.upNote.posY - (chord.upNote.height / 2)
      if cr.up && chord.stem.isSome && countStem then y - stemLength else y
    else
      let y := chord.downNote.posY + (chord.downNote.height / 2)
      if !cr.up && chord.stem.isSome && countStem then y + stemLength else y
  y + continuedSlurOffsetY * (if up then -1 else 1)

/-- The block `// start anchor, either on the start chordrest or at the
beginning of the system` of `layoutSystem`: from the `p1` of `slurPos` to the
start anchor and the flag `constrainLeftAnchor`. -/
def startAnchor (spatium : ℚ) (slur : Slur) (system : System) (sst : SpannerSegmentType)
    (p1 : PointF) : Option (PointF × Bool) :=
  let horizontalTieClearance := (35 / 100) * spatium
  let tieClearance := (65 / 100) * spatium
  let continuedSlurOffsetY := spatium * (4 / 10)
  let stick := system.firstMeasureTick
  let etick := system.lastMeasureEndTick
  let up := slur.up
  if sst = .SINGLE ∨ sst = .BEGIN then
    match slur.startCR with
    | none => none
    | some scr =>
      match scr.chord with
      | some sc =>
        match sc.notes with
        | [note] =>
          let tie := sameSideTie up note.tieFor
          match tie with
          | some t =>
            let r := tieAdjust up t.up t.frontStartPos.y tieClearance p1.y
            let p1 : PointF := ⟨p1.x, r.1⟩
            match note.tieBack with
            | some tb =>
              if !r.2 && !tb.isInside && tb.up == up then
                some (⟨p1.x + horizontalTieClearance, p1.y⟩, false)
              else some (p1, false)
            | none => some (p1, false)
          | none =>
            match note.tieBack with
            | some tb =>
              if !tb.isInside && tb.up == up then
                some (⟨p1.x + horizontalTieClearance, p1.y⟩, false)
              else some (p1, false)
            | none => some (p1, false)
        | _ => some (p1, false)
      | none => some (p1, false)
  else
    -- beginning of system
    let firstCr := system.firstChordRest slur.track
    let isEnd (cr : ChordRest) : Bool := slur.endCR.map (fun e => e.id) = some cr.id
    let constrainLeftAnchor : Bool :=
      match firstCr with
      | some cr => isEnd cr
      | none => false
    let y : ℚ :=
      match firstCr with
      | some cr =>
        match cr.chord with
        | some chord => continuedY up cr chord (!isEnd cr) continuedSlurOffsetY
        | none => p1.y
      | none => p1.y
    let p1 : PointF := ⟨system.firstNoteRestSegmentX, y⟩
    -- adjust for ties at the end of the system
    match firstCr with
    | some cr =>
      match cr.chord with
      | some c =>
        if cr.tick ≥ stick ∧ cr.tick ≤ etick then
          match c.notes with
          | [] => none
          | note :: _ =>
            match note.tieBack with
            | some tb =>
              if !tb.isInside && tb.up == up then
                let r := tieAdjust up tb.up tb.backStartPos.y tieClearance p1.y
                some (⟨p1.x, r.1⟩, constrainLeftAnchor)
              else some (p1, constrainLeftAnchor)
            | none => some (p1, constrainLeftAnchor)
        else some (p1, constrainLeftAnchor)
      | none => some (p1, constrainLeftAnchor)
    | none => some (p1, constrainLeftAnchor)

/-- The vertical position of the anchor at the end of a system, in the block
`// at end of system` of `layoutSystem`: the value of `y` when
`p2 = PointF(system->lastNoteRestSegmentX(true), y)` is assigned. -/
def endOfSystemY (spatium : ℚ) (slur : Slur) (system : System) (p1 : PointF) : ℚ :=
  let continuedSlurOffsetY := spatium * (4 / 10)
  let continuedSlurMaxDiff := (25 / 10) * spatium
  let up := slur.up
  let lastCr := system.lastChordRest slur.track
  let isStart (cr : ChordRest) : Bool := slur.startCR.map (fun e => e.id) = some cr.id
  match lastCr with
  | some cr =>
    if isStart cr then p1.y + (25 / 100) * spatium * (if up then -1 else 1)
    else
      match cr.chord with
      | some chord =>
        let y := continuedY up cr chord true continuedSlurOffsetY
        let diff := if up then y - p1.y else p1.y - y
        if diff > continuedSlurMaxDiff then
          p1.y + (if y > p1.y then continuedSlurMaxDiff else -continuedSlurMaxDiff)
        else y
      | none => p1.y
  | none => p1.y

/-- The block `// end anchor` of `layoutSystem`: from the start anchor `p1` and
the `p2` of `slurPos` to the end anchor. -/
def endAnchor (spatium : ℚ) (slur : Slur) (system : System) (sst : SpannerSegmentType)
    (p1 p2 : PointF) : Option PointF :=
  let horizontalTieClearance := (35 / 100) * spatium
  let tieClearance := (65 / 100) * spatium
  let stick := system.firstMeasureTick
  let etick := system.lastMeasureEndTick
  let up := slur.up
  if sst = .SINGLE ∨ sst = .END then
    match slur.endCR with
    | none => none
    | some ecr =>
      match ecr.chord with
      | some ec =>
        match ec.notes with
        | [note] =>
          let tie := sameSideTie up note.tieBack
          match tie with
          | some t =>
            let r := tieAdjust up t.up t.frontEndPos.y tieClearance p2.y
            let p2 : PointF := ⟨p2.x, r.1⟩
            match note.tieFor with
            | some tf =>
              if !r.2 && !tf.isInside && tf.up == up then
                some ⟨p2.x - horizontalTieClearance, p2.y⟩
              else some p2
            | none => some p2
          | none =>
            match note.tieFor with
            | some tf =>
              if !tf.isInside && tf.up == up then
                some ⟨p2.x - horizontalTieClearance, p2.y⟩
              else some p2
            | none => some p2
        | _ => some p2
      | none => some p2
  else
    -- at end of system
    let lastCr := system.lastChordRest slur.track
    let y := endOfSystemY spatium slur system p1
    let p2 : PointF := ⟨system.lastNoteRestSegmentX, y⟩
    -- adjust for ties at the end of the system
    match lastCr with
    | some cr =>
      match cr.chord with
      | some c =>
        if cr.tick ≥ stick ∧ cr.tick ≤ etick then
          match c.notes with
          | [] => none
          | note :: _ =>
            match note.tieFor with
            | some tf =>
              if !tf.isInside && tf.up == up then
                let r := tieAdjust up tf.up tf.frontEndPos.y tieClearance p2.y
                some ⟨p2.x, r.1⟩
              else some p2
            | none => some p2
        else some p2
      | none => some p2
    | none => some p2

end Slur

/-- Read-only surroundings of a slur: those of its segments, and the parts of
the repository that are not among the sources. -/
structure SlurCtx where
  seg : SegCtx
  /-- Result of `score()->isPaletteScore()` -/
  isPaletteScore : Bool
  /-- The anchor points that `slurPos` computes once both systems are known:
  the part of `slurPos` from `sp->p1 = scr->pos() + ...` on. -/
  slurAnchors : Slur → PointF × PointF
  /-- The segment that `new SlurSegment(parent)` creates. -/
  newSegment : SlurSegment

/-- What `Slur::layoutSystem` leaves: the slur, the segment it returns and, when
`layoutSegment` was called, the anchors `p1`, `p2` handed to it and the number of
calls of `computeBezier` it made. -/
structure LayoutSystemResult where
  slur : Slur
  seg : SlurSegment
  anchors : Option (PointF × PointF)
  bezierCalls : ℕ

/-- One call of `layoutSegment` made by `Slur::layout`: the index of the
segment, its type and the two anchors. -/
structure LayoutCall where
  index : ℕ
  type : SpannerSegmentType
  p1 : PointF
  p2 : PointF
deriving DecidableEq, Repr

/-- What `Slur::layout` leaves: the slur, its segments, the argument of
`fixupSegments` (when it was called) and the calls of `layoutSegment`, in
order. -/
structure LayoutResult where
  slur : Slur
  segments : List SlurSegment
  nsegs : Option ℕ
  calls : List LayoutCall

/-- Modelled from the spec: `Spanner::fixupSegments`, which is not among the
sources: the segments are kept when their number is the requested one and
created anew otherwise. -/
def fixupSegments (newSegment : SlurSegment) (nsegs : ℕ) (segments : List SlurSegment) :
    List SlurSegment :=
  if segments.length = nsegs then segments else List.replicate nsegs newSegment

namespace Slur

/-- Function `Slur::slurPos`, up to the anchor points of a slur with both
chordrests, which are `ctx.slurAnchors`. -/
def slurPos (ctx : SlurCtx) (slur : Slur) : Option SlurPos :=
  let _spatium := ctx.seg.spatium
  match slur.endCR with
  | none =>
    match slur.startCR with
    | none => none
    | some scr =>
      match scr.measure with
      | none => none
      | some m =>
        let p1 : PointF := ⟨scr.pagePos.x + scr.width, scr.pagePos.y⟩
        let p2 : PointF := ⟨p1.x + 5 * _spatium, p1.y⟩
        some { p1 := p1, p2 := p2, system1 := m.system, system2 := m.system }
  | some ecr =>
    match slur.startCR with
    | none => none
    | some scr =>
      match scr.measure, ecr.measure with
      | some m1, some m2 =>
        match m1.system with
        | none =>
          some { p1 := PointF.zero, p2 := PointF.zero, system1 := none, system2 := m2.system }
        | some _ =>
          let a := ctx.slurAnchors slur
          some { p1 := a.1, p2 := a.2, system1 := m1.system, system2 := m2.system }
      | _, _ => none

/-- The first part of `Slur::layoutSystem`, up to `sst`: the slur with its
direction resolved, the segment with its grips possibly reset, and the type of
the segment; the type is `none` when the function returns for a null start
anchor. -/
def segmentTypeAndDirection (slur : Slur) (system : System) (slurSegment : SlurSegment) :
    Slur × SlurSegment × Option SpannerSegmentType :=
  let stick := system.firstMeasureTick
  let etick := system.lastMeasureEndTick
  if slur.tick ≥ stick then
    -- this is the first call to layoutSystem, processing the first line segment
    let slur := slur.fixTrack2
    match slur.startCR with
    | none => (slur, slurSegment, none)
    | some scr =>
      match scr.measure with
      | none => (slur, slurSegment, none)
      | some m1 =>
        let slur := slur.fixEnd
        let ecr : ChordRest :=
          match slur.endCR with
          | some e => e
          | none => scr
        let d := directionSystem slur scr m1 ecr
        let slurSegment : SlurSegment :=
          if d.2 then
            { slurSegment with START := UP.zero, BEZIER1 := UP.zero, BEZIER2 := UP.zero,
                               END := UP.zero, SHOULDER := UP.zero, DRAG := UP.zero }
          else slurSegment
        let slur : Slur := { slur with up := d.1 }
        let sst : SpannerSegmentType := if slur.tick2 < etick then .SINGLE else .BEGIN
        (slur, slurSegment, some sst)
  else if slur.tick < stick ∧ slur.tick2 ≥ etick then
    (slur, slurSegment, some .MIDDLE)
  else
    (slur, slurSegment, some .END)

/-- Function `Slur::layoutSystem`: layout of the slur segment for a system.
`slurSegment` is the segment that `getNextLayoutSystemSegment` (not among the
sources) hands out: a segment of the slur that is used again, or a new one. -/
def layoutSystem (ctx : SlurCtx) (slur : Slur) (system : System) (slurSegment : SlurSegment) :
    Option LayoutSystemResult :=
  let spatium := ctx.seg.spatium
  match segmentTypeAndDirection slur system slurSegment with
  | (slur, slurSegment, none) =>
    some { slur := slur, seg := slurSegment, anchors := none, bezierCalls := 0 }
  | (slur, slurSegment, some sst) =>
    let slurSegment : SlurSegment := { slurSegment with spannerSegmentType := sst }
    match slurPos ctx slur with
    | none => none
    | some sPos =>
      match startAnchor spatium slur system sst sPos.p1 with
      | none => none
      | some (p1, constrainLeftAnchor) =>
        match endAnchor spatium slur system sst p1 sPos.p2 with
        | none => none
        | some p2 =>
          let p1 : PointF :=
            if constrainLeftAnchor then
              ⟨p1.x, p2.y + ((25 / 100) * spatium * (if slur.up then -1 else 1))⟩
            else p1
          match SlurSegment.layoutSegment ctx.seg slur slurSegment p1 p2 with
          | none => none
          | some r =>
            some { slur := r.slur, seg := r.seg, anchors := some (p1, p2),
                   bezierCalls := r.bezierCalls }

/-- The loop `while (is != sl.end())` of `Slur::layout` that looks for the
start system: the systems from the first one that is `system1` on. -/
def systemsFrom (system1 : Option Nat) (sl : List System) : List System :=
  sl.dropWhile fun sys => some sys.id ≠ system1

/-- The loop that counts the segments in `Slur::layout`, over the systems from
`is` on: the value of `nsegs` after it, given its value before. -/
def countSegments (system2 : Option Nat) : List System → ℕ → ℕ
  | [], nsegs => nsegs
  | sys :: rest, nsegs =>
    if sys.vbox then countSegments system2 rest nsegs
    else if some sys.id = system2 then nsegs
    else countSegments system2 rest (nsegs + 1)

/-- State of the layout loop of `Slur::layout`. -/
structure LoopState where
  slur : Slur
  segments : List SlurSegment
  calls : List LayoutCall

/-- The loop `for (int i = 0; is != sl.end(); ++i, ++is)` of `Slur::layout`,
over the systems from `is` on, with the current value of `i`. -/
def layoutLoop (ctx : SlurCtx) (sPos : SlurPos) : List System → ℕ → LoopState → Option LoopState
  | [], _, st => some st
  | system :: rest, i, st =>
    if system.vbox then layoutLoop ctx sPos rest i st
    else
      match st.segments[i]? with
      | none => none
      | some segment =>
        let segment : SlurSegment := { segment with system := some system }
        let call : LayoutCall :=
          if sPos.system1 = sPos.system2 then
            -- case 1: one segment
            ⟨i, .SINGLE, sPos.p1, sPos.p2⟩
          else if i = 0 then
            -- case 2: start segment
            let x := system.bboxWidth
            ⟨i, .BEGIN, sPos.p1, ⟨x, sPos.p1.y⟩⟩
          else if i ≠ 0 ∧ some system.id ≠ sPos.system2 then
            -- case 3: middle segment
            let x1 := system.firstNoteRestSegmentX
            let x2 := system.bboxWidth
            let y := if st.slur.staffIdx > system.stavesSize then system.y
                     else system.staffY st.slur.staffIdx
            ⟨i, .MIDDLE, ⟨x1, y⟩, ⟨x2, y⟩⟩
          else
            -- case 4: end segment
            let x := system.firstNoteRestSegmentX
            ⟨i, .END, ⟨x, sPos.p2.y⟩, sPos.p2⟩
        let segment : SlurSegment := { segment with spannerSegmentType := call.type }
        match SlurSegment.layoutSegment ctx.seg st.slur segment call.p1 call.p2 with
        | none => none
        | some r =>
          let st : LoopState :=
            { slur := r.slur, segments := st.segments.set i r.seg, calls := st.calls ++ [call] }
          if some system.id = sPos.system2 then some st
          else layoutLoop ctx sPos rest (i + 1) st

/-- Function `Slur::layout`; `sl` is `score()->systems()` and `segments` the
spanner segments of the slur. -/
def layout (ctx : SlurCtx) (sl : List System) (slur : Slur) (segments : List SlurSegment) :
    Option LayoutResult :=
  let slur := slur.fixTrack2
  let _spatium := ctx.seg.spatium
  if ctx.isPaletteScore ∨ slur.tick = -1 then
    -- when used in a palette, slur has no parent and tick and tick2 has no meaning
    let s : SlurSegment :=
      match segments with
      | [] => ctx.newSegment
      | front :: _ => front
    let s : SlurSegment := { s with spannerSegmentType := .SINGLE }
    match SlurSegment.layoutSegment ctx.seg slur s ⟨0, 0⟩ ⟨_spatium * 6, 0⟩ with
    | none => none
    | some r =>
      some { slur := { r.slur with bbox := r.seg.bbox }, segments := r.seg :: segments.tail,
             nsegs := none, calls := [⟨0, .SINGLE, ⟨0, 0⟩, ⟨_spatium * 6, 0⟩⟩] }
  else
    match slur.startCR with
    | none => some { slur := slur, segments := segments, nsegs := none, calls := [] }
    | some scr =>
      match scr.measure with
      | none => some { slur := slur, segments := segments, nsegs := none, calls := [] }
      | some m1 =>
        let slur := slur.fixEnd
        let ecr : ChordRest :=
          match slur.endCR with
          | some e => e
          | none => scr
        let slur : Slur := { slur with up := directionLayout slur scr m1 ecr }
        match slurPos ctx slur with
        | none => none
        | some sPos =>
          let is := systemsFrom sPos.system1 sl
          let slur : Slur := { slur with pos := ⟨0, 0⟩ }
          -- count number of segments, if no change, all user offsets (drags) are retained
          let nsegs := countSegments sPos.system2 is 1
          let segments := fixupSegments ctx.newSegment nsegs segments
          match layoutLoop ctx sPos is 0 { slur := slur, segments := segments, calls := [] } with
          | none => none
          | some st =>
            let bbox : RectF :=
              match st.segments with
              | [] => RectF.zero
              | front :: _ => front.bbox
            some { slur := { st.slur with bbox := bbox }, segments := st.segments,
                   nsegs := some nsegs, calls := st.calls }

end Slur

/-! ## Persistence of the grip offsets (slurtie.cpp) -/

/-- What `writeSlur` and `read` use of the `EngravingItem` part of a slur
segment. -/
structure ItemProps where
  visible : Bool
  autoplace : Bool
  /-- Whether `color() == engravingConfiguration()->defaultColor()` -/
  colorIsDefault : Bool
  offset : PointF

/-- State of a `SlurTieSegment` as far as `writeSlur` and `read` go: the item
part and the grips `_ups`. -/
structure SlurTieSegment where
  item : ItemProps
  START : UP
  BEZIER1 : UP
  BEZIER2 : UP
  END : UP
  SHOULDER : UP
  DRAG : UP

/-- Element inside the XML element of a segment: its name and the point that
`readPoint()` reads from it. -/
structure XmlElement where
  name : String
  point : PointF

/-- Modelled from the spec: `XmlWriter::tagPoint(name, p)`, which is not among
the sources: writes an element `name` from which `readPoint()` reads `p`. -/
def XmlElement.tagPoint (name : String) (p : PointF) : XmlElement := ⟨name, p⟩

/-- Surroundings of `writeSlur` and `read` that are not among the sources. -/
structure XmlCtx where
  /-- Result of `score()->spatium()` -/
  spatium : ℚ
  /-- The elements that `EngravingItem::writeProperties(xml)` writes -/
  writeProperties : ItemProps → List XmlElement
  /-- Function `readProperties(e)`, which reads the properties of the item
  part and leaves the grips; `none` when it returns false, so that
  `e.unknown()` skips the element. -/
  readProperties : XmlElement → ItemProps → Option ItemProps

namespace SlurTieSegment

/-- Function `SlurTieSegment::writeSlur(xml, no)`: `none` when nothing is
written, else the attribute `no` and the elements inside the element of the
segment, in order. -/
def writeSlur (ctx : XmlCtx) (s : SlurTieSegment) (no : ℤ) : Option (ℤ × List XmlElement) :=
  if s.item.visible && s.item.autoplace && s.item.colorIsDefault && s.item.offset.isNull
      && s.START.off.isNull && s.BEZIER1.off.isNull && s.BEZIER2.off.isNull
      && s.END.off.isNull then
    none
  else
    let _spatium := ctx.spatium
    some (no,
      (if !s.START.off.isNull then [XmlElement.tagPoint "o1" (s.START.off.divide _spatium)]
       else [])
      ++ (if !s.BEZIER1.off.isNull then
            [XmlElement.tagPoint "o2" (s.BEZIER1.off.divide _spatium)]
          else [])
      ++ (if !s.BEZIER2.off.isNull then
            [XmlElement.tagPoint "o3" (s.BEZIER2.off.divide _spatium)]
          else [])
      ++ (if !s.END.off.isNull then [XmlElement.tagPoint "o4" (s.END.off.divide _spatium)]
          else [])
      ++ ctx.writeProperties s.item)

/-- Body of the loop of `SlurTieSegment::read` for one element. -/
def readElement (ctx : XmlCtx) (s : SlurTieSegment) (e : XmlElement) : SlurTieSegment :=
  let _spatium := ctx.spatium
  if e.name = "o1" then
    { s with START := { s.START with off := e.point.scale _spatium } }
  else if e.name = "o2" then
    { s with BEZIER1 := { s.BEZIER1 with off := e.point.scale _spatium } }
  else if e.name = "o3" then
    { s with BEZIER2 := { s.BEZIER2 with off := e.point.scale _spatium } }
  else if e.name = "o4" then
    { s with END := { s.END with off := e.point.scale _spatium } }
  else
    match ctx.readProperties e s.item with
    | some item => { s with item := item }
    | none => s

/-- Function `SlurTieSegment::read(e)`, on the elements that
`readNextStartElement()` hands out. -/
def read (ctx : XmlCtx) (s : SlurTieSegment) (elements : List XmlElement) : SlurTieSegment :=
  elements.foldl (readElement ctx) s

end SlurTieSegment

/-! ## Tremolo bar (tremolobar.cpp) -/

/-- Modelled from the spec: the type `PitchValue` (declared in `pitchvalue.h`,
which is not among the sources): a point of a curve, built by
`PitchValue(time, pitch)` with `vibrato` false; `operator==` compares the
three fields. -/
structure PitchValue where
  time : ℤ
  pitch : ℤ
  vibrato : Bool := false
deriving DecidableEq, Repr

/-- A curve, `PitchValues`: a vector of pitch values. -/
abbrev PitchValues := List PitchValue

/-- Modelled from the spec: the enumeration `TremoloBarType` (declared in
`types.h`, which is not among the sources), with the values that
`updatePointsByTremoloBarType` switches over. -/
inductive TremoloBarType where
  | DIP | DIVE | RELEASE_UP | INVERTED_DIP | RETURN | RELEASE_DOWN | CUSTOM
deriving DecidableEq, Repr

/-- Constant `DIP_CURVE`. -/
def DIP_CURVE : PitchValues := [⟨0, 0, false⟩, ⟨30, -100, false⟩, ⟨60, 0, false⟩]

/-- Constant `DIVE_CURVE`. -/
def DIVE_CURVE : PitchValues := [⟨0, 0, false⟩, ⟨60, -150, false⟩]

/-- Constant `RELEASE_UP_CURVE`. -/
def RELEASE_UP_CURVE : PitchValues := [⟨0, -150, false⟩, ⟨60, 0, false⟩]

/-- Constant `INVERTED_DIP_CURVE`. -/
def INVERTED_DIP_CURVE : PitchValues := [⟨0, 0, false⟩, ⟨30, 100, false⟩, ⟨60, 0, false⟩]

/-- Constant `RETURN_CURVE`. -/
def RETURN_CURVE : PitchValues := [⟨0, 0, false⟩, ⟨60, 150, false⟩]

/-- Constant `RELEASE_DOWN_CURVE`. -/
def RELEASE_DOWN_CURVE : PitchValues := [⟨0, 150, false⟩, ⟨60, 0, false⟩]

/-- State of a `TremoloBar` as far as its curve goes. -/
structure TremoloBar where
  m_points : PitchValues
deriving DecidableEq, Repr

namespace TremoloBar

/-- Function `TremoloBar::parseTremoloBarTypeFromCurve`. -/
def parseTremoloBarTypeFromCurve (curve : PitchValues) : TremoloBarType :=
  if curve = DIP_CURVE then .DIP
  else if curve = DIVE_CURVE then .DIVE
  else if curve = RELEASE_UP_CURVE then .RELEASE_UP
  else if curve = INVERTED_DIP_CURVE then .INVERTED_DIP
  else if curve = RETURN_CURVE then .RETURN
  else if curve = RELEASE_DOWN_CURVE then .RELEASE_DOWN
  else .CUSTOM

/-- Function `TremoloBar::updatePointsByTremoloBarType`. -/
def updatePointsByTremoloBarType (bar : TremoloBar) (type : TremoloBarType) : TremoloBar :=
  match type with
  | .DIP => { bar with m_points := DIP_CURVE }
  | .DIVE => { bar with m_points := DIVE_CURVE }
  | .RELEASE_UP => { bar with m_points := RELEASE_UP_CURVE }
  | .INVERTED_DIP => { bar with m_points := INVERTED_DIP_CURVE }
  | .RETURN => { bar with m_points := RETURN_CURVE }
  | .RELEASE_DOWN => { bar with m_points := RELEASE_DOWN_CURVE }
  | .CUSTOM => bar

end TremoloBar

/-! ## Index of linked elements (rw/linksindexer.h) -/

/-- Value of a C++ `int` (32 bits, two's complement) for the integer `x`. -/
def wrapInt32 (x : ℤ) : ℤ := (x + 2 ^ 31) % 2 ^ 32 - 2 ^ 31

/-- State of a `LinksIndexer`. The type `L` stands for `Location` (declared in
`libmscore/location.h`, which is not among the sources), whose `operator==` is
the equality of `L`. -/
structure LinksIndexer (L : Type) where
  _lastLocalIndex : ℤ
  _lastLinkedElementLoc : L

namespace LinksIndexer

/-- The indexer as its member initialisers leave it: `_lastLocalIndex = -1` and
`_lastLinkedElementLoc = Location::absolute()`, for the value `absolute` of
`Location::absolute()`. -/
def init {L : Type} (absolute : L) : LinksIndexer L := ⟨-1, absolute⟩

/-- Function `LinksIndexer::assignLocalIndex`: the value returned and the new
state. -/
def assignLocalIndex {L : Type} [DecidableEq L] (s : LinksIndexer L) (mainElementLocation : L) :
    ℤ × LinksIndexer L :=
  if s._lastLinkedElementLoc = mainElementLocation then
    let i := wrapInt32 (s._lastLocalIndex + 1)
    (i, { s with _lastLocalIndex := i })
  else
    (0, { _lastLocalIndex := 0, _lastLinkedElementLoc := mainElementLocation })

end LinksIndexer

/-! ## Slur: choice of the stem anchors (`slurPos`) -/

/-- What `slurPos` reads of the `Staff` of the slur. -/
structure SlurStaff where
  /-- Result of `isTabStaff(tick)` -/
  isTabStaff : ℚ → Bool
  /-- Result of `staffType(tick)->stemThrough()` -/
  stemThrough : ℚ → Bool

/-- The local `enum class SlurAnchor` of `slurPos`. -/
inductive SlurAnchor where
  | NONE | STEM
deriving DecidableEq, Repr

/-- The values of `sa1` and `sa2` in `Slur::slurPos` after the statement
`if (scr->up() == ecr->up() && scr->up() == _up)`, for the staff `staff()` of
the slur: the statements of `slurPos` that the two variables depend on. The
result is `none` when the function returns before (a null end chordrest, a
null first system) or dereferences a null start chordrest or measure. -/
def Slur.stemAnchors (staff : Option SlurStaff) (slur : Slur) :
    Option (SlurAnchor × SlurAnchor) :=
  match slur.endCR with
  | none => none
  | some ecr0 =>
    let useTablature : Bool :=
      match staff with
      | some st => st.isTabStaff ecr0.tick
      | none => false
    -- assume staff uses stems
    let staffHasStems : Bool :=
      match useTablature, staff with
      | true, some st => st.stemThrough slur.tick
      | _, _ => true
    -- start and end cr, chord, and note
    match slur.startCR with
    | none => none
    | some scr =>
      let ecr := ecr0
      let sc : Option Chord := scr.chord
      let ec : Option Chord := ecr.chord
      match scr.measure, ecr.measure with
      | some m1, some _ =>
        match m1.system with
        | none => none
        | some _ =>
          let stem1 : Option Stem :=
            match sc with
            | some c => if staffHasStems then c.stem else none
            | none => none
          let stem2 : Option Stem :=
            match ec with
            | some c => if staffHasStems then c.stem else none
            | none => none
          let sa1 := SlurAnchor.NONE
          let sa2 := SlurAnchor.NONE
          if scr.up = ecr.up ∧ scr.up = slur.up then
            let sa1 :=
              if stem1.isSome
                  && (match scr.beam with
                      | none => true
                      | some beam => decide (beam.back = scr.id)) then SlurAnchor.STEM
              else sa1
            let sa2 :=
              if stem2.isSome
                  && (match ecr.beam with
                      | none => true
                      | some beam => decide (beam.front = ecr.id)) then SlurAnchor.STEM
              else sa2
            some (sa1, sa2)
          else some (sa1, sa2)
      | _, _ => none

/-! ## The end point of `computeBezier` in double arithmetic -/

/-- Sum of two points, `operator+`, in double arithmetic: each coordinate is the
rounded sum. -/
def PointF.addDouble (a b : PointF) : PointF :=
  ⟨roundDouble (a.x + b.x), roundDouble (a.y + b.y)⟩

/-- Difference of two points, `operator-`, in double arithmetic: each
coordinate is the rounded difference. -/
def PointF.subDouble (a b : PointF) : PointF :=
  ⟨roundDouble (a.x - b.x), roundDouble (a.y - b.y)⟩

/-- Modelled from the spec: `Transform::map(PointF)` in double arithmetic:
every product and every sum of `Transform.map` is rounded. -/
def Transform.mapDouble (t : Transform) (p : PointF) : PointF :=
  ⟨roundDouble (roundDouble (roundDouble (t.m11 * p.x) + roundDouble (t.m21 * p.y)) + t.dx),
   roundDouble (roundDouble (roundDouble (t.m12 * p.x) + roundDouble (t.m22 * p.y)) + t.dy)⟩

/-- Modelled from the spec: `Transform::rotateRadians(a)` in double arithmetic:
every product and every sum of `Transform.rotateRadians` is rounded. -/
def Transform.rotateRadiansDouble (M : MathFns) (t : Transform) (a : ℚ) : Transform :=
  let sina := M.sin a
  let cosa := M.cos a
  { t with
    m11 := roundDouble (roundDouble (cosa * t.m11) + roundDouble (sina * t.m21))
    m12 := roundDouble (roundDouble (cosa * t.m12) + roundDouble (sina * t.m22))
    m21 := roundDouble (roundDouble (-sina * t.m11) + roundDouble (cosa * t.m21))
    m22 := roundDouble (roundDouble (-sina * t.m12) + roundDouble (cosa * t.m22)) }

/-- Modelled from the spec: `Transform::translate(x, y)` in double arithmetic:
every product and every sum of `Transform.translate` is rounded. -/
def Transform.translateDouble (t : Transform) (x y : ℚ) : Transform :=
  { t with
    dx := roundDouble (roundDouble (t.dx + roundDouble (x * t.m11)) + roundDouble (y * t.m21))
    dy := roundDouble (roundDouble (t.dy + roundDouble (y * t.m22)) + roundDouble (x * t.m12)) }

/-- The statements of `SlurSegment::computeBezier` that give the grip END
(`pp1`, `pp2`, `p2`, `sinb`, the rotation of `p2`, and
`ups(Grip::END).p = t.map(p2) - ups(Grip::END).off` after the translation
back), in double arithmetic, for a segment as the staff-line pass left it.
`atan`, `sin` and `cos` hand out the doubles of `M`. For a vertical slur
(`p2.x = 0`) the quotient is infinite in C++ and 0 here; the angle is what
`atan` gives for it. -/
def SlurSegment.endDouble (M : MathFns) (s : SlurSegment) : UP :=
  let pp1 := s.START.p.addDouble s.START.off
  let pp2 := s.END.p.addDouble s.END.off
  let p2 := pp2.subDouble pp1
  let sinb := M.atan (roundDouble (p2.y / p2.x))
  let t := Transform.identity.rotateRadiansDouble M (-sinb)
  let p2 := t.mapDouble p2
  -- translate back
  let t := (Transform.identity.translateDouble pp1.x pp1.y).rotateRadiansDouble M sinb
  { s.END with p := (t.mapDouble p2).subDouble s.END.off }

/-! ## States and functions used to state the properties -/

/-- The parts of a segment that the user or the caller sets and the layout of
the segment reads: the user offsets of the six grips, autoplace, the system,
the staff index and the type of the segment. -/
def SlurSegment.Kept (s s' : SlurSegment) : Prop :=
  s'.START.off = s.START.off ∧ s'.BEZIER1.off = s.BEZIER1.off ∧ s'.BEZIER2.off = s.BEZIER2.off
    ∧ s'.END.off = s.END.off ∧ s'.SHOULDER.off = s.SHOULDER.off ∧ s'.DRAG.off = s.DRAG.off
    ∧ s'.autoplace = s.autoplace ∧ s'.system = s.system ∧ s'.staffIdx = s.staffIdx
    ∧ s'.spannerSegmentType = s.spannerSegmentType

/-- The slur `slur'` is `slur` up to its flag `broken`. -/
def Slur.SameButBroken (slur slur' : Slur) : Prop :=
  slur' = { slur with broken := slur'.broken }

/-- Nothing that the layout of a segment dereferences is null: the slur has
both chordrests, and a segment with autoplace has a staff. -/
def SlurSegment.Safe (ctx : SegCtx) (slur : Slur) (s : SlurSegment) : Prop :=
  slur.startCR.isSome ∧ slur.endCR.isSome ∧ (s.autoplace = true → ctx.staff.isSome)

/-- A slur and a system on which `layoutSystem` dereferences no null pointer:
both chordrests of the slur are set and lie in measures, the first and the
last chord of the system on the track of the slur have a note, and a segment
with autoplace has a staff. -/
def Slur.WellFormed (ctx : SlurCtx) (slur : Slur) (system : System) (seg : SlurSegment) : Prop :=
  (∃ scr m1, slur.startCR = some scr ∧ scr.measure = some m1)
    ∧ (∃ ecr m2, slur.endCR = some ecr ∧ ecr.measure = some m2)
    ∧ (∀ cr c, system.firstChordRest slur.track = some cr → cr.chord = some c → c.notes ≠ [])
    ∧ (∀ cr c, system.lastChordRest slur.track = some cr → cr.chord = some c → c.notes ≠ [])
    ∧ (seg.autoplace = true → ctx.seg.staff.isSome)

/-- Whether `layoutSystem` resets the grips of the segment to `UP()`: on the
first call for a system (`tick() >= stick`), with the start chordrest and its
measure set and direction AUTO, when the stem arrangement recorded on copy
(`_sourceStemArrangement`) is set and is not that of the two chords. -/
def Slur.resetsGrips (slur : Slur) (system : System) : Bool :=
  decide (slur.tick ≥ system.firstMeasureTick) &&
    match slur.startCR with
    | none => false
    | some scr =>
      match scr.measure with
      | none => false
      | some _ =>
        let ecr : ChordRest :=
          match slur.endCR with
          | some e => e
          | none => scr
        decide (slur.slurDirection = DirectionV.AUTO)
          && decide (slur.sourceStemArrangement ≠ -1)
          && decide (slur.sourceStemArrangement ≠ calcStemArrangement scr.chord ecr.chord)

/-- The type of a segment as a function of the time span of the slur and that
of the system: SINGLE when the slur starts and ends in the system, BEGIN when
it starts there and goes on, MIDDLE when it started before and goes on, END
when it started before and ends there. -/
def segmentTypeOfTicks (tick tick2 stick etick : ℚ) : SpannerSegmentType :=
  if tick ≥ stick then
    if tick2 < etick then .SINGLE else .BEGIN
  else
    if tick2 ≥ etick then .MIDDLE else .END

/-- The systems of a list from its first one through the first one with
identity `system2`, inclusive. -/
def systemsThrough (system2 : Nat) : List System → List System
  | [] => []
  | sys :: rest => if sys.id = system2 then [sys] else sys :: systemsThrough system2 rest

/-- The number of systems of a list that are not vertical boxes. -/
def countNonVbox (l : List System) : ℕ := (l.filter fun sys => !sys.vbox).length

/-- Index and type of a call of `layoutSegment`. -/
def LayoutCall.kind (c : LayoutCall) : ℕ × SpannerSegmentType := (c.index, c.type)

/-- The span `c` of a segment in its local frame, as `computeBezier` computes
it: the `x` of the vector from the start point to the end point (user offsets
included) after the rotation by `-atan(dy / dx)`. -/
def SlurSegment.localSpan (ctx : SegCtx) (s : SlurSegment) : ℚ :=
  let p2 := (s.END.p + s.END.off) - (s.START.p + s.START.off)
  ((Transform.identity.rotateRadians ctx.math (-(ctx.math.atan (p2.y / p2.x)))).map p2).x

/-- The map from the local frame of a segment back to its position, as
`computeBezier` builds it under `// translate back`. -/
def SlurSegment.backTransform (ctx : SegCtx) (s : SlurSegment) : Transform :=
  let pp1 := s.START.p + s.START.off
  let p2 := (s.END.p + s.END.off) - pp1
  (Transform.identity.translate pp1.x pp1.y).rotateRadians ctx.math (ctx.math.atan (p2.y / p2.x))

/-- The value of `shoulderH` in `computeBezier` when the control points are
built, for the shoulder offset `p6o = (0, 0)`: the height chosen for the span
`d`, negated for a slur that bows down. -/
def SlurSegment.shoulderH (M : MathFns) (spatium extraHeight d : ℚ) (up : Bool) : ℚ :=
  let shoulderH := (SlurSegment.shoulder M spatium extraHeight d).1 - 0
  if !up then -shoulderH else shoulderH

/-- The relative horizontal position `segRelativeX` that the scan of
`layoutSegment` computes for the element `s`: the centre of the element on the
span from `pp1` of width `slurWidth`. -/
def SlurSegment.scanRelativeX (pp1 : PointF) (slurWidth : ℚ) (s : ScanSegment) : ℚ :=
  ((s.pos.x + s.measurePos.x + (s.width / 2)) - pp1.x) / slurWidth

/-- The clearance `dist` that the scan of `layoutSegment` computes for an
element `s` that intersects the shape of the segment. -/
def SlurSegment.scanDist (ctx : SegCtx) (seg : SlurSegment) (up : Bool) (s : ScanSegment) : ℚ :=
  let collisionMargin := (1 / 2) * ctx.spatium
  let segShape := Shape.translated (s.staffShape seg.staffIdx) (s.pos + s.measurePos)
  if up then
    ctx.minVerticalDistance seg.shape segShape + collisionMargin + (seg.y - s.pos.y) / (3 / 2)
  else
    ctx.minVerticalDistance segShape seg.shape + collisionMargin + (s.pos.y - seg.y) / (3 / 2)

/-- Whether the scan of `layoutSegment` looks at the element `s` and finds that
it intersects the shape of the segment: the element is enabled, is neither the
start nor the end segment of the slur nor a bar line, overlaps the span from
`pp1` to `pp2` horizontally, and its shape intersects. -/
def SlurSegment.scanHits (ctx : SegCtx) (slur : Slur) (seg : SlurSegment) (pp1 pp2 : PointF)
    (s : ScanSegment) : Prop :=
  s.enabled = true
    ∧ ¬ (slur.startSegment = some s.id ∨ slur.endSegment = some s.id)
    ∧ s.isBarLineType = false
    ∧ ¬ (pp1.x > s.pos.x + s.measurePos.x + s.width)
    ∧ ¬ (pp2.x < s.pos.x + s.measurePos.x)
    ∧ ctx.intersects (Shape.translated (s.staffShape seg.staffIdx) (s.pos + s.measurePos))
        seg.shape = true

/-- The segments `s` and `s'` agree in what the caller and the user set: the
user offsets of the six grips, the overall user offset, autoplace, the type,
the system and the staff index. They may differ in what an earlier layout
left: path, shape, bounding box, position, positions of the grips and extra
height. -/
def SlurSegment.SameInput (s s' : SlurSegment) : Prop :=
  SlurSegment.Kept s s' ∧ s'.offset = s.offset

/-- The first `computeBezier` of `layoutSegment(p1, p2)` finds a zero slur:
after the staff-line pass the end points, user offsets included, coincide. -/
def SlurSegment.ZeroSlur (ctx : SegCtx) (slur : Slur) (s : SlurSegment) (p1 p2 : PointF) : Prop :=
  ∃ s1, SlurSegment.staffLinePass ctx slur (SlurSegment.layoutSegmentStart ctx s p1 p2) = some s1
    ∧ ((s1.END.p + s1.END.off) - (s1.START.p + s1.START.off)).x = 0
    ∧ ((s1.END.p + s1.END.off) - (s1.START.p + s1.START.off)).y = 0

/-- The segment `s` with the parts that `computeBezier` overwrites when it
builds a curve, and the bounding box, replaced. -/
def SlurSegment.withBuilt (s : SlurSegment) (path shapePath : PainterPath) (shape : Shape)
    (bbox : RectF) (b1 b2 sh dr : PointF) : SlurSegment :=
  { s with path := path, shapePath := shapePath, shape := shape, bbox := bbox,
           BEZIER1 := { s.BEZIER1 with p := b1 }, BEZIER2 := { s.BEZIER2 with p := b2 },
           SHOULDER := { s.SHOULDER with p := sh }, DRAG := { s.DRAG with p := dr } }

/-- A sequence of calls of `assignLocalIndex`, with the locations `locs`, from
the state `s`: the values returned, in order. -/
def LinksIndexer.run {L : Type} [DecidableEq L] : LinksIndexer L → List L → List ℤ
  | _, [] => []
  | s, loc :: rest => (s.assignLocalIndex loc).1 :: run (s.assignLocalIndex loc).2 rest

/-- The number of calls with the location `loc` that come immediately before
a call, for the locations `before` of the earlier calls, the latest first. -/
def sameRun {L : Type} [DecidableEq L] (before : List L) (loc : L) : ℕ :=
  (before.takeWhile fun l => decide (l = loc)).length

/-- The values that a sequence of calls with the locations `locs` is to
return, after earlier calls with the locations `before` (the latest first):
for each call the number of calls with the same location that come
immediately before it. -/
def LinksIndexer.counts {L : Type} [DecidableEq L] : List L → List L → List ℤ
  | _, [] => []
  | before, loc :: rest => (sameRun before loc : ℤ) :: counts (loc :: before) rest

/-- The statements `double c1 = (c - c * shoulderW) * .5 + p6o.x();` and
`double c2 = c1 + c * shoulderW + p6o.x();` of `computeBezier`: the `x` of the
two control points in the local frame, for the span `c`, the width fraction
`shoulderW` and the `x` of the shoulder offset. -/
def SlurSegment.controlX (c shoulderW p6ox : ℚ) : ℚ × ℚ :=
  let c1 := (c - c * shoulderW) * (1 / 2) + p6ox
  let c2 := c1 + c * shoulderW + p6ox
  (c1, c2)

/-- The thickness `w` that `computeBezier` uses for the stroke of the slur
(`th = PointF(0, w)`), for the segment `s` after the staff-line pass and the
shoulder offset `p6o`: the difference of the style widths, times the
magnification of the staff, halved when the control points are at most one
staff space apart. -/
def SlurSegment.strokeW (ctx : SegCtx) (s : SlurSegment) (p6o : PointF) : ℚ :=
  let M := ctx.math
  let _spatium := ctx.spatium
  let pp1 := s.START.p + s.START.off
  let pp2 := s.END.p + s.END.off
  let p2 := pp2 - pp1
  let sinb := M.atan (p2.y / p2.x)
  let t := Transform.identity.rotateRadians M (-sinb)
  let p2 := t.map p2
  let p6o := t.map p6o
  let d := p2.x / _spatium
  let shoulderW := (SlurSegment.shoulder M _spatium s.extraHeight d).2
  let c := p2.x
  let c1 := (c - c * shoulderW) * (1 / 2) + p6o.x
  let c2 := c1 + c * shoulderW + p6o.x
  let w := ctx.slurMidWidth - ctx.slurEndWidth
  let w := match ctx.staff with
    | some staff => w * staff.staffMag
    | none => w
  if c2 - c1 ≤ _spatium then w * (1 / 2) else w

/-- The end points of the `j`-th rectangle (from 0) of the collision shape: the
first rectangle starts at `start`, and the point after `i` rectangles is the
bezier point `b (i / 32)`. -/
def SlurSegment.shapePoint (b : ℚ → PointF) (start : PointF) : ℕ → PointF
  | 0 => start
  | i + 1 => b (((i + 1 : ℕ) : ℚ) / ((32 : ℕ) : ℚ))

/-- The three sections of the span of a slur in the collision scan. -/
inductive SlurSection where
  | first | middle | last
deriving DecidableEq, Repr

/-- The section of an element at the relative position `segRelativeX`, as the
scan of `layoutSegment` tells them apart with `slurEndSectionPercent = 0.3`. -/
def SlurSegment.sectionOf (segRelativeX : ℚ) : SlurSection :=
  let slurEndSectionPercent : ℚ := 3 / 10
  if segRelativeX < slurEndSectionPercent then .first
  else if segRelativeX > 1 - slurEndSectionPercent then .last
  else .middle

/-- The elements that the scan of `layoutSegment` finds intersecting, in
order: the loop skips an element that is disabled, is the start or end segment
of the slur, is a bar line or ends before `pp1`, and stops at the first
element that starts after `pp2`. -/
def SlurSegment.scanSeen (ctx : SegCtx) (slur : Slur) (seg : SlurSegment) (pp1 pp2 : PointF) :
    List ScanSegment → List ScanSegment
  | [] => []
  | s :: rest =>
    if !s.enabled then scanSeen ctx slur seg pp1 pp2 rest
    else if slur.startSegment = some s.id ∨ slur.endSegment = some s.id then
      scanSeen ctx slur seg pp1 pp2 rest
    else if s.isBarLineType then scanSeen ctx slur seg pp1 pp2 rest
    else if pp1.x > s.pos.x + s.measurePos.x + s.width then scanSeen ctx slur seg pp1 pp2 rest
    else if pp2.x < s.pos.x + s.measurePos.x then []
    else if ctx.intersects
        (Shape.translated (s.staffShape seg.staffIdx) (s.pos + s.measurePos)) seg.shape then
      s :: scanSeen ctx slur seg pp1 pp2 rest
    else scanSeen ctx slur seg pp1 pp2 rest

/-- The positive clearances of the intersecting elements `seen` that lie in
the section `sec`, in order. -/
def SlurSegment.sectionClearances (ctx : SegCtx) (seg : SlurSegment) (up : Bool) (pp1 : PointF)
    (slurWidth : ℚ) (sec : SlurSection) (seen : List ScanSegment) : List ℚ :=
  (seen.filter fun s =>
      decide (SlurSegment.scanDist ctx seg up s > 0)
        && decide (SlurSegment.sectionOf (SlurSegment.scanRelativeX pp1 slurWidth s) = sec)).map
    (SlurSegment.scanDist ctx seg up)

/-- The largest of a list of positive clearances, 0 for the empty list. -/
def largestClearance (ds : List ℚ) : ℚ := ds.foldr max 0

/-- Number of marked slots of `adjusted[3]`. -/
def Adjusted.count (a : Adjusted) : ℕ :=
  (if a.a0 then 1 else 0) + (if a.a1 then 1 else 0) + (if a.a2 then 1 else 0)

/-- The array `b` is the array `a` with exactly one slot, unmarked in `a`,
marked. -/
def Adjusted.MarksOne (a b : Adjusted) : Prop :=
  (a.a0 = false ∧ b = { a with a0 := true })
    ∨ (a.a1 = false ∧ b = { a with a1 := true })
    ∨ (a.a2 = false ∧ b = { a with a2 := true })

instance (a b : Adjusted) : Decidable (Adjusted.MarksOne a b) := by
  unfold Adjusted.MarksOne
  infer_instance

/-- The number `r` is the number `c` up to the rounding of one double division
and one double multiplication: they differ by at most `2 ^ (-51)` of the
magnitude of `c`. -/
def NearDouble (r c : ℚ) : Prop := |r - c| ≤ 2 ^ (-51 : ℤ) * |c|

instance (r c : ℚ) : Decidable (NearDouble r c) := by
  unfold NearDouble
  infer_instance

/-- The coordinate `c` of an offset is zero, or `c` and its quotient by the
staff space lie in the range of the normal doubles, a factor 2 away from its
ends, so that neither the division nor the multiplication underflows or
overflows. -/
def InDoubleRange (spatium c : ℚ) : Prop :=
  c = 0 ∨ ((2 : ℚ) ^ (-1021 : ℤ) ≤ |c| ∧ |c| ≤ 2 ^ (1022 : ℤ)
    ∧ (2 : ℚ) ^ (-1022 : ℤ) ≤ |c / spatium| ∧ |c / spatium| ≤ 2 ^ (1023 : ℤ))

instance (spatium c : ℚ) : Decidable (InDoubleRange spatium c) := by
  unfold InDoubleRange
  infer_instance

/-- Both coordinates of `r` are those of `o` up to rounding. -/
def PointF.NearOffset (r o : PointF) : Prop := NearDouble r.x o.x ∧ NearDouble r.y o.y

/-- Both coordinates of the offset `o` are in range for the staff space. -/
def PointF.OffsetInRange (spatium : ℚ) (o : PointF) : Prop :=
  InDoubleRange spatium o.x ∧ InDoubleRange spatium o.y

/-! ## Example objects -/

/-- The C library functions replaced by constant functions, for examples in
which their values do not matter. -/
def exMath : MathFns := ⟨fun _ => 0, fun _ => 0, fun _ => 1, fun _ => 0⟩

/-- A five-line staff at staff space 1, default style widths. -/
def exSegCtx : SegCtx :=
  { spatium := 1
    staff := some ⟨5, 1⟩
    staffType := none
    slurMidWidth := 1 / 5
    slurEndWidth := 1 / 20
    math := exMath
    pointAtPercent := fun p1 _ _ _ _ => p1
    intersects := fun _ _ => false
    minVerticalDistance := fun _ _ => 0
    boundingRect := fun _ => RectF.zero }

/-- A measure of four quarter notes (ticks are counted in whole notes). -/
def exMeasure : Measure :=
  { ticks := 1, hasVoices := fun _ _ _ => false, segments := [], system := some 0 }

/-- A measure like `exMeasure` in a passage with several voices. -/
def exMeasureVoices : Measure :=
  { ticks := 1, hasVoices := fun _ _ _ => true, segments := [], system := some 0 }

/-- A note without ties. -/
def exNote : Note := { posY := 2, height := 1, tieFor := none, tieBack := none }

/-- A single-note chord with a stem of 3.5 staff spaces. -/
def exChord (stemUp : Bool) : Chord :=
  { notes := [exNote], upNote := exNote, downNote := exNote,
    stem := some ⟨7 / 2, stemUp⟩, isGrace := false, noteTypeNormal := true }

/-- A chord at `tick` with identity `id` and stem direction `up`. -/
def exChordRest (id : Nat) (tick : ℚ) (up : Bool) : ChordRest :=
  { id := id, chord := some (exChord up), up := up, tick := tick, track := 0, staffIdx := 0,
    beam := none, pagePos := ⟨0, 0⟩, width := 1, measure := some exMeasure, nextMeasures := [] }

/-- A chord like `exChordRest` whose measure has several voices. -/
def exChordRestVoices (id : Nat) (tick : ℚ) (up : Bool) : ChordRest :=
  { exChordRest id tick up with measure := some exMeasureVoices }

/-- A chord like `exChordRest` in a measure of the system with identity `sys`. -/
def exChordRestIn (sys : Nat) (id : Nat) (tick : ℚ) (up : Bool) : ChordRest :=
  { exChordRest id tick up with measure := some { exMeasure with system := some sys } }

/-- A slur with direction AUTO from the chord `scr` to the chord `ecr`. -/
def exSlur (up : Bool) (scr ecr : ChordRest) : Slur :=
  { slurDirection := .AUTO, up := up, broken := false, styleType := .Solid,
    tick := scr.tick, ticks := ecr.tick - scr.tick, track := 0, track2 := some 0,
    startCR := some scr, endCR := some ecr, sourceStemArrangement := -1,
    startSegment := none, endSegment := none, staffIdx := 0, pos := ⟨0, 0⟩, bbox := RectF.zero }

/-- A slur segment with the given end points, user offsets of the end points,
and autoplace on. -/
def exSegment (p1 off1 p2 off2 : PointF) : SlurSegment :=
  { START := ⟨p1, off1⟩, BEZIER1 := UP.zero, BEZIER2 := UP.zero, END := ⟨p2, off2⟩,
    SHOULDER := UP.zero, DRAG := UP.zero, extraHeight := 0, path := [], shapePath := [],
    shape := [], bbox := RectF.zero, pos := ⟨0, 0⟩, offset := ⟨0, 0⟩, autoplace := true,
    spannerSegmentType := .SINGLE, system := none, staffIdx := 0 }

/-- A system over the ticks 0 to 1 whose first and last chordrest on every
track are `firstCr` and `lastCr`. -/
def exSystem (id : Nat) (firstCr lastCr : Option ChordRest) : System :=
  { id := id, vbox := false, firstMeasureTick := 0, lastMeasureEndTick := 1,
    firstChordRest := fun _ => firstCr, lastChordRest := fun _ => lastCr,
    firstNoteRestSegmentX := 5, lastNoteRestSegmentX := 50, bboxWidth := 60, y := 0,
    stavesSize := 1, staffY := fun _ => 0, scanSegments := [] }

/-- A system that holds a vertical box only. -/
def exVBox (id : Nat) : System := { exSystem id none none with vbox := true }

/-- Surroundings of a slur on a five-line staff; `slurPos` gives the anchors
(1, 0) and (9, 0). -/
def exSlurCtx : SlurCtx :=
  { seg := exSegCtx, isPaletteScore := false,
    slurAnchors := fun _ => (⟨1, 0⟩, ⟨9, 0⟩),
    newSegment := exSegment ⟨0, 0⟩ ⟨0, 0⟩ ⟨0, 0⟩ ⟨0, 0⟩ }

/-- Surroundings of the persistence functions at staff space 5/4; the item
part is written as one element `visible` and read back unchanged. -/
def exXmlCtx : XmlCtx :=
  { spatium := 5 / 4
    writeProperties := fun _ => [⟨"visible", ⟨0, 0⟩⟩]
    readProperties := fun e item => if e.name = "visible" then some item else none }

/-- A segment like a new one but for the user offsets `o1` of START and `o4`
of END. -/
def exTieSegment (o1 o4 : PointF) : SlurTieSegment :=
  { item := ⟨true, true, true, ⟨0, 0⟩⟩, START := ⟨⟨0, 0⟩, o1⟩, BEZIER1 := UP.zero,
    BEZIER2 := UP.zero, END := ⟨⟨0, 0⟩, o4⟩, SHOULDER := UP.zero, DRAG := UP.zero }

/-- C library functions for examples that use the logarithm: `log10` is the
integer part of the logarithm, which is the logarithm at the powers of ten. -/
def exMathLog : MathFns := { exMath with log10 := fun x => (Nat.log 10 ⌊x⌋₊ : ℚ) }

/-- Surroundings like `exSegCtx` in which every two shapes intersect, with
vertical distance 1. -/
def exSegCtxHit : SegCtx :=
  { exSegCtx with intersects := fun _ _ => true, minVerticalDistance := fun _ _ => 1 }

/-- An enabled segment of a measure at the origin, from `x` on, of width
`width`, at height 0. -/
def exScanSegment (id : Nat) (x width : ℚ) : ScanSegment :=
  { id := id, enabled := true, isBarLineType := false, pos := ⟨x, 0⟩, measurePos := ⟨0, 0⟩,
    width := width, staffShape := fun _ => [] }

/-- Surroundings like `exSegCtx` on a tablature staff whose type hides slurs. -/
def exSegCtxHidden : SegCtx := { exSegCtx with staffType := some ⟨true, 0⟩ }

/-- C library functions for examples with a rotation that is not trivial:
`atan` hands on its argument `a`, and sine and cosine are those of the angle
`2 atan(a)`, which are rational: `2a / (1 + a²)` and `(1 - a²) / (1 + a²)`.
Sine is odd, cosine is even and their squares add up to 1. -/
def exMathRot : MathFns :=
  { atan := fun x => x
    sin := fun a => 2 * a / (1 + a ^ 2)
    cos := fun a => (1 - a ^ 2) / (1 + a ^ 2)
    log10 := fun _ => 0 }

/-- A beam over the chordrests with the identities `front` to `back`. -/
def exBeam (front back : Nat) : Beam := { cross := false, front := front, back := back }

/-- A tablature staff whose stems are drawn beside the staff. -/
def exTabStaff : SlurStaff := { isTabStaff := fun _ => true, stemThrough := fun _ => false }

/-- A note with a tie to the next note: the tie is not inside, bows to the side
`tieUp` and its first segment starts at height `y`. -/
def exTiedNote (tieUp : Bool) (y : ℚ) : Note :=
  { exNote with
    tieFor := some { isInside := false, up := tieUp, frontStartPos := ⟨0, y⟩,
                     frontEndPos := ⟨3, y⟩, backStartPos := ⟨0, y⟩ } }

/-- A chord like `exChordRest` whose single note is `note`. -/
def exChordRestOf (note : Note) (id : Nat) (tick : ℚ) (up : Bool) : ChordRest :=
  { exChordRest id tick up with
    chord := some { exChord up with notes := [note], upNote := note, downNote := note } }

/-- The point of the cubic bezier curve with the control points `p1`..`p4` at
the parameter `t`, a stand-in for `pointAtPercent` in examples. -/
def exBezierPoint (p1 p2 p3 p4 : PointF) (t : ℚ) : PointF :=
  ⟨(1 - t) ^ 3 * p1.x + 3 * (1 - t) ^ 2 * t * p2.x + 3 * (1 - t) * t ^ 2 * p3.x + t ^ 3 * p4.x,
   (1 - t) ^ 3 * p1.y + 3 * (1 - t) ^ 2 * t * p2.y + 3 * (1 - t) * t ^ 2 * p3.y + t ^ 3 * p4.y⟩

/-- Surroundings like `exSegCtx` whose `pointAtPercent` is `exBezierPoint`. -/
def exSegCtxBezier : SegCtx := { exSegCtx with pointAtPercent := exBezierPoint }

/-- The double 0.2, the one nearest to 1/5. -/
def exDouble02 : ℚ := 3602879701896397 / 2 ^ 54

/-- The double 0.9, the one nearest to 9/10. -/
def exDouble09 : ℚ := 8106479329266893 / 2 ^ 53

/-- The double 0.7, the one nearest to 7/10. -/
def exDouble07 : ℚ := 6305039478318694 / 2 ^ 53

/-- The double 0.8999999999999999, the one before `exDouble09`. -/
def exDouble08999 : ℚ := 8106479329266892 / 2 ^ 53
/-! ## Properties -/

/-! ### Points -/

theorem PointF.add_x (a b : PointF) : (a + b).x = a.x + b.x := rfl

theorem PointF.add_y (a b : PointF) : (a + b).y = a.y + b.y := rfl

theorem PointF.sub_x (a b : PointF) : (a - b).x = a.x - b.x := rfl

theorem PointF.sub_y (a b : PointF) : (a - b).y = a.y - b.y := rfl

theorem PointF.eq_iff (a b : PointF) : a = b ↔ a.x = b.x ∧ a.y = b.y := by
  cases a; cases b; simp

/-! ### Staff-line avoidance (`SlurSegment::adjustEndpoints`) -/

/-- The value of `adjustPoint` for an up-bowing slur close below a line. -/
theorem SlurSegment.adjustPoint_up_below_line (ysp : ℚ) (h : ysp - (⌊ysp⌋ : ℚ) < 15 / 100) :
    SlurSegment.adjustPoint true ysp = -((ysp - (⌊ysp⌋ : ℚ)) + 15 / 100) := by
  simp only [SlurSegment.adjustPoint, if_true, if_pos h]

/-- C1, as stated, fails: on an up-bowing slur an endpoint 0.05 staff spaces
below the second staff line (y = 1.05, staff space 1) is moved by -0.20 staff
spaces, not by -(0.15 - 0.05) = -0.10. -/
theorem C1_counterexample :
    ∃ s', SlurSegment.adjustEndpoints exSegCtx (exSlur true (exChordRest 1 0 false)
            (exChordRest 2 (1 / 2) false))
          (exSegment ⟨0, 21 / 20⟩ ⟨0, 0⟩ ⟨10, 5 / 2⟩ ⟨0, 0⟩) = some s'
      ∧ s'.START.p.y - 21 / 20 = -(20 / 100)
      ∧ s'.START.p.y - 21 / 20 ≠ -(15 / 100 - 5 / 100) := by
  have h1 : ⌊(21 / 20 : ℚ)⌋ = 1 := by rw [Int.floor_eq_iff]; norm_num
  have h2 : ⌊(5 / 2 : ℚ)⌋ = 2 := by rw [Int.floor_eq_iff]; norm_num
  refine ⟨_, rfl, ?_, ?_⟩ <;>
    norm_num [SlurSegment.adjustEndpoints, SlurSegment.adjustGrip, SlurSegment.adjustPoint,
      exSegCtx, exSlur, exSegment, h1, h2]

/-- The segment left by `adjustEndpoints` on a staff. -/
theorem SlurSegment.adjustEndpoints_eq (ctx : SegCtx) (slur : Slur) (s : SlurSegment)
    (staff : Staff) (hstaff : ctx.staff = some staff) :
    SlurSegment.adjustEndpoints ctx slur s = some
      { s with
        START := SlurSegment.adjustGrip ctx.spatium staff.lines slur.up s.START
        END := SlurSegment.adjustGrip ctx.spatium staff.lines slur.up s.END } := by
  simp only [SlurSegment.adjustEndpoints, hstaff]

/-- C1, amended: on an up-bowing slur (staff present), an endpoint inside the
staff range whose fractional position below a staff line is `offset < 0.15`
staff spaces is moved vertically by exactly `-(offset + 0.15)` staff spaces,
which puts it 0.15 staff spaces above that line; its x is kept. This holds for
the start point and for the end point. -/
theorem SlurSegment.adjustEndpoints_up_amount (ctx : SegCtx) (slur : Slur) (s : SlurSegment)
    (staff : Staff) (hstaff : ctx.staff = some staff) (hup : slur.up = true) :
    ∃ s', SlurSegment.adjustEndpoints ctx slur s = some s'
      ∧ (∀ offset : ℚ, offset = s.START.p.y / ctx.spatium - (⌊s.START.p.y / ctx.spatium⌋ : ℚ) →
          -(15 / 100) < s.START.p.y / ctx.spatium →
          s.START.p.y / ctx.spatium < ((staff.lines : ℚ) - 1) + 15 / 100 →
          offset < 15 / 100 →
          s'.START.p = ⟨s.START.p.x, s.START.p.y + -(offset + 15 / 100) * ctx.spatium⟩)
      ∧ (∀ offset : ℚ, offset = s.END.p.y / ctx.spatium - (⌊s.END.p.y / ctx.spatium⌋ : ℚ) →
          -(15 / 100) < s.END.p.y / ctx.spatium →
          s.END.p.y / ctx.spatium < ((staff.lines : ℚ) - 1) + 15 / 100 →
          offset < 15 / 100 →
          s'.END.p = ⟨s.END.p.x, s.END.p.y + -(offset + 15 / 100) * ctx.spatium⟩) := by
  refine ⟨_, SlurSegment.adjustEndpoints_eq ctx slur s staff hstaff, ?_, ?_⟩
  · intro offset hoff hlo hhi hlt
    subst hoff
    have hc : s.START.p.y / ctx.spatium > -(15 / 100 : ℚ)
        ∧ s.START.p.y / ctx.spatium < ((staff.lines : ℚ) - 1) + 15 / 100 := ⟨hlo, hhi⟩
    simp only [SlurSegment.adjustGrip, hup, if_pos hc,
      SlurSegment.adjustPoint_up_below_line _ hlt]
  · intro offset hoff hlo hhi hlt
    subst hoff
    have hc : s.END.p.y / ctx.spatium > -(15 / 100 : ℚ)
        ∧ s.END.p.y / ctx.spatium < ((staff.lines : ℚ) - 1) + 15 / 100 := ⟨hlo, hhi⟩
    simp only [SlurSegment.adjustGrip, hup, if_pos hc,
      SlurSegment.adjustPoint_up_below_line _ hlt]

/-- The amended C1 at y = 1.05 on a five-line staff: the start point is moved
by -(0.05 + 0.15) = -0.20 staff spaces. -/
theorem SlurSegment.adjustEndpoints_up_amount_witness :
    ∃ s', SlurSegment.adjustEndpoints exSegCtx
            (exSlur true (exChordRest 1 0 false) (exChordRest 2 (1 / 2) false))
            (exSegment ⟨0, 21 / 20⟩ ⟨0, 0⟩ ⟨10, 5 / 2⟩ ⟨0, 0⟩) = some s'
      ∧ s'.START.p = ⟨0, 21 / 20 + -(1 / 20 + 15 / 100) * 1⟩ := by
  obtain ⟨s', h, hS, _⟩ := SlurSegment.adjustEndpoints_up_amount exSegCtx
    (exSlur true (exChordRest 1 0 false) (exChordRest 2 (1 / 2) false))
    (exSegment ⟨0, 21 / 20⟩ ⟨0, 0⟩ ⟨10, 5 / 2⟩ ⟨0, 0⟩) ⟨5, 1⟩ rfl rfl
  refine ⟨s', h, ?_⟩
  have h1 : ⌊(21 / 20 : ℚ)⌋ = 1 := by rw [Int.floor_eq_iff]; norm_num
  exact hS (1 / 20) (by norm_num [exSegment, exSegCtx, h1])
    (by norm_num [exSegment, exSegCtx]) (by norm_num [exSegment, exSegCtx]) (by norm_num)

/-! ### Anchor at the end of a system (`Slur::layoutSystem`) -/

/-- The tie adjustment moves an anchor only towards the bow side: up for an
up-bowing slur, down for a down-bowing one. -/
theorem Slur.tieAdjust_bowSide (up tieUp : Bool) (endPointY tieClearance y : ℚ) :
    if up then (Slur.tieAdjust up tieUp endPointY tieClearance y).1 ≤ y
    else y ≤ (Slur.tieAdjust up tieUp endPointY tieClearance y).1 := by
  unfold Slur.tieAdjust
  cases up <;> cases tieUp <;> simp <;> split_ifs <;> first | linarith | (simp; linarith)

/-- The vertical position chosen at the end of a system next to a chord that is
not the start chord, after the clamp against `p1y`. -/
theorem Slur.clamp_signed (up : Bool) (y p1y maxDiff : ℚ) (h : 0 ≤ maxDiff) :
    (if up then
        (if (if up then y - p1y else p1y - y) > maxDiff then
           p1y + (if y > p1y then maxDiff else -maxDiff) else y) - p1y
      else
        p1y - (if (if up then y - p1y else p1y - y) > maxDiff then
           p1y + (if y > p1y then maxDiff else -maxDiff) else y)) ≤ maxDiff := by
  cases up <;> simp <;> split_ifs <;> linarith

/-- The vertical position chosen at the end of a system lies at most 2.5 staff
spaces from `p1` against the bow direction. -/
theorem Slur.endOfSystemY_signed (spatium : ℚ) (hsp : 0 ≤ spatium) (slur : Slur) (system : System)
    (p1 : PointF) :
    (if slur.up then Slur.endOfSystemY spatium slur system p1 - p1.y
      else p1.y - Slur.endOfSystemY spatium slur system p1) ≤ 25 / 10 * spatium := by
  have hmax : (0 : ℚ) ≤ 25 / 10 * spatium := by positivity
  unfold Slur.endOfSystemY
  cases system.lastChordRest slur.track with
  | none => simp only []; split_ifs <;> linarith
  | some cr =>
    simp only []
    by_cases hs : decide (Option.map (fun e => e.id) slur.startCR = some cr.id) = true
    · rw [if_pos hs]
      split_ifs <;> linarith
    · rw [if_neg hs]
      cases cr.chord with
      | none => simp only []; split_ifs <;> linarith
      | some chord =>
        exact Slur.clamp_signed slur.up
          (Slur.continuedY slur.up cr chord true (spatium * (4 / 10))) p1.y _ hmax

/-- C2, amended: for a segment that continues past the end of its system (type
BEGIN or MIDDLE), both bow directions and every last chordrest of the system
(a chord there has a note), `layoutSystem` computes an end anchor `p2`, and the
jump from the `p1.y` it is clamped against to `p2.y`, taken against the bow
direction (downwards for an up-bowing slur, upwards for a down-bowing one), is
at most 2.5 staff spaces. The jump towards the bow side is not limited. -/
theorem Slur.endAnchor_clamp (spatium : ℚ) (hsp : 0 ≤ spatium) (slur : Slur) (system : System)
    (sst : SpannerSegmentType) (hsst : sst = .BEGIN ∨ sst = .MIDDLE) (p1 p2 : PointF)
    (hnotes : ∀ cr c, system.lastChordRest slur.track = some cr → cr.chord = some c →
      c.notes ≠ []) :
    ∃ p2', Slur.endAnchor spatium slur system sst p1 p2 = some p2'
      ∧ (if slur.up then p2'.y - p1.y else p1.y - p2'.y) ≤ 25 / 10 * spatium := by
  have hsst' : ¬ (sst = .SINGLE ∨ sst = .END) := by rcases hsst with h | h <;> simp [h]
  have hY := Slur.endOfSystemY_signed spatium hsp slur system p1
  unfold Slur.endAnchor
  simp only [if_neg hsst']
  generalize Slur.endOfSystemY spatium slur system p1 = Y at hY ⊢
  cases hl : system.lastChordRest slur.track with
  | none => exact ⟨_, rfl, hY⟩
  | some cr =>
    simp only []
    cases hc : cr.chord with
    | none => exact ⟨_, rfl, hY⟩
    | some c =>
      simp only []
      by_cases ht : cr.tick ≥ system.firstMeasureTick ∧ cr.tick ≤ system.lastMeasureEndTick
      · rw [if_pos ht]
        cases hn : c.notes with
        | nil => exact absurd hn (hnotes cr c hl hc)
        | cons note tail =>
          simp only []
          cases note.tieFor with
          | none => exact ⟨_, rfl, hY⟩
          | some tf =>
            simp only []
            by_cases hside : (!tf.isInside && tf.up == slur.up) = true
            · rw [if_pos hside]
              refine ⟨_, rfl, ?_⟩
              have hb := Slur.tieAdjust_bowSide slur.up tf.up tf.frontEndPos.y
                (65 / 100 * spatium) Y
              revert hb hY
              cases slur.up <;> simp <;> intro h1 h2 <;> linarith
            · rw [if_neg hside]
              exact ⟨_, rfl, hY⟩
      · rw [if_neg ht]
        exact ⟨_, rfl, hY⟩

/-- C2, as stated, fails: an up-bowing slur starts at y = 10 (chord 1); the
last chord of the system (chord 3, stem up, note at y = 2 of height 1, stem 3.5
long) gives the end anchor y = 2 - 0.5 - 3.5 - 0.4 = -2.4, which is 12.4 staff
spaces away from 10: the clamp only limits the jump downwards. -/
theorem C2_counterexample :
    ∃ p2', Slur.endAnchor 1 (exSlur true (exChordRest 1 0 false) (exChordRest 2 2 false))
          (exSystem 0 (some (exChordRest 1 0 false)) (some (exChordRest 3 (3 / 4) true)))
          .BEGIN ⟨0, 10⟩ ⟨50, 10⟩ = some p2'
      ∧ p2'.y = -(12 / 5) ∧ ¬ (|p2'.y - 10| ≤ 25 / 10 * 1) := by
  refine ⟨⟨50, -(12 / 5)⟩, ?_, rfl, ?_⟩
  · have hsst : ¬ (SpannerSegmentType.BEGIN = SpannerSegmentType.SINGLE
        ∨ SpannerSegmentType.BEGIN = SpannerSegmentType.END) := by decide
    simp only [Slur.endAnchor, if_neg hsst]
    norm_num [Slur.endOfSystemY, Slur.continuedY, exSlur, exSystem, exChordRest,
      exChord, exNote]
  · norm_num [abs_le]

/-- The amended C2 on the slur of the counterexample: the end anchor y = -2.4
lies above the start y = 10, the jump downwards is -12.4 ≤ 2.5. -/
theorem Slur.endAnchor_clamp_witness :
    ∃ p2', Slur.endAnchor 1 (exSlur true (exChordRest 1 0 false) (exChordRest 2 2 false))
          (exSystem 0 (some (exChordRest 1 0 false)) (some (exChordRest 3 (3 / 4) true)))
          .BEGIN ⟨0, 10⟩ ⟨50, 10⟩ = some p2'
      ∧ (if (exSlur true (exChordRest 1 0 false) (exChordRest 2 2 false)).up
          then p2'.y - (10 : ℚ) else 10 - p2'.y) ≤ 25 / 10 * 1 :=
  Slur.endAnchor_clamp 1 (by norm_num) _ _ .BEGIN (Or.inl rfl) ⟨0, 10⟩ ⟨50, 10⟩
    (by
      intro cr c h1 h2
      simp only [exSystem, Option.some.injEq] at h1
      subst h1
      simp only [exChordRest, Option.some.injEq] at h2
      subst h2
      simp [exChord])

/-! ### Direction of long slurs -/

/-- The direction that the switch of `Slur::layout` resolves for an AUTO slur
that is longer than its start measure: up, unless the start measure has several
voices over the span of the slur, the start chordrest is a chord of normal note
type, and there is no direction mixture between two chords; then it is the
stem direction of the start chord. -/
theorem Slur.directionLayout_long (slur : Slur) (scr : ChordRest) (m1 : Measure) (ecr : ChordRest)
    (hauto : slur.slurDirection = .AUTO) (hlong : ecr.tick - scr.tick > m1.ticks) :
    Slur.directionLayout slur scr m1 ecr =
      if (m1.hasVoices scr.staffIdx slur.tick slur.ticks
            && Slur.chordAnd scr (fun c => c.noteTypeNormal))
          && !(ecr.chord.isSome && isDirectionMixture scr ecr)
      then scr.up else true := by
  unfold Slur.directionLayout
  simp only [hauto, if_pos hlong]
  cases hv : m1.hasVoices scr.staffIdx slur.tick slur.ticks <;>
  cases hn : Slur.chordAnd scr (fun c => c.noteTypeNormal) <;>
  cases he : ecr.chord.isSome <;>
  cases hm : isDirectionMixture scr ecr <;>
  cases hs : scr.chord.isSome <;>
  simp_all [Slur.chordAnd]

/-! ### Frame properties of `computeBezier` -/

/-- A rotation of the identity map keeps the origin. -/
theorem Transform.rotate_map_zero (M : MathFns) (a : ℚ) :
    (Transform.identity.rotateRadians M a).map PointF.zero = PointF.zero := by
  simp [Transform.rotateRadians, Transform.identity, Transform.map, PointF.zero]

/-- With the default shoulder offset, `buildBezier` changes only the path, the
shape and the positions of the grips other than `START`. -/
theorem SlurSegment.buildBezier_frame (ctx : SegCtx) (slur : Slur) (s : SlurSegment) :
    let s' := SlurSegment.buildBezier ctx slur s computeBezierDefaultArg
    s'.START = s.START ∧ s'.BEZIER1.off = s.BEZIER1.off ∧ s'.BEZIER2.off = s.BEZIER2.off
      ∧ s'.END.off = s.END.off ∧ s'.SHOULDER.off = s.SHOULDER.off ∧ s'.DRAG.off = s.DRAG.off
      ∧ s'.autoplace = s.autoplace ∧ s'.system = s.system ∧ s'.staffIdx = s.staffIdx
      ∧ s'.spannerSegmentType = s.spannerSegmentType ∧ s'.extraHeight = s.extraHeight
      ∧ s'.pos = s.pos ∧ s'.offset = s.offset ∧ s'.bbox = s.bbox := by
  simp only [SlurSegment.buildBezier, computeBezierDefaultArg, Transform.rotate_map_zero]
  simp [PointF.isNull, PointF.zero]

theorem SlurSegment.kept_refl (s : SlurSegment) : SlurSegment.Kept s s :=
  ⟨rfl, rfl, rfl, rfl, rfl, rfl, rfl, rfl, rfl, rfl⟩

theorem SlurSegment.kept_trans {a b c : SlurSegment} (h1 : SlurSegment.Kept a b)
    (h2 : SlurSegment.Kept b c) : SlurSegment.Kept a c := by
  obtain ⟨a1, a2, a3, a4, a5, a6, a7, a8, a9, a10⟩ := h1
  obtain ⟨b1, b2, b3, b4, b5, b6, b7, b8, b9, b10⟩ := h2
  exact ⟨b1.trans a1, b2.trans a2, b3.trans a3, b4.trans a4, b5.trans a5, b6.trans a6,
    b7.trans a7, b8.trans a8, b9.trans a9, b10.trans a10⟩

theorem Slur.sameButBroken_refl (slur : Slur) : Slur.SameButBroken slur slur := rfl

theorem Slur.sameButBroken_trans {a b c : Slur} (h1 : Slur.SameButBroken a b)
    (h2 : Slur.SameButBroken b c) : Slur.SameButBroken a c := by
  unfold Slur.SameButBroken at *
  rw [h2, h1]

theorem Slur.sameButBroken_setBroken (slur : Slur) (b : Bool) :
    Slur.SameButBroken slur { slur with broken := b } := rfl

/-- The staff-line pass keeps the user offsets. -/
theorem SlurSegment.adjustGrip_off (spatium : ℚ) (lines : ℤ) (up : Bool) (u : UP) :
    (SlurSegment.adjustGrip spatium lines up u).off = u.off := by
  unfold SlurSegment.adjustGrip
  simp only []
  split_ifs <;> rfl

theorem SlurSegment.adjustEndpoints_kept (ctx : SegCtx) (slur : Slur) (s s' : SlurSegment)
    (h : SlurSegment.adjustEndpoints ctx slur s = some s') : SlurSegment.Kept s s' := by
  unfold SlurSegment.adjustEndpoints at h
  cases hst : ctx.staff with
  | none => simp [hst] at h
  | some staff =>
    simp only [hst, Option.some.injEq] at h
    subst h
    exact ⟨SlurSegment.adjustGrip_off _ _ _ _, rfl, rfl, SlurSegment.adjustGrip_off _ _ _ _,
      rfl, rfl, rfl, rfl, rfl, rfl⟩

/-- With the default shoulder offset, `computeBezier` keeps the user offsets of
all grips, and changes of the slur at most the flag `broken`. -/
theorem SlurSegment.computeBezier_kept (ctx : SegCtx) (slur slur' : Slur) (s s' : SlurSegment)
    (h : SlurSegment.computeBezier ctx slur s computeBezierDefaultArg = some (slur', s')) :
    SlurSegment.Kept s s' ∧ Slur.SameButBroken slur slur' := by
  unfold SlurSegment.computeBezier at h
  simp only [] at h
  cases ha : SlurSegment.staffLinePass ctx slur s with
  | none => simp [ha] at h
  | some s1 =>
    have hk1 : SlurSegment.Kept s s1 := by
      unfold SlurSegment.staffLinePass at ha
      by_cases hauto : s.autoplace = true
      · rw [if_pos hauto] at ha
        exact SlurSegment.adjustEndpoints_kept ctx slur s s1 ha
      · rw [if_neg hauto] at ha
        simp only [Option.some.injEq] at ha
        subst ha
        exact SlurSegment.kept_refl s
    simp only [ha] at h
    split_ifs at h with hz
    · cases hs : slur.startCR <;> cases he : slur.endCR <;> simp [hs, he] at h
      obtain ⟨h1, h2⟩ := h
      subst h1 h2
      refine ⟨hk1, ?_⟩
      unfold Slur.SameButBroken
      simp only [hs, he]
    · simp only [Option.some.injEq, Prod.mk.injEq] at h
      obtain ⟨h1, h2⟩ := h
      subst h1 h2
      refine ⟨SlurSegment.kept_trans hk1 ?_, rfl⟩
      have hf := SlurSegment.buildBezier_frame ctx slur s1
      simp only [] at hf
      obtain ⟨f1, f2, f3, f4, f5, f6, f7, f8, f9, f10, -⟩ := hf
      exact ⟨by rw [f1], f2, f3, f4, f5, f6, f7, f8, f9, f10⟩

/-- On a safe state `computeBezier` returns. -/
theorem SlurSegment.computeBezier_some (ctx : SegCtx) (slur : Slur) (s : SlurSegment)
    (p6o : PointF) (hsafe : SlurSegment.Safe ctx slur s) :
    ∃ r, SlurSegment.computeBezier ctx slur s p6o = some r := by
  obtain ⟨hs, he, hst⟩ := hsafe
  unfold SlurSegment.computeBezier
  simp only []
  have ha : ∃ s1, SlurSegment.staffLinePass ctx slur s = some s1 := by
    unfold SlurSegment.staffLinePass
    by_cases hauto : s.autoplace = true
    · rw [if_pos hauto]
      obtain ⟨staff, hstaff⟩ := Option.isSome_iff_exists.mp (hst hauto)
      exact ⟨_, SlurSegment.adjustEndpoints_eq ctx slur s staff hstaff⟩
    · rw [if_neg hauto]
      exact ⟨s, rfl⟩
  obtain ⟨s1, ha⟩ := ha
  simp only [ha]
  obtain ⟨scr, hscr⟩ := Option.isSome_iff_exists.mp hs
  obtain ⟨ecr, hecr⟩ := Option.isSome_iff_exists.mp he
  split_ifs
  · rw [hscr, hecr]
    exact ⟨_, rfl⟩
  · exact ⟨_, rfl⟩

theorem SlurSegment.safe_of_kept {ctx : SegCtx} {slur slur' : Slur} {s s' : SlurSegment}
    (h : SlurSegment.Safe ctx slur s) (hk : SlurSegment.Kept s s')
    (hb : Slur.SameButBroken slur slur') : SlurSegment.Safe ctx slur' s' := by
  obtain ⟨h1, h2, h3⟩ := h
  obtain ⟨-, -, -, -, -, -, ha, -⟩ := hk
  unfold Slur.SameButBroken at hb
  refine ⟨by rw [hb]; exact h1, by rw [hb]; exact h2, ?_⟩
  rw [ha]
  exact h3

/-- The corrective action of a pass keeps the user offsets. -/
theorem SlurSegment.correct_kept (ctx : SegCtx) (up : Bool) (sc : ScanState) (adj : Adjusted)
    (seg : SlurSegment) : SlurSegment.Kept seg (SlurSegment.correct ctx up sc adj seg).1 := by
  unfold SlurSegment.correct
  simp only []
  split_ifs <;> exact ⟨rfl, rfl, rfl, rfl, rfl, rfl, rfl, rfl, rfl, rfl⟩

/-- The avoidance loop with `n` passes left returns on a safe state; it runs
`k ≤ n` passes that find an intersection, each followed by one call of
`computeBezier`, and then either has used all `n` passes or runs one more pass,
which finds no intersection, and stops. -/
theorem SlurSegment.avoidanceLoop_spec (ctx : SegCtx) (up : Bool) (pp1 pp2 : PointF)
    (segs : List ScanSegment) :
    ∀ (n : ℕ) (st : SlurSegment.LoopState), SlurSegment.Safe ctx st.slur st.seg →
      ∃ st', SlurSegment.avoidanceLoop ctx up pp1 pp2 segs n st = some st'
        ∧ SlurSegment.Kept st.seg st'.seg ∧ Slur.SameButBroken st.slur st'.slur
        ∧ ∃ k, k ≤ n ∧ st'.bezierCalls = st.bezierCalls + k
          ∧ ((k = n ∧ st'.passLog = st.passLog ++ List.replicate k true)
            ∨ (k < n ∧ st'.passLog = st.passLog ++ List.replicate k true ++ [false])) := by
  intro n
  induction n with
  | zero =>
    intro st _
    exact ⟨st, rfl, SlurSegment.kept_refl _, Slur.sameButBroken_refl _, 0, le_refl _, rfl,
      Or.inl ⟨rfl, by simp⟩⟩
  | succ n ih =>
    intro st hsafe
    unfold SlurSegment.avoidanceLoop
    simp only []
    generalize (if st.adjusted.a0 && st.adjusted.a1 && st.adjusted.a2
      then (⟨false, false, false⟩ : Adjusted) else st.adjusted) = adj
    generalize SlurSegment.scan ctx st.slur st.seg up pp1 pp2 (pp2.x - pp1.x)
      ⟨false, 0, 0, 0, st.segRelativeX⟩ segs = sc
    by_cases hint : (!sc.intersection) = true
    · rw [if_pos hint]
      exact ⟨_, rfl, SlurSegment.kept_refl _, Slur.sameButBroken_refl _, 0, Nat.zero_le _, rfl,
        Or.inr ⟨Nat.succ_pos _, by simp⟩⟩
    · rw [if_neg hint]
      have hk := SlurSegment.correct_kept ctx up sc adj st.seg
      have hsafe1 := SlurSegment.safe_of_kept hsafe hk (Slur.sameButBroken_refl _)
      obtain ⟨⟨slur1, seg1⟩, hcb⟩ := SlurSegment.computeBezier_some ctx st.slur _
        computeBezierDefaultArg hsafe1
      obtain ⟨hk2, hb2⟩ := SlurSegment.computeBezier_kept ctx st.slur slur1 _ seg1 hcb
      rw [hcb]
      simp only []
      have hsafe2 := SlurSegment.safe_of_kept hsafe1 hk2 hb2
      obtain ⟨st', hrun, hk3, hb3, k, hkn, hcalls, hlog⟩ := ih
        { slur := slur1, seg := seg1,
          adjusted := (SlurSegment.correct ctx up sc adj st.seg).2,
          segRelativeX := sc.segRelativeX,
          bezierCalls := st.bezierCalls + 1, passLog := st.passLog ++ [true] } hsafe2
      refine ⟨st', hrun, SlurSegment.kept_trans (SlurSegment.kept_trans hk hk2) hk3,
        Slur.sameButBroken_trans hb2 hb3, k + 1, Nat.succ_le_succ hkn, ?_, ?_⟩
      · rw [hcalls]; simp only []; omega
      · rcases hlog with ⟨h1, h2⟩ | ⟨h1, h2⟩
        · left
          refine ⟨by omega, ?_⟩
          rw [h2]
          simp [List.replicate_succ]
        · right
          refine ⟨by omega, ?_⟩
          rw [h2]
          simp [List.replicate_succ]

/-- On a safe state `layoutSegment` returns; it keeps the user offsets, changes
of the slur at most the flag `broken`, and either does not enter the avoidance
loop (at most one call of `computeBezier`, none for a slur hidden on a
tablature staff) or runs `k ≤ 3` passes with an intersection, each followed by a
call of `computeBezier`, and stops at the first pass without one. -/
theorem SlurSegment.layoutSegment_spec (ctx : SegCtx) (slur : Slur) (s : SlurSegment)
    (p1 p2 : PointF) (hsafe : SlurSegment.Safe ctx slur s) :
    ∃ r, SlurSegment.layoutSegment ctx slur s p1 p2 = some r
      ∧ SlurSegment.Kept s r.seg ∧ Slur.SameButBroken slur r.slur
      ∧ ((r.passLog = [] ∧ r.bezierCalls ≤ 1)
        ∨ ∃ k, k ≤ 3 ∧ r.bezierCalls = 1 + k
          ∧ ((k = 3 ∧ r.passLog = List.replicate k true)
            ∨ (k < 3 ∧ r.passLog = List.replicate k true ++ [false]))) := by
  unfold SlurSegment.layoutSegment
  simp only []
  generalize hhid : (match ctx.staffType with
    | some stType => stType.isHiddenElementOnTab
    | none => false) = hidden
  cases hidden with
  | true =>
    simp only [if_true]
    exact ⟨_, rfl, ⟨rfl, rfl, rfl, rfl, rfl, rfl, rfl, rfl, rfl, rfl⟩, rfl,
      Or.inl ⟨rfl, Nat.zero_le _⟩⟩
  | false =>
    simp only [Bool.false_eq_true, if_false]
    generalize hs0 : SlurSegment.layoutSegmentStart ctx s p1 p2 = s0
    have hk0 : SlurSegment.Kept s s0 := by
      subst hs0
      unfold SlurSegment.layoutSegmentStart
      cases ctx.staffType <;> exact ⟨rfl, rfl, rfl, rfl, rfl, rfl, rfl, rfl, rfl, rfl⟩
    have hsafe0 := SlurSegment.safe_of_kept hsafe hk0 (Slur.sameButBroken_refl _)
    obtain ⟨⟨slur1, s1⟩, hcb⟩ := SlurSegment.computeBezier_some ctx slur s0
      computeBezierDefaultArg hsafe0
    obtain ⟨hk1, hb1⟩ := SlurSegment.computeBezier_kept ctx slur slur1 s0 s1 hcb
    have hsafe1 := SlurSegment.safe_of_kept hsafe0 hk1 hb1
    rw [hcb]
    simp only []
    cases hauto : s1.autoplace with
    | false =>
      simp only []
      exact ⟨_, rfl, SlurSegment.kept_trans hk0
        (SlurSegment.kept_trans hk1 ⟨rfl, rfl, rfl, rfl, rfl, rfl, rfl, rfl, rfl, rfl⟩), hb1,
        Or.inl ⟨rfl, le_refl _⟩⟩
    | true =>
      cases hsys : s1.system with
      | none =>
        simp only []
        exact ⟨_, rfl, SlurSegment.kept_trans hk0
          (SlurSegment.kept_trans hk1 ⟨rfl, rfl, rfl, rfl, rfl, rfl, rfl, rfl, rfl, rfl⟩), hb1,
          Or.inl ⟨rfl, le_refl _⟩⟩
      | some system =>
        simp only []
        obtain ⟨st', hrun, hk3, hb3, k, hkn, hcalls, hlog⟩ :=
          SlurSegment.avoidanceLoop_spec ctx slur1.up s1.START.p s1.END.p system.scanSegments 3
            { slur := slur1, seg := s1, adjusted := ⟨false, false, false⟩, segRelativeX := 0,
              bezierCalls := 1, passLog := [] } hsafe1
        rw [hrun]
        simp only []
        refine ⟨_, rfl, SlurSegment.kept_trans hk0 (SlurSegment.kept_trans hk1
          (SlurSegment.kept_trans hk3 ⟨rfl, rfl, rfl, rfl, rfl, rfl, rfl, rfl, rfl, rfl⟩)),
          Slur.sameButBroken_trans hb1 hb3, Or.inr ⟨k, hkn, hcalls, ?_⟩⟩
        simpa using hlog

/-! ### Collision avoidance loop (`SlurSegment::layoutSegment`) -/

/-- C5: for every list of intervening segments (`system.scanSegments`) and every
outcome of the intersection tests (`ctx.intersects`, `ctx.minVerticalDistance`),
on a state where no null pointer is dereferenced, `layoutSegment` returns, its
avoidance loop runs at most 3 passes, every pass but the last found an
intersection and a pass without intersection is the last one, and
`computeBezier` is called at most once plus once per pass with an intersection,
hence at most 4 times. -/
theorem SlurSegment.layoutSegment_terminates (ctx : SegCtx) (slur : Slur) (s : SlurSegment)
    (p1 p2 : PointF) (hsafe : SlurSegment.Safe ctx slur s) :
    ∃ r, SlurSegment.layoutSegment ctx slur s p1 p2 = some r
      ∧ r.passLog.length ≤ 3
      ∧ r.passLog ∈ [[], [false], [true, false], [true, true, false], [true, true, true]]
      ∧ r.bezierCalls ≤ 1 + r.passLog.count true
      ∧ r.bezierCalls ≤ 4 := by
  obtain ⟨r, hr, -, -, hlog⟩ := SlurSegment.layoutSegment_spec ctx slur s p1 p2 hsafe
  refine ⟨r, hr, ?_⟩
  rcases hlog with ⟨h1, h2⟩ | ⟨k, hk, hc, ⟨h1, h2⟩ | ⟨h1, h2⟩⟩
  · rw [h1]
    refine ⟨by simp, by simp, by simpa using h2, by omega⟩
  · subst h1
    rw [h2, hc]
    refine ⟨by simp, by simp [List.replicate], by simp, by omega⟩
  · rw [h2, hc]
    have hk3 : k = 0 ∨ k = 1 ∨ k = 2 := by omega
    rcases hk3 with h | h | h <;> subst h <;> simp [List.replicate]

/-- C5 on a segment with autoplace in a system, on a five-line staff. -/
theorem SlurSegment.layoutSegment_terminates_witness :
    ∃ r, SlurSegment.layoutSegment exSegCtx
          (exSlur true (exChordRest 1 0 false) (exChordRest 2 (1 / 2) false))
          { exSegment ⟨0, 0⟩ ⟨0, 0⟩ ⟨0, 0⟩ ⟨0, 0⟩ with system := some (exSystem 0 none none) }
          ⟨0, -1⟩ ⟨10, -1⟩ = some r
      ∧ r.passLog.length ≤ 3
      ∧ r.passLog ∈ [[], [false], [true, false], [true, true, false], [true, true, true]]
      ∧ r.bezierCalls ≤ 1 + r.passLog.count true
      ∧ r.bezierCalls ≤ 4 :=
  SlurSegment.layoutSegment_terminates exSegCtx
    (exSlur true (exChordRest 1 0 false) (exChordRest 2 (1 / 2) false))
    { exSegment ⟨0, 0⟩ ⟨0, 0⟩ ⟨0, 0⟩ ⟨0, 0⟩ with system := some (exSystem 0 none none) }
    ⟨0, -1⟩ ⟨10, -1⟩ ⟨rfl, rfl, fun _ => rfl⟩

/-! ### Degenerate guard (`SlurSegment::computeBezier`) -/

/-- The staff-line pass changes only the positions of `START` and `END`. -/
theorem SlurSegment.staffLinePass_frame (ctx : SegCtx) (slur : Slur) (s s1 : SlurSegment)
    (h : SlurSegment.staffLinePass ctx slur s = some s1) :
    s1.path = s.path ∧ s1.shapePath = s.shapePath ∧ s1.shape = s.shape
      ∧ s1.BEZIER1 = s.BEZIER1 ∧ s1.BEZIER2 = s.BEZIER2 ∧ s1.SHOULDER = s.SHOULDER
      ∧ s1.DRAG = s.DRAG := by
  unfold SlurSegment.staffLinePass at h
  by_cases hauto : s.autoplace = true
  · rw [if_pos hauto] at h
    unfold SlurSegment.adjustEndpoints at h
    cases hst : ctx.staff with
    | none => simp [hst] at h
    | some staff =>
      simp only [hst, Option.some.injEq] at h
      subst h
      exact ⟨rfl, rfl, rfl, rfl, rfl, rfl, rfl⟩
  · rw [if_neg hauto] at h
    simp only [Option.some.injEq] at h
    subst h
    exact ⟨rfl, rfl, rfl, rfl, rfl, rfl, rfl⟩

/-- C6, as stated, fails: with autoplace on an up-bowing slur, start point
(0, 0.05) without user offset and end point (0, 0.55) with user offset
(0, -0.5) have the same effective position (0, 0.05) before the call. The
staff-line pass moves the start point to (0, -0.15) and leaves the end point,
so the test for a zero slur does not hold: the slur is not marked broken and a
path is built. -/
theorem C6_counterexample :
    (exSegment ⟨0, 1 / 20⟩ ⟨0, 0⟩ ⟨0, 11 / 20⟩ ⟨0, -(1 / 2)⟩).START.p
        + (exSegment ⟨0, 1 / 20⟩ ⟨0, 0⟩ ⟨0, 11 / 20⟩ ⟨0, -(1 / 2)⟩).START.off
      = (exSegment ⟨0, 1 / 20⟩ ⟨0, 0⟩ ⟨0, 11 / 20⟩ ⟨0, -(1 / 2)⟩).END.p
        + (exSegment ⟨0, 1 / 20⟩ ⟨0, 0⟩ ⟨0, 11 / 20⟩ ⟨0, -(1 / 2)⟩).END.off
    ∧ (exSegment ⟨0, 1 / 20⟩ ⟨0, 0⟩ ⟨0, 11 / 20⟩ ⟨0, -(1 / 2)⟩).path = []
    ∧ ∃ r, SlurSegment.computeBezier exSegCtx
          (exSlur true (exChordRest 1 0 false) (exChordRest 2 (1 / 2) false))
          (exSegment ⟨0, 1 / 20⟩ ⟨0, 0⟩ ⟨0, 11 / 20⟩ ⟨0, -(1 / 2)⟩) computeBezierDefaultArg
          = some r
        ∧ r.1.broken = false ∧ r.2.path ≠ [] ∧ r.2.START.p = ⟨0, -(3 / 20)⟩ := by
  have h1 : ⌊(1 / 20 : ℚ)⌋ = 0 := by rw [Int.floor_eq_iff]; norm_num
  have h2 : ⌊(11 / 20 : ℚ)⌋ = 0 := by rw [Int.floor_eq_iff]; norm_num
  have hpass : SlurSegment.staffLinePass exSegCtx
      (exSlur true (exChordRest 1 0 false) (exChordRest 2 (1 / 2) false))
      (exSegment ⟨0, 1 / 20⟩ ⟨0, 0⟩ ⟨0, 11 / 20⟩ ⟨0, -(1 / 2)⟩)
      = some (exSegment ⟨0, -(3 / 20)⟩ ⟨0, 0⟩ ⟨0, 11 / 20⟩ ⟨0, -(1 / 2)⟩) := by
    norm_num [SlurSegment.staffLinePass, SlurSegment.adjustEndpoints, SlurSegment.adjustGrip,
      SlurSegment.adjustPoint, exSegCtx, exSlur, exSegment, h1, h2]
  refine ⟨?_, rfl, ?_⟩
  · rw [PointF.eq_iff]
    norm_num [exSegment, PointF.add_x, PointF.add_y]
  · have hne : ¬ ((((exSegment ⟨0, -(3 / 20)⟩ ⟨0, 0⟩ ⟨0, 11 / 20⟩ ⟨0, -(1 / 2)⟩).END.p
          + (exSegment ⟨0, -(3 / 20)⟩ ⟨0, 0⟩ ⟨0, 11 / 20⟩ ⟨0, -(1 / 2)⟩).END.off)
          - ((exSegment ⟨0, -(3 / 20)⟩ ⟨0, 0⟩ ⟨0, 11 / 20⟩ ⟨0, -(1 / 2)⟩).START.p
          + (exSegment ⟨0, -(3 / 20)⟩ ⟨0, 0⟩ ⟨0, 11 / 20⟩ ⟨0, -(1 / 2)⟩).START.off)).x = 0
        ∧ (((exSegment ⟨0, -(3 / 20)⟩ ⟨0, 0⟩ ⟨0, 11 / 20⟩ ⟨0, -(1 / 2)⟩).END.p
          + (exSegment ⟨0, -(3 / 20)⟩ ⟨0, 0⟩ ⟨0, 11 / 20⟩ ⟨0, -(1 / 2)⟩).END.off)
          - ((exSegment ⟨0, -(3 / 20)⟩ ⟨0, 0⟩ ⟨0, 11 / 20⟩ ⟨0, -(1 / 2)⟩).START.p
          + (exSegment ⟨0, -(3 / 20)⟩ ⟨0, 0⟩ ⟨0, 11 / 20⟩ ⟨0, -(1 / 2)⟩).START.off)).y = 0) := by
      norm_num [exSegment, PointF.add_x, PointF.add_y, PointF.sub_x, PointF.sub_y]
    have hrun : SlurSegment.computeBezier exSegCtx
          (exSlur true (exChordRest 1 0 false) (exChordRest 2 (1 / 2) false))
          (exSegment ⟨0, 1 / 20⟩ ⟨0, 0⟩ ⟨0, 11 / 20⟩ ⟨0, -(1 / 2)⟩) computeBezierDefaultArg
        = some (exSlur true (exChordRest 1 0 false) (exChordRest 2 (1 / 2) false),
            SlurSegment.buildBezier exSegCtx
              (exSlur true (exChordRest 1 0 false) (exChordRest 2 (1 / 2) false))
              (exSegment ⟨0, -(3 / 20)⟩ ⟨0, 0⟩ ⟨0, 11 / 20⟩ ⟨0, -(1 / 2)⟩)
              computeBezierDefaultArg) := by
      simp only [SlurSegment.computeBezier, hpass, if_neg hne]
    refine ⟨_, hrun, rfl, ?_, ?_⟩
    · simp [SlurSegment.buildBezier, Transform.mapPath]
    · have hf := (SlurSegment.buildBezier_frame exSegCtx
        (exSlur true (exChordRest 1 0 false) (exChordRest 2 (1 / 2) false))
        (exSegment ⟨0, -(3 / 20)⟩ ⟨0, 0⟩ ⟨0, 11 / 20⟩ ⟨0, -(1 / 2)⟩)).1
      simp only [] at hf ⊢
      rw [hf]
      rfl

/-- C6, amended: for every segment whose effective endpoints coincide when the
test is made, that is after the staff-line pass which `computeBezier` runs first
when autoplace is on, and whose slur has its two chordrests, `computeBezier`
returns, marks the slur broken and builds no path: path, collision shape and
the grips `BEZIER1`, `BEZIER2`, `SHOULDER`, `DRAG` are left untouched. -/
theorem SlurSegment.computeBezier_degenerate (ctx : SegCtx) (slur : Slur) (s s1 : SlurSegment)
    (p6o : PointF) (hpass : SlurSegment.staffLinePass ctx slur s = some s1)
    (hzero : s1.START.p + s1.START.off = s1.END.p + s1.END.off)
    (hscr : slur.startCR.isSome) (hecr : slur.endCR.isSome) :
    ∃ slur' s', SlurSegment.computeBezier ctx slur s p6o = some (slur', s')
      ∧ slur' = { slur with broken := true } ∧ s' = s1
      ∧ slur'.broken = true
      ∧ s'.path = s.path ∧ s'.shapePath = s.shapePath ∧ s'.shape = s.shape
      ∧ s'.BEZIER1 = s.BEZIER1 ∧ s'.BEZIER2 = s.BEZIER2 ∧ s'.SHOULDER = s.SHOULDER
      ∧ s'.DRAG = s.DRAG := by
  obtain ⟨scr, hs⟩ := Option.isSome_iff_exists.mp hscr
  obtain ⟨ecr, he⟩ := Option.isSome_iff_exists.mp hecr
  have hz : (s1.END.p + s1.END.off - (s1.START.p + s1.START.off)).x = 0
      ∧ (s1.END.p + s1.END.off - (s1.START.p + s1.START.off)).y = 0 := by
    rw [hzero, PointF.sub_x, PointF.sub_y]
    exact ⟨sub_self _, sub_self _⟩
  have hrun : SlurSegment.computeBezier ctx slur s p6o
      = some ({ slur with broken := true }, s1) := by
    simp only [SlurSegment.computeBezier, hpass, if_pos hz, hs, he]
  obtain ⟨f1, f2, f3, f4, f5, f6, f7⟩ := SlurSegment.staffLinePass_frame ctx slur s s1 hpass
  exact ⟨_, _, hrun, rfl, rfl, rfl, f1, f2, f3, f4, f5, f6, f7⟩

/-- When autoplace is off, or the user offsets of `START` and `END` are equal,
endpoints that coincide before `computeBezier` still coincide when the test
for a zero slur is made. -/
theorem SlurSegment.staffLinePass_zero_of_entry (ctx : SegCtx) (slur : Slur) (s s1 : SlurSegment)
    (hpass : SlurSegment.staffLinePass ctx slur s = some s1)
    (hzero : s.START.p + s.START.off = s.END.p + s.END.off)
    (h : s.autoplace = false ∨ s.START.off = s.END.off) :
    s1.START.p + s1.START.off = s1.END.p + s1.END.off := by
  unfold SlurSegment.staffLinePass at hpass
  by_cases hauto : s.autoplace = true
  · rw [if_pos hauto] at hpass
    rcases h with h | h
    · rw [h] at hauto; cases hauto
    · have hp : s.START.p = s.END.p := by
        rw [PointF.eq_iff, PointF.add_x, PointF.add_y, PointF.add_x, PointF.add_y, h] at hzero
        rw [PointF.eq_iff]
        exact ⟨by linarith [hzero.1], by linarith [hzero.2]⟩
      have hu : s.START = s.END := by
        cases hS : s.START; cases hE : s.END
        rw [hS] at hp h; rw [hE] at hp h
        simp only [] at hp h
        rw [hp, h]
      unfold SlurSegment.adjustEndpoints at hpass
      cases hst : ctx.staff with
      | none => simp [hst] at hpass
      | some staff =>
        simp only [hst, Option.some.injEq] at hpass
        subst hpass
        simp only [hu]
  · rw [if_neg hauto] at hpass
    simp only [Option.some.injEq] at hpass
    subst hpass
    exact hzero

/-- The amended C6 on a segment with autoplace whose two end points are
(3, 0.5), without user offsets, on a five-line staff. -/
theorem SlurSegment.computeBezier_degenerate_witness :
    ∃ slur' s', SlurSegment.computeBezier exSegCtx
          (exSlur true (exChordRest 1 0 false) (exChordRest 2 (1 / 2) false))
          (exSegment ⟨3, 1 / 2⟩ ⟨0, 0⟩ ⟨3, 1 / 2⟩ ⟨0, 0⟩) computeBezierDefaultArg
          = some (slur', s')
      ∧ slur' = { exSlur true (exChordRest 1 0 false) (exChordRest 2 (1 / 2) false) with
                  broken := true }
      ∧ s' = exSegment ⟨3, 1 / 2⟩ ⟨0, 0⟩ ⟨3, 1 / 2⟩ ⟨0, 0⟩
      ∧ slur'.broken = true
      ∧ s'.path = (exSegment ⟨3, 1 / 2⟩ ⟨0, 0⟩ ⟨3, 1 / 2⟩ ⟨0, 0⟩).path
      ∧ s'.shapePath = (exSegment ⟨3, 1 / 2⟩ ⟨0, 0⟩ ⟨3, 1 / 2⟩ ⟨0, 0⟩).shapePath
      ∧ s'.shape = (exSegment ⟨3, 1 / 2⟩ ⟨0, 0⟩ ⟨3, 1 / 2⟩ ⟨0, 0⟩).shape
      ∧ s'.BEZIER1 = (exSegment ⟨3, 1 / 2⟩ ⟨0, 0⟩ ⟨3, 1 / 2⟩ ⟨0, 0⟩).BEZIER1
      ∧ s'.BEZIER2 = (exSegment ⟨3, 1 / 2⟩ ⟨0, 0⟩ ⟨3, 1 / 2⟩ ⟨0, 0⟩).BEZIER2
      ∧ s'.SHOULDER = (exSegment ⟨3, 1 / 2⟩ ⟨0, 0⟩ ⟨3, 1 / 2⟩ ⟨0, 0⟩).SHOULDER
      ∧ s'.DRAG = (exSegment ⟨3, 1 / 2⟩ ⟨0, 0⟩ ⟨3, 1 / 2⟩ ⟨0, 0⟩).DRAG :=
  SlurSegment.computeBezier_degenerate exSegCtx
    (exSlur true (exChordRest 1 0 false) (exChordRest 2 (1 / 2) false))
    (exSegment ⟨3, 1 / 2⟩ ⟨0, 0⟩ ⟨3, 1 / 2⟩ ⟨0, 0⟩)
    (exSegment ⟨3, 1 / 2⟩ ⟨0, 0⟩ ⟨3, 1 / 2⟩ ⟨0, 0⟩) computeBezierDefaultArg
    (by
      have h1 : ⌊(1 / 2 : ℚ)⌋ = 0 := by rw [Int.floor_eq_iff]; norm_num
      norm_num [SlurSegment.staffLinePass, SlurSegment.adjustEndpoints, SlurSegment.adjustGrip,
        SlurSegment.adjustPoint, exSegCtx, exSlur, exSegment, h1])
    rfl rfl rfl

/-! ### User offsets across a layout (`Slur::layoutSystem`) -/

/-- Every run of the avoidance loop that returns keeps the user offsets. -/
theorem SlurSegment.avoidanceLoop_kept (ctx : SegCtx) (up : Bool) (pp1 pp2 : PointF)
    (segs : List ScanSegment) :
    ∀ (n : ℕ) (st st' : SlurSegment.LoopState),
      SlurSegment.avoidanceLoop ctx up pp1 pp2 segs n st = some st' →
      SlurSegment.Kept st.seg st'.seg ∧ Slur.SameButBroken st.slur st'.slur := by
  intro n
  induction n with
  | zero =>
    intro st st' h
    simp only [SlurSegment.avoidanceLoop, Option.some.injEq] at h
    subst h
    exact ⟨SlurSegment.kept_refl _, Slur.sameButBroken_refl _⟩
  | succ n ih =>
    intro st st' h
    unfold SlurSegment.avoidanceLoop at h
    simp only [] at h
    generalize (if st.adjusted.a0 && st.adjusted.a1 && st.adjusted.a2
      then (⟨false, false, false⟩ : Adjusted) else st.adjusted) = adj at h
    generalize SlurSegment.scan ctx st.slur st.seg up pp1 pp2 (pp2.x - pp1.x)
      ⟨false, 0, 0, 0, st.segRelativeX⟩ segs = sc at h
    by_cases hint : (!sc.intersection) = true
    · rw [if_pos hint] at h
      simp only [Option.some.injEq] at h
      subst h
      exact ⟨SlurSegment.kept_refl _, Slur.sameButBroken_refl _⟩
    · rw [if_neg hint] at h
      have hk := SlurSegment.correct_kept ctx up sc adj st.seg
      cases hcb : SlurSegment.computeBezier ctx st.slur
          (SlurSegment.correct ctx up sc adj st.seg).1 computeBezierDefaultArg with
      | none => simp [hcb] at h
      | some r1 =>
        obtain ⟨slur1, seg1⟩ := r1
        obtain ⟨hk2, hb2⟩ := SlurSegment.computeBezier_kept ctx st.slur slur1 _ seg1 hcb
        simp only [hcb] at h
        obtain ⟨hk3, hb3⟩ := ih _ st' h
        exact ⟨SlurSegment.kept_trans (SlurSegment.kept_trans hk hk2) hk3,
          Slur.sameButBroken_trans hb2 hb3⟩

/-- Every call of `layoutSegment` that returns keeps the user offsets of the
six grips, and changes of the slur at most the flag `broken`. -/
theorem SlurSegment.layoutSegment_kept (ctx : SegCtx) (slur : Slur) (s : SlurSegment)
    (p1 p2 : PointF) (r : LayoutSegmentResult)
    (h : SlurSegment.layoutSegment ctx slur s p1 p2 = some r) :
    SlurSegment.Kept s r.seg ∧ Slur.SameButBroken slur r.slur := by
  unfold SlurSegment.layoutSegment at h
  simp only [] at h
  generalize hhid : (match ctx.staffType with
    | some stType => stType.isHiddenElementOnTab
    | none => false) = hidden at h
  cases hidden with
  | true =>
    simp only [if_true, Option.some.injEq] at h
    subst h
    exact ⟨⟨rfl, rfl, rfl, rfl, rfl, rfl, rfl, rfl, rfl, rfl⟩, rfl⟩
  | false =>
    simp only [Bool.false_eq_true, if_false] at h
    have hk0 : SlurSegment.Kept s (SlurSegment.layoutSegmentStart ctx s p1 p2) := by
      unfold SlurSegment.layoutSegmentStart
      cases ctx.staffType <;> exact ⟨rfl, rfl, rfl, rfl, rfl, rfl, rfl, rfl, rfl, rfl⟩
    cases hcb : SlurSegment.computeBezier ctx slur (SlurSegment.layoutSegmentStart ctx s p1 p2)
        computeBezierDefaultArg with
    | none => simp [hcb] at h
    | some r1 =>
      obtain ⟨slur1, s1⟩ := r1
      obtain ⟨hk1, hb1⟩ := SlurSegment.computeBezier_kept ctx slur slur1 _ s1 hcb
      simp only [hcb] at h
      cases hauto : s1.autoplace with
      | false =>
        simp only [hauto, Option.some.injEq] at h
        subst h
        exact ⟨SlurSegment.kept_trans hk0
          (SlurSegment.kept_trans hk1 (by unfold SlurSegment.Kept; simp [hauto])), hb1⟩
      | true =>
        cases hsys : s1.system with
        | none =>
          simp only [hauto, hsys, Option.some.injEq] at h
          subst h
          exact ⟨SlurSegment.kept_trans hk0
            (SlurSegment.kept_trans hk1 (by unfold SlurSegment.Kept; simp [hauto, hsys])), hb1⟩
        | some system =>
          simp only [hauto, hsys] at h
          cases hrun : SlurSegment.avoidanceLoop ctx slur1.up s1.START.p s1.END.p
              system.scanSegments 3
              { slur := slur1, seg := s1, adjusted := ⟨false, false, false⟩, segRelativeX := 0,
                bezierCalls := 1, passLog := [] } with
          | none => simp [hrun] at h
          | some st' =>
            obtain ⟨hk3, hb3⟩ := SlurSegment.avoidanceLoop_kept ctx _ _ _ _ 3 _ st' hrun
            simp only [hrun, Option.some.injEq] at h
            subst h
            exact ⟨SlurSegment.kept_trans hk0 (SlurSegment.kept_trans hk1
              (SlurSegment.kept_trans hk3 ⟨rfl, rfl, rfl, rfl, rfl, rfl, rfl, rfl, rfl, rfl⟩)),
              Slur.sameButBroken_trans hb1 hb3⟩

/-- The direction switch of `layoutSystem` asks for a reset of the grips only
with direction AUTO and a recorded stem arrangement that differs. -/
theorem Slur.directionSystem_reset (slur : Slur) (scr : ChordRest) (m1 : Measure)
    (ecr : ChordRest) :
    (Slur.directionSystem slur scr m1 ecr).2 =
      (decide (slur.slurDirection = DirectionV.AUTO)
        && decide (slur.sourceStemArrangement ≠ -1)
        && decide (slur.sourceStemArrangement ≠ calcStemArrangement scr.chord ecr.chord)) := by
  unfold Slur.directionSystem
  cases hd : slur.slurDirection <;> simp only []
  · split_ifs <;> simp
  · simp
  · simp

/-- The segment after the first part of `layoutSystem`: all six grips are
`UP()` when the grips are reset, and the segment is unchanged otherwise. -/
theorem Slur.segmentTypeAndDirection_seg (slur : Slur) (system : System) (seg : SlurSegment) :
    (Slur.segmentTypeAndDirection slur system seg).2.1 =
      if Slur.resetsGrips slur system then
        { seg with START := UP.zero, BEZIER1 := UP.zero, BEZIER2 := UP.zero,
                   END := UP.zero, SHOULDER := UP.zero, DRAG := UP.zero }
      else seg := by
  have hs : slur.fixTrack2.startCR = slur.startCR := by
    unfold Slur.fixTrack2; cases slur.track2 <;> rfl
  by_cases ht : slur.tick ≥ system.firstMeasureTick
  · cases hscr : slur.startCR with
    | none => simp [Slur.segmentTypeAndDirection, Slur.resetsGrips, ht, hs, hscr]
    | some scr =>
      cases hm : scr.measure with
      | none => simp [Slur.segmentTypeAndDirection, Slur.resetsGrips, ht, hs, hscr, hm]
      | some m1 =>
        have he : slur.fixTrack2.fixEnd.endCR = some (match slur.endCR with
            | some e => e
            | none => scr) := by
          unfold Slur.fixEnd Slur.fixTrack2 Slur.setTick2
          cases slur.track2 <;> cases h2 : slur.endCR <;> simp [hscr, h2]
        have hd : slur.fixTrack2.fixEnd.slurDirection = slur.slurDirection := by
          unfold Slur.fixEnd Slur.fixTrack2 Slur.setTick2
          cases slur.track2 <;> cases slur.endCR <;> rfl
        have ha : slur.fixTrack2.fixEnd.sourceStemArrangement = slur.sourceStemArrangement := by
          unfold Slur.fixEnd Slur.fixTrack2 Slur.setTick2
          cases slur.track2 <;> cases slur.endCR <;> rfl
        simp only [Slur.segmentTypeAndDirection, Slur.resetsGrips, if_pos ht, hs, hscr, hm,
          Slur.directionSystem_reset, he, hd, ha, decide_eq_true ht, Bool.true_and]
  · have hf : decide (slur.tick ≥ system.firstMeasureTick) = false := by simp [ht]
    simp only [Slur.segmentTypeAndDirection, Slur.resetsGrips, if_neg ht, hf, Bool.false_and]
    split_ifs <;> first | rfl | simp_all

/-- The user offsets after a `layoutSystem` call that returns: zero when the
grips are reset, those before the call otherwise. -/
theorem Slur.layoutSystem_offsets_eq (ctx : SlurCtx) (slur : Slur) (system : System)
    (seg : SlurSegment) (r : LayoutSystemResult)
    (h : Slur.layoutSystem ctx slur system seg = some r) (g : Grip) :
    (r.seg.ups g).off =
      if Slur.resetsGrips slur system then PointF.zero else (seg.ups g).off := by
  have hseg := Slur.segmentTypeAndDirection_seg slur system seg
  unfold Slur.layoutSystem at h
  simp only [] at h
  cases hT : Slur.segmentTypeAndDirection slur system seg with
  | mk slur1 rest =>
    obtain ⟨seg1, osst⟩ := rest
    rw [hT] at hseg h
    simp only [] at hseg
    have hoff : ∀ s' : SlurSegment,
        (s'.START.off = seg1.START.off ∧ s'.BEZIER1.off = seg1.BEZIER1.off
          ∧ s'.BEZIER2.off = seg1.BEZIER2.off ∧ s'.END.off = seg1.END.off
          ∧ s'.SHOULDER.off = seg1.SHOULDER.off ∧ s'.DRAG.off = seg1.DRAG.off) →
        (s'.ups g).off = if Slur.resetsGrips slur system then PointF.zero
          else (seg.ups g).off := by
      rintro s' ⟨k1, k2, k3, k4, k5, k6⟩
      by_cases hres : Slur.resetsGrips slur system = true
      · rw [if_pos hres] at hseg ⊢
        subst hseg
        cases g <;> simp only [SlurSegment.ups, k1, k2, k3, k4, k5, k6] <;> rfl
      · rw [if_neg hres] at hseg ⊢
        subst hseg
        cases g <;> simp only [SlurSegment.ups, k1, k2, k3, k4, k5, k6]
    cases osst with
    | none =>
      simp only [Option.some.injEq] at h
      subst h
      exact hoff _ ⟨rfl, rfl, rfl, rfl, rfl, rfl⟩
    | some sst =>
      simp only [] at h
      cases hp : Slur.slurPos ctx slur1 with
      | none => simp [hp] at h
      | some sPos =>
        simp only [hp] at h
        cases hsa : Slur.startAnchor ctx.seg.spatium slur1 system sst sPos.p1 with
        | none => simp [hsa] at h
        | some pa =>
          obtain ⟨p1, constrain⟩ := pa
          simp only [hsa] at h
          cases hea : Slur.endAnchor ctx.seg.spatium slur1 system sst p1 sPos.p2 with
          | none => simp [hea] at h
          | some p2 =>
            simp only [hea] at h
            generalize (if constrain = true then
              (⟨p1.x, p2.y + 25 / 100 * ctx.seg.spatium * (if slur1.up = true then -1 else 1)⟩ :
                PointF) else p1) = p1' at h
            cases hls : SlurSegment.layoutSegment ctx.seg slur1
                { seg1 with spannerSegmentType := sst } p1' p2 with
            | none => simp [hls] at h
            | some rs =>
              simp only [hls, Option.some.injEq] at h
              subst h
              obtain ⟨hk, -⟩ := SlurSegment.layoutSegment_kept ctx.seg slur1 _ p1' p2 rs hls
              obtain ⟨k1, k2, k3, k4, k5, k6, -⟩ := hk
              exact hoff _ ⟨k1, k2, k3, k4, k5, k6⟩

/-! ### `layoutSystem` returns on well-formed input -/

/-- The first part of `layoutSystem` on a slur with both chordrests in
measures: it yields a segment type, keeps the chordrests and the track of the
slur, and keeps autoplace of the segment. -/
theorem Slur.segmentTypeAndDirection_wf (slur : Slur) (system : System) (seg : SlurSegment)
    (scr ecr : ChordRest) (m1 : Measure) (hs : slur.startCR = some scr)
    (hm : scr.measure = some m1) (he : slur.endCR = some ecr) :
    ∃ slur1 seg1 sst, Slur.segmentTypeAndDirection slur system seg = (slur1, seg1, some sst)
      ∧ slur1.startCR = some scr ∧ slur1.endCR = some ecr ∧ slur1.track = slur.track
      ∧ seg1.autoplace = seg.autoplace := by
  have hfs : slur.fixTrack2.startCR = some scr := by
    unfold Slur.fixTrack2; cases slur.track2 <;> exact hs
  have hfe : slur.fixTrack2.endCR = some ecr := by
    unfold Slur.fixTrack2; cases slur.track2 <;> exact he
  have hft : slur.fixTrack2.track = slur.track := by
    unfold Slur.fixTrack2; cases slur.track2 <;> rfl
  have hfix : slur.fixTrack2.fixEnd = slur.fixTrack2 := by
    unfold Slur.fixEnd; rw [hfe]
  unfold Slur.segmentTypeAndDirection
  simp only []
  by_cases ht : slur.tick ≥ system.firstMeasureTick
  · rw [if_pos ht]
    simp only [hfs, hm, hfix, hfe]
    refine ⟨_, _, _, rfl, rfl, rfl, hft, ?_⟩
    split_ifs <;> rfl
  · rw [if_neg ht]
    split_ifs
    · exact ⟨_, _, _, rfl, hs, he, rfl, rfl⟩
    · exact ⟨_, _, _, rfl, hs, he, rfl, rfl⟩

/-- On a slur with both chordrests in measures `slurPos` returns. -/
theorem Slur.slurPos_some (ctx : SlurCtx) (slur : Slur) (scr ecr : ChordRest) (m1 m2 : Measure)
    (hs : slur.startCR = some scr) (hm1 : scr.measure = some m1) (he : slur.endCR = some ecr)
    (hm2 : ecr.measure = some m2) : ∃ sPos, Slur.slurPos ctx slur = some sPos := by
  unfold Slur.slurPos
  simp only [hs, he, hm1, hm2]
  cases m1.system <;> exact ⟨_, rfl⟩

/-- The start anchor is computed when the start chordrest is set and the first
chord of the system has a note. -/
theorem Slur.startAnchor_some (spatium : ℚ) (slur : Slur) (system : System)
    (sst : SpannerSegmentType) (p1 : PointF) (scr : ChordRest) (hs : slur.startCR = some scr)
    (hnotes : ∀ cr c, system.firstChordRest slur.track = some cr → cr.chord = some c →
      c.notes ≠ []) :
    ∃ r, Slur.startAnchor spatium slur system sst p1 = some r := by
  unfold Slur.startAnchor
  simp only [hs]
  by_cases hsst : sst = .SINGLE ∨ sst = .BEGIN
  · rw [if_pos hsst]
    cases scr.chord with
    | none => exact ⟨_, rfl⟩
    | some sc =>
      simp only []
      rcases hn : sc.notes with _ | ⟨note, _ | ⟨n2, tl⟩⟩
      · exact ⟨_, rfl⟩
      · simp only []
        cases Slur.sameSideTie slur.up note.tieFor <;> cases note.tieBack <;> simp only [] <;>
          first
          | exact ⟨_, rfl⟩
          | (split_ifs <;> exact ⟨_, rfl⟩)
      · exact ⟨_, rfl⟩
  · rw [if_neg hsst]
    cases hf : system.firstChordRest slur.track with
    | none => exact ⟨_, rfl⟩
    | some cr =>
      simp only []
      cases hc : cr.chord with
      | none => exact ⟨_, rfl⟩
      | some c =>
        simp only []
        split_ifs
        · rcases hn : c.notes with _ | ⟨note, tl⟩
          · exact absurd hn (hnotes cr c hf hc)
          · simp only []
            cases note.tieBack with
            | none => exact ⟨_, rfl⟩
            | some tb => simp only []; split_ifs <;> exact ⟨_, rfl⟩
        · exact ⟨_, rfl⟩

/-- The end anchor is computed when the end chordrest is set and the last chord
of the system has a note. -/
theorem Slur.endAnchor_some (spatium : ℚ) (slur : Slur) (system : System)
    (sst : SpannerSegmentType) (p1 p2 : PointF) (ecr : ChordRest) (he : slur.endCR = some ecr)
    (hnotes : ∀ cr c, system.lastChordRest slur.track = some cr → cr.chord = some c →
      c.notes ≠ []) :
    ∃ r, Slur.endAnchor spatium slur system sst p1 p2 = some r := by
  unfold Slur.endAnchor
  simp only [he]
  by_cases hsst : sst = .SINGLE ∨ sst = .END
  · rw [if_pos hsst]
    cases ecr.chord with
    | none => exact ⟨_, rfl⟩
    | some ec =>
      simp only []
      rcases hn : ec.notes with _ | ⟨note, _ | ⟨n2, tl⟩⟩
      · exact ⟨_, rfl⟩
      · simp only []
        cases Slur.sameSideTie slur.up note.tieBack <;> cases note.tieFor <;> simp only [] <;>
          first
          | exact ⟨_, rfl⟩
          | (split_ifs <;> exact ⟨_, rfl⟩)
      · exact ⟨_, rfl⟩
  · rw [if_neg hsst]
    cases hf : system.lastChordRest slur.track with
    | none => exact ⟨_, rfl⟩
    | some cr =>
      simp only []
      cases hc : cr.chord with
      | none => exact ⟨_, rfl⟩
      | some c =>
        simp only []
        split_ifs
        · rcases hn : c.notes with _ | ⟨note, tl⟩
          · exact absurd hn (hnotes cr c hf hc)
          · simp only []
            cases note.tieFor with
            | none => exact ⟨_, rfl⟩
            | some tb => simp only []; split_ifs <;> exact ⟨_, rfl⟩
        · exact ⟨_, rfl⟩

/-- `layoutSystem` returns, after a call of `layoutSegment`, when its first part
leaves a slur with both chordrests in measures, the first and last chord of the
system have a note, and a segment with autoplace has a staff. -/
theorem Slur.layoutSystem_returns_of (ctx : SlurCtx) (slur : Slur) (system : System)
    (seg : SlurSegment) (slur1 : Slur) (seg1 : SlurSegment) (sst : SpannerSegmentType)
    (scr ecr : ChordRest) (m1 m2 : Measure)
    (hT : Slur.segmentTypeAndDirection slur system seg = (slur1, seg1, some sst))
    (hs1 : slur1.startCR = some scr) (hm1 : scr.measure = some m1)
    (he1 : slur1.endCR = some ecr) (hm2 : ecr.measure = some m2)
    (hfirst : ∀ cr c, system.firstChordRest slur1.track = some cr → cr.chord = some c →
      c.notes ≠ [])
    (hlast : ∀ cr c, system.lastChordRest slur1.track = some cr → cr.chord = some c →
      c.notes ≠ [])
    (hstaff : seg1.autoplace = true → ctx.seg.staff.isSome) :
    ∃ r, Slur.layoutSystem ctx slur system seg = some r ∧ r.anchors.isSome := by
  obtain ⟨sPos, hp⟩ := Slur.slurPos_some ctx slur1 scr ecr m1 m2 hs1 hm1 he1 hm2
  obtain ⟨⟨p1, constrain⟩, hsa⟩ := Slur.startAnchor_some ctx.seg.spatium slur1 system sst
    sPos.p1 scr hs1 hfirst
  obtain ⟨p2, hea⟩ := Slur.endAnchor_some ctx.seg.spatium slur1 system sst p1 sPos.p2 ecr he1
    hlast
  have hsafe : SlurSegment.Safe ctx.seg slur1 { seg1 with spannerSegmentType := sst } :=
    ⟨by rw [hs1]; rfl, by rw [he1]; rfl, hstaff⟩
  unfold Slur.layoutSystem
  simp only [hT, hp, hsa, hea]
  obtain ⟨r, hr, -⟩ := SlurSegment.layoutSegment_spec ctx.seg slur1
    { seg1 with spannerSegmentType := sst }
    (if constrain = true then
      (⟨p1.x, p2.y + 25 / 100 * ctx.seg.spatium * (if slur1.up = true then -1 else 1)⟩ : PointF)
     else p1) p2 hsafe
  rw [hr]
  exact ⟨_, rfl, rfl⟩

/-- On well-formed input `layoutSystem` returns, after a call of
`layoutSegment`. -/
theorem Slur.layoutSystem_returns (ctx : SlurCtx) (slur : Slur) (system : System)
    (seg : SlurSegment) (hwf : Slur.WellFormed ctx slur system seg) :
    ∃ r, Slur.layoutSystem ctx slur system seg = some r ∧ r.anchors.isSome := by
  obtain ⟨⟨scr, m1, hs, hm1⟩, ⟨ecr, m2, he, hm2⟩, hfirst, hlast, hstaff⟩ := hwf
  obtain ⟨slur1, seg1, sst, hT, hs1, he1, htr, hauto⟩ :=
    Slur.segmentTypeAndDirection_wf slur system seg scr ecr m1 hs hm1 he
  exact Slur.layoutSystem_returns_of ctx slur system seg slur1 seg1 sst scr ecr m1 m2 hT hs1
    hm1 he1 hm2 (by rw [htr]; exact hfirst) (by rw [htr]; exact hlast)
    (fun ha => hstaff (by rw [← hauto]; exact ha))

/-- The first part of `layoutSystem` on the first call for a slur whose start
chordrest lies in a measure and whose end chordrest is missing: the start
chordrest becomes the end chordrest, `tick2` becomes `tick`, and the type is
SINGLE when `tick < etick` and BEGIN otherwise. -/
theorem Slur.segmentTypeAndDirection_noEnd (slur : Slur) (system : System) (seg : SlurSegment)
    (scr : ChordRest) (m1 : Measure) (hs : slur.startCR = some scr)
    (hm : scr.measure = some m1) (he : slur.endCR = none)
    (ht : slur.tick ≥ system.firstMeasureTick) :
    ∃ slur1 seg1, Slur.segmentTypeAndDirection slur system seg =
        (slur1, seg1,
          some (if slur.tick < system.lastMeasureEndTick then SpannerSegmentType.SINGLE
                else SpannerSegmentType.BEGIN))
      ∧ slur1.startCR = some scr ∧ slur1.endCR = some scr ∧ slur1.track = slur.track
      ∧ seg1.autoplace = seg.autoplace := by
  have hfs : slur.fixTrack2.startCR = some scr := by
    unfold Slur.fixTrack2; cases slur.track2 <;> exact hs
  have hfe : slur.fixTrack2.endCR = none := by
    unfold Slur.fixTrack2; cases slur.track2 <;> exact he
  have hft : slur.fixTrack2.track = slur.track := by
    unfold Slur.fixTrack2; cases slur.track2 <;> rfl
  have hftk : slur.fixTrack2.tick = slur.tick := by
    unfold Slur.fixTrack2; cases slur.track2 <;> rfl
  have hfix : slur.fixTrack2.fixEnd =
      { slur.fixTrack2 with endCR := some scr, ticks := slur.tick - slur.tick } := by
    unfold Slur.fixEnd Slur.setTick2
    simp only [hfe, hfs, hftk]
  unfold Slur.segmentTypeAndDirection
  simp only [if_pos ht, hfs, hm, hfix, Slur.tick2, hftk, sub_self, add_zero]
  refine ⟨_, _, rfl, rfl, rfl, hft, ?_⟩
  split_ifs <;> rfl

/-- The example system and slur are well formed. -/
theorem exWellFormed (up : Bool) (scr ecr : ChordRest) (m1 m2 : Measure) (arr : ℤ)
    (hm1 : scr.measure = some m1) (hm2 : ecr.measure = some m2) (seg : SlurSegment)
    (sid : Nat) (first last : Option ChordRest)
    (hf : ∀ cr c, first = some cr → cr.chord = some c → c.notes ≠ [])
    (hl : ∀ cr c, last = some cr → cr.chord = some c → c.notes ≠ []) :
    Slur.WellFormed exSlurCtx { exSlur up scr ecr with sourceStemArrangement := arr }
      (exSystem sid first last) seg :=
  ⟨⟨scr, m1, rfl, hm1⟩, ⟨ecr, m2, rfl, hm2⟩, hf, hl, fun _ => rfl⟩

/-- The example chords have a note. -/
theorem exChordRest_notes (id : Nat) (tick : ℚ) (up : Bool) (cr : ChordRest) (c : Chord)
    (h : some (exChordRest id tick up) = some cr) (hc : cr.chord = some c) : c.notes ≠ [] := by
  simp only [Option.some.injEq] at h
  subst h
  simp only [exChordRest, Option.some.injEq] at hc
  subst hc
  simp [exChord]

/-- C7, as stated, fails: an AUTO slur between two stem-up chords that was
copied from a passage with two stem-down chords (`_sourceStemArrangement = 0`,
while `calcStemArrangement` is 6) is laid out on its system with the segment it
already has, whose `START` grip the user had moved by (1, 1): the call returns
and the user offset of `START` is (0, 0). -/
theorem C7_counterexample :
    ∃ r, Slur.layoutSystem exSlurCtx
          { exSlur true (exChordRest 1 0 true) (exChordRest 2 (1 / 2) true) with
            sourceStemArrangement := 0 }
          (exSystem 0 (some (exChordRest 1 0 true)) (some (exChordRest 2 (1 / 2) true)))
          (exSegment ⟨0, 0⟩ ⟨1, 1⟩ ⟨0, 0⟩ ⟨0, 0⟩) = some r
      ∧ ((exSegment ⟨0, 0⟩ ⟨1, 1⟩ ⟨0, 0⟩ ⟨0, 0⟩).ups .START).off = ⟨1, 1⟩
      ∧ (r.seg.ups .START).off = ⟨0, 0⟩ := by
  obtain ⟨r, hr, -⟩ := Slur.layoutSystem_returns exSlurCtx
    { exSlur true (exChordRest 1 0 true) (exChordRest 2 (1 / 2) true) with
      sourceStemArrangement := 0 }
    (exSystem 0 (some (exChordRest 1 0 true)) (some (exChordRest 2 (1 / 2) true)))
    (exSegment ⟨0, 0⟩ ⟨1, 1⟩ ⟨0, 0⟩ ⟨0, 0⟩)
    (exWellFormed true _ _ exMeasure exMeasure 0 rfl rfl _ 0 _ _
      (exChordRest_notes 1 0 true) (exChordRest_notes 2 (1 / 2) true))
  refine ⟨r, hr, rfl, ?_⟩
  rw [Slur.layoutSystem_offsets_eq _ _ _ _ r hr .START]
  have hres : Slur.resetsGrips
      { exSlur true (exChordRest 1 0 true) (exChordRest 2 (1 / 2) true) with
        sourceStemArrangement := 0 }
      (exSystem 0 (some (exChordRest 1 0 true)) (some (exChordRest 2 (1 / 2) true))) = true := by
    norm_num [Slur.resetsGrips, calcStemArrangement, exSlur, exSystem, exChordRest, exChord,
      exMeasure]
  rw [if_pos hres]
  rfl

/-- C7, amended: a `layoutSystem` call that returns leaves the user offset of
every grip of the segment it was given (`START`, `BEZIER1`, `BEZIER2`, `END`,
`SHOULDER`, `DRAG`) exactly as it was, unless the grips are reset: on the first
call for a system (`tick() >= stick`) of an AUTO slur with its start chordrest
and measure set, whose recorded source stem arrangement is set (not -1) and
differs from `calcStemArrangement` of its chords, every user offset is zero
after the call. -/
theorem Slur.layoutSystem_keeps_user_offsets (ctx : SlurCtx) (slur : Slur) (system : System)
    (seg : SlurSegment) (r : LayoutSystemResult)
    (h : Slur.layoutSystem ctx slur system seg = some r) (g : Grip) :
    (Slur.resetsGrips slur system = false → (r.seg.ups g).off = (seg.ups g).off)
      ∧ (Slur.resetsGrips slur system = true → (r.seg.ups g).off = PointF.zero) := by
  have hoff := Slur.layoutSystem_offsets_eq ctx slur system seg r h g
  constructor
  · intro hres
    rw [hoff, hres]
    rfl
  · intro hres
    rw [hoff, hres]
    rfl

/-- The amended C7 on a slur that was not copied (`_sourceStemArrangement = -1`),
with the `START` grip moved by (1, 1) before the call: the call returns and the
offset is still (1, 1). -/
theorem Slur.layoutSystem_keeps_user_offsets_witness :
    ∃ r, Slur.layoutSystem exSlurCtx
          { exSlur true (exChordRest 1 0 true) (exChordRest 2 (1 / 2) true) with
            sourceStemArrangement := -1 }
          (exSystem 0 (some (exChordRest 1 0 true)) (some (exChordRest 2 (1 / 2) true)))
          (exSegment ⟨0, 0⟩ ⟨1, 1⟩ ⟨0, 0⟩ ⟨0, 0⟩) = some r
      ∧ (r.seg.ups .START).off = ⟨1, 1⟩ := by
  obtain ⟨r, hr, -⟩ := Slur.layoutSystem_returns exSlurCtx
    { exSlur true (exChordRest 1 0 true) (exChordRest 2 (1 / 2) true) with
      sourceStemArrangement := -1 }
    (exSystem 0 (some (exChordRest 1 0 true)) (some (exChordRest 2 (1 / 2) true)))
    (exSegment ⟨0, 0⟩ ⟨1, 1⟩ ⟨0, 0⟩ ⟨0, 0⟩)
    (exWellFormed true _ _ exMeasure exMeasure (-1) rfl rfl _ 0 _ _
      (exChordRest_notes 1 0 true) (exChordRest_notes 2 (1 / 2) true))
  refine ⟨r, hr, ?_⟩
  have hres : Slur.resetsGrips
      { exSlur true (exChordRest 1 0 true) (exChordRest 2 (1 / 2) true) with
        sourceStemArrangement := -1 }
      (exSystem 0 (some (exChordRest 1 0 true)) (some (exChordRest 2 (1 / 2) true))) = false := by
    norm_num [Slur.resetsGrips, calcStemArrangement, exSlur, exSystem, exChordRest, exChord,
      exMeasure]
  exact (Slur.layoutSystem_keeps_user_offsets _ _ _ _ r hr .START).1 hres

/-! ### Type of the segment (`Slur::layoutSystem`) -/

/-- The type computed by the first part of `layoutSystem` for a slur whose
start chordrest lies in a measure and whose end chordrest is set. -/
theorem Slur.segmentTypeAndDirection_type (slur : Slur) (system : System) (seg : SlurSegment)
    (scr ecr : ChordRest) (m1 : Measure) (hs : slur.startCR = some scr)
    (hm : scr.measure = some m1) (he : slur.endCR = some ecr) :
    (Slur.segmentTypeAndDirection slur system seg).2.2 =
      some (segmentTypeOfTicks slur.tick slur.tick2 system.firstMeasureTick
        system.lastMeasureEndTick) := by
  have hfs : slur.fixTrack2.startCR = some scr := by
    unfold Slur.fixTrack2; cases slur.track2 <;> exact hs
  have hfe : slur.fixTrack2.endCR = some ecr := by
    unfold Slur.fixTrack2; cases slur.track2 <;> exact he
  have hfix : slur.fixTrack2.fixEnd = slur.fixTrack2 := by
    unfold Slur.fixEnd; rw [hfe]
  have hk1 : slur.fixTrack2.tick = slur.tick := by
    unfold Slur.fixTrack2; cases slur.track2 <;> rfl
  have hk2 : slur.fixTrack2.ticks = slur.ticks := by
    unfold Slur.fixTrack2; cases slur.track2 <;> rfl
  unfold Slur.segmentTypeAndDirection segmentTypeOfTicks
  simp only []
  by_cases ht : slur.tick ≥ system.firstMeasureTick
  · rw [if_pos ht, if_pos ht]
    simp only [hfs, hm, hfix, hfe, Slur.tick2, hk1, hk2]
  · rw [if_neg ht, if_neg ht]
    have hlt : slur.tick < system.firstMeasureTick := not_le.mp ht
    by_cases h2 : slur.tick2 ≥ system.lastMeasureEndTick
    · rw [if_pos ⟨hlt, h2⟩, if_pos h2]
    · rw [if_neg (fun h => h2 h.2), if_neg h2]

/-- A `layoutSystem` call that returns after the first part gave a type leaves
that type on the segment. -/
theorem Slur.layoutSystem_type (ctx : SlurCtx) (slur : Slur) (system : System)
    (seg : SlurSegment) (r : LayoutSystemResult) (sst : SpannerSegmentType)
    (h : Slur.layoutSystem ctx slur system seg = some r)
    (ht : (Slur.segmentTypeAndDirection slur system seg).2.2 = some sst) :
    r.seg.spannerSegmentType = sst := by
  unfold Slur.layoutSystem at h
  simp only [] at h
  cases hT : Slur.segmentTypeAndDirection slur system seg with
  | mk slur1 rest =>
    obtain ⟨seg1, osst⟩ := rest
    rw [hT] at ht h
    simp only [] at ht
    subst ht
    simp only [] at h
    cases hp : Slur.slurPos ctx slur1 with
    | none => simp [hp] at h
    | some sPos =>
      simp only [hp] at h
      cases hsa : Slur.startAnchor ctx.seg.spatium slur1 system sst sPos.p1 with
      | none => simp [hsa] at h
      | some pa =>
        obtain ⟨p1, constrain⟩ := pa
        simp only [hsa] at h
        cases hea : Slur.endAnchor ctx.seg.spatium slur1 system sst p1 sPos.p2 with
        | none => simp [hea] at h
        | some p2 =>
          simp only [hea] at h
          generalize (if constrain = true then
            (⟨p1.x, p2.y + 25 / 100 * ctx.seg.spatium * (if slur1.up = true then -1 else 1)⟩ :
              PointF) else p1) = p1' at h
          cases hls : SlurSegment.layoutSegment ctx.seg slur1
              { seg1 with spannerSegmentType := sst } p1' p2 with
          | none => simp [hls] at h
          | some rs =>
            simp only [hls, Option.some.injEq] at h
            subst h
            obtain ⟨hk, -⟩ := SlurSegment.layoutSegment_kept ctx.seg slur1 _ p1' p2 rs hls
            exact hk.2.2.2.2.2.2.2.2.2

/-- C8, as stated, fails: a slur with tick 0 and tick2 2 whose start chordrest
is set and whose end chordrest is missing, on the system from tick 0 to tick 1,
has `tick >= stick` and `tick2 >= etick`, which the claim types BEGIN; the
sanity check of `layoutSystem` first sets `tick2` to `tick`, the call returns
and the segment is of type SINGLE. -/
theorem C8_counterexample :
    ({ exSlur true (exChordRest 1 0 true) (exChordRest 2 2 true) with endCR := none }).tick
        ≥ (exSystem 0 (some (exChordRest 1 0 true)) none).firstMeasureTick
      ∧ ({ exSlur true (exChordRest 1 0 true) (exChordRest 2 2 true) with endCR := none }).tick2
        ≥ (exSystem 0 (some (exChordRest 1 0 true)) none).lastMeasureEndTick
      ∧ ∃ r, Slur.layoutSystem exSlurCtx
            { exSlur true (exChordRest 1 0 true) (exChordRest 2 2 true) with endCR := none }
            (exSystem 0 (some (exChordRest 1 0 true)) none)
            (exSegment ⟨0, 0⟩ ⟨0, 0⟩ ⟨0, 0⟩ ⟨0, 0⟩) = some r
          ∧ r.seg.spannerSegmentType = .SINGLE := by
  refine ⟨?_, ?_, ?_⟩
  · norm_num [exSlur, exSystem, exChordRest]
  · norm_num [exSlur, exSystem, exChordRest, Slur.tick2]
  · obtain ⟨slur1, seg1, hT, hs1, he1, htr, hauto⟩ := Slur.segmentTypeAndDirection_noEnd
      { exSlur true (exChordRest 1 0 true) (exChordRest 2 2 true) with endCR := none }
      (exSystem 0 (some (exChordRest 1 0 true)) none)
      (exSegment ⟨0, 0⟩ ⟨0, 0⟩ ⟨0, 0⟩ ⟨0, 0⟩) (exChordRest 1 0 true) exMeasure rfl rfl rfl
      (by norm_num [exSlur, exSystem, exChordRest])
    have hlt : ({ exSlur true (exChordRest 1 0 true) (exChordRest 2 2 true) with
        endCR := none } : Slur).tick
        < (exSystem 0 (some (exChordRest 1 0 true)) none).lastMeasureEndTick := by
      norm_num [exSlur, exSystem, exChordRest]
    rw [if_pos hlt] at hT
    obtain ⟨r, hr, -⟩ := Slur.layoutSystem_returns_of exSlurCtx _ _ _ slur1 seg1 .SINGLE
      (exChordRest 1 0 true) (exChordRest 1 0 true) exMeasure exMeasure hT hs1 rfl he1 rfl
      (exChordRest_notes 1 0 true) (fun cr c h => by simp [exSystem] at h) (fun _ => rfl)
    refine ⟨r, hr, ?_⟩
    apply Slur.layoutSystem_type _ _ _ _ r _ hr
    rw [hT]

/-- C8, amended: given a start chordrest that lies in a measure and a present
end chordrest, the type that `layoutSystem` gives the segment is a function of
the slur's `(tick, tick2)` and the system's `(stick, etick)` alone: SINGLE iff
`tick >= stick` and `tick2 < etick`; BEGIN iff `tick >= stick` and
`tick2 >= etick`; MIDDLE iff `tick < stick` and `tick2 >= etick`; END iff
`tick < stick` and `tick2 < etick`. This holds for every call that returns, and
the call returns on well-formed input. -/
theorem Slur.layoutSystem_segment_type (ctx : SlurCtx) (slur : Slur) (system : System)
    (seg : SlurSegment) (scr ecr : ChordRest) (m1 : Measure) (hs : slur.startCR = some scr)
    (hm : scr.measure = some m1) (he : slur.endCR = some ecr) :
    (∀ r, Slur.layoutSystem ctx slur system seg = some r →
      (r.seg.spannerSegmentType = .SINGLE ↔
          slur.tick ≥ system.firstMeasureTick ∧ slur.tick2 < system.lastMeasureEndTick)
        ∧ (r.seg.spannerSegmentType = .BEGIN ↔
          slur.tick ≥ system.firstMeasureTick ∧ slur.tick2 ≥ system.lastMeasureEndTick)
        ∧ (r.seg.spannerSegmentType = .MIDDLE ↔
          slur.tick < system.firstMeasureTick ∧ slur.tick2 ≥ system.lastMeasureEndTick)
        ∧ (r.seg.spannerSegmentType = .END ↔
          slur.tick < system.firstMeasureTick ∧ slur.tick2 < system.lastMeasureEndTick))
      ∧ (Slur.WellFormed ctx slur system seg →
          ∃ r, Slur.layoutSystem ctx slur system seg = some r) := by
  constructor
  · intro r hr
    have ht := Slur.layoutSystem_type ctx slur system seg r _ hr
      (Slur.segmentTypeAndDirection_type slur system seg scr ecr m1 hs hm he)
    rw [ht]
    unfold segmentTypeOfTicks
    by_cases h1 : slur.tick ≥ system.firstMeasureTick <;>
    by_cases h2 : slur.tick2 < system.lastMeasureEndTick
    · have h1' : ¬ slur.tick < system.firstMeasureTick := not_lt.mpr h1
      have h2' : ¬ slur.tick2 ≥ system.lastMeasureEndTick := not_le.mpr h2
      simp [h1, h2, h1', h2']
    · have h1' : ¬ slur.tick < system.firstMeasureTick := not_lt.mpr h1
      have h2' : slur.tick2 ≥ system.lastMeasureEndTick := not_lt.mp h2
      simp [h1, h2, h1', h2']
    · have h1' : slur.tick < system.firstMeasureTick := not_le.mp h1
      have h2' : ¬ slur.tick2 ≥ system.lastMeasureEndTick := not_le.mpr h2
      simp [h1, h2, h1', h2']
    · have h1' : slur.tick < system.firstMeasureTick := not_le.mp h1
      have h2' : slur.tick2 ≥ system.lastMeasureEndTick := not_lt.mp h2
      simp [h1, h2, h1', h2']
  · intro hwf
    obtain ⟨r, hr, -⟩ := Slur.layoutSystem_returns ctx slur system seg hwf
    exact ⟨r, hr⟩

/-- The amended C8 on a slur from tick 0 to tick 1/2 on the system from tick 0
to tick 1: the call returns and the segment is of type SINGLE. -/
theorem Slur.layoutSystem_segment_type_witness :
    ∃ r, Slur.layoutSystem exSlurCtx
          { exSlur true (exChordRest 1 0 true) (exChordRest 2 (1 / 2) true) with
            sourceStemArrangement := -1 }
          (exSystem 0 (some (exChordRest 1 0 true)) (some (exChordRest 2 (1 / 2) true)))
          (exSegment ⟨0, 0⟩ ⟨0, 0⟩ ⟨0, 0⟩ ⟨0, 0⟩) = some r
      ∧ r.seg.spannerSegmentType = .SINGLE := by
  have h := Slur.layoutSystem_segment_type exSlurCtx
    { exSlur true (exChordRest 1 0 true) (exChordRest 2 (1 / 2) true) with
      sourceStemArrangement := -1 }
    (exSystem 0 (some (exChordRest 1 0 true)) (some (exChordRest 2 (1 / 2) true)))
    (exSegment ⟨0, 0⟩ ⟨0, 0⟩ ⟨0, 0⟩ ⟨0, 0⟩)
    (exChordRest 1 0 true) (exChordRest 2 (1 / 2) true) exMeasure rfl rfl rfl
  obtain ⟨r, hr⟩ := h.2 (exWellFormed true _ _ exMeasure exMeasure (-1) rfl rfl _ 0 _ _
    (exChordRest_notes 1 0 true) (exChordRest_notes 2 (1 / 2) true))
  refine ⟨r, hr, ((h.1 r hr).1).mpr ⟨?_, ?_⟩⟩
  · norm_num [exSlur, exSystem, exChordRest]
  · norm_num [exSlur, exSystem, exChordRest, Slur.tick2]

/-! ### Number and types of the segments (`Slur::layout`) -/

/-- The counting loop of `Slur::layout` adds to `nsegs` the number of systems
that are not vertical boxes, from the start system through the end system,
less one. -/
theorem Slur.countSegments_eq (s2 : Nat) :
    ∀ (is : List System) (nsegs : ℕ), (∃ sys ∈ is, sys.id = s2) →
      (∀ sys ∈ is, sys.id = s2 → sys.vbox = false) →
      Slur.countSegments (some s2) is nsegs + 1 = nsegs + countNonVbox (systemsThrough s2 is) := by
  intro is
  induction is with
  | nil => intro nsegs h; obtain ⟨sys, hm, -⟩ := h; cases hm
  | cons sys rest ih =>
    intro nsegs hocc hvb
    unfold Slur.countSegments systemsThrough
    by_cases hid : sys.id = s2
    · have hv : sys.vbox = false := hvb sys (List.mem_cons_self _ _) hid
      simp [hv, hid, countNonVbox]
    · have hocc' : ∃ x ∈ rest, x.id = s2 := by
        obtain ⟨x, hx, hxid⟩ := hocc
        rcases List.mem_cons.mp hx with h | h
        · subst h; exact absurd hxid hid
        · exact ⟨x, h, hxid⟩
      have hvb' : ∀ x ∈ rest, x.id = s2 → x.vbox = false :=
        fun x hx => hvb x (List.mem_cons_of_mem _ hx)
      cases hv : sys.vbox with
      | true =>
        have := ih nsegs hocc' hvb'
        simp [hv, hid, countNonVbox] at this ⊢
        exact this
      | false =>
        have := ih (nsegs + 1) hocc' hvb'
        simp [hv, hid, countNonVbox] at this ⊢
        omega

theorem Slur.countSegments_ge (s2 : Option Nat) :
    ∀ (is : List System) (nsegs : ℕ), nsegs ≤ Slur.countSegments s2 is nsegs := by
  intro is
  induction is with
  | nil => intro nsegs; exact le_refl _
  | cons sys rest ih =>
    intro nsegs
    unfold Slur.countSegments
    split_ifs
    · exact ih nsegs
    · exact le_refl _
    · exact le_trans (Nat.le_succ _) (ih (nsegs + 1))

theorem Slur.sameButBroken_startCR {a b : Slur} (h : Slur.SameButBroken a b) :
    b.startCR = a.startCR := by
  unfold Slur.SameButBroken at h; rw [h]

theorem Slur.sameButBroken_endCR {a b : Slur} (h : Slur.SameButBroken a b) :
    b.endCR = a.endCR := by
  unfold Slur.SameButBroken at h; rw [h]

/-- The layout loop of `Slur::layout` returns when the slur has both chordrests,
the segments are on a staff, and there are as many segments as the counting
loop found. -/
theorem Slur.layoutLoop_some (ctx : SlurCtx) (sPos : SlurPos) (hstaff : ctx.seg.staff.isSome) :
    ∀ (is : List System) (i : ℕ) (st : Slur.LoopState),
      st.slur.startCR.isSome → st.slur.endCR.isSome →
      Slur.countSegments sPos.system2 is (i + 1) ≤ st.segments.length →
      ∃ st', Slur.layoutLoop ctx sPos is i st = some st'
        ∧ Slur.SameButBroken st.slur st'.slur := by
  intro is
  induction is with
  | nil =>
    intro i st _ _ _
    exact ⟨st, rfl, Slur.sameButBroken_refl _⟩
  | cons system rest ih =>
    intro i st hs he hlen
    unfold Slur.layoutLoop
    unfold Slur.countSegments at hlen
    cases hv : system.vbox with
    | true =>
      simp only [hv, if_true] at hlen ⊢
      exact ih i st hs he hlen
    | false =>
      simp only [hv, Bool.false_eq_true, if_false] at hlen ⊢
      have hi : i < st.segments.length := by
        by_cases hid : some system.id = sPos.system2
        · rw [if_pos hid] at hlen; omega
        · rw [if_neg hid] at hlen
          have := Slur.countSegments_ge sPos.system2 rest (i + 1 + 1)
          omega
      rw [List.getElem?_eq_getElem hi]
      simp only []
      generalize hcall : (if sPos.system1 = sPos.system2 then
          (⟨i, .SINGLE, sPos.p1, sPos.p2⟩ : LayoutCall)
        else if i = 0 then ⟨i, .BEGIN, sPos.p1, ⟨system.bboxWidth, sPos.p1.y⟩⟩
        else if i ≠ 0 ∧ some system.id ≠ sPos.system2 then
          ⟨i, .MIDDLE,
            ⟨system.firstNoteRestSegmentX,
              if st.slur.staffIdx > system.stavesSize then system.y
              else system.staffY st.slur.staffIdx⟩,
            ⟨system.bboxWidth,
              if st.slur.staffIdx > system.stavesSize then system.y
              else system.staffY st.slur.staffIdx⟩⟩
        else ⟨i, .END, ⟨system.firstNoteRestSegmentX, sPos.p2.y⟩, sPos.p2⟩) = call
      obtain ⟨r, hr, -, hb, -⟩ := SlurSegment.layoutSegment_spec ctx.seg st.slur
        { st.segments[i] with system := some system, spannerSegmentType := call.type }
        call.p1 call.p2 ⟨hs, he, fun _ => hstaff⟩
      rw [hr]
      simp only []
      by_cases hid : some system.id = sPos.system2
      · rw [if_pos hid]
        exact ⟨_, rfl, hb⟩
      · rw [if_neg hid] at hlen ⊢
        obtain ⟨st', hst', hb'⟩ := ih (i + 1)
          { slur := r.slur, segments := st.segments.set i r.seg, calls := st.calls ++ [call] }
          (by rw [Slur.sameButBroken_startCR hb]; exact hs) (by rw [Slur.sameButBroken_endCR hb]; exact he)
          (by simpa using hlen)
        exact ⟨st', hst', Slur.sameButBroken_trans hb hb'⟩

theorem fixupSegments_length (newSegment : SlurSegment) (nsegs : ℕ) (segments : List SlurSegment) :
    (fixupSegments newSegment nsegs segments).length = nsegs := by
  unfold fixupSegments
  split_ifs with h
  · exact h
  · exact List.length_replicate _ _

/-- A run of `Slur::layout` on a slur in a score (not a palette) whose two
chordrests lie in measures of the systems `s1` and `s2`, on a staff: the
function returns, after asking `fixupSegments` for the number of segments that
the counting loop found and running the layout loop from the start system. -/
theorem Slur.layout_run (ctx : SlurCtx) (sl : List System) (slur : Slur)
    (segments : List SlurSegment) (scr ecr : ChordRest) (m1 m2 : Measure) (s1 s2 : Nat)
    (hpal : ctx.isPaletteScore = false) (htick : slur.tick ≠ -1)
    (hs : slur.startCR = some scr) (hm1 : scr.measure = some m1)
    (he : slur.endCR = some ecr) (hm2 : ecr.measure = some m2)
    (hs1 : m1.system = some s1) (hs2 : m2.system = some s2)
    (hstaff : ctx.seg.staff.isSome) :
    ∃ slur1 p1 p2 st',
      Slur.layoutLoop ctx ⟨p1, p2, some s1, some s2⟩ (Slur.systemsFrom (some s1) sl) 0
          { slur := slur1,
            segments := fixupSegments ctx.newSegment
              (Slur.countSegments (some s2) (Slur.systemsFrom (some s1) sl) 1) segments,
            calls := [] } = some st'
      ∧ st'.slur.up = Slur.directionLayout slur scr m1 ecr
      ∧ Slur.layout ctx sl slur segments = some
          { slur := { st'.slur with bbox := (match st'.segments with
                        | [] => RectF.zero
                        | front :: _ => front.bbox) },
            segments := st'.segments,
            nsegs := some (Slur.countSegments (some s2) (Slur.systemsFrom (some s1) sl) 1),
            calls := st'.calls } := by
  have hfs : slur.fixTrack2.startCR = some scr := by
    unfold Slur.fixTrack2; cases slur.track2 <;> exact hs
  have hfe : slur.fixTrack2.endCR = some ecr := by
    unfold Slur.fixTrack2; cases slur.track2 <;> exact he
  have hft : slur.fixTrack2.tick = slur.tick := by
    unfold Slur.fixTrack2; cases slur.track2 <;> rfl
  have hfix : slur.fixTrack2.fixEnd = slur.fixTrack2 := by
    unfold Slur.fixEnd; rw [hfe]
  have hcond : ¬ (ctx.isPaletteScore = true ∨ slur.fixTrack2.tick = -1) := by
    rw [hpal, hft]
    simp [htick]
  unfold Slur.layout
  simp only [if_neg hcond, hfs, hm1, hfix, hfe, Slur.slurPos, hm2, hs1, hs2]
  obtain ⟨st', hst', hsame⟩ := Slur.layoutLoop_some ctx
    ⟨(ctx.slurAnchors { slur.fixTrack2 with
        up := Slur.directionLayout slur.fixTrack2 scr m1 ecr }).1,
     (ctx.slurAnchors { slur.fixTrack2 with
        up := Slur.directionLayout slur.fixTrack2 scr m1 ecr }).2, some s1, some s2⟩ hstaff
    (Slur.systemsFrom (some s1) sl) 0
    { slur := { slur.fixTrack2 with
        up := Slur.directionLayout slur.fixTrack2 scr m1 ecr, pos := ⟨0, 0⟩ },
      segments := fixupSegments ctx.newSegment
        (Slur.countSegments (some s2) (Slur.systemsFrom (some s1) sl) 1) segments,
      calls := [] }
    (by simp only [hfs]; rfl) (by simp only [hfe]; rfl)
    (by simp only [fixupSegments_length]; exact le_refl _)
  have hup : st'.slur.up = Slur.directionLayout slur scr m1 ecr := by
    unfold Slur.SameButBroken at hsame
    rw [hsame]
    simp only []
    unfold Slur.directionLayout Slur.fixTrack2
    cases slur.track2 <;> rfl
  refine ⟨_, _, _, st', hst', hup, ?_⟩
  simp only [hfs, hfe] at hst'
  simp only [hst']

/-- The search for the start system skips the systems before the first one
with the identity of `system1`. -/
theorem Slur.systemsFrom_append (s1 : Nat) (pre rest : List System)
    (hpre : ∀ x ∈ pre, x.id ≠ s1)
    (hfirst : (rest.head?.map fun sys => sys.id) = some s1) :
    Slur.systemsFrom (some s1) (pre ++ rest) = rest := by
  unfold Slur.systemsFrom
  induction pre with
  | nil =>
    cases rest with
    | nil => simp at hfirst
    | cons y ys =>
      simp only [List.head?_cons, Option.map_some', Option.some.injEq] at hfirst
      simp [List.dropWhile_cons, hfirst]
  | cons x xs ih =>
    have hx := hpre x (List.mem_cons_self _ _)
    rw [List.cons_append, List.dropWhile_cons]
    have hd : decide (some x.id ≠ some s1) = true := by simpa using hx
    rw [if_pos hd]
    exact ih (fun y hy => hpre y (List.mem_cons_of_mem _ hy))

/-- The counting loop over the systems `a`, none of them the end system,
followed by the end system: `nsegs` grows by the number of systems of `a`
that are not vertical boxes. -/
theorem Slur.countSegments_through (s2 : Nat) (sys2 : System) (post : List System)
    (hid2 : sys2.id = s2) (hv2 : sys2.vbox = false) :
    ∀ (a : List System) (nsegs : ℕ), (∀ x ∈ a, x.id ≠ s2) →
      Slur.countSegments (some s2) (a ++ sys2 :: post) nsegs = nsegs + countNonVbox a := by
  intro a
  induction a with
  | nil =>
    intro nsegs _
    simp [Slur.countSegments, hv2, hid2, countNonVbox]
  | cons x xs ih =>
    intro nsegs ha
    have hx := ha x (List.mem_cons_self _ _)
    have ih' := fun n => ih n (fun y hy => ha y (List.mem_cons_of_mem _ hy))
    rw [List.cons_append, Slur.countSegments]
    by_cases hv : x.vbox = true
    · rw [if_pos hv, ih']
      simp [countNonVbox, hv]
    · rw [if_neg hv, if_neg (by simpa using hx), ih']
      have hv' : x.vbox = false := by simpa using hv
      simp only [countNonVbox, List.filter_cons, hv', Bool.not_false, if_true,
        List.length_cons]
      omega

/-- C9: for every system list `sl` that consists of systems `pre`, none of
them the start system, then the systems `a` followed by the end system `sys2`,
the first of these being the start system and none of `a` being the end
system, and then any systems `post`, `Slur::layout` (for a slur in a score,
both chordrests in measures, on a staff) returns, and the number of segments
it requests from `fixupSegments` is the number of systems that are not
vertical boxes from the start system through the end system inclusive, that
is, among `a` and `sys2`. The end system holds a measure, so it is not a
vertical box. -/
theorem Slur.layout_segment_count (ctx : SlurCtx) (sl : List System) (slur : Slur)
    (segments : List SlurSegment) (scr ecr : ChordRest) (m1 m2 : Measure) (s1 s2 : Nat)
    (hpal : ctx.isPaletteScore = false) (htick : slur.tick ≠ -1)
    (hs : slur.startCR = some scr) (hm1 : scr.measure = some m1)
    (he : slur.endCR = some ecr) (hm2 : ecr.measure = some m2)
    (hs1 : m1.system = some s1) (hs2 : m2.system = some s2)
    (hstaff : ctx.seg.staff.isSome)
    (pre a post : List System) (sys2 : System)
    (hsl : sl = pre ++ (a ++ sys2 :: post))
    (hpre : ∀ x ∈ pre, x.id ≠ s1)
    (hfirst : ((a ++ [sys2]).head?.map fun sys => sys.id) = some s1)
    (ha : ∀ x ∈ a, x.id ≠ s2) (hid2 : sys2.id = s2) (hv2 : sys2.vbox = false) :
    ∃ r, Slur.layout ctx sl slur segments = some r
      ∧ r.nsegs = some (countNonVbox (a ++ [sys2])) := by
  obtain ⟨slur1, p1, p2, st', -, -, hrun⟩ := Slur.layout_run ctx sl slur segments scr ecr m1 m2
    s1 s2 hpal htick hs hm1 he hm2 hs1 hs2 hstaff
  refine ⟨_, hrun, ?_⟩
  have hfirst' : ((a ++ sys2 :: post).head?.map fun sys => sys.id) = some s1 := by
    cases a with
    | nil => simpa using hfirst
    | cons x xs => simpa using hfirst
  have hfrom : Slur.systemsFrom (some s1) sl = a ++ sys2 :: post := by
    rw [hsl]
    exact Slur.systemsFrom_append s1 pre _ hpre hfirst'
  have hcount := Slur.countSegments_through s2 sys2 post hid2 hv2 a 1 ha
  simp only [hfrom, hcount, Option.some.injEq]
  simp only [countNonVbox, List.filter_append, List.filter_cons, hv2, Bool.not_false, if_true,
    List.filter_nil, List.length_append, List.length_cons, List.length_nil]
  omega

/-- C9 on the systems 7, 0, a vertical box, 1, 2, for a slur from system 0 to
system 1: two segments are requested, for the systems 0 and 1; the system 7
before the start system and the system 2 after the end system do not count. -/
theorem Slur.layout_segment_count_witness :
    ∃ r, Slur.layout exSlurCtx
          [exSystem 7 none none, exSystem 0 none none, exVBox 9, exSystem 1 none none,
            exSystem 2 none none]
          (exSlur true (exChordRestIn 0 1 0 true) (exChordRestIn 1 2 3 true)) [] = some r
      ∧ r.nsegs = some 2 := by
  obtain ⟨r, hr, hn⟩ := Slur.layout_segment_count exSlurCtx
    [exSystem 7 none none, exSystem 0 none none, exVBox 9, exSystem 1 none none,
      exSystem 2 none none]
    (exSlur true (exChordRestIn 0 1 0 true) (exChordRestIn 1 2 3 true)) []
    (exChordRestIn 0 1 0 true) (exChordRestIn 1 2 3 true)
    { exMeasure with system := some 0 } { exMeasure with system := some 1 } 0 1
    rfl (by norm_num [exSlur, exChordRestIn, exChordRest]) rfl rfl rfl rfl rfl rfl rfl
    [exSystem 7 none none] [exSystem 0 none none, exVBox 9] [exSystem 2 none none]
    (exSystem 1 none none) rfl
    (by
      intro x hx
      simp only [List.mem_singleton] at hx
      subst hx
      simp [exSystem])
    rfl
    (by
      intro x hx
      simp only [List.mem_cons, List.mem_singleton, List.not_mem_nil, or_false] at hx
      rcases hx with h | h <;> subst h <;> simp [exVBox, exSystem])
    rfl rfl
  refine ⟨r, hr, ?_⟩
  rw [hn]
  simp [countNonVbox, exSystem, exVBox]

/-- One step of the layout loop of `Slur::layout` on a system that is not a
vertical box: a run that returns has called `layoutSegment` for the segment `i`
with the type that the four cases give, and has stopped after the end system
or gone on with `i + 1`. -/
theorem Slur.layoutLoop_step (ctx : SlurCtx) (sPos : SlurPos) (system : System)
    (rest : List System) (i : ℕ) (st st' : Slur.LoopState) (hv : system.vbox = false)
    (h : Slur.layoutLoop ctx sPos (system :: rest) i st = some st') :
    ∃ call : LayoutCall,
      call.kind = (i,
        if sPos.system1 = sPos.system2 then SpannerSegmentType.SINGLE
        else if i = 0 then SpannerSegmentType.BEGIN
        else if some system.id ≠ sPos.system2 then SpannerSegmentType.MIDDLE
        else SpannerSegmentType.END)
      ∧ ((some system.id = sPos.system2 ∧ st'.calls = st.calls ++ [call])
        ∨ (some system.id ≠ sPos.system2 ∧ ∃ st1 : Slur.LoopState,
            st1.calls = st.calls ++ [call]
            ∧ Slur.layoutLoop ctx sPos rest (i + 1) st1 = some st')) := by
  unfold Slur.layoutLoop at h
  simp only [hv, Bool.false_eq_true, if_false] at h
  cases hseg : st.segments[i]? with
  | none => simp [hseg] at h
  | some segment =>
    simp only [hseg] at h
    generalize hcall : (if sPos.system1 = sPos.system2 then
        (⟨i, .SINGLE, sPos.p1, sPos.p2⟩ : LayoutCall)
      else if i = 0 then ⟨i, .BEGIN, sPos.p1, ⟨system.bboxWidth, sPos.p1.y⟩⟩
      else if i ≠ 0 ∧ some system.id ≠ sPos.system2 then
        ⟨i, .MIDDLE,
          ⟨system.firstNoteRestSegmentX,
            if st.slur.staffIdx > system.stavesSize then system.y
            else system.staffY st.slur.staffIdx⟩,
          ⟨system.bboxWidth,
            if st.slur.staffIdx > system.stavesSize then system.y
            else system.staffY st.slur.staffIdx⟩⟩
      else ⟨i, .END, ⟨system.firstNoteRestSegmentX, sPos.p2.y⟩, sPos.p2⟩) = call at h
    have hkind : call.kind = (i,
        if sPos.system1 = sPos.system2 then SpannerSegmentType.SINGLE
        else if i = 0 then SpannerSegmentType.BEGIN
        else if some system.id ≠ sPos.system2 then SpannerSegmentType.MIDDLE
        else SpannerSegmentType.END) := by
      subst hcall
      unfold LayoutCall.kind
      by_cases h1 : sPos.system1 = sPos.system2
      · simp [h1]
      · by_cases h2 : i = 0
        · simp [h1, h2]
        · by_cases h3 : some system.id ≠ sPos.system2
          · simp [h1, h2, h3]
          · simp [h1, h2, h3]
    refine ⟨call, hkind, ?_⟩
    cases hls : SlurSegment.layoutSegment ctx.seg st.slur
        { segment with system := some system, spannerSegmentType := call.type }
        call.p1 call.p2 with
    | none => simp [hls] at h
    | some r =>
      simp only [hls] at h
      by_cases hid : some system.id = sPos.system2
      · left
        rw [if_pos hid] at h
        simp only [Option.some.injEq] at h
        subst h
        exact ⟨hid, rfl⟩
      · right
        rw [if_neg hid] at h
        exact ⟨hid, _, rfl, h⟩

/-- A vertical box is skipped by the layout loop and takes no segment index. -/
theorem Slur.layoutLoop_vbox (ctx : SlurCtx) (sPos : SlurPos) (system : System)
    (rest : List System) (i : ℕ) (st : Slur.LoopState) (hv : system.vbox = true) :
    Slur.layoutLoop ctx sPos (system :: rest) i st = Slur.layoutLoop ctx sPos rest i st := by
  rw [Slur.layoutLoop]
  simp only [hv, if_true]

theorem countNonVbox_cons (sys : System) (l : List System) :
    countNonVbox (sys :: l) = (if sys.vbox then 0 else 1) + countNonVbox l := by
  unfold countNonVbox
  cases hv : sys.vbox <;> simp [hv, List.filter_cons]
  omega

/-- The layout loop after the first segment of a slur over several systems: the
systems `a` before the end system get MIDDLE segments with consecutive indices,
vertical boxes none, and the end system gets the END segment, after which the
loop stops. -/
theorem Slur.layoutLoop_tail (ctx : SlurCtx) (sPos : SlurPos) (s2 : Nat) (sys2 : System)
    (b : List System) (hne : sPos.system1 ≠ sPos.system2) (h2 : sPos.system2 = some s2)
    (hid2 : sys2.id = s2) (hv2 : sys2.vbox = false) :
    ∀ (a : List System) (i : ℕ) (st st' : Slur.LoopState), 1 ≤ i →
      (∀ x ∈ a, x.id ≠ s2) →
      Slur.layoutLoop ctx sPos (a ++ sys2 :: b) i st = some st' →
      st'.calls.map LayoutCall.kind = st.calls.map LayoutCall.kind
        ++ (List.range (countNonVbox a)).map (fun j => (i + j, SpannerSegmentType.MIDDLE))
        ++ [(i + countNonVbox a, SpannerSegmentType.END)] := by
  intro a
  induction a with
  | nil =>
    intro i st st' hi _ h
    obtain ⟨call, hkind, hcase⟩ := Slur.layoutLoop_step ctx sPos sys2 b i st st' hv2 h
    have hi0 : i ≠ 0 := by omega
    have hsys : some sys2.id = sPos.system2 := by rw [h2, hid2]
    rcases hcase with ⟨-, hc⟩ | ⟨hcontra, -⟩
    · rw [hc]
      simp [hkind, hne, hi0, hsys, countNonVbox]
    · exact absurd hsys hcontra
  | cons x a' ih =>
    intro i st st' hi hnot h
    have hx : x.id ≠ s2 := hnot x (List.mem_cons_self _ _)
    have hnot' : ∀ y ∈ a', y.id ≠ s2 := fun y hy => hnot y (List.mem_cons_of_mem _ hy)
    rw [countNonVbox_cons]
    cases hv : x.vbox with
    | true =>
      rw [List.cons_append, Slur.layoutLoop_vbox ctx sPos x _ i st hv] at h
      have := ih i st st' hi hnot' h
      simpa using this
    | false =>
      rw [List.cons_append] at h
      obtain ⟨call, hkind, hcase⟩ := Slur.layoutLoop_step ctx sPos x _ i st st' hv h
      have hi0 : i ≠ 0 := by omega
      have hsys : some x.id ≠ sPos.system2 := by
        rw [h2]; intro hc; exact hx (Option.some.inj hc)
      rcases hcase with ⟨hcontra, -⟩ | ⟨-, st1, hc1, hrun⟩
      · exact absurd hcontra hsys
      · have := ih (i + 1) st1 st' (by omega) hnot' hrun
        rw [this, hc1]
        simp only [Bool.false_eq_true, if_false, List.map_append, List.map_cons, List.map_nil,
          hkind, if_neg hne, if_neg hi0, if_pos hsys]
        rw [Nat.add_comm 1 (countNonVbox a'), List.range_succ_eq_map]
        simp only [List.map_cons, List.map_map, List.append_assoc, List.cons_append,
          List.nil_append, Nat.add_zero]
        congr 2
        · congr 1
          · apply List.map_congr_left
            intro j _
            simp only [Function.comp, Nat.succ_eq_add_one]
            congr 1
            omega
          · congr 2
            omega

/-- C10: `Slur::layout` (for a slur in a score, both chordrests in measures of
systems that are not vertical boxes, on a staff) returns, and
(1) when the start and end systems are the same, exactly one segment is laid
out, segment 0 of type SINGLE;
(2) when the end system comes after the start system with the systems `a` in
between, of which `k` are not vertical boxes (so the end system lies
`n - 1 = k + 1` such systems after the start system), the segments laid out are
segment 0 of type BEGIN, segments 1 to `k` of type MIDDLE and segment
`k + 1 = n - 1` of type END, in this order; vertical boxes take no index. -/
theorem Slur.layout_segment_types (ctx : SlurCtx) (sl : List System) (slur : Slur)
    (segments : List SlurSegment) (scr ecr : ChordRest) (m1 m2 : Measure) (s1 s2 : Nat)
    (hpal : ctx.isPaletteScore = false) (htick : slur.tick ≠ -1)
    (hs : slur.startCR = some scr) (hm1 : scr.measure = some m1)
    (he : slur.endCR = some ecr) (hm2 : ecr.measure = some m2)
    (hs1 : m1.system = some s1) (hs2 : m2.system = some s2)
    (hstaff : ctx.seg.staff.isSome) :
    ∃ r, Slur.layout ctx sl slur segments = some r
      ∧ (∀ (sys1 : System) (b : List System), s1 = s2 →
          Slur.systemsFrom (some s1) sl = sys1 :: b → sys1.vbox = false →
          r.calls.map LayoutCall.kind = [(0, SpannerSegmentType.SINGLE)])
      ∧ (∀ (sys1 sys2 : System) (a b : List System), s1 ≠ s2 →
          Slur.systemsFrom (some s1) sl = sys1 :: (a ++ sys2 :: b) →
          sys1.id = s1 → sys1.vbox = false → (∀ x ∈ a, x.id ≠ s2) →
          sys2.id = s2 → sys2.vbox = false →
          r.calls.map LayoutCall.kind =
            (0, SpannerSegmentType.BEGIN)
              :: (List.range (countNonVbox a)).map
                    (fun j => (1 + j, SpannerSegmentType.MIDDLE))
              ++ [(1 + countNonVbox a, SpannerSegmentType.END)]) := by
  obtain ⟨slur1, p1, p2, st', hloop, -, hrun⟩ := Slur.layout_run ctx sl slur segments scr ecr
    m1 m2 s1 s2 hpal htick hs hm1 he hm2 hs1 hs2 hstaff
  refine ⟨_, hrun, ?_, ?_⟩
  · intro sys1 b heq hfrom hv1
    rw [hfrom] at hloop
    obtain ⟨call, hkind, hcase⟩ := Slur.layoutLoop_step ctx _ sys1 b 0 _ st' hv1 hloop
    have hsame : (some s1 : Option Nat) = some s2 := by rw [heq]
    have hid : sys1.id = s1 := by
      have hmem : sys1 ∈ Slur.systemsFrom (some s1) sl := by rw [hfrom]; exact List.mem_cons_self _ _
      have hhead := List.head_dropWhile_not (fun sys : System => decide (some sys.id ≠ some s1)) sl
      unfold Slur.systemsFrom at hfrom
      have hne : List.dropWhile (fun sys : System => decide (some sys.id ≠ some s1)) sl ≠ [] := by
        rw [hfrom]; exact List.cons_ne_nil _ _
      have := hhead hne
      simp only [hfrom, List.head_cons] at this
      simpa using this
    rcases hcase with ⟨-, hc⟩ | ⟨hcontra, -⟩
    · simp only [hc, List.nil_append, List.map_cons, List.map_nil, hkind, if_pos hsame]
    · exact absurd (by rw [hid, ← heq] : some sys1.id = some s2) hcontra
  · intro sys1 sys2 a b hne hfrom hid1 hv1 hnot hid2 hv2
    rw [hfrom] at hloop
    have hne' : (some s1 : Option Nat) ≠ some s2 := fun h => hne (Option.some.inj h)
    obtain ⟨call, hkind, hcase⟩ := Slur.layoutLoop_step ctx _ sys1 _ 0 _ st' hv1 hloop
    have hsys : some sys1.id ≠ some s2 := by rw [hid1]; exact hne'
    rcases hcase with ⟨hcontra, -⟩ | ⟨-, st1, hc1, hrun1⟩
    · exact absurd hcontra hsys
    · have := Slur.layoutLoop_tail ctx ⟨p1, p2, some s1, some s2⟩ s2 sys2 b hne' rfl hid2 hv2
        a 1 st1 st' (le_refl _) hnot hrun1
      simp only [this, hc1, List.nil_append, List.map_cons, List.map_nil, hkind, if_neg hne',
        if_true, List.cons_append, List.singleton_append]

/-- C10 on the systems 0, a vertical box, 5, 1, for a slur from system 0 to
system 1: segment 0 is BEGIN, segment 1 (system 5) is MIDDLE, segment 2 is END. -/
theorem Slur.layout_segment_types_witness :
    ∃ r, Slur.layout exSlurCtx
          [exSystem 0 none none, exVBox 9, exSystem 5 none none, exSystem 1 none none]
          (exSlur true (exChordRestIn 0 1 0 true) (exChordRestIn 1 2 3 true)) [] = some r
      ∧ r.calls.map LayoutCall.kind =
          [(0, SpannerSegmentType.BEGIN), (1, SpannerSegmentType.MIDDLE),
           (2, SpannerSegmentType.END)] := by
  obtain ⟨r, hr, -, h2⟩ := Slur.layout_segment_types exSlurCtx
    [exSystem 0 none none, exVBox 9, exSystem 5 none none, exSystem 1 none none]
    (exSlur true (exChordRestIn 0 1 0 true) (exChordRestIn 1 2 3 true)) []
    (exChordRestIn 0 1 0 true) (exChordRestIn 1 2 3 true)
    { exMeasure with system := some 0 } { exMeasure with system := some 1 } 0 1
    rfl (by norm_num [exSlur, exChordRestIn, exChordRest]) rfl rfl rfl rfl rfl rfl rfl
  refine ⟨r, hr, ?_⟩
  have h := h2 (exSystem 0 none none) (exSystem 1 none none)
    [exVBox 9, exSystem 5 none none] [] (by decide)
    (by simp [Slur.systemsFrom, exSystem]) rfl rfl
    (by
      intro x hx
      simp only [List.mem_cons, List.mem_singleton, List.not_mem_nil, or_false] at hx
      rcases hx with h | h <;> subst h <;> simp [exVBox, exSystem])
    rfl rfl
  rw [h]
  simp [countNonVbox, exVBox, exSystem, List.range_succ]

/-! ### What a `layoutSystem` call that returns has done -/

/-- A `layoutSystem` call that returns has either returned for a null start
anchor, without anchors, or has given the segment its type, computed the
anchors with `slurPos`, `startAnchor` and `endAnchor`, and called
`layoutSegment` with them; the slur differs from the one with the resolved
direction at most in the flag `broken`. -/
theorem Slur.layoutSystem_inv (ctx : SlurCtx) (slur : Slur) (system : System)
    (seg : SlurSegment) (r : LayoutSystemResult)
    (h : Slur.layoutSystem ctx slur system seg = some r) :
    ∃ slur1 seg1 osst, Slur.segmentTypeAndDirection slur system seg = (slur1, seg1, osst)
      ∧ Slur.SameButBroken slur1 r.slur
      ∧ (osst = none → r.anchors = none)
      ∧ (∀ sst, osst = some sst →
          r.seg.spannerSegmentType = sst
          ∧ ∃ sPos p1 c p2, Slur.slurPos ctx slur1 = some sPos
            ∧ Slur.startAnchor ctx.seg.spatium slur1 system sst sPos.p1 = some (p1, c)
            ∧ Slur.endAnchor ctx.seg.spatium slur1 system sst p1 sPos.p2 = some p2
            ∧ r.anchors = some
                (if c = true then
                  ⟨p1.x, p2.y + 25 / 100 * ctx.seg.spatium * (if slur1.up = true then -1 else 1)⟩
                 else p1, p2)) := by
  unfold Slur.layoutSystem at h
  simp only [] at h
  cases hT : Slur.segmentTypeAndDirection slur system seg with
  | mk slur1 rest =>
    obtain ⟨seg1, osst⟩ := rest
    rw [hT] at h
    refine ⟨slur1, seg1, osst, rfl, ?_⟩
    cases osst with
    | none =>
      simp only [Option.some.injEq] at h
      subst h
      exact ⟨Slur.sameButBroken_refl _, fun _ => rfl,
        fun sst hc => absurd hc.symm (Option.some_ne_none _)⟩
    | some sst =>
      simp only [] at h
      cases hp : Slur.slurPos ctx slur1 with
      | none => simp [hp] at h
      | some sPos =>
        simp only [hp] at h
        cases hsa : Slur.startAnchor ctx.seg.spatium slur1 system sst sPos.p1 with
        | none => simp [hsa] at h
        | some pa =>
          obtain ⟨p1, constrain⟩ := pa
          simp only [hsa] at h
          cases hea : Slur.endAnchor ctx.seg.spatium slur1 system sst p1 sPos.p2 with
          | none => simp [hea] at h
          | some p2 =>
            simp only [hea] at h
            generalize hp1' : (if constrain = true then
              (⟨p1.x, p2.y + 25 / 100 * ctx.seg.spatium * (if slur1.up = true then -1 else 1)⟩ :
                PointF) else p1) = p1' at h
            cases hls : SlurSegment.layoutSegment ctx.seg slur1
                { seg1 with spannerSegmentType := sst } p1' p2 with
            | none => simp [hls] at h
            | some rs =>
              simp only [hls, Option.some.injEq] at h
              subst h
              obtain ⟨hk, hb⟩ := SlurSegment.layoutSegment_kept ctx.seg slur1 _ _ p2 rs hls
              refine ⟨hb, ?_, ?_⟩
              · intro hc
                exact absurd hc (Option.some_ne_none _)
              · intro sst' hsst'
                simp only [Option.some.injEq] at hsst'
                subst hsst'
                refine ⟨hk.2.2.2.2.2.2.2.2.2, sPos, p1, constrain, p2, rfl, hsa, hea, ?_⟩
                rw [hp1']

/-- The direction left by a `layoutSystem` call that returns is the one that
its direction switch resolved. -/
theorem Slur.layoutSystem_up (ctx : SlurCtx) (slur : Slur) (system : System)
    (seg : SlurSegment) (r : LayoutSystemResult)
    (h : Slur.layoutSystem ctx slur system seg = some r) :
    r.slur.up = (Slur.segmentTypeAndDirection slur system seg).1.up := by
  obtain ⟨slur1, seg1, osst, hT, hb, -⟩ := Slur.layoutSystem_inv ctx slur system seg r h
  rw [hT]
  unfold Slur.SameButBroken at hb
  rw [hb]

/-- Every end anchor that `layoutSystem` computes for a segment that continues
past the end of its system lies at most 2.5 staff spaces from the start anchor
against the bow direction. -/
theorem Slur.endAnchor_signed (spatium : ℚ) (hsp : 0 ≤ spatium) (slur : Slur) (system : System)
    (sst : SpannerSegmentType) (hsst : sst = .BEGIN ∨ sst = .MIDDLE) (p1 p2 p2' : PointF)
    (h : Slur.endAnchor spatium slur system sst p1 p2 = some p2') :
    (if slur.up then p2'.y - p1.y else p1.y - p2'.y) ≤ 25 / 10 * spatium := by
  have hsst' : ¬ (sst = .SINGLE ∨ sst = .END) := by rcases hsst with h | h <;> simp [h]
  have hY := Slur.endOfSystemY_signed spatium hsp slur system p1
  unfold Slur.endAnchor at h
  simp only [if_neg hsst'] at h
  generalize Slur.endOfSystemY spatium slur system p1 = Y at hY h
  have hdone : ∀ q : PointF, q = ⟨system.lastNoteRestSegmentX, Y⟩ →
      (if slur.up then q.y - p1.y else p1.y - q.y) ≤ 25 / 10 * spatium := by
    intro q hq; subst hq; exact hY
  cases hl : system.lastChordRest slur.track with
  | none =>
    simp only [hl, Option.some.injEq] at h
    exact hdone _ h.symm
  | some cr =>
    simp only [hl] at h
    cases hc : cr.chord with
    | none =>
      simp only [hc, Option.some.injEq] at h
      exact hdone _ h.symm
    | some c =>
      simp only [hc] at h
      by_cases ht : cr.tick ≥ system.firstMeasureTick ∧ cr.tick ≤ system.lastMeasureEndTick
      · rw [if_pos ht] at h
        cases hn : c.notes with
        | nil => simp [hn] at h
        | cons note tail =>
          simp only [hn] at h
          cases htf : note.tieFor with
          | none =>
            simp only [htf, Option.some.injEq] at h
            exact hdone _ h.symm
          | some tf =>
            simp only [htf] at h
            by_cases hside : (!tf.isInside && tf.up == slur.up) = true
            · rw [if_pos hside] at h
              simp only [Option.some.injEq] at h
              subst h
              have hb := Slur.tieAdjust_bowSide slur.up tf.up tf.frontEndPos.y
                (65 / 100 * spatium) Y
              revert hb hY
              cases slur.up <;> simp <;> intro h1 h2 <;> linarith
            · rw [if_neg hside] at h
              simp only [Option.some.injEq] at h
              exact hdone _ h.symm
      · rw [if_neg ht] at h
        simp only [Option.some.injEq] at h
        exact hdone _ h.symm

/-- The anchors that a `layoutSystem` call hands to `layoutSegment` for a segment
of type BEGIN or MIDDLE: the end anchor lies at most 2.5 staff spaces from the
start anchor against the bow direction. -/
theorem Slur.layoutSystem_anchor_signed (ctx : SlurCtx) (hsp : 0 ≤ ctx.seg.spatium)
    (slur : Slur) (system : System) (seg : SlurSegment) (r : LayoutSystemResult)
    (h : Slur.layoutSystem ctx slur system seg = some r) (p1 p2 : PointF)
    (ha : r.anchors = some (p1, p2))
    (hsst : r.seg.spannerSegmentType = .BEGIN ∨ r.seg.spannerSegmentType = .MIDDLE) :
    (if r.slur.up then p2.y - p1.y else p1.y - p2.y) ≤ 25 / 10 * ctx.seg.spatium := by
  obtain ⟨slur1, seg1, osst, hT, hb, hnone, hsome⟩ :=
    Slur.layoutSystem_inv ctx slur system seg r h
  have hup : r.slur.up = slur1.up := by
    unfold Slur.SameButBroken at hb; rw [hb]
  cases osst with
  | none => rw [hnone rfl] at ha; cases ha
  | some sst =>
    obtain ⟨htype, sPos, q1, c, q2, -, -, hea, hanch⟩ := hsome sst rfl
    rw [htype] at hsst
    have hbound := Slur.endAnchor_signed ctx.seg.spatium hsp slur1 system sst hsst q1 sPos.p2
      q2 hea
    rw [hanch] at ha
    simp only [Option.some.injEq, Prod.mk.injEq] at ha
    obtain ⟨h1, h2⟩ := ha
    subst h2
    rw [hup]
    cases c with
    | false =>
      simp only [Bool.false_eq_true, if_false] at h1
      subst h1
      exact hbound
    | true =>
      simp only [if_true] at h1
      subst h1
      simp only []
      cases slur1.up <;> simp <;> nlinarith

/-! ### Direction of long slurs, on the whole functions -/

/-- C3, as stated, fails: an AUTO slur from a stem-down chord at tick 0 to a
chord at tick 3, in measures of length 1 with several voices, is longer than
the start measure; `Slur::layout` returns and has resolved `up = false`. -/
theorem C3_counterexample :
    (exSlur true (exChordRestVoices 1 0 false) (exChordRest 2 3 false)).slurDirection = .AUTO
      ∧ (exChordRest 2 3 false).tick - (exChordRestVoices 1 0 false).tick > exMeasureVoices.ticks
      ∧ ∃ r, Slur.layout exSlurCtx [exSystem 0 none none]
            (exSlur true (exChordRestVoices 1 0 false) (exChordRest 2 3 false)) [] = some r
          ∧ r.slur.up = false := by
  refine ⟨rfl, ?_, ?_⟩
  · norm_num [exChordRest, exChordRestVoices, exMeasureVoices]
  · obtain ⟨slur1, p1, p2, st', -, hup, hrun⟩ := Slur.layout_run exSlurCtx
      [exSystem 0 none none]
      (exSlur true (exChordRestVoices 1 0 false) (exChordRest 2 3 false)) []
      (exChordRestVoices 1 0 false) (exChordRest 2 3 false) exMeasureVoices exMeasure 0 0
      rfl (by norm_num [exSlur, exChordRestVoices, exChordRest]) rfl rfl rfl rfl rfl rfl rfl
    refine ⟨_, hrun, ?_⟩
    simp only [hup]
    norm_num [Slur.directionLayout, Slur.chordAnd, isDirectionMixture, mixtureMeasures,
      mixtureScan, mixtureSegments, exSlur, exChordRest, exChordRestVoices, exMeasureVoices,
      exChord]

/-- C3, amended: for every slur with direction AUTO whose end chordrest tick
minus start chordrest tick exceeds the length of the start measure (a slur in a
score, both chordrests in measures of systems, on a staff), `Slur::layout`
returns and has resolved `up = true`, whatever the stem direction of the start
chord, unless the start measure has several voices over the span of the slur,
the start chordrest is a chord of normal note type, and there is no direction
mixture between two chords; in that case `up` is the stem direction of the
start chord. -/
theorem Slur.layout_long_slur_direction (ctx : SlurCtx) (sl : List System) (slur : Slur)
    (segments : List SlurSegment) (scr ecr : ChordRest) (m1 m2 : Measure) (s1 s2 : Nat)
    (hpal : ctx.isPaletteScore = false) (htick : slur.tick ≠ -1)
    (hs : slur.startCR = some scr) (hm1 : scr.measure = some m1)
    (he : slur.endCR = some ecr) (hm2 : ecr.measure = some m2)
    (hs1 : m1.system = some s1) (hs2 : m2.system = some s2)
    (hstaff : ctx.seg.staff.isSome)
    (hauto : slur.slurDirection = .AUTO) (hlong : ecr.tick - scr.tick > m1.ticks) :
    ∃ r, Slur.layout ctx sl slur segments = some r
      ∧ r.slur.up =
          if (m1.hasVoices scr.staffIdx slur.tick slur.ticks
                && Slur.chordAnd scr (fun c => c.noteTypeNormal))
              && !(ecr.chord.isSome && isDirectionMixture scr ecr)
          then scr.up else true := by
  obtain ⟨slur1, p1, p2, st', -, hup, hrun⟩ := Slur.layout_run ctx sl slur segments scr ecr
    m1 m2 s1 s2 hpal htick hs hm1 he hm2 hs1 hs2 hstaff
  refine ⟨_, hrun, ?_⟩
  simp only [hup]
  exact Slur.directionLayout_long slur scr m1 ecr hauto hlong

/-- The amended C3 on a slur over three measures from a stem-down chord, in
measures with one voice: `Slur::layout` returns with `up = true`. -/
theorem Slur.layout_long_slur_direction_witness :
    ∃ r, Slur.layout exSlurCtx [exSystem 0 none none]
          (exSlur false (exChordRest 1 0 false) (exChordRest 2 3 false)) [] = some r
      ∧ r.slur.up = true := by
  obtain ⟨r, hr, hup⟩ := Slur.layout_long_slur_direction exSlurCtx [exSystem 0 none none]
    (exSlur false (exChordRest 1 0 false) (exChordRest 2 3 false)) []
    (exChordRest 1 0 false) (exChordRest 2 3 false) exMeasure exMeasure 0 0
    rfl (by norm_num [exSlur, exChordRest]) rfl rfl rfl rfl rfl rfl rfl rfl
    (by norm_num [exChordRest, exMeasure])
  refine ⟨r, hr, ?_⟩
  rw [hup]
  simp [exMeasure]

/-- C4, the code at the failing input: an AUTO slur from a stem-up chord at tick
0 to a stem-up chord at tick 3, in measures of length 1 with one voice, no beam
and no direction mixture, is longer than its start measure; the first call of
`layoutSystem`, on the system that starts at tick 0 and ends at tick 1,
returns with a segment of type BEGIN and has resolved `up = false`. -/
theorem C4_layoutSystem_long_slur_down :
    (exSlur true (exChordRest 1 0 true) (exChordRest 2 3 true)).slurDirection = .AUTO
      ∧ (exChordRest 2 3 true).tick - (exChordRest 1 0 true).tick > exMeasure.ticks
      ∧ (exSlur true (exChordRest 1 0 true) (exChordRest 2 3 true)).tick
          ≥ (exSystem 0 (some (exChordRest 1 0 true)) none).firstMeasureTick
      ∧ ∃ r, Slur.layoutSystem exSlurCtx
            (exSlur true (exChordRest 1 0 true) (exChordRest 2 3 true))
            (exSystem 0 (some (exChordRest 1 0 true)) none)
            (exSegment ⟨0, 0⟩ ⟨0, 0⟩ ⟨0, 0⟩ ⟨0, 0⟩) = some r
          ∧ r.slur.up = false ∧ r.seg.spannerSegmentType = .BEGIN := by
  refine ⟨rfl, ?_, ?_, ?_⟩
  · norm_num [exChordRest, exMeasure]
  · norm_num [exSlur, exSystem, exChordRest]
  · obtain ⟨r, hr, -⟩ := Slur.layoutSystem_returns exSlurCtx
      (exSlur true (exChordRest 1 0 true) (exChordRest 2 3 true))
      (exSystem 0 (some (exChordRest 1 0 true)) none)
      (exSegment ⟨0, 0⟩ ⟨0, 0⟩ ⟨0, 0⟩ ⟨0, 0⟩)
      ⟨⟨_, exMeasure, rfl, rfl⟩, ⟨_, exMeasure, rfl, rfl⟩, exChordRest_notes 1 0 true,
        fun cr c h => by simp [exSystem] at h, fun _ => rfl⟩
    refine ⟨r, hr, ?_, ?_⟩
    · rw [Slur.layoutSystem_up _ _ _ _ r hr]
      norm_num [Slur.segmentTypeAndDirection, Slur.fixTrack2, Slur.fixEnd,
        Slur.directionSystem, Slur.chordAnd, isDirectionMixture, mixtureMeasures, mixtureScan,
        mixtureSegments, exSlur, exSystem, exChordRest, exMeasure, exChord]
    · apply Slur.layoutSystem_type _ _ _ _ r _ hr
      norm_num [Slur.segmentTypeAndDirection, Slur.fixTrack2, Slur.fixEnd, Slur.tick2,
        exSlur, exSystem, exChordRest, exMeasure]

/-! ### Direction resolved by `Slur::layoutSystem` -/

/-- The direction that the switch of `layoutSystem` resolves on the first call
for a system, for a slur whose start chordrest lies in a measure. -/
theorem Slur.segmentTypeAndDirection_up (slur : Slur) (system : System) (seg : SlurSegment)
    (scr : ChordRest) (m1 : Measure) (ht : slur.tick ≥ system.firstMeasureTick)
    (hs : slur.startCR = some scr) (hm : scr.measure = some m1) :
    (Slur.segmentTypeAndDirection slur system seg).1.up =
      (Slur.directionSystem slur.fixTrack2.fixEnd scr m1
        (match slur.fixTrack2.fixEnd.endCR with
         | some e => e
         | none => scr)).1 := by
  have hfs : slur.fixTrack2.startCR = some scr := by
    unfold Slur.fixTrack2; cases slur.track2 <;> exact hs
  have hk1 : slur.fixTrack2.tick = slur.tick := by
    unfold Slur.fixTrack2; cases slur.track2 <;> rfl
  unfold Slur.segmentTypeAndDirection
  simp only []
  rw [if_pos ht]
  simp only [hfs, hm]

/-- C11: on the first call of `layoutSystem` for a system (`tick() >= stick`),
for a slur whose start chordrest lies in a measure, the call resolves
`up = true` for direction UP and `up = false` for direction DOWN, whatever the
chords; for direction AUTO, with the end chordrest present and the start chord
not in a cross-staff beam, `up` is true if start and end are both chords, the
start chord is not a grace note and `isDirectionMixture(start, end)` holds;
otherwise `up` is the stem direction of the start chordrest if the start
measure has several voices over the span of the slur and the start is a chord
that is not a grace note; otherwise `up` is the opposite of the stem direction
of the start chordrest. On well-formed input the call returns. -/
theorem Slur.layoutSystem_direction (ctx : SlurCtx) (slur : Slur) (system : System)
    (seg : SlurSegment) (scr : ChordRest) (m1 : Measure)
    (ht : slur.tick ≥ system.firstMeasureTick)
    (hs : slur.startCR = some scr) (hm : scr.measure = some m1) :
    (∀ r, Slur.layoutSystem ctx slur system seg = some r →
        (slur.slurDirection = .UP → r.slur.up = true)
        ∧ (slur.slurDirection = .DOWN → r.slur.up = false)
        ∧ (∀ ecr, slur.slurDirection = .AUTO → slur.endCR = some ecr →
            ¬ (scr.chord.isSome ∧ ∃ beam, scr.beam = some beam ∧ beam.cross = true) →
            r.slur.up =
              if scr.chord.isSome ∧ ecr.chord.isSome
                  ∧ Slur.chordAnd scr (fun c => !c.isGrace) = true
                  ∧ isDirectionMixture scr ecr = true then true
              else if m1.hasVoices scr.staffIdx slur.tick slur.ticks = true
                  ∧ Slur.chordAnd scr (fun c => !c.isGrace) = true then scr.up
              else !scr.up))
      ∧ (Slur.WellFormed ctx slur system seg →
          ∃ r, Slur.layoutSystem ctx slur system seg = some r) := by
  refine ⟨?_, fun hwf => ?_⟩
  · intro r hr
    have hup := Slur.layoutSystem_up ctx slur system seg r hr
    rw [Slur.segmentTypeAndDirection_up slur system seg scr m1 ht hs hm] at hup
    have hd : slur.fixTrack2.fixEnd.slurDirection = slur.slurDirection := by
      unfold Slur.fixEnd Slur.fixTrack2 Slur.setTick2
      cases slur.track2 <;> cases slur.endCR <;> rfl
    refine ⟨fun hU => ?_, fun hD => ?_, fun ecr hA he hcross => ?_⟩
    · rw [hup]; unfold Slur.directionSystem; rw [hd, hU]
    · rw [hup]; unfold Slur.directionSystem; rw [hd, hD]
    · have hfe : slur.fixTrack2.endCR = some ecr := by
        unfold Slur.fixTrack2; cases slur.track2 <;> exact he
      have hfix : slur.fixTrack2.fixEnd = slur.fixTrack2 := by
        unfold Slur.fixEnd; rw [hfe]
      have hk1 : slur.fixTrack2.tick = slur.tick := by
        unfold Slur.fixTrack2; cases slur.track2 <;> rfl
      have hk2 : slur.fixTrack2.ticks = slur.ticks := by
        unfold Slur.fixTrack2; cases slur.track2 <;> rfl
      have hd2 : slur.fixTrack2.slurDirection = slur.slurDirection := by
        unfold Slur.fixTrack2; cases slur.track2 <;> rfl
      rw [hup, hfix, hfe]
      unfold Slur.directionSystem
      simp only [hd2, hA, hk1, hk2]
      rcases hc : scr.chord with _ | c <;> rcases hb : scr.beam with _ | beam <;>
        rcases hec : ecr.chord with _ | ec <;>
        simp [hc, hb, hec, Slur.chordAnd] at hcross ⊢ <;>
        (split_ifs <;> simp_all)
  · obtain ⟨r, hr, -⟩ := Slur.layoutSystem_returns ctx slur system seg hwf
    exact ⟨r, hr⟩

/-- C11 on an AUTO slur between two stem-up chords in measures with one voice
and no direction mixture: the call returns with `up = false`, the opposite of
the stem direction of the start chord. -/
theorem Slur.layoutSystem_direction_witness :
    ∃ r, Slur.layoutSystem exSlurCtx
          (exSlur true (exChordRest 1 0 true) (exChordRest 2 (1 / 2) true))
          (exSystem 0 (some (exChordRest 1 0 true)) (some (exChordRest 2 (1 / 2) true)))
          (exSegment ⟨0, 0⟩ ⟨0, 0⟩ ⟨0, 0⟩ ⟨0, 0⟩) = some r
      ∧ r.slur.up = false := by
  have h := Slur.layoutSystem_direction exSlurCtx
    (exSlur true (exChordRest 1 0 true) (exChordRest 2 (1 / 2) true))
    (exSystem 0 (some (exChordRest 1 0 true)) (some (exChordRest 2 (1 / 2) true)))
    (exSegment ⟨0, 0⟩ ⟨0, 0⟩ ⟨0, 0⟩ ⟨0, 0⟩) (exChordRest 1 0 true) exMeasure
    (by norm_num [exSlur, exSystem, exChordRest]) rfl rfl
  obtain ⟨r, hr⟩ := h.2 (exWellFormed true (exChordRest 1 0 true) (exChordRest 2 (1 / 2) true)
    exMeasure exMeasure (-1) rfl rfl _ 0 _ _
    (exChordRest_notes 1 0 true) (exChordRest_notes 2 (1 / 2) true))
  refine ⟨r, hr, ?_⟩
  rw [(h.1 r hr).2.2 (exChordRest 2 (1 / 2) true) rfl rfl
    (by simp [exChordRest])]
  simp [exChordRest, exChord, exMeasure, Slur.chordAnd, isDirectionMixture, mixtureMeasures,
    mixtureScan, mixtureSegments]

/-! ### Missing start anchor and stub anchors -/

/-- On the first call for a system (`tick() >= stick`) a slur without start
chordrest, or whose start chordrest has no measure, makes `layoutSystem`
return the segment as it got it: no anchors are computed and `computeBezier`
is not called. -/
theorem Slur.layoutSystem_null_start (ctx : SlurCtx) (slur : Slur) (system : System)
    (seg : SlurSegment) (ht : slur.tick ≥ system.firstMeasureTick)
    (h : slur.startCR = none ∨ ∃ scr, slur.startCR = some scr ∧ scr.measure = none) :
    Slur.layoutSystem ctx slur system seg =
      some { slur := slur.fixTrack2, seg := seg, anchors := none, bezierCalls := 0 } := by
  have hT : Slur.segmentTypeAndDirection slur system seg = (slur.fixTrack2, seg, none) := by
    unfold Slur.segmentTypeAndDirection
    simp only []
    rw [if_pos ht]
    rcases h with h | ⟨scr, hs, hm⟩
    · have hfs : slur.fixTrack2.startCR = none := by
        unfold Slur.fixTrack2; cases slur.track2 <;> exact h
      simp only [hfs]
    · have hfs : slur.fixTrack2.startCR = some scr := by
        unfold Slur.fixTrack2; cases slur.track2 <;> exact hs
      simp only [hfs, hm]
  unfold Slur.layoutSystem
  simp only [hT]

/-- For a system that starts after the tick of the slur, a slur without start
chordrest, or whose start chordrest has no measure, makes `layoutSystem`
dereference a null pointer in `slurPos`: the call does not return. -/
theorem Slur.layoutSystem_null_start_later (ctx : SlurCtx) (slur : Slur) (system : System)
    (seg : SlurSegment) (ht : slur.tick < system.firstMeasureTick)
    (h : slur.startCR = none ∨ ∃ scr, slur.startCR = some scr ∧ scr.measure = none) :
    Slur.layoutSystem ctx slur system seg = none := by
  have hp : Slur.slurPos ctx slur = none := by
    unfold Slur.slurPos
    rcases h with h | ⟨scr, hs, hm⟩
    · cases slur.endCR <;> simp [h]
    · cases slur.endCR <;> simp [hs, hm]
  have hT : ∃ sst, Slur.segmentTypeAndDirection slur system seg = (slur, seg, some sst) := by
    unfold Slur.segmentTypeAndDirection
    simp only []
    rw [if_neg (not_le.mpr ht)]
    split_ifs
    · exact ⟨_, rfl⟩
    · exact ⟨_, rfl⟩
  obtain ⟨sst, hT⟩ := hT
  unfold Slur.layoutSystem
  simp only [hT, hp]

/-- C13, the code at two failing inputs: a slur from tick 0 to tick 3/2 on the
system over the ticks 1 to 2, which starts after the tick of the slur. Without
start chordrest, and with a start chordrest that has no measure, `layoutSystem`
does not return: `slurPos` dereferences the null pointer. -/
theorem C13_layoutSystem_null_start_later_system :
    (exSlur true (exChordRest 1 0 true) (exChordRest 2 (3 / 2) true)).tick
        < ({ exSystem 1 none none with firstMeasureTick := 1, lastMeasureEndTick := 2 }
            : System).firstMeasureTick
      ∧ Slur.layoutSystem exSlurCtx
          { exSlur true (exChordRest 1 0 true) (exChordRest 2 (3 / 2) true) with startCR := none }
          { exSystem 1 none none with firstMeasureTick := 1, lastMeasureEndTick := 2 }
          (exSegment ⟨0, 0⟩ ⟨0, 0⟩ ⟨0, 0⟩ ⟨0, 0⟩) = none
      ∧ Slur.layoutSystem exSlurCtx
          { exSlur true (exChordRest 1 0 true) (exChordRest 2 (3 / 2) true) with
            startCR := some { exChordRest 1 0 true with measure := none } }
          { exSystem 1 none none with firstMeasureTick := 1, lastMeasureEndTick := 2 }
          (exSegment ⟨0, 0⟩ ⟨0, 0⟩ ⟨0, 0⟩ ⟨0, 0⟩) = none := by
  refine ⟨?_, ?_, ?_⟩
  · norm_num [exSlur, exSystem, exChordRest]
  · norm_num [Slur.layoutSystem, Slur.segmentTypeAndDirection, Slur.slurPos, Slur.tick2, exSlur,
      exSystem, exChordRest]
  · norm_num [Slur.layoutSystem, Slur.segmentTypeAndDirection, Slur.slurPos, Slur.tick2, exSlur,
      exSystem, exChordRest]

/-- C14: when the slur has no end chordrest (and its start chordrest lies in a
measure), `slurPos` returns `p1` = page position of the start chordrest moved
right by the width of the chordrest, `p2` = `p1` moved right by 5 staff spaces
with the same `y`, and `system2` = `system1` = the system of the start
measure. -/
theorem Slur.slurPos_stub (ctx : SlurCtx) (slur : Slur) (scr : ChordRest) (m : Measure)
    (he : slur.endCR = none) (hs : slur.startCR = some scr) (hm : scr.measure = some m) :
    ∃ sp, Slur.slurPos ctx slur = some sp
      ∧ sp.p1 = ⟨scr.pagePos.x + scr.width, scr.pagePos.y⟩
      ∧ sp.p2 = ⟨sp.p1.x + 5 * ctx.seg.spatium, sp.p1.y⟩
      ∧ sp.p2.x - sp.p1.x = 5 * ctx.seg.spatium ∧ sp.p2.y = sp.p1.y
      ∧ sp.system1 = m.system ∧ sp.system2 = sp.system1 := by
  refine ⟨{ p1 := ⟨scr.pagePos.x + scr.width, scr.pagePos.y⟩,
             p2 := ⟨scr.pagePos.x + scr.width + 5 * ctx.seg.spatium, scr.pagePos.y⟩,
             system1 := m.system, system2 := m.system }, ?_, rfl, rfl, ?_, rfl, rfl, rfl⟩
  · unfold Slur.slurPos
    simp only [he, hs, hm]
  · simp

/-- C14 on a slur without end chordrest whose start chord has page position
(0, 0) and width 1, at staff space 1: the anchors are (1, 0) and (6, 0). -/
theorem Slur.slurPos_stub_witness :
    ∃ sp, Slur.slurPos exSlurCtx
          { exSlur true (exChordRest 1 0 true) (exChordRest 2 2 true) with endCR := none } = some sp
      ∧ sp.p1 = ⟨1, 0⟩ ∧ sp.p2 = ⟨6, 0⟩ ∧ sp.system1 = some 0 ∧ sp.system2 = some 0 := by
  obtain ⟨sp, hsp, h1, h2, -, -, h3, h4⟩ := Slur.slurPos_stub exSlurCtx
    { exSlur true (exChordRest 1 0 true) (exChordRest 2 2 true) with endCR := none }
    (exChordRest 1 0 true) exMeasure rfl rfl rfl
  refine ⟨sp, hsp, ?_, ?_, ?_, ?_⟩
  · rw [h1]; norm_num [exChordRest]
  · rw [h2, h1]; norm_num [exChordRest, exSlurCtx, exSegCtx]
  · rw [h3]; rfl
  · rw [h4, h3]; rfl

/-! ### Double arithmetic -/

theorem roundDouble_zero : roundDouble 0 = 0 := by
  unfold roundDouble
  simp

/-- Rounding to the nearest integer moves a number by at most 1/2. -/
theorem roundHalfEven_error (y : ℚ) : |(roundHalfEven y : ℚ) - y| ≤ 1 / 2 := by
  have h1 : (⌊y⌋ : ℚ) ≤ y := Int.floor_le y
  have h2 : y < (⌊y⌋ : ℚ) + 1 := Int.lt_floor_add_one y
  unfold roundHalfEven
  simp only []
  rw [abs_le]
  split_ifs <;> push_cast <;> constructor <;> linarith

/-- The binary exponent of a number in the binade `[2 ^ e, 2 ^ (e + 1))`. -/
theorem Int.log_two_eq (x : ℚ) (e : ℤ) (h1 : (2 : ℚ) ^ e ≤ x) (h2 : x < (2 : ℚ) ^ (e + 1)) :
    Int.log 2 x = e := by
  have hpos : 0 < x := lt_of_lt_of_le (by positivity) h1
  have hb : 1 < 2 := by norm_num
  have ha : e ≤ Int.log 2 x := (Int.zpow_le_iff_le_log hb hpos).mp (by exact_mod_cast h1)
  have hc : Int.log 2 x < e + 1 := (Int.lt_zpow_iff_log_lt hb hpos).mp (by exact_mod_cast h2)
  omega

/-- The double nearest to a number in the binade `[2 ^ e, 2 ^ (e + 1))` of the
normal range. -/
theorem roundDouble_binade (x : ℚ) (e : ℤ) (h1 : (2 : ℚ) ^ e ≤ |x|)
    (h2 : |x| < (2 : ℚ) ^ (e + 1)) (he : -1022 ≤ e) :
    roundDouble x = (roundHalfEven (x / 2 ^ (e - 52)) : ℚ) * 2 ^ (e - 52) := by
  have hx : x ≠ 0 := by
    intro h
    rw [h, abs_zero] at h1
    exact absurd h1 (not_le.mpr (by positivity))
  unfold roundDouble
  rw [if_neg hx, Int.log_two_eq |x| e h1 h2, max_eq_left he]

/-- The relative error of a rounding in the normal range is at most
`2 ^ (-53)`. -/
theorem roundDouble_error (x : ℚ) (h : (2 : ℚ) ^ (-1022 : ℤ) ≤ |x|) :
    |roundDouble x - x| ≤ 2 ^ (-53 : ℤ) * |x| := by
  have hpos : 0 < |x| := lt_of_lt_of_le (by positivity) h
  have hb : 1 < 2 := by norm_num
  have hlo : ((2 : ℕ) : ℚ) ^ Int.log 2 |x| ≤ |x| := Int.zpow_log_le_self hb hpos
  have hhi : |x| < ((2 : ℕ) : ℚ) ^ (Int.log 2 |x| + 1) := Int.lt_zpow_succ_log_self hb |x|
  have he : -1022 ≤ Int.log 2 |x| :=
    (Int.zpow_le_iff_le_log hb hpos).mp (by exact_mod_cast h)
  rw [roundDouble_binade x (Int.log 2 |x|) (by exact_mod_cast hlo) (by exact_mod_cast hhi) he]
  set e := Int.log 2 |x| with hee
  have hulp : (0 : ℚ) < 2 ^ (e - 52) := by positivity
  have hr := roundHalfEven_error (x / 2 ^ (e - 52))
  have hkey : (roundHalfEven (x / 2 ^ (e - 52)) : ℚ) * 2 ^ (e - 52) - x
      = ((roundHalfEven (x / 2 ^ (e - 52)) : ℚ) - x / 2 ^ (e - 52)) * 2 ^ (e - 52) := by
    field_simp
  rw [hkey, abs_mul, abs_of_pos hulp]
  have hsplit : (2 : ℚ) ^ (e - 52) = 2 ^ (-52 : ℤ) * 2 ^ e := by
    rw [← zpow_add₀ (by norm_num : (2 : ℚ) ≠ 0)]
    congr 1
    ring
  have h53 : (2 : ℚ) ^ (-53 : ℤ) = 1 / 2 * 2 ^ (-52 : ℤ) := by
    rw [show (-53 : ℤ) = -1 + -52 by norm_num, zpow_add₀ (by norm_num : (2 : ℚ) ≠ 0)]
    norm_num
  have hlo' : (2 : ℚ) ^ e ≤ |x| := by exact_mod_cast hlo
  have h52 : (0 : ℚ) < 2 ^ (-52 : ℤ) := by positivity
  calc |(roundHalfEven (x / 2 ^ (e - 52)) : ℚ) - x / 2 ^ (e - 52)| * 2 ^ (e - 52)
      ≤ 1 / 2 * 2 ^ (e - 52) := by
        exact mul_le_mul_of_nonneg_right hr (le_of_lt hulp)
    _ = 2 ^ (-53 : ℤ) * 2 ^ e := by rw [hsplit, h53]; ring
    _ ≤ 2 ^ (-53 : ℤ) * |x| := by
        apply mul_le_mul_of_nonneg_left hlo'
        positivity

/-- The double nearest to a positive number of the binade
`[2 ^ e, 2 ^ (e + 1))`. -/
theorem roundDouble_binade_pos (x : ℚ) (e : ℤ) (h1 : (2 : ℚ) ^ e ≤ x)
    (h2 : x < (2 : ℚ) ^ (e + 1)) (he : -1022 ≤ e) :
    roundDouble x = (roundHalfEven (x / 2 ^ (e - 52)) : ℚ) * 2 ^ (e - 52) := by
  have hpos : 0 < x := lt_of_lt_of_le (by positivity) h1
  exact roundDouble_binade x e (by rw [abs_of_pos hpos]; exact h1)
    (by rw [abs_of_pos hpos]; exact h2) he

/-- Writing the double quotient `c / s` and reading back the double product
with `s` gives `c` up to `2 ^ (-51)` of its magnitude, in the normal range. -/
theorem roundDouble_div_mul (c s : ℚ) (hs : s ≠ 0) (hc : (2 : ℚ) ^ (-1021 : ℤ) ≤ |c|)
    (hq : (2 : ℚ) ^ (-1022 : ℤ) ≤ |c / s|) :
    NearDouble (roundDouble (roundDouble (c / s) * s)) c := by
  unfold NearDouble
  have hu : (0 : ℚ) < 2 ^ (-53 : ℤ) := by positivity
  have hu1 : (2 : ℚ) ^ (-53 : ℤ) ≤ 1 / 2 := by
    rw [show (-53 : ℤ) = -1 + -52 by norm_num, zpow_add₀ (by norm_num : (2 : ℚ) ≠ 0)]
    have : (2 : ℚ) ^ (-52 : ℤ) ≤ 1 := zpow_le_one_of_nonpos₀ (by norm_num) (by norm_num)
    have h2 : (2 : ℚ) ^ (-1 : ℤ) = 1 / 2 := by norm_num
    rw [h2]
    nlinarith
  have h51 : (2 : ℚ) ^ (-51 : ℤ) = 4 * 2 ^ (-53 : ℤ) := by
    rw [show (-51 : ℤ) = 2 + -53 by norm_num, zpow_add₀ (by norm_num : (2 : ℚ) ≠ 0)]
    norm_num
  have h1021 : (2 : ℚ) ^ (-1021 : ℤ) = 2 * 2 ^ (-1022 : ℤ) := by
    rw [show (-1021 : ℤ) = 1 + -1022 by norm_num, zpow_add₀ (by norm_num : (2 : ℚ) ≠ 0)]
    norm_num
  have h1022 : (0 : ℚ) < 2 ^ (-1022 : ℤ) := by positivity
  have e1 := roundDouble_error (c / s) hq
  have hcs : c / s * s = c := div_mul_cancel₀ c hs
  have hqs : |c / s| * |s| = |c| := by rw [← abs_mul, hcs]
  have hpc : |roundDouble (c / s) * s - c| ≤ 2 ^ (-53 : ℤ) * |c| := by
    have : roundDouble (c / s) * s - c = (roundDouble (c / s) - c / s) * s := by
      rw [sub_mul, hcs]
    rw [this, abs_mul]
    calc |roundDouble (c / s) - c / s| * |s|
        ≤ 2 ^ (-53 : ℤ) * |c / s| * |s| := mul_le_mul_of_nonneg_right e1 (abs_nonneg _)
      _ = 2 ^ (-53 : ℤ) * |c| := by rw [mul_assoc, hqs]
  have hc0 : 0 ≤ |c| := abs_nonneg _
  have hplo : |c| - 2 ^ (-53 : ℤ) * |c| ≤ |roundDouble (c / s) * s| := by
    have := abs_sub_abs_le_abs_sub c (roundDouble (c / s) * s)
    rw [abs_sub_comm] at this
    linarith
  have hphi : |roundDouble (c / s) * s| ≤ |c| + 2 ^ (-53 : ℤ) * |c| := by
    have := abs_sub_abs_le_abs_sub (roundDouble (c / s) * s) c
    linarith
  have hpn : (2 : ℚ) ^ (-1022 : ℤ) ≤ |roundDouble (c / s) * s| := by
    rw [h1021] at hc
    have := mul_le_mul_of_nonneg_right hu1 hc0
    generalize (2 : ℚ) ^ (-53 : ℤ) = u at *
    generalize (2 : ℚ) ^ (-1022 : ℤ) = t at *
    linarith
  have e2 := roundDouble_error (roundDouble (c / s) * s) hpn
  have htri : |roundDouble (roundDouble (c / s) * s) - c|
      ≤ |roundDouble (roundDouble (c / s) * s) - roundDouble (c / s) * s|
        + |roundDouble (c / s) * s - c| := by
    have := abs_add (roundDouble (roundDouble (c / s) * s) - roundDouble (c / s) * s)
      (roundDouble (c / s) * s - c)
    simpa using this
  rw [h51]
  have hsmall := mul_le_mul_of_nonneg_right hu1 hc0
  have hprod : 2 ^ (-53 : ℤ) * |roundDouble (c / s) * s|
      ≤ 2 ^ (-53 : ℤ) * (|c| + 2 ^ (-53 : ℤ) * |c|) :=
    mul_le_mul_of_nonneg_left hphi (le_of_lt hu)
  have hsq : 2 ^ (-53 : ℤ) * (2 ^ (-53 : ℤ) * |c|) ≤ 2 ^ (-53 : ℤ) * |c| := by
    have hle1 : (2 : ℚ) ^ (-53 : ℤ) ≤ 1 := le_trans hu1 (by norm_num)
    have h1 : (2 : ℚ) ^ (-53 : ℤ) * |c| ≤ 1 * |c| := mul_le_mul_of_nonneg_right hle1 hc0
    have := mul_le_mul_of_nonneg_left h1 (le_of_lt hu)
    generalize (2 : ℚ) ^ (-53 : ℤ) = u at *
    linarith
  generalize (2 : ℚ) ^ (-53 : ℤ) = u at *
  linarith

/-- A coordinate that is zero stays zero through the division and the
multiplication. -/
theorem roundDouble_div_mul_zero (s : ℚ) : roundDouble (roundDouble (0 / s) * s) = 0 := by
  rw [zero_div, roundDouble_zero, zero_mul, roundDouble_zero]

/-- A number with a significand of 53 binary digits is a double. -/
theorem roundDouble_of_significand (k e : ℤ) (hk1 : 2 ^ 52 ≤ k) (hk2 : k < 2 ^ 53)
    (he : -1022 ≤ e) : roundDouble ((k : ℚ) * 2 ^ (e - 52)) = (k : ℚ) * 2 ^ (e - 52) := by
  have hk1' : (2 : ℚ) ^ (52 : ℤ) ≤ (k : ℚ) := by exact_mod_cast hk1
  have hk2' : (k : ℚ) < (2 : ℚ) ^ (53 : ℤ) := by exact_mod_cast hk2
  have hulp : (0 : ℚ) < 2 ^ (e - 52) := by positivity
  have hlo : (2 : ℚ) ^ e ≤ (k : ℚ) * 2 ^ (e - 52) := by
    have : (2 : ℚ) ^ e = 2 ^ (52 : ℤ) * 2 ^ (e - 52) := by
      rw [← zpow_add₀ (by norm_num : (2 : ℚ) ≠ 0)]
      congr 1
      ring
    rw [this]
    exact mul_le_mul_of_nonneg_right hk1' (le_of_lt hulp)
  have hhi : (k : ℚ) * 2 ^ (e - 52) < (2 : ℚ) ^ (e + 1) := by
    have : (2 : ℚ) ^ (e + 1) = 2 ^ (53 : ℤ) * 2 ^ (e - 52) := by
      rw [← zpow_add₀ (by norm_num : (2 : ℚ) ≠ 0)]
      congr 1
      ring
    rw [this]
    exact mul_lt_mul_of_pos_right hk2' hulp
  rw [roundDouble_binade_pos _ e hlo hhi he, mul_div_assoc, div_self (ne_of_gt hulp), mul_one]
  congr 1
  unfold roundHalfEven
  simp

theorem roundDouble_one : roundDouble 1 = 1 := by
  have h := roundDouble_of_significand (2 ^ 52) 0 (le_refl _) (by norm_num) (by norm_num)
  have e : ((2 ^ 52 : ℤ) : ℚ) * 2 ^ ((0 : ℤ) - 52) = 1 := by norm_num
  rw [e] at h
  exact h

/-- The error of a rounding is at most `2 ^ (-53)` of the magnitude, and at
most `2 ^ (-1075)` below the normal range. -/
theorem roundDouble_abs_error (x : ℚ) :
    |roundDouble x - x| ≤ 2 ^ (-53 : ℤ) * |x| + 2 ^ (-1075 : ℤ) := by
  have h53 : (0 : ℚ) < 2 ^ (-53 : ℤ) := by positivity
  have h1075 : (0 : ℚ) < 2 ^ (-1075 : ℤ) := by positivity
  by_cases hx : x = 0
  · rw [hx, roundDouble_zero]
    simp only [sub_zero, abs_zero, mul_zero, zero_add]
    exact le_of_lt h1075
  rcases le_or_lt ((2 : ℚ) ^ (-1022 : ℤ)) |x| with h | h
  · exact le_trans (roundDouble_error x h) (le_add_of_nonneg_right (le_of_lt h1075))
  · have hpos : 0 < |x| := abs_pos.mpr hx
    have hb : 1 < 2 := by norm_num
    have hlog : Int.log 2 |x| < -1022 :=
      (Int.lt_zpow_iff_log_lt hb hpos).mp (by exact_mod_cast h)
    have hr : roundDouble x
        = (roundHalfEven (x / 2 ^ ((-1022 : ℤ) - 52)) : ℚ) * 2 ^ ((-1022 : ℤ) - 52) := by
      unfold roundDouble
      rw [if_neg hx, max_eq_right (le_of_lt hlog)]
    rw [hr]
    have hulp : (0 : ℚ) < 2 ^ ((-1022 : ℤ) - 52) := by positivity
    have he := roundHalfEven_error (x / 2 ^ ((-1022 : ℤ) - 52))
    have hkey : (roundHalfEven (x / 2 ^ ((-1022 : ℤ) - 52)) : ℚ) * 2 ^ ((-1022 : ℤ) - 52) - x
        = ((roundHalfEven (x / 2 ^ ((-1022 : ℤ) - 52)) : ℚ) - x / 2 ^ ((-1022 : ℤ) - 52))
          * 2 ^ ((-1022 : ℤ) - 52) := by
      field_simp
    rw [hkey, abs_mul, abs_of_pos hulp]
    have h2 : (1 / 2 : ℚ) * 2 ^ ((-1022 : ℤ) - 52) = 2 ^ (-1075 : ℤ) := by
      rw [show (-1075 : ℤ) = -1 + ((-1022 : ℤ) - 52) by norm_num,
        zpow_add₀ (by norm_num : (2 : ℚ) ≠ 0)]
      norm_num
    calc |(roundHalfEven (x / 2 ^ ((-1022 : ℤ) - 52)) : ℚ) - x / 2 ^ ((-1022 : ℤ) - 52)|
          * 2 ^ ((-1022 : ℤ) - 52)
        ≤ 1 / 2 * 2 ^ ((-1022 : ℤ) - 52) := mul_le_mul_of_nonneg_right he (le_of_lt hulp)
      _ = 2 ^ (-1075 : ℤ) := h2
      _ ≤ 2 ^ (-53 : ℤ) * |x| + 2 ^ (-1075 : ℤ) :=
          le_add_of_nonneg_left (mul_nonneg (le_of_lt h53) (abs_nonneg x))

/-- One rounding of an approximation: a number within `k` units of `y`, the
unit being `2 ^ (-53) * S`, is rounded to a number within `k + m + 2` units of
`y`, when `|y|` is at most `m * S`. -/
theorem roundDouble_step (S k m x y : ℚ) (hS : (2 : ℚ) ^ (-1022 : ℤ) ≤ S)
    (hk0 : 0 ≤ k) (hk : k ≤ 1000) (hxy : |x - y| ≤ k * (2 ^ (-53 : ℤ) * S))
    (hy : |y| ≤ m * S) :
    |roundDouble x - y| ≤ (k + m + 2) * (2 ^ (-53 : ℤ) * S) := by
  have he := roundDouble_abs_error x
  have hu : (2 : ℚ) ^ (-53 : ℤ) ≤ 1 / 1000 := by
    rw [zpow_neg, inv_eq_one_div]
    apply one_div_le_one_div_of_le (by norm_num)
    norm_num
  have heta : (2 : ℚ) ^ (-1075 : ℤ) = 2 ^ (-53 : ℤ) * 2 ^ (-1022 : ℤ) := by
    rw [← zpow_add₀ (by norm_num : (2 : ℚ) ≠ 0)]
    norm_num
  have hu0 : (0 : ℚ) < 2 ^ (-53 : ℤ) := by positivity
  have hS0 : 0 < S := lt_of_lt_of_le (by positivity) hS
  rw [heta] at he
  generalize (2 : ℚ) ^ (-53 : ℤ) = u at *
  generalize (2 : ℚ) ^ (-1022 : ℤ) = t at *
  have hT : 0 ≤ u * S := le_of_lt (mul_pos hu0 hS0)
  have hx : |x| ≤ m * S + k * (u * S) := by
    have : |x| ≤ |x - y| + |y| := by
      have := abs_add (x - y) y
      simpa using this
    linarith
  have h1 : u * |x| ≤ u * (m * S + k * (u * S)) := mul_le_mul_of_nonneg_left hx (le_of_lt hu0)
  have h2 : u * t ≤ u * S := mul_le_mul_of_nonneg_left hS (le_of_lt hu0)
  have h3 : k * u ≤ 1 := by nlinarith
  have h4 : k * u * (u * S) ≤ 1 * (u * S) := mul_le_mul_of_nonneg_right h3 hT
  have h5 : |roundDouble x - y| ≤ |roundDouble x - x| + |x - y| := by
    have := abs_add (roundDouble x - x) (x - y)
    simpa using this
  nlinarith

/-- The product of an approximate coefficient with an approximate number: the
coefficient `c1` within `j * 2 ^ (-53)` of `c`, `|c|` at most 1, the number `x`
within `k` units of `y`, `|y|` at most `m * S`. -/
theorem approx_mul (S j k m c1 c x y : ℚ) (hS : 0 ≤ S)
    (hj0 : 0 ≤ j) (hj : j ≤ 1000) (hk0 : 0 ≤ k) (hk : k ≤ 1000)
    (hc : |c| ≤ 1) (hcc : |c1 - c| ≤ j * 2 ^ (-53 : ℤ))
    (hxy : |x - y| ≤ k * (2 ^ (-53 : ℤ) * S)) (hy : |y| ≤ m * S) :
    |c1 * x - c * y| ≤ (k + j * m + 1) * (2 ^ (-53 : ℤ) * S) ∧ |c * y| ≤ m * S := by
  have hu : (2 : ℚ) ^ (-53 : ℤ) ≤ 1 / 1000000 := by
    rw [zpow_neg, inv_eq_one_div]
    apply one_div_le_one_div_of_le (by norm_num)
    norm_num
  have hu0 : (0 : ℚ) < 2 ^ (-53 : ℤ) := by positivity
  generalize (2 : ℚ) ^ (-53 : ℤ) = u at *
  have hT : 0 ≤ u * S := mul_nonneg (le_of_lt hu0) hS
  have hc1 : |c1| ≤ 1 + j * u := by
    have : |c1| ≤ |c1 - c| + |c| := by
      have := abs_add (c1 - c) c
      simpa using this
    linarith
  have hsplit : c1 * x - c * y = c1 * (x - y) + (c1 - c) * y := by ring
  have ha : |c1 * (x - y)| ≤ (1 + j * u) * (k * (u * S)) := by
    rw [abs_mul]
    exact mul_le_mul hc1 hxy (abs_nonneg _) (by positivity)
  have hb : |(c1 - c) * y| ≤ (j * u) * (m * S) := by
    rw [abs_mul]
    exact mul_le_mul hcc hy (abs_nonneg _) (by positivity)
  have hjk : j * k * u ≤ 1 := by
    have : j * k ≤ 1000 * 1000 := mul_le_mul hj hk hk0 (by norm_num)
    nlinarith
  have hjk2 : j * k * u * (u * S) ≤ 1 * (u * S) := mul_le_mul_of_nonneg_right hjk hT
  refine ⟨?_, ?_⟩
  · rw [hsplit]
    have := abs_add (c1 * (x - y)) ((c1 - c) * y)
    nlinarith
  · rw [abs_mul]
    have := mul_le_mul hc hy (abs_nonneg _) (by norm_num : (0 : ℚ) ≤ 1)
    linarith

/-! ### Persistence of the grip offsets (`writeSlur`, `read`) -/

theorem PointF.isNull_iff (a : PointF) : a.isNull = true ↔ a = PointF.zero := by
  unfold PointF.isNull PointF.zero
  rw [PointF.eq_iff]
  simp

/-- Reading the elements of `EngravingItem::writeProperties` leaves the grips. -/
theorem SlurTieSegment.read_properties (ctx : XmlCtx) :
    ∀ (l : List XmlElement) (s : SlurTieSegment),
      (∀ e ∈ l, e.name ≠ "o1" ∧ e.name ≠ "o2" ∧ e.name ≠ "o3" ∧ e.name ≠ "o4") →
      (SlurTieSegment.read ctx s l).START = s.START
        ∧ (SlurTieSegment.read ctx s l).BEZIER1 = s.BEZIER1
        ∧ (SlurTieSegment.read ctx s l).BEZIER2 = s.BEZIER2
        ∧ (SlurTieSegment.read ctx s l).END = s.END := by
  intro l
  induction l with
  | nil => intro s _; exact ⟨rfl, rfl, rfl, rfl⟩
  | cons e rest ih =>
    intro s h
    have he := h e (List.mem_cons_self _ _)
    have hr := ih (SlurTieSegment.readElement ctx s e)
      (fun x hx => h x (List.mem_cons_of_mem _ hx))
    have hstep : (SlurTieSegment.readElement ctx s e).START = s.START
        ∧ (SlurTieSegment.readElement ctx s e).BEZIER1 = s.BEZIER1
        ∧ (SlurTieSegment.readElement ctx s e).BEZIER2 = s.BEZIER2
        ∧ (SlurTieSegment.readElement ctx s e).END = s.END := by
      unfold SlurTieSegment.readElement
      simp only []
      rw [if_neg he.1, if_neg he.2.1, if_neg he.2.2.1, if_neg he.2.2.2]
      cases ctx.readProperties e s.item <;> exact ⟨rfl, rfl, rfl, rfl⟩
    unfold SlurTieSegment.read at hr ⊢
    rw [List.foldl_cons]
    exact ⟨hr.1.trans hstep.1, hr.2.1.trans hstep.2.1, hr.2.2.1.trans hstep.2.2.1,
      hr.2.2.2.trans hstep.2.2.2⟩

/-- An offset written as its double quotient by the staff space and read back
as the double product with it is restored up to rounding, coordinate by
coordinate. -/
theorem PointF.scale_divide_near (o : PointF) (s : ℚ) (hs : s ≠ 0)
    (hr : o.OffsetInRange s) : PointF.NearOffset ((o.divide s).scale s) o := by
  have hcoord : ∀ c : ℚ, InDoubleRange s c →
      NearDouble (roundDouble (roundDouble (c / s) * s)) c := by
    intro c hc
    rcases hc with h0 | ⟨h1, -, h3, -⟩
    · subst h0
      rw [roundDouble_div_mul_zero]
      unfold NearDouble
      simp
    · exact roundDouble_div_mul c s hs h1 h3
  exact ⟨hcoord o.x hr.1, hcoord o.y hr.2⟩

/-- What `read` leaves in the four grips written by `writeSlur`, for any
segment `target` that reads: an offset that was written is read back as the
double product with the staff space of its double quotient by it, one that was
not written is left as `target` had it. -/
theorem SlurTieSegment.read_writeSlur_grips (ctx : XmlCtx) (s target : SlurTieSegment) (no : ℤ)
    (out : ℤ × List XmlElement)
    (hw : SlurTieSegment.writeSlur ctx s no = some out)
    (hprops : ∀ e ∈ ctx.writeProperties s.item,
      e.name ≠ "o1" ∧ e.name ≠ "o2" ∧ e.name ≠ "o3" ∧ e.name ≠ "o4") :
    (SlurTieSegment.read ctx target out.2).START.off
        = (if s.START.off.isNull then target.START.off
           else (s.START.off.divide ctx.spatium).scale ctx.spatium)
      ∧ (SlurTieSegment.read ctx target out.2).BEZIER1.off
        = (if s.BEZIER1.off.isNull then target.BEZIER1.off
           else (s.BEZIER1.off.divide ctx.spatium).scale ctx.spatium)
      ∧ (SlurTieSegment.read ctx target out.2).BEZIER2.off
        = (if s.BEZIER2.off.isNull then target.BEZIER2.off
           else (s.BEZIER2.off.divide ctx.spatium).scale ctx.spatium)
      ∧ (SlurTieSegment.read ctx target out.2).END.off
        = (if s.END.off.isNull then target.END.off
           else (s.END.off.divide ctx.spatium).scale ctx.spatium) := by
  unfold SlurTieSegment.writeSlur at hw
  split at hw
  · exact absurd hw (by simp)
  · simp only [Option.some.injEq] at hw
    subst hw
    simp only []
    unfold SlurTieSegment.read
    rw [List.foldl_append]
    obtain ⟨p1, p2, p3, p4⟩ := SlurTieSegment.read_properties ctx (ctx.writeProperties s.item)
      (List.foldl (SlurTieSegment.readElement ctx) target
        ((if !s.START.off.isNull then
              [XmlElement.tagPoint "o1" (s.START.off.divide ctx.spatium)] else [])
          ++ (if !s.BEZIER1.off.isNull then
              [XmlElement.tagPoint "o2" (s.BEZIER1.off.divide ctx.spatium)] else [])
          ++ (if !s.BEZIER2.off.isNull then
              [XmlElement.tagPoint "o3" (s.BEZIER2.off.divide ctx.spatium)] else [])
          ++ (if !s.END.off.isNull then
              [XmlElement.tagPoint "o4" (s.END.off.divide ctx.spatium)] else []))) hprops
    unfold SlurTieSegment.read at p1 p2 p3 p4
    rw [p1, p2, p3, p4]
    cases s.START.off.isNull <;> cases s.BEZIER1.off.isNull <;> cases s.BEZIER2.off.isNull <;>
      cases s.END.off.isNull <;>
      simp [SlurTieSegment.readElement, XmlElement.tagPoint]

/-- The double nearest to 7/25 = 0.28, and the double nearest to its product
with 25, which is the double after 7. -/
theorem roundDouble_seven_twentyfifths :
    roundDouble (7 / 25) = 5044031582654956 / 2 ^ 54
      ∧ roundDouble (5044031582654956 / 2 ^ 54 * 25) = 7 + 1 / 2 ^ 50 := by
  constructor
  · rw [roundDouble_binade_pos (7 / 25) (-2) (by norm_num) (by norm_num) (by norm_num)]
    have hf : ⌊(7 / 25 : ℚ) / 2 ^ ((-2 : ℤ) - 52)⌋ = 5044031582654955 := by
      rw [Int.floor_eq_iff]
      norm_num
    unfold roundHalfEven
    simp only [hf]
    norm_num
  · rw [roundDouble_binade_pos _ 2 (by norm_num) (by norm_num) (by norm_num)]
    have hf : ⌊(5044031582654956 / 2 ^ 54 * 25 : ℚ) / 2 ^ ((2 : ℤ) - 52)⌋
        = 7881299347898368 := by
      rw [Int.floor_eq_iff]
      norm_num
    unfold roundHalfEven
    simp only [hf]
    norm_num

/-- What `writeSlur` writes for the user offset (7, 0) of START at the staff
space 25, and what `read` makes of it. -/
theorem SlurTieSegment.write_read_seven :
    SlurTieSegment.writeSlur { exXmlCtx with spatium := 25 } (exTieSegment ⟨7, 0⟩ ⟨0, 0⟩) 0
        = some (0, [⟨"o1", ⟨5044031582654956 / 2 ^ 54, 0⟩⟩, ⟨"visible", ⟨0, 0⟩⟩])
      ∧ (SlurTieSegment.read { exXmlCtx with spatium := 25 } (exTieSegment ⟨0, 0⟩ ⟨0, 0⟩)
          [⟨"o1", ⟨5044031582654956 / 2 ^ 54, 0⟩⟩, ⟨"visible", ⟨0, 0⟩⟩]).START.off
        = ⟨7 + 1 / 2 ^ 50, 0⟩ := by
  obtain ⟨h1, h2⟩ := roundDouble_seven_twentyfifths
  constructor
  · simp [SlurTieSegment.writeSlur, exTieSegment, exXmlCtx, PointF.isNull, PointF.divide,
      XmlElement.tagPoint, UP.zero, PointF.zero, h1, roundDouble_zero]
  · simp [SlurTieSegment.read, SlurTieSegment.readElement, exTieSegment, exXmlCtx,
      PointF.scale, h2, roundDouble_zero]

/-- C12, as stated, fails. At the staff space 25 the user offset (7, 0) of
START is written as `o1` = (0.28, 0), the double nearest to 7/25 being
5044031582654956 / 2^54, and read back as the double nearest to the product of
that number with 25, which is 7 + 2^-50 and not 7. The elements are handed
from `tagPoint` to `readPoint` without loss. -/
theorem C12_counterexample :
    SlurTieSegment.writeSlur { exXmlCtx with spatium := 25 } (exTieSegment ⟨7, 0⟩ ⟨0, 0⟩) 0
        = some (0, [⟨"o1", ⟨5044031582654956 / 2 ^ 54, 0⟩⟩, ⟨"visible", ⟨0, 0⟩⟩])
      ∧ (SlurTieSegment.read { exXmlCtx with spatium := 25 } (exTieSegment ⟨0, 0⟩ ⟨0, 0⟩)
          [⟨"o1", ⟨5044031582654956 / 2 ^ 54, 0⟩⟩, ⟨"visible", ⟨0, 0⟩⟩]).START.off
        = ⟨7 + 1 / 2 ^ 50, 0⟩
      ∧ (SlurTieSegment.read { exXmlCtx with spatium := 25 } (exTieSegment ⟨0, 0⟩ ⟨0, 0⟩)
          [⟨"o1", ⟨5044031582654956 / 2 ^ 54, 0⟩⟩, ⟨"visible", ⟨0, 0⟩⟩]).START.off
        ≠ (exTieSegment ⟨7, 0⟩ ⟨0, 0⟩).START.off := by
  obtain ⟨h1, h2⟩ := SlurTieSegment.write_read_seven
  refine ⟨h1, h2, ?_⟩
  rw [h2]
  intro h
  have hx := congrArg PointF.x h
  norm_num [exTieSegment] at hx

/-- C12, amended: for every segment that `writeSlur` writes and every staff
space other than zero, `read`, applied under the same staff space by a segment
whose four offsets are zero (as in a new segment) to the elements that
`writeSlur` produced, restores the user offsets of START, BEZIER1, BEZIER2 and
END up to the rounding of the double division and the double multiplication:
each coordinate read back differs from the one written by at most `2 ^ (-51)`
of its magnitude, when the coordinates and their quotients by the staff space
are in the range of the normal doubles; an offset that was zero, whose tag is
omitted, reads back as zero; and in exact arithmetic
`c / spatium * spatium = c`. The elements of `EngravingItem::writeProperties`
are any elements not named `o1`..`o4`, and they are handed from `tagPoint` to
`readPoint` without loss. -/
theorem SlurTieSegment.read_writeSlur (ctx : XmlCtx) (s target : SlurTieSegment) (no : ℤ)
    (out : ℤ × List XmlElement) (hsp : ctx.spatium ≠ 0)
    (hw : SlurTieSegment.writeSlur ctx s no = some out)
    (hprops : ∀ e ∈ ctx.writeProperties s.item,
      e.name ≠ "o1" ∧ e.name ≠ "o2" ∧ e.name ≠ "o3" ∧ e.name ≠ "o4")
    (htarget : target.START.off = PointF.zero ∧ target.BEZIER1.off = PointF.zero
      ∧ target.BEZIER2.off = PointF.zero ∧ target.END.off = PointF.zero)
    (hrange : s.START.off.OffsetInRange ctx.spatium ∧ s.BEZIER1.off.OffsetInRange ctx.spatium
      ∧ s.BEZIER2.off.OffsetInRange ctx.spatium ∧ s.END.off.OffsetInRange ctx.spatium) :
    (PointF.NearOffset (SlurTieSegment.read ctx target out.2).START.off s.START.off
        ∧ PointF.NearOffset (SlurTieSegment.read ctx target out.2).BEZIER1.off s.BEZIER1.off
        ∧ PointF.NearOffset (SlurTieSegment.read ctx target out.2).BEZIER2.off s.BEZIER2.off
        ∧ PointF.NearOffset (SlurTieSegment.read ctx target out.2).END.off s.END.off)
      ∧ ((s.START.off = PointF.zero →
            (SlurTieSegment.read ctx target out.2).START.off = PointF.zero)
        ∧ (s.BEZIER1.off = PointF.zero →
            (SlurTieSegment.read ctx target out.2).BEZIER1.off = PointF.zero)
        ∧ (s.BEZIER2.off = PointF.zero →
            (SlurTieSegment.read ctx target out.2).BEZIER2.off = PointF.zero)
        ∧ (s.END.off = PointF.zero →
            (SlurTieSegment.read ctx target out.2).END.off = PointF.zero))
      ∧ (∀ c : ℚ, c / ctx.spatium * ctx.spatium = c) := by
  obtain ⟨h1, h2, h3, h4⟩ := SlurTieSegment.read_writeSlur_grips ctx s target no out hw hprops
  obtain ⟨t1, t2, t3, t4⟩ := htarget
  obtain ⟨r1, r2, r3, r4⟩ := hrange
  have hnear : ∀ (res o t : PointF), t = PointF.zero → o.OffsetInRange ctx.spatium →
      res = (if o.isNull then t else (o.divide ctx.spatium).scale ctx.spatium) →
      PointF.NearOffset res o ∧ (o = PointF.zero → res = PointF.zero) := by
    intro res o t ht hr hres
    by_cases hn : o.isNull = true
    · rw [if_pos hn, ht] at hres
      have ho := (PointF.isNull_iff _).mp hn
      refine ⟨?_, fun _ => hres⟩
      rw [hres, ho]
      unfold PointF.NearOffset NearDouble PointF.zero
      simp
    · rw [if_neg hn] at hres
      refine ⟨?_, fun ho => absurd ((PointF.isNull_iff _).mpr ho) hn⟩
      rw [hres]
      exact PointF.scale_divide_near o ctx.spatium hsp hr
  have g1 := hnear _ _ _ t1 r1 h1
  have g2 := hnear _ _ _ t2 r2 h2
  have g3 := hnear _ _ _ t3 r3 h3
  have g4 := hnear _ _ _ t4 r4 h4
  exact ⟨⟨g1.1, g2.1, g3.1, g4.1⟩, ⟨g1.2, g2.2, g3.2, g4.2⟩,
    fun c => div_mul_cancel₀ c hsp⟩

/-- The amended C12 on a segment with the user offset (7, 0) on START and
none on the other grips, at staff space 25: the offset read back on START is
(7, 0) up to rounding, and END reads back zero. -/
theorem SlurTieSegment.read_writeSlur_witness :
    PointF.NearOffset
        (SlurTieSegment.read { exXmlCtx with spatium := 25 } (exTieSegment ⟨0, 0⟩ ⟨0, 0⟩)
          [⟨"o1", ⟨5044031582654956 / 2 ^ 54, 0⟩⟩, ⟨"visible", ⟨0, 0⟩⟩]).START.off ⟨7, 0⟩
      ∧ (SlurTieSegment.read { exXmlCtx with spatium := 25 } (exTieSegment ⟨0, 0⟩ ⟨0, 0⟩)
          [⟨"o1", ⟨5044031582654956 / 2 ^ 54, 0⟩⟩, ⟨"visible", ⟨0, 0⟩⟩]).END.off = ⟨0, 0⟩ := by
  have hzero : InDoubleRange 25 0 := Or.inl rfl
  have hseven : InDoubleRange 25 7 := by
    right
    have h1 : (2 : ℚ) ^ (-1021 : ℤ) ≤ 1 := zpow_le_one_of_nonpos₀ (by norm_num) (by norm_num)
    have h2 : (2 : ℚ) ^ (-1022 : ℤ) ≤ 2 ^ (-2 : ℤ) :=
      zpow_le_zpow_right₀ (by norm_num) (by norm_num)
    have h3 : (2 : ℚ) ^ (3 : ℤ) ≤ 2 ^ (1022 : ℤ) :=
      zpow_le_zpow_right₀ (by norm_num) (by norm_num)
    have h4 : (2 : ℚ) ^ (0 : ℤ) ≤ 2 ^ (1023 : ℤ) :=
      zpow_le_zpow_right₀ (by norm_num) (by norm_num)
    have h5 : (2 : ℚ) ^ (-2 : ℤ) = 1 / 4 := by norm_num
    have h6 : (2 : ℚ) ^ (3 : ℤ) = 8 := by norm_num
    have h7 : (2 : ℚ) ^ (0 : ℤ) = 1 := by norm_num
    rw [h5] at h2
    rw [h6] at h3
    rw [h7] at h4
    have a7 : |(7 : ℚ)| = 7 := abs_of_pos (by norm_num)
    have a725 : |(7 / 25 : ℚ)| = 7 / 25 := abs_of_pos (by norm_num)
    rw [a7, a725]
    refine ⟨?_, ?_, ?_, ?_⟩ <;> linarith
  have h := SlurTieSegment.read_writeSlur { exXmlCtx with spatium := 25 }
    (exTieSegment ⟨7, 0⟩ ⟨0, 0⟩) (exTieSegment ⟨0, 0⟩ ⟨0, 0⟩) 0 _
    (by norm_num [exXmlCtx]) SlurTieSegment.write_read_seven.1
    (by simp [exXmlCtx]) ⟨rfl, rfl, rfl, rfl⟩
    ⟨⟨hseven, hzero⟩, ⟨hzero, hzero⟩, ⟨hzero, hzero⟩, ⟨hzero, hzero⟩⟩
  exact ⟨h.1.1, h.2.1.2.2.2 rfl⟩

/-! ### Shoulder height and width (`computeBezier`) -/

/-- The control points that `computeBezier` leaves in the grips BEZIER1 and
BEZIER2 of a segment that is not degenerate are the points `(c1, -shoulderH)`
and `(c2, -shoulderH)` of the local frame, mapped back: height and width of
the shoulder are those of `SlurSegment.shoulder` for the span `c / spatium`. -/
theorem SlurSegment.buildBezier_control_points (ctx : SegCtx) (slur : Slur) (s : SlurSegment) :
    let c := SlurSegment.localSpan ctx s
    let shoulderW := (SlurSegment.shoulder ctx.math ctx.spatium s.extraHeight (c / ctx.spatium)).2
    let shoulderH := SlurSegment.shoulderH ctx.math ctx.spatium s.extraHeight (c / ctx.spatium)
      slur.up
    let c1 := (c - c * shoulderW) * (1 / 2)
    (SlurSegment.buildBezier ctx slur s computeBezierDefaultArg).BEZIER1.p
        = (SlurSegment.backTransform ctx s).map ⟨c1, -shoulderH⟩
      ∧ (SlurSegment.buildBezier ctx slur s computeBezierDefaultArg).BEZIER2.p
        = (SlurSegment.backTransform ctx s).map ⟨c1 + c * shoulderW, -shoulderH⟩ := by
  have hz : ∀ a, (Transform.identity.rotateRadians ctx.math a).map ⟨0, 0⟩ = ⟨0, 0⟩ :=
    fun a => Transform.rotate_map_zero ctx.math a
  unfold computeBezierDefaultArg
  simp only [SlurSegment.buildBezier, SlurSegment.localSpan, SlurSegment.backTransform,
    SlurSegment.shoulderH, PointF.zero, hz, sub_zero, add_zero, and_self]

theorem exMathLog_hundred : exMathLog.log10 100 = 2 := by
  have h : Nat.log 10 100 = 2 := by
    have h100 : (100 : ℕ) = 10 ^ 2 := by norm_num
    rw [h100, Nat.log_pow (by norm_num)]
  simp [exMathLog, h]

/-- C16, as stated, fails in two ways. For the span of 200 staff spaces, at
staff space 1, without extra height and without shoulder offset, the
logarithmic term `2 log10(100) = 4` is capped at 3 and the constant 0.5 is
added: the shoulder height is 3.5 staff spaces. And a segment whose end point
(-100, 0) lies left of its start point (0, 0) has the span -100 (`atan(0)`,
`sin(0)` and `cos(0)` are 0, 0 and 1), for which the branch `d <= 2` gives the
height `-100 / 4 = -25` staff spaces. -/
theorem C16_counterexample :
    (SlurSegment.shoulderH exMathLog 1 0 200 true = 7 / 2
        ∧ ¬ (|SlurSegment.shoulderH exMathLog 1 0 200 true| ≤ 3 * 1))
      ∧ (SlurSegment.localSpan { exSegCtx with math := exMathLog }
            (exSegment ⟨0, 0⟩ ⟨0, 0⟩ ⟨-100, 0⟩ ⟨0, 0⟩) / 1 = -100
        ∧ SlurSegment.shoulderH exMathLog 1 0 (-100) true = -25
        ∧ ¬ (|SlurSegment.shoulderH exMathLog 1 0 (-100) true| ≤ 3 * 1)) := by
  have hl : exMathLog.log10 (1 + (200 - 2) * (1 / 2)) = 2 := by
    have : (1 + (200 - 2) * (1 / 2) : ℚ) = 100 := by norm_num
    rw [this, exMathLog_hundred]
  have h : SlurSegment.shoulderH exMathLog 1 0 200 true = 7 / 2 := by
    unfold SlurSegment.shoulderH SlurSegment.shoulder
    simp only [hl]
    norm_num
  have h' : SlurSegment.shoulderH exMathLog 1 0 (-100) true = -25 := by
    norm_num [SlurSegment.shoulderH, SlurSegment.shoulder]
  rw [h, h']
  refine ⟨⟨rfl, ?_⟩, ?_, rfl, ?_⟩
  · rw [abs_of_pos (by norm_num)]
    norm_num
  · norm_num [SlurSegment.localSpan, exSegCtx, exMathLog, exMath, exSegment,
      Transform.map, Transform.rotateRadians, Transform.identity, PointF.add_x, PointF.add_y,
      PointF.sub_x, PointF.sub_y]
  · rw [abs_of_neg (by norm_num)]
    norm_num

/-- The height chosen by `computeBezier` for a span `d`, without extra height:
for `d <= 2` it is `d / 4` staff spaces, for `d > 2` it lies between 0 and 3.5
staff spaces. -/
theorem SlurSegment.shoulder_height_range (M : MathFns) (spatium d : ℚ) (hsp : 0 ≤ spatium)
    (hlog : ∀ x : ℚ, 1 ≤ x → 0 ≤ M.log10 x) :
    (d ≤ 2 → (SlurSegment.shoulder M spatium 0 d).1 = d / 4 * spatium)
      ∧ (2 < d → 0 ≤ (SlurSegment.shoulder M spatium 0 d).1
          ∧ (SlurSegment.shoulder M spatium 0 d).1 ≤ 7 / 2 * spatium) := by
  unfold SlurSegment.shoulder
  simp only []
  constructor
  · intro h2
    rw [if_pos h2]
    simp only []
    ring
  · intro h2
    rw [if_neg (not_le.mpr h2)]
    simp only [add_zero]
    have hx : (1 : ℚ) ≤ 1 + (d - 2) * (1 / 2) := by linarith
    have hl := hlog _ hx
    by_cases h3 : M.log10 (1 + (d - 2) * (1 / 2)) * 2 > 3
    · rw [if_pos h3]
      constructor
      · positivity
      · nlinarith
    · rw [if_neg h3]
      have h3' := not_lt.mp h3
      constructor
      · positivity
      · nlinarith

/-- The magnitude of the signed height is the magnitude of the height chosen
for the span. -/
theorem SlurSegment.shoulderH_abs (M : MathFns) (spatium e d : ℚ) (up : Bool) :
    |SlurSegment.shoulderH M spatium e d up| = |(SlurSegment.shoulder M spatium e d).1| := by
  unfold SlurSegment.shoulderH
  simp only [sub_zero]
  cases up
  · simp only [Bool.not_false, if_true, abs_neg]
  · simp only [Bool.not_true, Bool.false_eq_true, if_false]

/-- C16, amended: without extra height and without shoulder offset, for both
bow directions, the shoulder height computed by `computeBezier` never exceeds
3.5 staff spaces in magnitude for every span `d` of at least -14 staff spaces
(the logarithmic term is capped at 3 and the constant 0.5 is added to it); and
for every span `d <= 2`, the negative spans of a segment whose end point lies
left of its start point included, the magnitude is `|d| / 4` staff spaces,
which is more than 3.5 below -14. The staff space is not negative and `log10`
is not negative from 1 on. -/
theorem SlurSegment.shoulder_height_cap (M : MathFns) (spatium d : ℚ) (up : Bool)
    (hsp : 0 ≤ spatium) (hlog : ∀ x : ℚ, 1 ≤ x → 0 ≤ M.log10 x) :
    (-14 ≤ d → |SlurSegment.shoulderH M spatium 0 d up| ≤ 7 / 2 * spatium)
      ∧ (d ≤ 2 → |SlurSegment.shoulderH M spatium 0 d up| = |d| / 4 * spatium) := by
  obtain ⟨hlow, hhigh⟩ := SlurSegment.shoulder_height_range M spatium d hsp hlog
  rw [SlurSegment.shoulderH_abs]
  have hsmall : d ≤ 2 → |(SlurSegment.shoulder M spatium 0 d).1| = |d| / 4 * spatium := by
    intro h2
    rw [hlow h2, abs_mul, abs_div, abs_of_nonneg hsp]
    norm_num
  refine ⟨fun h14 => ?_, hsmall⟩
  rcases le_or_lt d 2 with h2 | h2
  · rw [hsmall h2]
    have : |d| ≤ 14 := abs_le.mpr ⟨h14, by linarith⟩
    nlinarith
  · obtain ⟨h0, h1⟩ := hhigh h2
    rw [abs_of_nonneg h0]
    exact h1

/-- The amended C16 at the span of 200 staff spaces, where the cap is reached,
and at the span of -100 staff spaces, where the height is 25 staff spaces. -/
theorem SlurSegment.shoulder_height_cap_witness :
    |SlurSegment.shoulderH exMathLog 1 0 200 true| ≤ 7 / 2 * 1
      ∧ |SlurSegment.shoulderH exMathLog 1 0 (-100) true| = 25 := by
  have h1 := (SlurSegment.shoulder_height_cap exMathLog 1 200 true (by norm_num)
    (fun x _ => by simp [exMathLog])).1 (by norm_num)
  have h2 := (SlurSegment.shoulder_height_cap exMathLog 1 (-100) true (by norm_num)
    (fun x _ => by simp [exMathLog])).2 (by norm_num)
  refine ⟨h1, ?_⟩
  rw [h2]
  norm_num [abs_of_neg]

/-- C17, as stated, fails: for the span of 1 staff space the shoulder height is
0.25 staff spaces with extra height 1 as with extra height 0. -/
theorem C17_counterexample :
    (0 : ℚ) < 1
      ∧ SlurSegment.shoulderH exMath 1 1 1 true = 1 / 4
      ∧ SlurSegment.shoulderH exMath 1 0 1 true = 1 / 4
      ∧ SlurSegment.shoulderH exMath 1 1 1 true ≠ SlurSegment.shoulderH exMath 1 0 1 true + 1 := by
  have h1 : SlurSegment.shoulderH exMath 1 1 1 true = 1 / 4 := by
    norm_num [SlurSegment.shoulderH, SlurSegment.shoulder]
  have h0 : SlurSegment.shoulderH exMath 1 0 1 true = 1 / 4 := by
    norm_num [SlurSegment.shoulderH, SlurSegment.shoulder]
  refine ⟨by norm_num, h1, h0, ?_⟩
  rw [h1, h0]
  norm_num

/-- C17, amended: for every span `d > 2` staff spaces and every extra height
`e`, the shoulder height computed by `computeBezier` (before the bow direction
gives it its sign) is the shoulder height for extra height 0 plus `e`, and the
signed height of an up-bowing slur likewise; for every span `d <= 2` the extra
height is not applied. -/
theorem SlurSegment.shoulder_extra_height (M : MathFns) (spatium e d : ℚ) :
    (2 < d →
        (SlurSegment.shoulder M spatium e d).1 = (SlurSegment.shoulder M spatium 0 d).1 + e
        ∧ SlurSegment.shoulderH M spatium e d true
            = SlurSegment.shoulderH M spatium 0 d true + e
        ∧ SlurSegment.shoulderH M spatium e d false
            = SlurSegment.shoulderH M spatium 0 d false - e)
      ∧ (d ≤ 2 →
        (SlurSegment.shoulder M spatium e d).1 = (SlurSegment.shoulder M spatium 0 d).1
        ∧ ∀ up, SlurSegment.shoulderH M spatium e d up = SlurSegment.shoulderH M spatium 0 d up) := by
  constructor
  · intro h
    have h2 : ¬ d ≤ 2 := not_le.mpr h
    have hk : (SlurSegment.shoulder M spatium e d).1
        = (SlurSegment.shoulder M spatium 0 d).1 + e := by
      unfold SlurSegment.shoulder
      simp only [if_neg h2, add_zero]
    refine ⟨hk, ?_, ?_⟩
    · unfold SlurSegment.shoulderH
      simp only [hk, sub_zero, Bool.not_true, Bool.false_eq_true, if_false]
    · unfold SlurSegment.shoulderH
      simp only [hk, sub_zero, Bool.not_false, if_true]
      ring
  · intro h
    have hk : (SlurSegment.shoulder M spatium e d).1 = (SlurSegment.shoulder M spatium 0 d).1 := by
      unfold SlurSegment.shoulder
      simp only [if_pos h]
    refine ⟨hk, fun up => ?_⟩
    unfold SlurSegment.shoulderH
    simp only [hk]

/-- The amended C17 at the span of 200 staff spaces with extra height 1: the
shoulder height is 3.5 + 1 staff spaces. -/
theorem SlurSegment.shoulder_extra_height_witness :
    SlurSegment.shoulderH exMathLog 1 1 200 true = 7 / 2 + 1 := by
  have h := ((SlurSegment.shoulder_extra_height exMathLog 1 1 200).1 (by norm_num)).2.1
  have hl : exMathLog.log10 (1 + (200 - 2) * (1 / 2)) = 2 := by
    have : (1 + (200 - 2) * (1 / 2) : ℚ) = 100 := by norm_num
    rw [this, exMathLog_hundred]
  have h0 : SlurSegment.shoulderH exMathLog 1 0 200 true = 7 / 2 := by
    unfold SlurSegment.shoulderH SlurSegment.shoulder
    simp only [hl]
    norm_num
  rw [h, h0]

/-- C18, as stated, fails: the width fraction for the span 5 is 0.5 and the
one for the span 20 is 0.7, so it grows with the span. -/
theorem C18_counterexample :
    (5 : ℚ) ≤ 20
      ∧ (SlurSegment.shoulder exMath 1 0 5).2 = 1 / 2
      ∧ (SlurSegment.shoulder exMath 1 0 20).2 = 7 / 10
      ∧ ¬ ((SlurSegment.shoulder exMath 1 0 5).2 ≥ (SlurSegment.shoulder exMath 1 0 20).2) := by
  have h5 : (SlurSegment.shoulder exMath 1 0 5).2 = 1 / 2 := by
    norm_num [SlurSegment.shoulder]
  have h20 : (SlurSegment.shoulder exMath 1 0 20).2 = 7 / 10 := by
    norm_num [SlurSegment.shoulder]
  refine ⟨by norm_num, h5, h20, ?_⟩
  rw [h5, h20]
  norm_num

/-- The width fraction chosen by `computeBezier`, by the span. -/
theorem SlurSegment.shoulder_width_eq (M : MathFns) (spatium e d : ℚ) :
    (SlurSegment.shoulder M spatium e d).2 =
      if d ≤ 2 then 6 / 10 else if d ≤ 10 then 5 / 10 else if d ≤ 18 then 6 / 10 else 7 / 10 := by
  unfold SlurSegment.shoulder
  simp only []
  by_cases h2 : d ≤ 2
  · rw [if_pos h2, if_pos h2]
  · rw [if_neg h2, if_neg h2]
    simp only []
    by_cases h18 : d > 18
    · rw [if_pos h18, if_neg (by linarith), if_neg (not_le.mpr h18)]
    · rw [if_neg h18, if_pos (not_lt.mp h18)]
      by_cases h10 : d > 10
      · rw [if_pos h10, if_neg (not_le.mpr h10)]
      · rw [if_neg h10, if_pos (not_lt.mp h10)]

/-- C18, amended: the shoulder-width fraction chosen by `computeBezier` lies in
[0.5, 0.7] for every span; it is 0.6 for spans up to 2 staff spaces, and for
spans above 2 staff spaces it does not decrease as the span grows (for
`2 < d1 <= d2`, `width(d1) <= width(d2)`): 0.5 up to 10, 0.6 up to 18, 0.7
above. -/
theorem SlurSegment.shoulder_width (M : MathFns) (spatium e : ℚ) :
    (∀ d, 1 / 2 ≤ (SlurSegment.shoulder M spatium e d).2
        ∧ (SlurSegment.shoulder M spatium e d).2 ≤ 7 / 10)
      ∧ (∀ d, d ≤ 2 → (SlurSegment.shoulder M spatium e d).2 = 6 / 10)
      ∧ (∀ d1 d2, 2 < d1 → d1 ≤ d2 →
          (SlurSegment.shoulder M spatium e d1).2 ≤ (SlurSegment.shoulder M spatium e d2).2) := by
  refine ⟨fun d => ?_, fun d hd => ?_, fun d1 d2 h1 h12 => ?_⟩
  · rw [SlurSegment.shoulder_width_eq]
    split_ifs <;> norm_num
  · rw [SlurSegment.shoulder_width_eq, if_pos hd]
  · rw [SlurSegment.shoulder_width_eq, SlurSegment.shoulder_width_eq,
      if_neg (not_le.mpr h1), if_neg (not_le.mpr (lt_of_lt_of_le h1 h12))]
    split_ifs <;> first | (exfalso; linarith) | norm_num

/-- The amended C18 on the spans 5 and 20. -/
theorem SlurSegment.shoulder_width_witness :
    (SlurSegment.shoulder exMath 1 0 5).2 ≤ (SlurSegment.shoulder exMath 1 0 20).2 :=
  (SlurSegment.shoulder_width exMath 1 0).2.2 5 20 (by norm_num) (by norm_num)

/-! ### Sections of the collision scan (`layoutSegment`) -/

/-- One step of the scan on an element that is hit, with its clearance and its
relative position. -/
theorem SlurSegment.scan_hit (ctx : SegCtx) (slur : Slur) (seg : SlurSegment) (up : Bool)
    (pp1 pp2 : PointF) (slurWidth : ℚ) (st : ScanState) (s : ScanSegment)
    (rest : List ScanSegment) (hhit : SlurSegment.scanHits ctx slur seg pp1 pp2 s) :
    SlurSegment.scan ctx slur seg up pp1 pp2 slurWidth st (s :: rest) =
      SlurSegment.scan ctx slur seg up pp1 pp2 slurWidth
        (let dist := SlurSegment.scanDist ctx seg up s
         let rel := SlurSegment.scanRelativeX pp1 slurWidth s
         let st1 : ScanState := { st with segRelativeX := rel, intersection := true }
         if dist > 0 then
           if rel < 3 / 10 then
             { st1 with end1Dist := min (max st.end1Dist dist) (3 * ctx.spatium) }
           else if rel > 1 - 3 / 10 then
             { st1 with end2Dist := min (max st.end2Dist dist) (3 * ctx.spatium) }
           else
             { st1 with midpointDist := min (max st.midpointDist dist) (4 * ctx.spatium) }
         else st1) rest := by
  obtain ⟨hen, hss, hbar, hx1, hx2, hint⟩ := hhit
  rw [SlurSegment.scan]
  simp only [hen, Bool.not_true, Bool.false_eq_true, if_false, if_neg hss, hbar, if_neg hx1,
    if_neg hx2, hint, if_true, SlurSegment.scanDist, SlurSegment.scanRelativeX]

/-- C20, as stated, fails: an element whose centre lies at the relative
position 0.32 of the span, in the first third, with the clearance 1.5, does
not count for the start point: the scan leaves the start-endpoint distance 0
and takes the clearance as mid-height distance. -/
theorem C20_counterexample :
    SlurSegment.scanHits exSegCtxHit (exSlur true (exChordRest 1 0 false) (exChordRest 2 1 false))
        (exSegment ⟨0, 0⟩ ⟨0, 0⟩ ⟨10, 0⟩ ⟨0, 0⟩) ⟨0, 0⟩ ⟨10, 0⟩ (exScanSegment 7 (11 / 5) 2)
      ∧ SlurSegment.scanRelativeX ⟨0, 0⟩ 10 (exScanSegment 7 (11 / 5) 2) = 8 / 25
      ∧ (8 / 25 : ℚ) < 1 / 3
      ∧ SlurSegment.scanDist exSegCtxHit (exSegment ⟨0, 0⟩ ⟨0, 0⟩ ⟨10, 0⟩ ⟨0, 0⟩) true
          (exScanSegment 7 (11 / 5) 2) = 3 / 2
      ∧ (SlurSegment.scan exSegCtxHit (exSlur true (exChordRest 1 0 false) (exChordRest 2 1 false))
          (exSegment ⟨0, 0⟩ ⟨0, 0⟩ ⟨10, 0⟩ ⟨0, 0⟩) true ⟨0, 0⟩ ⟨10, 0⟩ 10 ⟨false, 0, 0, 0, 0⟩
          [exScanSegment 7 (11 / 5) 2]).end1Dist = 0
      ∧ (SlurSegment.scan exSegCtxHit (exSlur true (exChordRest 1 0 false) (exChordRest 2 1 false))
          (exSegment ⟨0, 0⟩ ⟨0, 0⟩ ⟨10, 0⟩ ⟨0, 0⟩) true ⟨0, 0⟩ ⟨10, 0⟩ 10 ⟨false, 0, 0, 0, 0⟩
          [exScanSegment 7 (11 / 5) 2]).midpointDist = 3 / 2 := by
  have hhit : SlurSegment.scanHits exSegCtxHit
      (exSlur true (exChordRest 1 0 false) (exChordRest 2 1 false))
      (exSegment ⟨0, 0⟩ ⟨0, 0⟩ ⟨10, 0⟩ ⟨0, 0⟩) ⟨0, 0⟩ ⟨10, 0⟩ (exScanSegment 7 (11 / 5) 2) := by
    refine ⟨rfl, ?_, rfl, ?_, ?_, rfl⟩
    · simp [exSlur]
    · norm_num [exScanSegment]
    · norm_num [exScanSegment]
  have hrel : SlurSegment.scanRelativeX ⟨0, 0⟩ 10 (exScanSegment 7 (11 / 5) 2) = 8 / 25 := by
    norm_num [SlurSegment.scanRelativeX, exScanSegment]
  have hdist : SlurSegment.scanDist exSegCtxHit (exSegment ⟨0, 0⟩ ⟨0, 0⟩ ⟨10, 0⟩ ⟨0, 0⟩) true
      (exScanSegment 7 (11 / 5) 2) = 3 / 2 := by
    norm_num [SlurSegment.scanDist, SlurSegment.y, exSegCtxHit, exSegCtx, exSegment,
      exScanSegment]
  have hrun := SlurSegment.scan_hit exSegCtxHit
    (exSlur true (exChordRest 1 0 false) (exChordRest 2 1 false))
    (exSegment ⟨0, 0⟩ ⟨0, 0⟩ ⟨10, 0⟩ ⟨0, 0⟩) true ⟨0, 0⟩ ⟨10, 0⟩ 10 ⟨false, 0, 0, 0, 0⟩
    (exScanSegment 7 (11 / 5) 2) [] hhit
  refine ⟨hhit, hrel, by norm_num, hdist, ?_, ?_⟩
  · rw [hrun, hrel, hdist]
    norm_num [SlurSegment.scan, exSegCtxHit, exSegCtx]
  · rw [hrun, hrel, hdist]
    norm_num [SlurSegment.scan, exSegCtxHit, exSegCtx]

/-- C20, amended: in the scan of `layoutSegment`, an intersecting element with
positive clearance whose centre lies at a relative position below 0.3 of the
span counts for the start-endpoint distance, one above 0.7 for the
end-endpoint distance, and every other one for the mid-height distance: the
distance of its section becomes the larger of its value and the clearance,
capped at 3 staff spaces for the end points and 4 for the height, and the two
other distances are left. -/
theorem SlurSegment.scan_sections (ctx : SegCtx) (slur : Slur) (seg : SlurSegment) (up : Bool)
    (pp1 pp2 : PointF) (slurWidth : ℚ) (st : ScanState) (s : ScanSegment)
    (rest : List ScanSegment) (hhit : SlurSegment.scanHits ctx slur seg pp1 pp2 s)
    (hdist : 0 < SlurSegment.scanDist ctx seg up s) :
    ∃ st' : ScanState,
      SlurSegment.scan ctx slur seg up pp1 pp2 slurWidth st (s :: rest)
          = SlurSegment.scan ctx slur seg up pp1 pp2 slurWidth st' rest
        ∧ st'.intersection = true
        ∧ st'.segRelativeX = SlurSegment.scanRelativeX pp1 slurWidth s
        ∧ (SlurSegment.scanRelativeX pp1 slurWidth s < 3 / 10 →
            st'.end1Dist
                = min (max st.end1Dist (SlurSegment.scanDist ctx seg up s)) (3 * ctx.spatium)
              ∧ st'.end2Dist = st.end2Dist ∧ st'.midpointDist = st.midpointDist)
        ∧ (SlurSegment.scanRelativeX pp1 slurWidth s > 7 / 10 →
            st'.end2Dist
                = min (max st.end2Dist (SlurSegment.scanDist ctx seg up s)) (3 * ctx.spatium)
              ∧ st'.end1Dist = st.end1Dist ∧ st'.midpointDist = st.midpointDist)
        ∧ (3 / 10 ≤ SlurSegment.scanRelativeX pp1 slurWidth s →
            SlurSegment.scanRelativeX pp1 slurWidth s ≤ 7 / 10 →
            st'.midpointDist
                = min (max st.midpointDist (SlurSegment.scanDist ctx seg up s)) (4 * ctx.spatium)
              ∧ st'.end1Dist = st.end1Dist ∧ st'.end2Dist = st.end2Dist) := by
  refine ⟨_, SlurSegment.scan_hit ctx slur seg up pp1 pp2 slurWidth st s rest hhit, ?_, ?_, ?_, ?_,
    ?_⟩
  · simp only [if_pos hdist]
    split_ifs <;> rfl
  · simp only [if_pos hdist]
    split_ifs <;> rfl
  · intro h
    simp [hdist, h]
  · intro h
    have h1 : ¬ SlurSegment.scanRelativeX pp1 slurWidth s < 3 / 10 := by linarith
    have h2 : SlurSegment.scanRelativeX pp1 slurWidth s > 1 - 3 / 10 := by linarith
    simp [hdist, h1, h2]
  · intro h h'
    have h1 : ¬ SlurSegment.scanRelativeX pp1 slurWidth s < 3 / 10 := by linarith
    have h2 : ¬ SlurSegment.scanRelativeX pp1 slurWidth s > 1 - 3 / 10 := by linarith
    simp [hdist, h1, h2]

/-- The amended C20 on an element at the relative position 0.32, with the
clearance 1.5: it counts for the mid-height distance. -/
theorem SlurSegment.scan_sections_witness :
    ∃ st' : ScanState,
      SlurSegment.scan exSegCtxHit (exSlur true (exChordRest 1 0 false) (exChordRest 2 1 false))
          (exSegment ⟨0, 0⟩ ⟨0, 0⟩ ⟨10, 0⟩ ⟨0, 0⟩) true ⟨0, 0⟩ ⟨10, 0⟩ 10 ⟨false, 0, 0, 0, 0⟩
          [exScanSegment 7 (11 / 5) 2]
        = SlurSegment.scan exSegCtxHit
          (exSlur true (exChordRest 1 0 false) (exChordRest 2 1 false))
          (exSegment ⟨0, 0⟩ ⟨0, 0⟩ ⟨10, 0⟩ ⟨0, 0⟩) true ⟨0, 0⟩ ⟨10, 0⟩ 10 st' []
      ∧ st'.midpointDist = 3 / 2 ∧ st'.end1Dist = 0 := by
  have hhit : SlurSegment.scanHits exSegCtxHit
      (exSlur true (exChordRest 1 0 false) (exChordRest 2 1 false))
      (exSegment ⟨0, 0⟩ ⟨0, 0⟩ ⟨10, 0⟩ ⟨0, 0⟩) ⟨0, 0⟩ ⟨10, 0⟩ (exScanSegment 7 (11 / 5) 2) := by
    refine ⟨rfl, ?_, rfl, ?_, ?_, rfl⟩
    · simp [exSlur]
    · norm_num [exScanSegment]
    · norm_num [exScanSegment]
  have hrel : SlurSegment.scanRelativeX ⟨0, 0⟩ 10 (exScanSegment 7 (11 / 5) 2) = 8 / 25 := by
    norm_num [SlurSegment.scanRelativeX, exScanSegment]
  have hdist : SlurSegment.scanDist exSegCtxHit (exSegment ⟨0, 0⟩ ⟨0, 0⟩ ⟨10, 0⟩ ⟨0, 0⟩) true
      (exScanSegment 7 (11 / 5) 2) = 3 / 2 := by
    norm_num [SlurSegment.scanDist, SlurSegment.y, exSegCtxHit, exSegCtx, exSegment,
      exScanSegment]
  obtain ⟨st', hrun, -, -, -, -, hmid⟩ := SlurSegment.scan_sections exSegCtxHit
    (exSlur true (exChordRest 1 0 false) (exChordRest 2 1 false))
    (exSegment ⟨0, 0⟩ ⟨0, 0⟩ ⟨10, 0⟩ ⟨0, 0⟩) true ⟨0, 0⟩ ⟨10, 0⟩ 10 ⟨false, 0, 0, 0, 0⟩
    (exScanSegment 7 (11 / 5) 2) [] hhit (by rw [hdist]; norm_num)
  obtain ⟨h1, h2, -⟩ := hmid (by rw [hrel]; norm_num) (by rw [hrel]; norm_num)
  refine ⟨st', hrun, ?_, h2⟩
  rw [h1, hdist]
  norm_num [exSegCtxHit, exSegCtx]

/-! ### Corrective action of a pass (`layoutSegment`) -/

/-- The corrective action of a pass of the avoidance loop, by cases: unless the
mid-height distance alone is the worst and the slot of the height is marked
already, the action assigns one of the start point, the extra height and the
end point, and nothing else of the segment; in the remaining case it assigns
the extra height and moves an end point as well. The slots are not all marked,
as the loop resets them at the top of a pass. -/
theorem SlurSegment.correct_cases (ctx : SegCtx) (up : Bool) (sc : ScanState) (adj : Adjusted)
    (seg : SlurSegment) (hnot : ¬ (adj.a0 = true ∧ adj.a1 = true ∧ adj.a2 = true)) :
    (max (max sc.end1Dist sc.end2Dist) sc.midpointDist = sc.end1Dist
        ∨ max (max sc.end1Dist sc.end2Dist) sc.midpointDist = sc.end2Dist
        ∨ adj.a1 = false →
      (∃ dy, (SlurSegment.correct ctx up sc adj seg).1
          = { seg with START := SlurSegment.moveY seg.START dy })
        ∨ (∃ h, (SlurSegment.correct ctx up sc adj seg).1 = { seg with extraHeight := h })
        ∨ (∃ dy, (SlurSegment.correct ctx up sc adj seg).1
          = { seg with END := SlurSegment.moveY seg.END dy }))
      ∧ (max (max sc.end1Dist sc.end2Dist) sc.midpointDist ≠ sc.end1Dist →
          max (max sc.end1Dist sc.end2Dist) sc.midpointDist ≠ sc.end2Dist →
          adj.a1 = true →
        (∃ dy, (SlurSegment.correct ctx up sc adj seg).1
            = { seg with extraHeight := 4 * sc.midpointDist / 3,
                         START := SlurSegment.moveY seg.START dy })
          ∨ (∃ dy, (SlurSegment.correct ctx up sc adj seg).1
            = { seg with extraHeight := 4 * sc.midpointDist / 3,
                         END := SlurSegment.moveY seg.END dy })) := by
  have hmax : max (max sc.end1Dist sc.end2Dist) sc.midpointDist = sc.end1Dist
      ∨ max (max sc.end1Dist sc.end2Dist) sc.midpointDist = sc.end2Dist
      ∨ max (max sc.end1Dist sc.end2Dist) sc.midpointDist = sc.midpointDist := by
    rcases max_choice (max sc.end1Dist sc.end2Dist) sc.midpointDist with h | h
    · rcases max_choice sc.end1Dist sc.end2Dist with h' | h'
      · exact Or.inl (h.trans h')
      · exact Or.inr (Or.inl (h.trans h'))
    · exact Or.inr (Or.inr h)
  obtain ⟨a0, a1, a2⟩ := adj
  constructor
  · intro hcase
    unfold SlurSegment.correct
    simp only []
    by_cases h1 : max (max sc.end1Dist sc.end2Dist) sc.midpointDist = sc.end1Dist
    · rw [if_pos h1]
      cases a0 <;> cases a1 <;> cases a2 <;> simp at hnot ⊢
    · rw [if_neg h1]
      by_cases h2 : max (max sc.end1Dist sc.end2Dist) sc.midpointDist = sc.end2Dist
      · rw [if_pos h2]
        cases a0 <;> cases a1 <;> cases a2 <;> simp at hnot ⊢
      · rw [if_neg h2]
        have h3 : max (max sc.end1Dist sc.end2Dist) sc.midpointDist = sc.midpointDist := by
          rcases hmax with h | h | h
          · exact absurd h h1
          · exact absurd h h2
          · exact h
        have ha1 : a1 = false := by
          rcases hcase with h | h | h
          · exact absurd h h1
          · exact absurd h h2
          · exact h
        subst ha1
        rw [if_pos h3]
        exact Or.inr (Or.inl ⟨_, rfl⟩)
  · intro h1 h2 ha1
    simp only at ha1
    subst ha1
    have h3 : max (max sc.end1Dist sc.end2Dist) sc.midpointDist = sc.midpointDist := by
      rcases hmax with h | h | h
      · exact absurd h h1
      · exact absurd h h2
      · exact h
    unfold SlurSegment.correct
    simp only []
    rw [if_neg h1, if_neg h2, if_pos h3]
    simp only [Bool.not_true, Bool.false_eq_true, if_false]
    by_cases hrel : sc.segRelativeX < 1 / 2
    · rw [if_pos hrel]
      cases a0
      · simp only [Bool.not_false, if_true]
        exact Or.inl ⟨_, rfl⟩
      · simp only [Bool.not_true, Bool.false_eq_true, if_false]
        exact Or.inr ⟨_, rfl⟩
    · rw [if_neg hrel]
      cases a2
      · simp only [Bool.not_false, if_true]
        exact Or.inr ⟨_, rfl⟩
      · simp only [Bool.not_true, Bool.false_eq_true, if_false]
        exact Or.inl ⟨_, rfl⟩

/-- C19, the code at the failing input: second pass of the avoidance loop for
an up-bowing slur from (0, -5) to (10, -5) at staff space 1. The first pass
found the mid-height distance worst, set the extra height to 4/3 and marked
the slot of the height; the second pass finds an intersection at the relative
position 0.5 with mid-height distance 7/3, again the worst. The corrective
action assigns two of the three quantities: the extra height goes from 4/3 to
28/9 and the end point from y = -5 to y = -22/3. -/
theorem C19_correct_height_and_endpoint :
    ({ exSegment ⟨0, -5⟩ ⟨0, 0⟩ ⟨10, -5⟩ ⟨0, 0⟩ with extraHeight := 4 / 3 }
        : SlurSegment).extraHeight = 4 / 3
      ∧ (SlurSegment.correct exSegCtx true ⟨true, 0, 0, 7 / 3, 1 / 2⟩ ⟨false, true, false⟩
          { exSegment ⟨0, -5⟩ ⟨0, 0⟩ ⟨10, -5⟩ ⟨0, 0⟩ with extraHeight := 4 / 3 }).1.extraHeight
        = 28 / 9
      ∧ (SlurSegment.correct exSegCtx true ⟨true, 0, 0, 7 / 3, 1 / 2⟩ ⟨false, true, false⟩
          { exSegment ⟨0, -5⟩ ⟨0, 0⟩ ⟨10, -5⟩ ⟨0, 0⟩ with extraHeight := 4 / 3 }).1.END.p
        = ⟨10, -(22 / 3)⟩
      ∧ (SlurSegment.correct exSegCtx true ⟨true, 0, 0, 7 / 3, 1 / 2⟩ ⟨false, true, false⟩
          { exSegment ⟨0, -5⟩ ⟨0, 0⟩ ⟨10, -5⟩ ⟨0, 0⟩ with extraHeight := 4 / 3 }).1.START.p
        = ⟨0, -5⟩
      ∧ (SlurSegment.correct exSegCtx true ⟨true, 0, 0, 7 / 3, 1 / 2⟩ ⟨false, true, false⟩
          { exSegment ⟨0, -5⟩ ⟨0, 0⟩ ⟨10, -5⟩ ⟨0, 0⟩ with extraHeight := 4 / 3 }).2
        = ⟨false, true, true⟩ := by
  refine ⟨rfl, ?_, ?_, ?_, ?_⟩ <;>
    norm_num [SlurSegment.correct, SlurSegment.moveY, exSegCtx, exSegment]

/-! ### Independence of `layoutSegment` from what an earlier layout left -/

theorem SlurSegment.withBuilt_self (s : SlurSegment) :
    s.withBuilt s.path s.shapePath s.shape s.bbox s.BEZIER1.p s.BEZIER2.p s.SHOULDER.p s.DRAG.p
      = s := rfl

/-- Two segments with the same input are, after the first statements of
`layoutSegment`, the same up to what `computeBezier` overwrites. -/
theorem SlurSegment.layoutSegmentStart_sameInput (ctx : SegCtx) (s s' : SlurSegment)
    (p1 p2 : PointF) (h : SlurSegment.SameInput s s') :
    SlurSegment.layoutSegmentStart ctx s' p1 p2
      = (SlurSegment.layoutSegmentStart ctx s p1 p2).withBuilt s'.path s'.shapePath s'.shape
          s'.bbox s'.BEZIER1.p s'.BEZIER2.p s'.SHOULDER.p s'.DRAG.p := by
  obtain ⟨⟨h1, h2, h3, h4, h5, h6, h7, h8, h9, h10⟩, h11⟩ := h
  obtain ⟨⟨sp, so⟩, ⟨b1p, b1o⟩, ⟨b2p, b2o⟩, ⟨ep, eo⟩, ⟨shp, sho⟩, ⟨dp, do_⟩, eh, pa, spa, sha, bb,
    po, off, au, ty, sy, si⟩ := s
  obtain ⟨⟨sp', so'⟩, ⟨b1p', b1o'⟩, ⟨b2p', b2o'⟩, ⟨ep', eo'⟩, ⟨shp', sho'⟩, ⟨dp', do'⟩, eh', pa',
    spa', sha', bb', po', off', au', ty', sy', si'⟩ := s'
  simp only at h1 h2 h3 h4 h5 h6 h7 h8 h9 h10 h11
  subst h1 h2 h3 h4 h5 h6 h7 h8 h9 h10 h11
  unfold SlurSegment.layoutSegmentStart SlurSegment.withBuilt
  cases ctx.staffType <;> rfl

theorem SlurSegment.staffLinePass_withBuilt (ctx : SegCtx) (slur : Slur) (s : SlurSegment)
    (path shapePath : PainterPath) (shape : Shape) (bbox : RectF) (b1 b2 sh dr : PointF) :
    SlurSegment.staffLinePass ctx slur (s.withBuilt path shapePath shape bbox b1 b2 sh dr)
      = (SlurSegment.staffLinePass ctx slur s).map
          (fun s1 => s1.withBuilt path shapePath shape bbox b1 b2 sh dr) := by
  unfold SlurSegment.staffLinePass SlurSegment.adjustEndpoints SlurSegment.withBuilt
  simp only []
  by_cases ha : s.autoplace = true
  · rw [if_pos ha, if_pos ha]
    cases ctx.staff <;> rfl
  · rw [if_neg ha, if_neg ha]
    rfl

theorem SlurSegment.buildBezier_withBuilt (ctx : SegCtx) (slur : Slur) (s : SlurSegment)
    (p6o : PointF)
    (path shapePath : PainterPath) (shape : Shape) (bbox : RectF) (b1 b2 sh dr : PointF) :
    SlurSegment.buildBezier ctx slur (s.withBuilt path shapePath shape bbox b1 b2 sh dr) p6o
      = { SlurSegment.buildBezier ctx slur s p6o with bbox := bbox } := by
  unfold SlurSegment.buildBezier SlurSegment.withBuilt
  simp only []
  split_ifs <;> rfl

/-- The bounding box of the segment is not read by `computeBezier`. -/
theorem SlurSegment.computeBezier_bbox (ctx : SegCtx) (slur : Slur) (s : SlurSegment)
    (p6o : PointF) (b : RectF) :
    SlurSegment.computeBezier ctx slur { s with bbox := b } p6o
      = (SlurSegment.computeBezier ctx slur s p6o).map (fun r => (r.1, { r.2 with bbox := b })) := by
  have hw : ({ s with bbox := b } : SlurSegment)
      = s.withBuilt s.path s.shapePath s.shape b s.BEZIER1.p s.BEZIER2.p s.SHOULDER.p s.DRAG.p :=
    rfl
  unfold SlurSegment.computeBezier
  rw [hw, SlurSegment.staffLinePass_withBuilt]
  cases hp : SlurSegment.staffLinePass ctx slur s with
  | none => rfl
  | some s1 =>
    have hf := SlurSegment.staffLinePass_frame ctx slur s s1 hp
    simp only [Option.map_some']
    have hs : (s1.withBuilt s.path s.shapePath s.shape b s.BEZIER1.p s.BEZIER2.p s.SHOULDER.p
        s.DRAG.p).START = s1.START := rfl
    have he : (s1.withBuilt s.path s.shapePath s.shape b s.BEZIER1.p s.BEZIER2.p s.SHOULDER.p
        s.DRAG.p).END = s1.END := rfl
    rw [hs, he]
    by_cases hz : ((s1.END.p + s1.END.off) - (s1.START.p + s1.START.off)).x = 0
        ∧ ((s1.END.p + s1.END.off) - (s1.START.p + s1.START.off)).y = 0
    · rw [if_pos hz, if_pos hz]
      have hb : s1.withBuilt s.path s.shapePath s.shape b s.BEZIER1.p s.BEZIER2.p s.SHOULDER.p
          s.DRAG.p = { s1 with bbox := b } := by
        obtain ⟨f1, f2, f3, f4, f5, f6, f7⟩ := hf
        unfold SlurSegment.withBuilt
        rw [← f1, ← f2, ← f3, ← f4, ← f5, ← f6, ← f7]
      rw [hb]
      cases slur.startCR <;> cases slur.endCR <;> rfl
    · rw [if_neg hz, if_neg hz, SlurSegment.buildBezier_withBuilt]
      rfl

/-- The bounding box of the segment is not read by the collision scan. -/
theorem SlurSegment.scan_bbox (ctx : SegCtx) (slur : Slur) (seg : SlurSegment) (up : Bool)
    (pp1 pp2 : PointF) (slurWidth : ℚ) (b : RectF) :
    ∀ (segs : List ScanSegment) (st : ScanState),
      SlurSegment.scan ctx slur { seg with bbox := b } up pp1 pp2 slurWidth st segs
        = SlurSegment.scan ctx slur seg up pp1 pp2 slurWidth st segs := by
  intro segs
  induction segs with
  | nil => intro st; rfl
  | cons s rest ih =>
    intro st
    rw [SlurSegment.scan, SlurSegment.scan]
    simp only [ih, SlurSegment.y]

/-- The bounding box of the segment is not read by the corrective action. -/
theorem SlurSegment.correct_bbox (ctx : SegCtx) (up : Bool) (sc : ScanState) (adj : Adjusted)
    (seg : SlurSegment) (b : RectF) :
    SlurSegment.correct ctx up sc adj { seg with bbox := b }
      = ({ (SlurSegment.correct ctx up sc adj seg).1 with bbox := b },
          (SlurSegment.correct ctx up sc adj seg).2) := by
  unfold SlurSegment.correct
  simp only []
  split_ifs <;> rfl

/-- The bounding box of the segment is not read by the avoidance loop. -/
theorem SlurSegment.avoidanceLoop_bbox (ctx : SegCtx) (up : Bool) (pp1 pp2 : PointF)
    (segs : List ScanSegment) (b : RectF) :
    ∀ (n : ℕ) (st : SlurSegment.LoopState),
      SlurSegment.avoidanceLoop ctx up pp1 pp2 segs n { st with seg := { st.seg with bbox := b } }
        = (SlurSegment.avoidanceLoop ctx up pp1 pp2 segs n st).map
            (fun st' => { st' with seg := { st'.seg with bbox := b } }) := by
  intro n
  induction n with
  | zero => intro st; rfl
  | succ n ih =>
    intro st
    rw [SlurSegment.avoidanceLoop, SlurSegment.avoidanceLoop]
    simp only [SlurSegment.scan_bbox, SlurSegment.correct_bbox, SlurSegment.computeBezier_bbox]
    by_cases hi : (!(SlurSegment.scan ctx st.slur st.seg up pp1 pp2 (pp2.x - pp1.x)
        ⟨false, 0, 0, 0, st.segRelativeX⟩ segs).intersection) = true
    · rw [if_pos hi, if_pos hi]
      rfl
    · rw [if_neg hi, if_neg hi]
      cases hc : SlurSegment.computeBezier ctx st.slur
          (SlurSegment.correct ctx up
            (SlurSegment.scan ctx st.slur st.seg up pp1 pp2 (pp2.x - pp1.x)
              ⟨false, 0, 0, 0, st.segRelativeX⟩ segs)
            (if (st.adjusted.a0 && st.adjusted.a1 && st.adjusted.a2) = true then
              ⟨false, false, false⟩ else st.adjusted) st.seg).1 computeBezierDefaultArg with
      | none => rfl
      | some r =>
        obtain ⟨slur1, seg1⟩ := r
        simp only [Option.map_some']
        exact ih { slur := slur1, seg := seg1,
                   adjusted := (SlurSegment.correct ctx up
                      (SlurSegment.scan ctx st.slur st.seg up pp1 pp2 (pp2.x - pp1.x)
                        ⟨false, 0, 0, 0, st.segRelativeX⟩ segs)
                      (if (st.adjusted.a0 && st.adjusted.a1 && st.adjusted.a2) = true then
                        ⟨false, false, false⟩ else st.adjusted) st.seg).2,
                   segRelativeX := (SlurSegment.scan ctx st.slur st.seg up pp1 pp2
                      (pp2.x - pp1.x) ⟨false, 0, 0, 0, st.segRelativeX⟩ segs).segRelativeX,
                   bezierCalls := st.bezierCalls + 1, passLog := st.passLog ++ [true] }

/-- When the slur is not a zero slur, `computeBezier` overwrites what an
earlier layout left, up to the bounding box. -/
theorem SlurSegment.computeBezier_withBuilt (ctx : SegCtx) (slur : Slur) (s : SlurSegment)
    (p6o : PointF) (path shapePath : PainterPath) (shape : Shape) (bbox : RectF)
    (b1 b2 sh dr : PointF)
    (hnz : ∀ s1, SlurSegment.staffLinePass ctx slur s = some s1 →
      ¬ (((s1.END.p + s1.END.off) - (s1.START.p + s1.START.off)).x = 0
          ∧ ((s1.END.p + s1.END.off) - (s1.START.p + s1.START.off)).y = 0)) :
    SlurSegment.computeBezier ctx slur (s.withBuilt path shapePath shape bbox b1 b2 sh dr) p6o
      = (SlurSegment.computeBezier ctx slur s p6o).map
          (fun r => (r.1, { r.2 with bbox := bbox })) := by
  unfold SlurSegment.computeBezier
  rw [SlurSegment.staffLinePass_withBuilt]
  cases hp : SlurSegment.staffLinePass ctx slur s with
  | none => rfl
  | some s1 =>
    have hz := hnz s1 hp
    simp only [Option.map_some']
    have hs : (s1.withBuilt path shapePath shape bbox b1 b2 sh dr).START = s1.START := rfl
    have he : (s1.withBuilt path shapePath shape bbox b1 b2 sh dr).END = s1.END := rfl
    rw [hs, he, if_neg hz, if_neg hz, SlurSegment.buildBezier_withBuilt]
    rfl

/-- The layout of a segment does not depend on what an earlier layout left in
the segment, when the slur is laid out (not hidden on a tablature staff) and
is not a zero slur. -/
theorem SlurSegment.layoutSegment_sameInput (ctx : SegCtx) (slur : Slur) (s s' : SlurSegment)
    (p1 p2 : PointF) (hsame : SlurSegment.SameInput s s')
    (hvis : ∀ st, ctx.staffType = some st → st.isHiddenElementOnTab = false)
    (hnz : ¬ SlurSegment.ZeroSlur ctx slur s p1 p2) :
    SlurSegment.layoutSegment ctx slur s' p1 p2 = SlurSegment.layoutSegment ctx slur s p1 p2 := by
  have hnz' : ∀ s1, SlurSegment.staffLinePass ctx slur (SlurSegment.layoutSegmentStart ctx s p1 p2)
      = some s1 →
      ¬ (((s1.END.p + s1.END.off) - (s1.START.p + s1.START.off)).x = 0
          ∧ ((s1.END.p + s1.END.off) - (s1.START.p + s1.START.off)).y = 0) :=
    fun s1 h1 hz => hnz ⟨s1, h1, hz.1, hz.2⟩
  unfold SlurSegment.layoutSegment
  simp only []
  split_ifs with hh
  · exfalso
    cases hst : ctx.staffType with
    | none => simp [hst] at hh
    | some st => simp [hst, hvis st hst] at hh
  rw [SlurSegment.layoutSegmentStart_sameInput ctx s s' p1 p2 hsame,
    SlurSegment.computeBezier_withBuilt ctx slur _ _ _ _ _ _ _ _ _ _ hnz']
  cases hc : SlurSegment.computeBezier ctx slur (SlurSegment.layoutSegmentStart ctx s p1 p2)
      computeBezierDefaultArg with
  | none => rfl
  | some r =>
    obtain ⟨slur1, s1⟩ := r
    simp only [Option.map_some']
    clear hc
    obtain ⟨st, b1, b2, e, sh, d, eh, pa, spa, sha, bb, po, off, au, ty, sy, si⟩ := s1
    cases au with
    | false => cases sy <;> rfl
    | true =>
      cases sy with
      | none => rfl
      | some system =>
        simp only []
        have hl := SlurSegment.avoidanceLoop_bbox ctx slur1.up st.p e.p
          system.scanSegments s'.bbox 3
          { slur := slur1,
            seg := ⟨st, b1, b2, e, sh, d, eh, pa, spa, sha, bb, po, off, true, ty, some system, si⟩,
            adjusted := ⟨false, false, false⟩, segRelativeX := 0,
            bezierCalls := 1, passLog := [] }
        simp only [] at hl
        rw [hl]
        cases SlurSegment.avoidanceLoop ctx slur1.up st.p e.p system.scanSegments 3
          { slur := slur1,
            seg := ⟨st, b1, b2, e, sh, d, eh, pa, spa, sha, bb, po, off, true, ty, some system, si⟩,
            adjusted := ⟨false, false, false⟩, segRelativeX := 0,
            bezierCalls := 1, passLog := [] } <;> rfl

/-- C15, as stated, fails. With zero user offsets and `p1 = p2 = (3, 0.5)` the
first `computeBezier` finds a zero slur and builds nothing: a segment with an
empty path and one that differs from it only in its previous path end with
their previous paths. On a tablature staff that hides slurs `layoutSegment`
returns at once, and the two segments keep their previous paths as well. -/
theorem C15_counterexample :
    (∃ r r', SlurSegment.layoutSegment exSegCtx
            (exSlur true (exChordRest 1 0 false) (exChordRest 2 (1 / 2) false))
            (exSegment ⟨0, 0⟩ ⟨0, 0⟩ ⟨0, 0⟩ ⟨0, 0⟩) ⟨3, 1 / 2⟩ ⟨3, 1 / 2⟩ = some r
        ∧ SlurSegment.layoutSegment exSegCtx
            (exSlur true (exChordRest 1 0 false) (exChordRest 2 (1 / 2) false))
            { exSegment ⟨0, 0⟩ ⟨0, 0⟩ ⟨0, 0⟩ ⟨0, 0⟩ with path := [.moveTo ⟨1, 1⟩] }
            ⟨3, 1 / 2⟩ ⟨3, 1 / 2⟩ = some r'
        ∧ r.seg.path = [] ∧ r'.seg.path = [.moveTo ⟨1, 1⟩] ∧ r'.seg.path ≠ r.seg.path)
      ∧ (∃ r r', SlurSegment.layoutSegment exSegCtxHidden
            (exSlur true (exChordRest 1 0 false) (exChordRest 2 (1 / 2) false))
            (exSegment ⟨0, 0⟩ ⟨0, 0⟩ ⟨0, 0⟩ ⟨0, 0⟩) ⟨0, -1⟩ ⟨10, -1⟩ = some r
        ∧ SlurSegment.layoutSegment exSegCtxHidden
            (exSlur true (exChordRest 1 0 false) (exChordRest 2 (1 / 2) false))
            { exSegment ⟨0, 0⟩ ⟨0, 0⟩ ⟨0, 0⟩ ⟨0, 0⟩ with path := [.moveTo ⟨1, 1⟩] }
            ⟨0, -1⟩ ⟨10, -1⟩ = some r'
        ∧ r.seg.path = [] ∧ r'.seg.path = [.moveTo ⟨1, 1⟩] ∧ r'.seg.path ≠ r.seg.path) := by
  have hfl : ⌊(1 / 2 : ℚ)⌋ = 0 := by rw [Int.floor_eq_iff]; norm_num
  have hpass : ∀ path : PainterPath, SlurSegment.staffLinePass exSegCtx
      (exSlur true (exChordRest 1 0 false) (exChordRest 2 (1 / 2) false))
      (SlurSegment.layoutSegmentStart exSegCtx
        { exSegment ⟨0, 0⟩ ⟨0, 0⟩ ⟨0, 0⟩ ⟨0, 0⟩ with path := path } ⟨3, 1 / 2⟩ ⟨3, 1 / 2⟩)
      = some { exSegment ⟨3, 1 / 2⟩ ⟨0, 0⟩ ⟨3, 1 / 2⟩ ⟨0, 0⟩ with path := path } := by
    intro path
    norm_num [SlurSegment.staffLinePass, SlurSegment.adjustEndpoints, SlurSegment.adjustGrip,
      SlurSegment.adjustPoint, SlurSegment.layoutSegmentStart, exSegCtx, exSlur, exSegment, hfl,
      PointF.zero]
  have hrun : ∀ path : PainterPath, SlurSegment.layoutSegment exSegCtx
      (exSlur true (exChordRest 1 0 false) (exChordRest 2 (1 / 2) false))
      { exSegment ⟨0, 0⟩ ⟨0, 0⟩ ⟨0, 0⟩ ⟨0, 0⟩ with path := path } ⟨3, 1 / 2⟩ ⟨3, 1 / 2⟩
      = some { slur := { exSlur true (exChordRest 1 0 false) (exChordRest 2 (1 / 2) false) with
                         broken := true },
               seg := { exSegment ⟨3, 1 / 2⟩ ⟨0, 0⟩ ⟨3, 1 / 2⟩ ⟨0, 0⟩ with path := path },
               bezierCalls := 1, passLog := [] } := by
    intro path
    unfold SlurSegment.layoutSegment SlurSegment.computeBezier
    simp only [hpass path]
    simp [exSegCtx, exSegment, exSlur, PointF.sub_x, PointF.sub_y, PointF.add_x, PointF.add_y]
  refine ⟨⟨_, _, hrun [], hrun [.moveTo ⟨1, 1⟩], rfl, rfl, by simp⟩,
    ⟨_, _, rfl, rfl, rfl, rfl, by simp [exSegment]⟩⟩

/-- C15, amended: with fixed surrounding geometry and style, for a slur that is
laid out (not hidden on a tablature staff) and every `(p1, p2)` for which the
first `computeBezier` does not find a zero slur (end points, user offsets
included, that coincide after the staff-line pass), path, collision shape and
bounding box left by `layoutSegment(p1, p2)` depend only on `(p1, p2)`, that
geometry and the user offsets: two segments that differ only in what an
earlier layout left in them (path, shape, bounding box, position, positions of
the grips, extra height) end with identical path, shape and bounding box, and
`layoutSegment` returns on both when nothing it dereferences is null. -/
theorem SlurSegment.layoutSegment_pure (ctx : SegCtx) (slur : Slur) (s s' : SlurSegment)
    (p1 p2 : PointF) (hsame : SlurSegment.SameInput s s')
    (hvis : ∀ st, ctx.staffType = some st → st.isHiddenElementOnTab = false)
    (hnz : ¬ SlurSegment.ZeroSlur ctx slur s p1 p2) :
    (SlurSegment.layoutSegment ctx slur s' p1 p2).map
          (fun r => (r.seg.path, r.seg.shape, r.seg.bbox))
        = (SlurSegment.layoutSegment ctx slur s p1 p2).map
          (fun r => (r.seg.path, r.seg.shape, r.seg.bbox))
      ∧ (SlurSegment.Safe ctx slur s →
          ∃ r r', SlurSegment.layoutSegment ctx slur s p1 p2 = some r
            ∧ SlurSegment.layoutSegment ctx slur s' p1 p2 = some r'
            ∧ r'.seg.path = r.seg.path ∧ r'.seg.shape = r.seg.shape
            ∧ r'.seg.bbox = r.seg.bbox) := by
  have h := SlurSegment.layoutSegment_sameInput ctx slur s s' p1 p2 hsame hvis hnz
  refine ⟨by rw [h], fun hsafe => ?_⟩
  obtain ⟨r, hr, -⟩ := SlurSegment.layoutSegment_spec ctx slur s p1 p2 hsafe
  exact ⟨r, r, hr, h.trans hr, rfl, rfl, rfl⟩

/-- The staff-line pass moves the end points vertically only: a zero slur has
end points with the same `x`, user offsets included. -/
theorem SlurSegment.zeroSlur_x (ctx : SegCtx) (slur : Slur) (s : SlurSegment) (p1 p2 : PointF)
    (h : SlurSegment.ZeroSlur ctx slur s p1 p2) :
    p2.x + s.END.off.x = p1.x + s.START.off.x := by
  obtain ⟨s1, hp, hx, -⟩ := h
  have hsx : s1.START.p.x = p1.x ∧ s1.START.off = s.START.off
      ∧ s1.END.p.x = p2.x ∧ s1.END.off = s.END.off := by
    unfold SlurSegment.staffLinePass SlurSegment.adjustEndpoints at hp
    have hg : ∀ (sp : ℚ) (l : ℤ) (u : Bool) (g : UP),
        (SlurSegment.adjustGrip sp l u g).p.x = g.p.x ∧ (SlurSegment.adjustGrip sp l u g).off = g.off := by
      intro sp l u g
      unfold SlurSegment.adjustGrip
      simp only []
      split_ifs <;> exact ⟨rfl, rfl⟩
    have h0 : (SlurSegment.layoutSegmentStart ctx s p1 p2).START = ⟨p1, s.START.off⟩
        ∧ (SlurSegment.layoutSegmentStart ctx s p1 p2).END = ⟨p2, s.END.off⟩ := by
      unfold SlurSegment.layoutSegmentStart
      cases ctx.staffType <;> exact ⟨rfl, rfl⟩
    split_ifs at hp
    · cases hst : ctx.staff with
      | none => simp [hst] at hp
      | some staff =>
        simp only [hst, Option.some.injEq] at hp
        subst hp
        simp only [h0.1, h0.2]
        exact ⟨(hg _ _ _ _).1, (hg _ _ _ _).2, (hg _ _ _ _).1, (hg _ _ _ _).2⟩
    · simp only [Option.some.injEq] at hp
      subst hp
      rw [h0.1, h0.2]
      exact ⟨rfl, rfl, rfl, rfl⟩
  rw [PointF.sub_x, PointF.add_x, PointF.add_x, hsx.1, hsx.2.1, hsx.2.2.1, hsx.2.2.2] at hx
  linarith

/-- The amended C15 on two segments that differ in their previous path and
extra height, for the end points (0, -1) and (10, -1): both calls return, with
the same path, shape and bounding box. -/
theorem SlurSegment.layoutSegment_pure_witness :
    ∃ r r', SlurSegment.layoutSegment exSegCtx
          (exSlur true (exChordRest 1 0 false) (exChordRest 2 (1 / 2) false))
          (exSegment ⟨0, 0⟩ ⟨0, 0⟩ ⟨0, 0⟩ ⟨0, 0⟩) ⟨0, -1⟩ ⟨10, -1⟩ = some r
      ∧ SlurSegment.layoutSegment exSegCtx
          (exSlur true (exChordRest 1 0 false) (exChordRest 2 (1 / 2) false))
          { exSegment ⟨0, 0⟩ ⟨0, 0⟩ ⟨0, 0⟩ ⟨0, 0⟩ with
            path := [.moveTo ⟨1, 1⟩], extraHeight := 7 } ⟨0, -1⟩ ⟨10, -1⟩ = some r'
      ∧ r'.seg.path = r.seg.path ∧ r'.seg.shape = r.seg.shape ∧ r'.seg.bbox = r.seg.bbox :=
  (SlurSegment.layoutSegment_pure exSegCtx
    (exSlur true (exChordRest 1 0 false) (exChordRest 2 (1 / 2) false))
    (exSegment ⟨0, 0⟩ ⟨0, 0⟩ ⟨0, 0⟩ ⟨0, 0⟩)
    { exSegment ⟨0, 0⟩ ⟨0, 0⟩ ⟨0, 0⟩ ⟨0, 0⟩ with path := [.moveTo ⟨1, 1⟩], extraHeight := 7 }
    ⟨0, -1⟩ ⟨10, -1⟩
    ⟨⟨rfl, rfl, rfl, rfl, rfl, rfl, rfl, rfl, rfl, rfl⟩, rfl⟩
    (fun st h => by simp [exSegCtx] at h)
    (fun hz => by
      have hx := SlurSegment.zeroSlur_x _ _ _ _ _ hz
      norm_num [exSegment] at hx)).2 ⟨rfl, rfl, fun _ => rfl⟩

/-! ### Tremolo bar types and link indices -/

/-- C29: for every tremolo bar type `t` other than CUSTOM, after
`updatePointsByTremoloBarType(t)` the curve of the bar is parsed back as `t` by
`parseTremoloBarTypeFromCurve`; the six preset curves are pairwise distinct;
and `updatePointsByTremoloBarType(CUSTOM)` leaves the points unchanged. -/
theorem TremoloBar.parse_update (bar : TremoloBar) :
    (∀ t : TremoloBarType, t ≠ .CUSTOM →
        TremoloBar.parseTremoloBarTypeFromCurve (bar.updatePointsByTremoloBarType t).m_points = t)
      ∧ [DIP_CURVE, DIVE_CURVE, RELEASE_UP_CURVE, INVERTED_DIP_CURVE, RETURN_CURVE,
          RELEASE_DOWN_CURVE].Nodup
      ∧ (bar.updatePointsByTremoloBarType .CUSTOM).m_points = bar.m_points := by
  refine ⟨fun t ht => ?_, by decide, rfl⟩
  cases t
  · show TremoloBar.parseTremoloBarTypeFromCurve DIP_CURVE = .DIP
    decide
  · show TremoloBar.parseTremoloBarTypeFromCurve DIVE_CURVE = .DIVE
    decide
  · show TremoloBar.parseTremoloBarTypeFromCurve RELEASE_UP_CURVE = .RELEASE_UP
    decide
  · show TremoloBar.parseTremoloBarTypeFromCurve INVERTED_DIP_CURVE = .INVERTED_DIP
    decide
  · show TremoloBar.parseTremoloBarTypeFromCurve RETURN_CURVE = .RETURN
    decide
  · show TremoloBar.parseTremoloBarTypeFromCurve RELEASE_DOWN_CURVE = .RELEASE_DOWN
    decide
  · exact absurd rfl ht

/-- C29 on a bar with an empty curve and the type RETURN. -/
theorem TremoloBar.parse_update_witness :
    TremoloBar.parseTremoloBarTypeFromCurve
        ((⟨[]⟩ : TremoloBar).updatePointsByTremoloBarType .RETURN).m_points = .RETURN :=
  (TremoloBar.parse_update ⟨[]⟩).1 .RETURN (by decide)

theorem wrapInt32_of_lt (x : ℤ) (h0 : 0 ≤ x) (h1 : x < 2 ^ 31) : wrapInt32 x = x := by
  unfold wrapInt32
  rw [Int.emod_eq_of_lt (by linarith) (by linarith)]
  ring

theorem sameRun_cons_same {L : Type} [DecidableEq L] (t : List L) (x : L) :
    sameRun (x :: t) x = sameRun t x + 1 := by
  simp [sameRun, List.takeWhile]

theorem sameRun_cons_ne {L : Type} [DecidableEq L] (t : List L) (x l : L) (h : x ≠ l) :
    sameRun (x :: t) l = 0 := by
  simp [sameRun, List.takeWhile, h]

theorem sameRun_le {L : Type} [DecidableEq L] (t : List L) (x : L) : sameRun t x ≤ t.length := by
  unfold sameRun
  exact (List.takeWhile_sublist _).length_le

/-- The calls after the first one, from the state that the earlier calls
`x :: t` (the latest first) left. -/
theorem LinksIndexer.run_after {L : Type} [DecidableEq L] :
    ∀ (rest : List L) (x : L) (t : List L), t.length + 1 + rest.length < 2 ^ 31 →
      LinksIndexer.run ⟨(sameRun t x : ℤ), x⟩ rest = LinksIndexer.counts (x :: t) rest := by
  intro rest
  induction rest with
  | nil => intro x t _; rfl
  | cons l ls ih =>
    intro x t hlen
    have h31 : (2 : ℕ) ^ 31 = 2147483648 := by norm_num
    simp only [List.length_cons, h31] at hlen
    unfold LinksIndexer.run LinksIndexer.counts LinksIndexer.assignLocalIndex
    by_cases hx : x = l
    · subst hx
      have hle := sameRun_le t x
      have hw : wrapInt32 ((sameRun t x : ℤ) + 1) = ((sameRun t x + 1 : ℕ) : ℤ) := by
        rw [wrapInt32_of_lt _ (by positivity) (by
          have : (sameRun t x : ℤ) ≤ (t.length : ℤ) := by exact_mod_cast hle
          have h2 : ((t.length + 1 + (ls.length + 1) : ℕ) : ℤ) < 2147483648 := by
            exact_mod_cast hlen
          push_cast at h2
          norm_num
          linarith)]
        push_cast
        ring
      have ih' := ih x (x :: t) (by rw [h31]; simp only [List.length_cons]; omega)
      rw [sameRun_cons_same t x] at ih'
      simp only [if_true, hw]
      rw [sameRun_cons_same t x, ← ih']
    · have ih' := ih l (x :: t) (by rw [h31]; simp only [List.length_cons]; omega)
      rw [sameRun_cons_ne t x l hx] at ih'
      simp only [if_neg hx]
      rw [sameRun_cons_ne t x l hx, ← ih']
      rfl

/-- C30: for every sequence of fewer than 2^31 calls of `assignLocalIndex` on a
new indexer, the value returned by each call is the number of calls with the
same location that come immediately before it: 0 when the location is not
that of the call before, the value of the call before plus 1 otherwise. The
very first call returns 0 for every location, the default location
`Location::absolute()` included. -/
theorem LinksIndexer.assignLocalIndex_counts {L : Type} [DecidableEq L] (absolute : L)
    (locs : List L) (hlen : locs.length < 2 ^ 31) :
    LinksIndexer.run (LinksIndexer.init absolute) locs = LinksIndexer.counts [] locs
      ∧ (∀ loc : L, ((LinksIndexer.init absolute).assignLocalIndex loc).1 = 0)
      ∧ (∀ (x : L) (t : List L) (loc : L),
          sameRun (x :: t) loc = if x = loc then sameRun t x + 1 else 0)
      ∧ (∀ loc : L, sameRun [] loc = 0) := by
  have hfirst : ∀ loc : L, (LinksIndexer.init absolute).assignLocalIndex loc
      = (0, ⟨((sameRun [] loc : ℕ) : ℤ), loc⟩) := by
    intro loc
    unfold LinksIndexer.assignLocalIndex LinksIndexer.init
    have hw : wrapInt32 (-1 + 1) = 0 := by
      unfold wrapInt32
      norm_num
    by_cases ha : absolute = loc
    · subst ha
      simp only [if_true, hw]
      rfl
    · simp only [if_neg ha]
      rfl
  refine ⟨?_, fun loc => by rw [hfirst loc], fun x t loc => ?_, fun loc => rfl⟩
  · cases locs with
    | nil => rfl
    | cons l ls =>
      have h31 : (2 : ℕ) ^ 31 = 2147483648 := by norm_num
      simp only [List.length_cons, h31] at hlen
      have hr := LinksIndexer.run_after ls l [] (by
        rw [h31]; simp only [List.length_nil]; omega)
      unfold LinksIndexer.run LinksIndexer.counts
      rw [hfirst l]
      simp only []
      rw [hr]
      rfl
  · by_cases hx : x = loc
    · subst hx
      rw [if_pos rfl, sameRun_cons_same]
    · rw [if_neg hx, sameRun_cons_ne t x loc hx]

/-- C30 on five calls with the locations 0, 0, 1, 1, 1, where 0 is the default
location: the values returned are 0, 1, 0, 1, 2. -/
theorem LinksIndexer.assignLocalIndex_counts_witness :
    LinksIndexer.run (LinksIndexer.init (0 : ℕ)) [0, 0, 1, 1, 1] = [0, 1, 0, 1, 2] := by
  rw [(LinksIndexer.assignLocalIndex_counts (0 : ℕ) [0, 0, 1, 1, 1] (by norm_num)).1]
  decide

/-! ### Control points and end point of the curve (`computeBezier`) -/

/-- C24: with the shoulder offset (0, 0), the two control points that
`computeBezier` builds in the local frame, and leaves (mapped back) in the
grips BEZIER1 and BEZIER2, have the same height `-shoulderH` and the
`x`-coordinates `c1`, `c2` with `c1 + c2 = c`: they are mirror images about
the middle `c / 2` of the span, for every span `c` and every width fraction. -/
theorem SlurSegment.control_points_symmetric (ctx : SegCtx) (slur : Slur) (s : SlurSegment) :
    (∀ c shoulderW : ℚ,
        (SlurSegment.controlX c shoulderW 0).1 + (SlurSegment.controlX c shoulderW 0).2 = c
        ∧ (SlurSegment.controlX c shoulderW 0).2 - c / 2
            = c / 2 - (SlurSegment.controlX c shoulderW 0).1)
      ∧ (SlurSegment.buildBezier ctx slur s computeBezierDefaultArg).BEZIER1.p
          = (SlurSegment.backTransform ctx s).map
              ⟨(SlurSegment.controlX (SlurSegment.localSpan ctx s)
                  (SlurSegment.shoulder ctx.math ctx.spatium s.extraHeight
                    (SlurSegment.localSpan ctx s / ctx.spatium)).2 0).1,
               -(SlurSegment.shoulderH ctx.math ctx.spatium s.extraHeight
                  (SlurSegment.localSpan ctx s / ctx.spatium) slur.up)⟩
      ∧ (SlurSegment.buildBezier ctx slur s computeBezierDefaultArg).BEZIER2.p
          = (SlurSegment.backTransform ctx s).map
              ⟨(SlurSegment.controlX (SlurSegment.localSpan ctx s)
                  (SlurSegment.shoulder ctx.math ctx.spatium s.extraHeight
                    (SlurSegment.localSpan ctx s / ctx.spatium)).2 0).2,
               -(SlurSegment.shoulderH ctx.math ctx.spatium s.extraHeight
                  (SlurSegment.localSpan ctx s / ctx.spatium) slur.up)⟩ := by
  obtain ⟨h1, h2⟩ := SlurSegment.buildBezier_control_points ctx slur s
  refine ⟨fun c w => ?_, ?_, ?_⟩
  · unfold SlurSegment.controlX
    constructor <;> (simp only []; ring)
  · rw [h1]
    simp only [SlurSegment.controlX, add_zero]
  · rw [h2]
    simp only [SlurSegment.controlX, add_zero]

/-- The end point that `computeBezier` leaves: the vector from the start point
to the end point, rotated into the local frame and mapped back, less the user
offset of the end point. -/
theorem SlurSegment.buildBezier_END (ctx : SegCtx) (slur : Slur) (s : SlurSegment)
    (p6o : PointF) :
    (SlurSegment.buildBezier ctx slur s p6o).END.p
      = (SlurSegment.backTransform ctx s).map
          ((Transform.identity.rotateRadians ctx.math
              (-(ctx.math.atan (((s.END.p + s.END.off) - (s.START.p + s.START.off)).y
                  / ((s.END.p + s.END.off) - (s.START.p + s.START.off)).x)))).map
            ((s.END.p + s.END.off) - (s.START.p + s.START.off)))
        - s.END.off
      ∧ (SlurSegment.buildBezier ctx slur s p6o).END.off = s.END.off
      ∧ (SlurSegment.buildBezier ctx slur s p6o).START = s.START := by
  unfold SlurSegment.buildBezier SlurSegment.backTransform
  simp only []
  split_ifs <;> exact ⟨rfl, rfl, rfl⟩

/-- Rotating a vector by `-a` and then moving by `pp1` after rotating by `a`
gives `pp1` plus the vector, when sine is odd, cosine even and their squares
add up to 1. -/
theorem Transform.rotate_back (M : MathFns) (a : ℚ) (pp1 v : PointF)
    (hsin : M.sin (-a) = -M.sin a) (hcos : M.cos (-a) = M.cos a)
    (hone : M.sin a ^ 2 + M.cos a ^ 2 = 1) :
    ((Transform.identity.translate pp1.x pp1.y).rotateRadians M a).map
        ((Transform.identity.rotateRadians M (-a)).map v) = pp1 + v := by
  rw [PointF.eq_iff, PointF.add_x, PointF.add_y]
  simp only [Transform.map, Transform.rotateRadians, Transform.translate, Transform.identity,
    hsin, hcos]
  constructor
  · linear_combination v.x * hone
  · linear_combination v.y * hone

/-- One coordinate of `Transform::map` in double arithmetic,
`a * x + b * y + d` with three roundings of the sum: with coefficients within
`j * 2 ^ (-53)` of `a0` and `b0`, coordinates within `k` units of `x0` and
`y0`, which are at most `m * S`, and a translation within `kd` units of `d0`,
which is at most `md * S`, the result is within
`2 k + (2 j + 6) m + kd + md + 10` units of `a0 * x0 + b0 * y0 + d0`. -/
theorem Transform.map_coordinate_near (S j k m kd md a b x y d a0 b0 x0 y0 d0 : ℚ)
    (hS : (2 : ℚ) ^ (-1022 : ℤ) ≤ S)
    (hj0 : 0 ≤ j) (hj : j ≤ 10) (hk0 : 0 ≤ k) (hk : k ≤ 100) (hm0 : 0 ≤ m) (hm : m ≤ 10)
    (hkd0 : 0 ≤ kd) (hkd : kd ≤ 10)
    (ha0 : |a0| ≤ 1) (ha : |a - a0| ≤ j * 2 ^ (-53 : ℤ))
    (hb0 : |b0| ≤ 1) (hb : |b - b0| ≤ j * 2 ^ (-53 : ℤ))
    (hx : |x - x0| ≤ k * (2 ^ (-53 : ℤ) * S)) (hx0 : |x0| ≤ m * S)
    (hy : |y - y0| ≤ k * (2 ^ (-53 : ℤ) * S)) (hy0 : |y0| ≤ m * S)
    (hd : |d - d0| ≤ kd * (2 ^ (-53 : ℤ) * S)) (hd0 : |d0| ≤ md * S) :
    |roundDouble (roundDouble (roundDouble (a * x) + roundDouble (b * y)) + d)
        - (a0 * x0 + b0 * y0 + d0)|
      ≤ (2 * k + (2 * j + 6) * m + kd + md + 10) * (2 ^ (-53 : ℤ) * S) := by
  have hS0 : 0 ≤ S := le_trans (by positivity) hS
  have hjm : j * m ≤ 10 * 10 := mul_le_mul hj hm hm0 (by norm_num)
  have hjm0 : 0 ≤ j * m := mul_nonneg hj0 hm0
  obtain ⟨p1, q1⟩ := approx_mul S j k m a a0 x x0 hS0 hj0 (by linarith) hk0 (by linarith)
    ha0 ha hx hx0
  obtain ⟨p2, q2⟩ := approx_mul S j k m b b0 y y0 hS0 hj0 (by linarith) hk0 (by linarith)
    hb0 hb hy hy0
  have r1 := roundDouble_step S (k + j * m + 1) m (a * x) (a0 * x0) hS (by linarith)
    (by linarith) p1 q1
  have r2 := roundDouble_step S (k + j * m + 1) m (b * y) (b0 * y0) hS (by linarith)
    (by linarith) p2 q2
  have s1 : |roundDouble (a * x) + roundDouble (b * y) - (a0 * x0 + b0 * y0)|
      ≤ (2 * (k + j * m + 1 + m + 2)) * (2 ^ (-53 : ℤ) * S) := by
    have := abs_add (roundDouble (a * x) - a0 * x0) (roundDouble (b * y) - b0 * y0)
    have he : roundDouble (a * x) + roundDouble (b * y) - (a0 * x0 + b0 * y0)
        = roundDouble (a * x) - a0 * x0 + (roundDouble (b * y) - b0 * y0) := by ring
    rw [he]
    linarith
  have s2 : |a0 * x0 + b0 * y0| ≤ (2 * m) * S := by
    have := abs_add (a0 * x0) (b0 * y0)
    linarith
  have r3 := roundDouble_step S (2 * (k + j * m + 1 + m + 2)) (2 * m) _ _ hS (by linarith)
    (by linarith) s1 s2
  have s3 : |roundDouble (roundDouble (a * x) + roundDouble (b * y)) + d
        - (a0 * x0 + b0 * y0 + d0)|
      ≤ (2 * (k + j * m + 1 + m + 2) + 2 * m + 2 + kd) * (2 ^ (-53 : ℤ) * S) := by
    have := abs_add (roundDouble (roundDouble (a * x) + roundDouble (b * y))
      - (a0 * x0 + b0 * y0)) (d - d0)
    have he : roundDouble (roundDouble (a * x) + roundDouble (b * y)) + d
          - (a0 * x0 + b0 * y0 + d0)
        = roundDouble (roundDouble (a * x) + roundDouble (b * y)) - (a0 * x0 + b0 * y0)
          + (d - d0) := by ring
    rw [he]
    linarith
  have s4 : |a0 * x0 + b0 * y0 + d0| ≤ (2 * m + md) * S := by
    have := abs_add (a0 * x0 + b0 * y0) d0
    linarith
  have r4 := roundDouble_step S (2 * (k + j * m + 1 + m + 2) + 2 * m + 2 + kd) (2 * m + md)
    _ _ hS (by linarith) (by linarith) s3 s4
  calc _ ≤ _ := r4
    _ = _ := by ring

/-- Both coordinates of `Transform::map` in double arithmetic. -/
theorem Transform.mapDouble_near (S j k m kd md : ℚ) (t : Transform) (p : PointF)
    (c11 c12 c21 c22 d1 d2 x0 y0 : ℚ) (hS : (2 : ℚ) ^ (-1022 : ℤ) ≤ S)
    (hj0 : 0 ≤ j) (hj : j ≤ 10) (hk0 : 0 ≤ k) (hk : k ≤ 100) (hm0 : 0 ≤ m) (hm : m ≤ 10)
    (hkd0 : 0 ≤ kd) (hkd : kd ≤ 10)
    (h11 : |c11| ≤ 1 ∧ |t.m11 - c11| ≤ j * 2 ^ (-53 : ℤ))
    (h12 : |c12| ≤ 1 ∧ |t.m12 - c12| ≤ j * 2 ^ (-53 : ℤ))
    (h21 : |c21| ≤ 1 ∧ |t.m21 - c21| ≤ j * 2 ^ (-53 : ℤ))
    (h22 : |c22| ≤ 1 ∧ |t.m22 - c22| ≤ j * 2 ^ (-53 : ℤ))
    (hx : |p.x - x0| ≤ k * (2 ^ (-53 : ℤ) * S) ∧ |x0| ≤ m * S)
    (hy : |p.y - y0| ≤ k * (2 ^ (-53 : ℤ) * S) ∧ |y0| ≤ m * S)
    (hd1 : |t.dx - d1| ≤ kd * (2 ^ (-53 : ℤ) * S) ∧ |d1| ≤ md * S)
    (hd2 : |t.dy - d2| ≤ kd * (2 ^ (-53 : ℤ) * S) ∧ |d2| ≤ md * S) :
    |(t.mapDouble p).x - (c11 * x0 + c21 * y0 + d1)|
        ≤ (2 * k + (2 * j + 6) * m + kd + md + 10) * (2 ^ (-53 : ℤ) * S)
      ∧ |(t.mapDouble p).y - (c12 * x0 + c22 * y0 + d2)|
        ≤ (2 * k + (2 * j + 6) * m + kd + md + 10) * (2 ^ (-53 : ℤ) * S) :=
  ⟨Transform.map_coordinate_near S j k m kd md t.m11 t.m21 p.x p.y t.dx c11 c21 x0 y0 d1 hS hj0 hj hk0 hk hm0 hm
      hkd0 hkd h11.1 h11.2 h21.1 h21.2 hx.1 hx.2 hy.1 hy.2 hd1.1 hd1.2,
    Transform.map_coordinate_near S j k m kd md t.m12 t.m22 p.x p.y t.dy c12 c22 x0 y0 d2 hS hj0 hj hk0 hk hm0 hm
      hkd0 hkd h12.1 h12.2 h22.1 h22.2 hx.1 hx.2 hy.1 hy.2 hd2.1 hd2.2⟩

/-- A number of magnitude at most 1 that is rounded twice, as a coefficient of
a rotation of the identity is, moves by at most `6 * 2 ^ (-53)`. -/
theorem roundDouble_twice (c : ℚ) (hc : |c| ≤ 1) :
    |roundDouble (roundDouble c) - c| ≤ 6 * 2 ^ (-53 : ℤ) := by
  have h1 : (2 : ℚ) ^ (-1022 : ℤ) ≤ 1 := by
    rw [zpow_neg]
    exact inv_le_one_of_one_le₀ (one_le_zpow₀ (by norm_num) (by norm_num))
  have r1 := roundDouble_step 1 0 1 c c h1 (le_refl 0) (by norm_num) (by simp) (by simpa using hc)
  have r2 := roundDouble_step 1 (0 + 1 + 2) 1 (roundDouble c) c h1 (by norm_num) (by norm_num)
    r1 (by simpa using hc)
  calc _ ≤ _ := r2
    _ = _ := by norm_num

/-- The coefficients of `rotateRadians(a)` in double arithmetic, applied to a
map without rotation part: each is within `6 * 2 ^ (-53)` of the coefficient of
the exact rotation, and the translation is kept. -/
theorem Transform.rotateRadiansDouble_near (M : MathFns) (t : Transform) (a : ℚ)
    (ht : t.m11 = 1 ∧ t.m12 = 0 ∧ t.m21 = 0 ∧ t.m22 = 1)
    (hs : |M.sin a| ≤ 1) (hc : |M.cos a| ≤ 1) :
    |(t.rotateRadiansDouble M a).m11 - M.cos a| ≤ 6 * 2 ^ (-53 : ℤ)
      ∧ |(t.rotateRadiansDouble M a).m12 - M.sin a| ≤ 6 * 2 ^ (-53 : ℤ)
      ∧ |(t.rotateRadiansDouble M a).m21 - -M.sin a| ≤ 6 * 2 ^ (-53 : ℤ)
      ∧ |(t.rotateRadiansDouble M a).m22 - M.cos a| ≤ 6 * 2 ^ (-53 : ℤ)
      ∧ (t.rotateRadiansDouble M a).dx = t.dx ∧ (t.rotateRadiansDouble M a).dy = t.dy := by
  obtain ⟨h11, h12, h21, h22⟩ := ht
  have hs' : |-M.sin a| ≤ 1 := by rwa [abs_neg]
  unfold Transform.rotateRadiansDouble
  simp only [h11, h12, h21, h22, mul_one, mul_zero, roundDouble_zero, add_zero, zero_add]
  exact ⟨roundDouble_twice _ hc, roundDouble_twice _ hs, roundDouble_twice _ hs',
    roundDouble_twice _ hc, trivial, trivial⟩

/-- The translation of `translate(x, y)` in double arithmetic, applied to the
identity: three roundings of each coordinate. -/
theorem Transform.translateDouble_near (S x y : ℚ) (hS : (2 : ℚ) ^ (-1022 : ℤ) ≤ S)
    (hx : |x| ≤ S) (hy : |y| ≤ S) :
    |(Transform.identity.translateDouble x y).dx - x| ≤ 9 * (2 ^ (-53 : ℤ) * S)
      ∧ |(Transform.identity.translateDouble x y).dy - y| ≤ 9 * (2 ^ (-53 : ℤ) * S)
      ∧ (Transform.identity.translateDouble x y).m11 = 1
      ∧ (Transform.identity.translateDouble x y).m12 = 0
      ∧ (Transform.identity.translateDouble x y).m21 = 0
      ∧ (Transform.identity.translateDouble x y).m22 = 1 := by
  have key : ∀ z : ℚ, |z| ≤ S →
      |roundDouble (roundDouble (roundDouble z)) - z| ≤ 9 * (2 ^ (-53 : ℤ) * S) := by
    intro z hz
    have r1 := roundDouble_step S 0 1 z z hS (le_refl 0) (by norm_num) (by simp)
      (by simpa using hz)
    have r2 := roundDouble_step S (0 + 1 + 2) 1 _ z hS (by norm_num) (by norm_num) r1
      (by simpa using hz)
    have r3 := roundDouble_step S (0 + 1 + 2 + 1 + 2) 1 _ z hS (by norm_num) (by norm_num) r2
      (by simpa using hz)
    calc _ ≤ _ := r3
      _ = _ := by norm_num
  unfold Transform.translateDouble Transform.identity
  simp only [mul_one, mul_zero, roundDouble_zero, add_zero, zero_add]
  exact ⟨key x hx, key y hy, trivial, trivial, trivial, trivial⟩

/-- The two rotations give the end point back up to 8 units, when the squares
of sine and cosine add up to 1 up to `2 ^ (-51)`: with `d = b - a` the exact
image `(c² + s²) d + a` is within 8 units of `b`. -/
theorem Transform.rotate_back_near (S c sn ax ay bx b_y : ℚ)
    (hdx : |bx - ax| ≤ 2 * S) (hdy : |b_y - ay| ≤ 2 * S)
    (hone : |sn ^ 2 + c ^ 2 - 1| ≤ 2 ^ (-51 : ℤ)) :
    |(c * (c * (bx - ax) + sn * (b_y - ay) + 0)
          + -sn * (-sn * (bx - ax) + c * (b_y - ay) + 0) + ax) - bx|
        ≤ 8 * (2 ^ (-53 : ℤ) * S)
      ∧ |(sn * (c * (bx - ax) + sn * (b_y - ay) + 0)
          + c * (-sn * (bx - ax) + c * (b_y - ay) + 0) + ay) - b_y|
        ≤ 8 * (2 ^ (-53 : ℤ) * S) := by
  have h51 : (2 : ℚ) ^ (-51 : ℤ) = 4 * 2 ^ (-53 : ℤ) := by
    rw [show (-51 : ℤ) = 2 + -53 by norm_num, zpow_add₀ (by norm_num : (2 : ℚ) ≠ 0)]
    norm_num
  have hu0 : (0 : ℚ) < 2 ^ (-53 : ℤ) := by positivity
  rw [h51] at hone
  generalize (2 : ℚ) ^ (-53 : ℤ) = u at *
  have hmx : |(sn ^ 2 + c ^ 2 - 1) * (bx - ax)| ≤ 4 * u * (2 * S) := by
    rw [abs_mul]
    exact mul_le_mul hone hdx (abs_nonneg _) (by positivity)
  have hmy : |(sn ^ 2 + c ^ 2 - 1) * (b_y - ay)| ≤ 4 * u * (2 * S) := by
    rw [abs_mul]
    exact mul_le_mul hone hdy (abs_nonneg _) (by positivity)
  have e1 : (c * (c * (bx - ax) + sn * (b_y - ay) + 0)
      + -sn * (-sn * (bx - ax) + c * (b_y - ay) + 0) + ax) - bx
      = (sn ^ 2 + c ^ 2 - 1) * (bx - ax) := by ring
  have e2 : (sn * (c * (bx - ax) + sn * (b_y - ay) + 0)
      + c * (-sn * (bx - ax) + c * (b_y - ay) + 0) + ay) - b_y
      = (sn ^ 2 + c ^ 2 - 1) * (b_y - ay) := by ring
  rw [e1, e2]
  constructor <;> linarith

/-- The image of a vector under a matrix with coefficients of magnitude at
most 1. -/
theorem Transform.rotate_bound (S m c sn x y : ℚ) (hc : |c| ≤ 1) (hs : |sn| ≤ 1)
    (hx : |x| ≤ m * S) (hy : |y| ≤ m * S) :
    |c * x + sn * y + 0| ≤ (2 * m) * S := by
  have h1 : |c * x| ≤ 1 * (m * S) := by
    rw [abs_mul]
    exact mul_le_mul hc hx (abs_nonneg _) (by norm_num)
  have h2 : |sn * y| ≤ 1 * (m * S) := by
    rw [abs_mul]
    exact mul_le_mul hs hy (abs_nonneg _) (by norm_num)
  have := abs_add (c * x) (sn * y)
  rw [add_zero]
  linarith

/-- The end point that `computeBezier` leaves, in double arithmetic: END.p +
END.off is the effective end point up to `2 ^ (-45)` of the largest magnitude
`S` of the coordinates. -/
theorem SlurSegment.endDouble_near (M : MathFns) (s : SlurSegment) (S : ℚ)
    (hS : (2 : ℚ) ^ (-1022 : ℤ) ≤ S)
    (h1 : |(s.START.p.addDouble s.START.off).x| ≤ S ∧ |(s.START.p.addDouble s.START.off).y| ≤ S)
    (h2 : |(s.END.p.addDouble s.END.off).x| ≤ S ∧ |(s.END.p.addDouble s.END.off).y| ≤ S)
    (ho : |s.END.off.x| ≤ S ∧ |s.END.off.y| ≤ S)
    (hsin : ∀ a, M.sin (-a) = -M.sin a) (hcos : ∀ a, M.cos (-a) = M.cos a)
    (hs1 : ∀ a, |M.sin a| ≤ 1) (hc1 : ∀ a, |M.cos a| ≤ 1)
    (hone : ∀ a, |M.sin a ^ 2 + M.cos a ^ 2 - 1| ≤ 2 ^ (-51 : ℤ)) :
    |((SlurSegment.endDouble M s).p.addDouble (SlurSegment.endDouble M s).off).x
          - (s.END.p.addDouble s.END.off).x| ≤ 2 ^ (-45 : ℤ) * S
      ∧ |((SlurSegment.endDouble M s).p.addDouble (SlurSegment.endDouble M s).off).y
          - (s.END.p.addDouble s.END.off).y| ≤ 2 ^ (-45 : ℤ) * S := by
  have hS0 : 0 ≤ S := le_trans (by positivity) hS
  obtain ⟨h1x, h1y⟩ := h1
  obtain ⟨h2x, h2y⟩ := h2
  obtain ⟨hox, hoy⟩ := ho
  generalize hA : s.START.p.addDouble s.START.off = A at h1x h1y
  generalize hB : s.END.p.addDouble s.END.off = B at h2x h2y
  -- the end vector
  have hdx : |B.x - A.x| ≤ 2 * S := by
    have := abs_sub B.x A.x
    linarith
  have hdy : |B.y - A.y| ≤ 2 * S := by
    have := abs_sub B.y A.y
    linarith
  have hvx := roundDouble_step S 0 2 (B.x - A.x) (B.x - A.x) hS (le_refl 0) (by norm_num)
    (by simp) hdx
  have hvy := roundDouble_step S 0 2 (B.y - A.y) (B.y - A.y) hS (le_refl 0) (by norm_num)
    (by simp) hdy
  -- the angle
  generalize hθ : M.atan (roundDouble ((B.subDouble A).y / (B.subDouble A).x)) = θ
  have hc := hc1 θ
  have hsn := hs1 θ
  have hsn' : |-M.sin θ| ≤ 1 := by rwa [abs_neg]
  -- rotation into the local frame
  obtain ⟨r11, r12, r21, r22, rdx, rdy⟩ := Transform.rotateRadiansDouble_near M
    Transform.identity (-θ) ⟨rfl, rfl, rfl, rfl⟩ (hs1 _) (hc1 _)
  rw [hcos] at r11 r22
  rw [hsin] at r12 r21
  rw [neg_neg] at r21
  have hw := Transform.mapDouble_near S 6 (0 + 2 + 2) 2 0 0
    (Transform.identity.rotateRadiansDouble M (-θ)) (B.subDouble A)
    (M.cos θ) (-M.sin θ) (M.sin θ) (M.cos θ) 0 0 (B.x - A.x) (B.y - A.y) hS
    (by norm_num) (by norm_num) (by norm_num) (by norm_num) (by norm_num) (by norm_num)
    (le_refl 0) (by norm_num)
    ⟨hc, r11⟩ ⟨hsn', r12⟩ ⟨hsn, r21⟩ ⟨hc, r22⟩ ⟨hvx, hdx⟩ ⟨hvy, hdy⟩
    ⟨by rw [rdx]; simp [Transform.identity], by simp⟩
    ⟨by rw [rdy]; simp [Transform.identity], by simp⟩
  have hex := Transform.rotate_bound S 2 (M.cos θ) (M.sin θ) (B.x - A.x) (B.y - A.y) hc hsn hdx hdy
  have hey := Transform.rotate_bound S 2 (-M.sin θ) (M.cos θ) (B.x - A.x) (B.y - A.y) hsn' hc hdx hdy
  -- translation and rotation back
  obtain ⟨tdx, tdy, t11, t12, t21, t22⟩ := Transform.translateDouble_near S A.x A.y hS h1x h1y
  obtain ⟨q11, q12, q21, q22, qdx, qdy⟩ := Transform.rotateRadiansDouble_near M
    (Transform.identity.translateDouble A.x A.y) θ ⟨t11, t12, t21, t22⟩ hsn hc
  have hr := Transform.mapDouble_near S 6 (2 * (0 + 2 + 2) + (2 * 6 + 6) * 2 + 0 + 0 + 10)
    (2 * 2) 9 1
    ((Transform.identity.translateDouble A.x A.y).rotateRadiansDouble M θ)
    ((Transform.identity.rotateRadiansDouble M (-θ)).mapDouble (B.subDouble A))
    (M.cos θ) (M.sin θ) (-M.sin θ) (M.cos θ) A.x A.y
    (M.cos θ * (B.x - A.x) + M.sin θ * (B.y - A.y) + 0)
    (-M.sin θ * (B.x - A.x) + M.cos θ * (B.y - A.y) + 0) hS
    (by norm_num) (by norm_num) (by norm_num) (by norm_num) (by norm_num) (by norm_num)
    (by norm_num) (by norm_num)
    ⟨hc, q11⟩ ⟨hsn, q12⟩ ⟨hsn', q21⟩ ⟨hc, q22⟩ ⟨hw.1, hex⟩ ⟨hw.2, hey⟩
    ⟨by rw [qdx]; exact tdx, by simpa using h1x⟩
    ⟨by rw [qdy]; exact tdy, by simpa using h1y⟩
  obtain ⟨hbx, hby⟩ := Transform.rotate_back_near S (M.cos θ) (M.sin θ) A.x A.y B.x B.y hdx hdy
    (hone θ)
  have hend : SlurSegment.endDouble M s
      = { s.END with
          p := (((Transform.identity.translateDouble A.x A.y).rotateRadiansDouble M θ).mapDouble
            ((Transform.identity.rotateRadiansDouble M (-θ)).mapDouble (B.subDouble A))).subDouble
              s.END.off } := by
    unfold SlurSegment.endDouble
    simp only [hA, hB, hθ]
  rw [hend]
  simp only [PointF.addDouble, PointF.subDouble] at hr ⊢
  generalize ((Transform.identity.translateDouble A.x A.y).rotateRadiansDouble M θ).mapDouble
    ((Transform.identity.rotateRadiansDouble M (-θ)).mapDouble
      ⟨roundDouble (B.x - A.x), roundDouble (B.y - A.y)⟩) = R at hr ⊢
  have h45 : (2 : ℚ) ^ (-45 : ℤ) = 256 * 2 ^ (-53 : ℤ) := by
    rw [show (-45 : ℤ) = 8 + -53 by norm_num, zpow_add₀ (by norm_num : (2 : ℚ) ≠ 0)]
    norm_num
  have hu0 : (0 : ℚ) < 2 ^ (-53 : ℤ) := by positivity
  have finish : ∀ (r e o b : ℚ), |r - e| ≤ 200 * (2 ^ (-53 : ℤ) * S)
      → |e - b| ≤ 8 * (2 ^ (-53 : ℤ) * S) → |o| ≤ S → |b| ≤ S
      → |roundDouble (roundDouble (r - o) + o) - b| ≤ 2 ^ (-45 : ℤ) * S := by
    intro r e o b hre heb ho hb
    have f1 : |r - o - (b - o)| ≤ 208 * (2 ^ (-53 : ℤ) * S) := by
      have := abs_add (r - e) (e - b)
      have he : r - o - (b - o) = r - e + (e - b) := by ring
      rw [he]
      linarith
    have f2 : |b - o| ≤ 2 * S := by
      have := abs_sub b o
      linarith
    have f3 := roundDouble_step S 208 2 _ _ hS (by norm_num) (by norm_num) f1 f2
    have f4 : |roundDouble (r - o) + o - b| ≤ (208 + 2 + 2) * (2 ^ (-53 : ℤ) * S) := by
      have he : roundDouble (r - o) + o - b = roundDouble (r - o) - (b - o) := by ring
      rw [he]
      exact f3
    have f5 := roundDouble_step S (208 + 2 + 2) 1 _ _ hS (by norm_num) (by norm_num) f4
      (by simpa using hb)
    rw [h45]
    have hT : 0 ≤ 2 ^ (-53 : ℤ) * S := mul_nonneg (le_of_lt hu0) hS0
    linarith
  exact ⟨finish _ _ _ _ (by norm_num at hr ⊢; exact hr.1) hbx hox h2x,
    finish _ _ _ _ (by norm_num at hr ⊢; exact hr.2) hby hoy h2y⟩

/-- The doubles of the example, and the two roundings between them: 0.9 - 0.2
is rounded to 0.7, and 0.7 + 0.2 to 0.8999999999999999. -/
theorem exDouble_facts :
    roundDouble (1 / 5) = exDouble02 ∧ roundDouble (9 / 10) = exDouble09
      ∧ roundDouble exDouble02 = exDouble02 ∧ roundDouble exDouble09 = exDouble09
      ∧ roundDouble exDouble07 = exDouble07 ∧ roundDouble exDouble08999 = exDouble08999
      ∧ roundDouble (exDouble09 - exDouble02) = exDouble07
      ∧ roundDouble (exDouble07 + exDouble02) = exDouble08999 := by
  have f02 : roundDouble exDouble02 = exDouble02 := by
    have h := roundDouble_of_significand 7205759403792794 (-3) (by norm_num) (by norm_num)
      (by norm_num)
    have e : ((7205759403792794 : ℤ) : ℚ) * 2 ^ ((-3 : ℤ) - 52) = exDouble02 := by
      norm_num [exDouble02]
    rw [e] at h
    exact h
  have f09 : roundDouble exDouble09 = exDouble09 := by
    have h := roundDouble_of_significand 8106479329266893 (-1) (by norm_num) (by norm_num)
      (by norm_num)
    have e : ((8106479329266893 : ℤ) : ℚ) * 2 ^ ((-1 : ℤ) - 52) = exDouble09 := by
      norm_num [exDouble09]
    rw [e] at h
    exact h
  have f07 : roundDouble exDouble07 = exDouble07 := by
    have h := roundDouble_of_significand 6305039478318694 (-1) (by norm_num) (by norm_num)
      (by norm_num)
    have e : ((6305039478318694 : ℤ) : ℚ) * 2 ^ ((-1 : ℤ) - 52) = exDouble07 := by
      norm_num [exDouble07]
    rw [e] at h
    exact h
  have f089 : roundDouble exDouble08999 = exDouble08999 := by
    have h := roundDouble_of_significand 8106479329266892 (-1) (by norm_num) (by norm_num)
      (by norm_num)
    have e : ((8106479329266892 : ℤ) : ℚ) * 2 ^ ((-1 : ℤ) - 52) = exDouble08999 := by
      norm_num [exDouble08999]
    rw [e] at h
    exact h
  refine ⟨?_, ?_, f02, f09, f07, f089, ?_, ?_⟩
  · rw [roundDouble_binade_pos (1 / 5) (-3) (by norm_num) (by norm_num) (by norm_num)]
    have hf : ⌊(1 / 5 : ℚ) / 2 ^ ((-3 : ℤ) - 52)⌋ = 7205759403792793 := by
      rw [Int.floor_eq_iff]
      norm_num
    unfold roundHalfEven exDouble02
    simp only [hf]
    norm_num
  · rw [roundDouble_binade_pos (9 / 10) (-1) (by norm_num) (by norm_num) (by norm_num)]
    have hf : ⌊(9 / 10 : ℚ) / 2 ^ ((-1 : ℤ) - 52)⌋ = 8106479329266892 := by
      rw [Int.floor_eq_iff]
      norm_num
    unfold roundHalfEven exDouble09
    simp only [hf]
    norm_num
  · rw [roundDouble_binade_pos _ (-1) (by norm_num [exDouble09, exDouble02])
      (by norm_num [exDouble09, exDouble02]) (by norm_num)]
    have hf : ⌊(exDouble09 - exDouble02) / 2 ^ ((-1 : ℤ) - 52)⌋ = 6305039478318694 := by
      rw [Int.floor_eq_iff]
      norm_num [exDouble09, exDouble02]
    unfold roundHalfEven
    simp only [hf]
    norm_num [exDouble09, exDouble02, exDouble07]
  · rw [roundDouble_binade_pos _ (-1) (by norm_num [exDouble07, exDouble02])
      (by norm_num [exDouble07, exDouble02]) (by norm_num)]
    have hf : ⌊(exDouble07 + exDouble02) / 2 ^ ((-1 : ℤ) - 52)⌋ = 8106479329266892 := by
      rw [Int.floor_eq_iff]
      norm_num [exDouble07, exDouble02]
    unfold roundHalfEven
    simp only [hf]
    norm_num [exDouble07, exDouble02, exDouble08999]

/-- C28, as stated, fails in the double arithmetic of the code. For the
horizontal slur from (0.2, 0) to (0.9, 0), without user offsets and without
autoplace (so that the staff-line pass leaves the end points), `atan(0)`,
`sin(0)` and `cos(0)` are 0, 0 and 1, the rotations are the identity, and
`computeBezier` computes `p2 = pp2 - pp1`, which is rounded to 0.7, and maps
it back by adding `pp1`, which is rounded to 0.8999999999999999: END.p +
END.off is the double before the effective end point 0.9. -/
theorem C28_counterexample :
    (roundDouble (1 / 5) = exDouble02 ∧ roundDouble (9 / 10) = exDouble09)
      ∧ (exMath.atan 0 = 0 ∧ exMath.sin 0 = 0 ∧ exMath.cos 0 = 1)
      ∧ (∀ ctx slur, SlurSegment.staffLinePass ctx slur
            { exSegment ⟨exDouble02, 0⟩ ⟨0, 0⟩ ⟨exDouble09, 0⟩ ⟨0, 0⟩ with autoplace := false }
          = some
            { exSegment ⟨exDouble02, 0⟩ ⟨0, 0⟩ ⟨exDouble09, 0⟩ ⟨0, 0⟩ with autoplace := false })
      ∧ { exSegment ⟨exDouble02, 0⟩ ⟨0, 0⟩ ⟨exDouble09, 0⟩ ⟨0, 0⟩ with autoplace := false }.END.p.addDouble
            { exSegment ⟨exDouble02, 0⟩ ⟨0, 0⟩ ⟨exDouble09, 0⟩ ⟨0, 0⟩ with autoplace := false }.END.off
          = ⟨exDouble09, 0⟩
      ∧ (SlurSegment.endDouble exMath
            { exSegment ⟨exDouble02, 0⟩ ⟨0, 0⟩ ⟨exDouble09, 0⟩ ⟨0, 0⟩ with autoplace := false }).p.addDouble
          (SlurSegment.endDouble exMath
            { exSegment ⟨exDouble02, 0⟩ ⟨0, 0⟩ ⟨exDouble09, 0⟩ ⟨0, 0⟩ with autoplace := false }).off
          = ⟨exDouble08999, 0⟩
      ∧ exDouble08999 ≠ exDouble09 := by
  obtain ⟨h1, h2, f02, f09, f07, f089, hsub, hadd⟩ := exDouble_facts
  refine ⟨⟨h1, h2⟩, ⟨rfl, rfl, rfl⟩, fun _ _ => rfl, ?_, ?_, ?_⟩
  · simp [PointF.addDouble, exSegment, f09, roundDouble_zero]
  · simp [SlurSegment.endDouble, PointF.addDouble, PointF.subDouble, Transform.mapDouble,
      Transform.rotateRadiansDouble, Transform.translateDouble, Transform.identity, exSegment,
      exMath, f02, f09, f07, f089, hsub, hadd, roundDouble_zero, roundDouble_one]
  · norm_num [exDouble08999, exDouble09]

/-- C28, amended: for every pair of effective end points that does not
coincide after the staff-line pass, `computeBezier` with the shoulder offset
(0, 0) returns, leaves START as the staff-line pass left it, and maps the end
point back up to the rounding of the double operations. In double arithmetic
(`SlurSegment.endDouble`: every sum, difference, product and quotient rounded
to the nearest double) each coordinate of END.p + END.off differs from the
effective end point by at most `2 ^ (-45) * S`, where `S` is at least the
magnitude of every coordinate of the effective end points and of the user
offset of END; of the C library functions this takes that sine is odd, cosine
is even, neither exceeds 1 in magnitude and their squares add up to 1 up to
`2 ^ (-51)`, whatever angle `atan` gives. In exact arithmetic, when the squares
add up to 1, END.p + END.off is the effective end point: rotating by
`-atan(dy / dx)`, then translating and rotating back is the identity on the
end point. -/
theorem SlurSegment.computeBezier_end_round_trip (ctx : SegCtx) (slur : Slur)
    (s s1 : SlurSegment) (S : ℚ) (hpass : SlurSegment.staffLinePass ctx slur s = some s1)
    (hnz : ¬ (((s1.END.p + s1.END.off) - (s1.START.p + s1.START.off)).x = 0
      ∧ ((s1.END.p + s1.END.off) - (s1.START.p + s1.START.off)).y = 0))
    (hsin : ∀ a, ctx.math.sin (-a) = -ctx.math.sin a)
    (hcos : ∀ a, ctx.math.cos (-a) = ctx.math.cos a)
    (hs1 : ∀ a, |ctx.math.sin a| ≤ 1) (hc1 : ∀ a, |ctx.math.cos a| ≤ 1)
    (hone : ∀ a, |ctx.math.sin a ^ 2 + ctx.math.cos a ^ 2 - 1| ≤ 2 ^ (-51 : ℤ))
    (hS : (2 : ℚ) ^ (-1022 : ℤ) ≤ S)
    (h1 : |(s1.START.p.addDouble s1.START.off).x| ≤ S
      ∧ |(s1.START.p.addDouble s1.START.off).y| ≤ S)
    (h2 : |(s1.END.p.addDouble s1.END.off).x| ≤ S ∧ |(s1.END.p.addDouble s1.END.off).y| ≤ S)
    (ho : |s1.END.off.x| ≤ S ∧ |s1.END.off.y| ≤ S) :
    (∃ r, SlurSegment.computeBezier ctx slur s computeBezierDefaultArg = some r
        ∧ r.2.START = s1.START
        ∧ ((∀ a, ctx.math.sin a ^ 2 + ctx.math.cos a ^ 2 = 1) →
            r.2.END.p + r.2.END.off = s1.END.p + s1.END.off))
      ∧ |((SlurSegment.endDouble ctx.math s1).p.addDouble
              (SlurSegment.endDouble ctx.math s1).off).x
            - (s1.END.p.addDouble s1.END.off).x| ≤ 2 ^ (-45 : ℤ) * S
      ∧ |((SlurSegment.endDouble ctx.math s1).p.addDouble
              (SlurSegment.endDouble ctx.math s1).off).y
            - (s1.END.p.addDouble s1.END.off).y| ≤ 2 ^ (-45 : ℤ) * S := by
  refine ⟨⟨(slur, SlurSegment.buildBezier ctx slur s1 computeBezierDefaultArg), ?_, ?_, ?_⟩,
    SlurSegment.endDouble_near ctx.math s1 S hS h1 h2 ho hsin hcos hs1 hc1 hone⟩
  · unfold SlurSegment.computeBezier
    simp only [hpass, if_neg hnz]
  · exact (SlurSegment.buildBezier_END ctx slur s1 computeBezierDefaultArg).2.2
  · intro hexact
    obtain ⟨he, ho, -⟩ := SlurSegment.buildBezier_END ctx slur s1 computeBezierDefaultArg
    simp only []
    rw [he, ho]
    unfold SlurSegment.backTransform
    simp only []
    rw [Transform.rotate_back ctx.math _ _ _ (hsin _) (hcos _) (hexact _)]
    rw [PointF.eq_iff]
    simp only [PointF.add_x, PointF.add_y, PointF.sub_x, PointF.sub_y]
    constructor <;> ring

/-- The magnitude of the double nearest to a number of magnitude at most 4 is
at most 5. -/
theorem roundDouble_le_five (x : ℚ) (hx : |x| ≤ 4) : |roundDouble x| ≤ 5 := by
  have he := roundDouble_abs_error x
  have hu : (2 : ℚ) ^ (-53 : ℤ) ≤ 1 / 1000 := by
    rw [zpow_neg, inv_eq_one_div]
    apply one_div_le_one_div_of_le (by norm_num)
    norm_num
  have hv : (2 : ℚ) ^ (-1075 : ℤ) ≤ 1 / 1000 := by
    rw [zpow_neg, inv_eq_one_div]
    apply one_div_le_one_div_of_le (by norm_num)
    exact le_trans (by norm_num : (1000 : ℚ) ≤ 2 ^ (10 : ℤ))
      (zpow_le_zpow_right₀ (by norm_num) (by norm_num))
  have hu0 : (0 : ℚ) < 2 ^ (-53 : ℤ) := by positivity
  generalize (2 : ℚ) ^ (-53 : ℤ) = u at *
  generalize (2 : ℚ) ^ (-1075 : ℤ) = v at *
  have h1 : u * |x| ≤ 1 / 1000 * 4 := mul_le_mul hu hx (abs_nonneg _) (by norm_num)
  have h2 : |roundDouble x| ≤ |roundDouble x - x| + |x| := by
    have := abs_add (roundDouble x - x) x
    simpa using this
  linarith

/-- C28 on an up-bowing slur from (0, -1) to (4, -4), above the staff, with a
rotation that is not trivial: `computeBezier` returns with START at (0, -1),
in exact arithmetic the end point is mapped back to (4, -4), and in double
arithmetic to a point within `2 ^ (-45) * 5` of the effective end point. -/
theorem SlurSegment.computeBezier_end_round_trip_witness :
    (∃ r, SlurSegment.computeBezier { exSegCtx with math := exMathRot }
          (exSlur true (exChordRest 1 0 false) (exChordRest 2 (1 / 2) false))
          (exSegment ⟨0, -1⟩ ⟨0, 0⟩ ⟨4, -4⟩ ⟨0, 0⟩) computeBezierDefaultArg = some r
        ∧ r.2.END.p + r.2.END.off = ⟨4, -4⟩ ∧ r.2.START.p = ⟨0, -1⟩)
      ∧ |((SlurSegment.endDouble exMathRot (exSegment ⟨0, -1⟩ ⟨0, 0⟩ ⟨4, -4⟩ ⟨0, 0⟩)).p.addDouble
              (SlurSegment.endDouble exMathRot (exSegment ⟨0, -1⟩ ⟨0, 0⟩ ⟨4, -4⟩ ⟨0, 0⟩)).off).x
            - ((exSegment ⟨0, -1⟩ ⟨0, 0⟩ ⟨4, -4⟩ ⟨0, 0⟩).END.p.addDouble
                (exSegment ⟨0, -1⟩ ⟨0, 0⟩ ⟨4, -4⟩ ⟨0, 0⟩).END.off).x| ≤ 2 ^ (-45 : ℤ) * 5
      ∧ |((SlurSegment.endDouble exMathRot (exSegment ⟨0, -1⟩ ⟨0, 0⟩ ⟨4, -4⟩ ⟨0, 0⟩)).p.addDouble
              (SlurSegment.endDouble exMathRot (exSegment ⟨0, -1⟩ ⟨0, 0⟩ ⟨4, -4⟩ ⟨0, 0⟩)).off).y
            - ((exSegment ⟨0, -1⟩ ⟨0, 0⟩ ⟨4, -4⟩ ⟨0, 0⟩).END.p.addDouble
                (exSegment ⟨0, -1⟩ ⟨0, 0⟩ ⟨4, -4⟩ ⟨0, 0⟩).END.off).y| ≤ 2 ^ (-45 : ℤ) * 5 := by
  have hpass : SlurSegment.staffLinePass { exSegCtx with math := exMathRot }
      (exSlur true (exChordRest 1 0 false) (exChordRest 2 (1 / 2) false))
      (exSegment ⟨0, -1⟩ ⟨0, 0⟩ ⟨4, -4⟩ ⟨0, 0⟩)
      = some (exSegment ⟨0, -1⟩ ⟨0, 0⟩ ⟨4, -4⟩ ⟨0, 0⟩) := by
    norm_num [SlurSegment.staffLinePass, SlurSegment.adjustEndpoints, SlurSegment.adjustGrip,
      exSegCtx, exSlur, exSegment]
  have hpos : ∀ a : ℚ, (0 : ℚ) < 1 + a ^ 2 := fun a => by positivity
  have hsq : ∀ a : ℚ, (2 * a / (1 + a ^ 2)) ^ 2 + ((1 - a ^ 2) / (1 + a ^ 2)) ^ 2 = 1 := by
    intro a
    have := (hpos a).ne'
    field_simp
    ring
  have h1022 : (2 : ℚ) ^ (-1022 : ℤ) ≤ 5 := by
    rw [zpow_neg]
    exact le_trans (inv_le_one_of_one_le₀ (one_le_zpow₀ (by norm_num) (by norm_num)))
      (by norm_num)
  obtain ⟨⟨r, hr, h2, h1⟩, hx, hy⟩ := SlurSegment.computeBezier_end_round_trip
    { exSegCtx with math := exMathRot }
    (exSlur true (exChordRest 1 0 false) (exChordRest 2 (1 / 2) false))
    (exSegment ⟨0, -1⟩ ⟨0, 0⟩ ⟨4, -4⟩ ⟨0, 0⟩) _ 5 hpass
    (by norm_num [exSegment, PointF.add_x, PointF.sub_x])
    (fun a => by simp only [exMathRot]; ring)
    (fun a => by simp only [exMathRot]; ring)
    (fun a => by
      simp only [exMathRot]
      rw [abs_le, le_div_iff₀ (hpos a), div_le_iff₀ (hpos a)]
      constructor <;> nlinarith [sq_nonneg (a - 1), sq_nonneg (a + 1)])
    (fun a => by
      simp only [exMathRot]
      rw [abs_le, le_div_iff₀ (hpos a), div_le_iff₀ (hpos a)]
      constructor <;> nlinarith [sq_nonneg a])
    (fun a => by
      simp only [exMathRot]
      rw [hsq a, sub_self, abs_zero]
      positivity)
    h1022
    ⟨roundDouble_le_five _ (by norm_num [exSegment]),
      roundDouble_le_five _ (by norm_num [exSegment])⟩
    ⟨roundDouble_le_five _ (by norm_num [exSegment]),
      roundDouble_le_five _ (by norm_num [exSegment])⟩
    ⟨by norm_num [exSegment], by norm_num [exSegment]⟩
  refine ⟨⟨r, hr, ?_, ?_⟩, hx, hy⟩
  · rw [h1 hsq]
    norm_num [exSegment, PointF.eq_iff, PointF.add_x, PointF.add_y]
  · rw [h2]
    rfl

/-! ### Collision shape (`computeBezier`) -/

/-- The collision shape that `computeBezier` builds. -/
theorem SlurSegment.buildBezier_shape (ctx : SegCtx) (slur : Slur) (s : SlurSegment)
    (p6o : PointF) :
    (SlurSegment.buildBezier ctx slur s p6o).shape
      = SlurSegment.shapeLoop
          (ctx.pointAtPercent (SlurSegment.buildBezier ctx slur s p6o).START.pos
            (SlurSegment.buildBezier ctx slur s p6o).BEZIER1.pos
            (SlurSegment.buildBezier ctx slur s p6o).BEZIER2.pos
            (SlurSegment.buildBezier ctx slur s p6o).END.pos)
          32 |3 * SlurSegment.strokeW ctx s p6o| (SlurSegment.buildBezier ctx slur s p6o).START.pos
          (List.range' 1 32) := by
  unfold SlurSegment.buildBezier SlurSegment.strokeW
  simp only []
  split_ifs <;> cases ctx.staff <;> rfl

/-- The rectangles of the loop that fills the shape, one by one. -/
theorem SlurSegment.shapeLoop_range (b : ℚ → PointF) (n : ℕ) (minH : ℚ) :
    ∀ (m k : ℕ) (start : PointF),
      SlurSegment.shapeLoop b n minH start (List.range' k m)
        = (List.range m).map (fun j =>
            SlurSegment.shapeRect minH
              (match j with
               | 0 => start
               | i + 1 => b (((k + i : ℕ) : ℚ) / (n : ℚ)))
              (b (((k + j : ℕ) : ℚ) / (n : ℚ)))) := by
  intro m
  induction m with
  | zero => intro k start; rfl
  | succ m ih =>
    intro k start
    rw [List.range'_succ, SlurSegment.shapeLoop, ih (k + 1) (b ((k : ℚ) / (n : ℚ))),
      List.range_succ_eq_map, List.map_cons, List.map_map]
    congr 1
    apply List.map_congr_left
    intro j _
    cases j with
    | zero => simp
    | succ i =>
      simp only [Function.comp]
      have h1 : k + 1 + i = k + (i + 1) := by omega
      have h2 : k + 1 + (i + 1) = k + (i + 1 + 1) := by omega
      rw [h1, h2]

theorem SlurSegment.shapeRect_height (minH : ℚ) (a b : PointF) :
    minH ≤ (SlurSegment.shapeRect minH a b).height := by
  unfold SlurSegment.shapeRect
  simp only []
  split_ifs with h
  · simp only [RectF.adjust, RectF.height] at h ⊢
    linarith
  · exact not_lt.mp h

/-- A rectangle of the shape spans its two points: horizontally it goes from
the smaller to the larger `x`, and vertically it holds both `y`. -/
theorem SlurSegment.shapeRect_spans (minH : ℚ) (a b : PointF) :
    (SlurSegment.shapeRect minH a b).x = min a.x b.x
      ∧ (SlurSegment.shapeRect minH a b).x + (SlurSegment.shapeRect minH a b).w = max a.x b.x
      ∧ (SlurSegment.shapeRect minH a b).y ≤ min a.y b.y
      ∧ max a.y b.y
          ≤ (SlurSegment.shapeRect minH a b).y + (SlurSegment.shapeRect minH a b).h := by
  unfold SlurSegment.shapeRect RectF.normalized RectF.ofPoints
  simp only [RectF.height, RectF.adjust]
  by_cases hw : b.x - a.x < 0 <;> by_cases hh : b.y - a.y < 0
  all_goals
    simp only [hw, hh, if_true, if_false]
    split_ifs with hm
    all_goals
      simp only at hm ⊢
      refine ⟨?_, ?_, ?_, ?_⟩
      all_goals
        first
        | (rw [min_def]; split_ifs <;> linarith)
        | (rw [max_def]; split_ifs <;> linarith)

/-- A rectangle of the shape, in coordinates: horizontally it goes from the
smaller to the larger `x` of its two points; its height is the difference of
their `y`, or `minH` when this is more; and it is centred on the middle of
their `y`. -/
theorem SlurSegment.shapeRect_coordinates (minH : ℚ) (a b : PointF) :
    (SlurSegment.shapeRect minH a b).x = min a.x b.x
      ∧ (SlurSegment.shapeRect minH a b).x + (SlurSegment.shapeRect minH a b).w = max a.x b.x
      ∧ (SlurSegment.shapeRect minH a b).h = max |a.y - b.y| minH
      ∧ (SlurSegment.shapeRect minH a b).y + (SlurSegment.shapeRect minH a b).h / 2
          = (a.y + b.y) / 2 := by
  unfold SlurSegment.shapeRect RectF.normalized RectF.ofPoints
  simp only [RectF.height, RectF.adjust]
  by_cases hw : b.x - a.x < 0 <;> by_cases hh : b.y - a.y < 0
  all_goals
    simp only [hw, hh, if_true, if_false]
    split_ifs with hm
    all_goals
      simp only at hm ⊢
      refine ⟨?_, ?_, ?_, ?_⟩
      · rw [min_def]; split_ifs <;> linarith
      · rw [max_def]; split_ifs <;> linarith
      · first
        | (rw [abs_of_pos (by linarith), max_def]; split_ifs <;> linarith)
        | (rw [abs_of_nonpos (by linarith), max_def]; split_ifs <;> linarith)
      · ring

/-- C23: after `computeBezier` returns on a segment that is not degenerate, the
collision shape consists of exactly 32 rectangles. The `j`-th of them (from 0)
spans the bezier points `a`, `b` at the parameters `j / 32` and `(j + 1) / 32`,
the first one starting at the start point: horizontally it goes from the
smaller to the larger `x` of the two points, its height is the difference of
their `y`, or `|3w|` when this is more, and it is centred on the middle of
their `y`. Every rectangle is at least `|3w|` high, `w` being the thickness
used for the stroke. The bezier curve is the one through the positions of the
grips START, BEZIER1, BEZIER2 and END that the call leaves. -/
theorem SlurSegment.computeBezier_shape (ctx : SegCtx) (slur : Slur) (s s1 : SlurSegment)
    (p6o : PointF) (hpass : SlurSegment.staffLinePass ctx slur s = some s1)
    (hnz : ¬ (((s1.END.p + s1.END.off) - (s1.START.p + s1.START.off)).x = 0
      ∧ ((s1.END.p + s1.END.off) - (s1.START.p + s1.START.off)).y = 0)) :
    ∃ r, SlurSegment.computeBezier ctx slur s p6o = some r
      ∧ r.2.shape.length = 32
      ∧ (∀ j, j < 32 → ∃ re a b,
          r.2.shape[j]? = some re
          ∧ a = SlurSegment.shapePoint
                (ctx.pointAtPercent r.2.START.pos r.2.BEZIER1.pos r.2.BEZIER2.pos r.2.END.pos)
                r.2.START.pos j
          ∧ b = SlurSegment.shapePoint
                (ctx.pointAtPercent r.2.START.pos r.2.BEZIER1.pos r.2.BEZIER2.pos r.2.END.pos)
                r.2.START.pos (j + 1)
          ∧ re.x = min a.x b.x
          ∧ re.x + re.w = max a.x b.x
          ∧ re.h = max |a.y - b.y| |3 * SlurSegment.strokeW ctx s1 p6o|
          ∧ re.y + re.h / 2 = (a.y + b.y) / 2)
      ∧ (∀ re ∈ r.2.shape, |3 * SlurSegment.strokeW ctx s1 p6o| ≤ re.height) := by
  refine ⟨(slur, SlurSegment.buildBezier ctx slur s1 p6o), ?_, ?_, ?_, ?_⟩
  · unfold SlurSegment.computeBezier
    simp only [hpass, if_neg hnz]
  · simp only []
    rw [SlurSegment.buildBezier_shape, SlurSegment.shapeLoop_range]
    simp
  · intro j hj
    refine ⟨_, _, _, ?_, rfl, rfl,
      SlurSegment.shapeRect_coordinates |3 * SlurSegment.strokeW ctx s1 p6o| _ _⟩
    simp only []
    rw [SlurSegment.buildBezier_shape, SlurSegment.shapeLoop_range, List.getElem?_map,
      List.getElem?_range hj]
    simp only [Option.map_some']
    cases j with
    | zero => simp [SlurSegment.shapePoint]
    | succ i =>
      simp only [SlurSegment.shapePoint]
      have h1 : 1 + i = i + 1 := by omega
      have h2 : 1 + (i + 1) = i + 1 + 1 := by omega
      rw [h1, h2]
  · intro re hre
    simp only [] at hre
    rw [SlurSegment.buildBezier_shape, SlurSegment.shapeLoop_range] at hre
    obtain ⟨j, -, rfl⟩ := List.mem_map.mp hre
    exact SlurSegment.shapeRect_height _ _ _

/-- C23 on an up-bowing slur from (0, -1) to (10, -1) with the control points
(2.5, -1.5) and (7.5, -1.5): the shape has 32 rectangles, and the second one
spans the bezier points at 1/32 and 2/32, (7915/32768, -2141/2048) and
(2035/4096, -557/512): it goes from the `x` of the one to the `x` of the other,
is 0.45 staff spaces high (`|3w|`, more than the 87/2048 between the points)
and is centred on the middle -4369/4096 of their `y`. -/
theorem SlurSegment.computeBezier_shape_witness :
    ∃ r re, SlurSegment.computeBezier exSegCtxBezier
          (exSlur true (exChordRest 1 0 false) (exChordRest 2 (1 / 2) false))
          (exSegment ⟨0, -1⟩ ⟨0, 0⟩ ⟨10, -1⟩ ⟨0, 0⟩) computeBezierDefaultArg = some r
      ∧ r.2.shape.length = 32
      ∧ r.2.shape[1]? = some re
      ∧ re.x = 7915 / 32768 ∧ re.x + re.w = 2035 / 4096
      ∧ re.h = 9 / 20 ∧ re.y + re.h / 2 = (-4369 / 4096 : ℚ) := by
  have hpass : SlurSegment.staffLinePass exSegCtxBezier
      (exSlur true (exChordRest 1 0 false) (exChordRest 2 (1 / 2) false))
      (exSegment ⟨0, -1⟩ ⟨0, 0⟩ ⟨10, -1⟩ ⟨0, 0⟩)
      = some (exSegment ⟨0, -1⟩ ⟨0, 0⟩ ⟨10, -1⟩ ⟨0, 0⟩) := by
    norm_num [SlurSegment.staffLinePass, SlurSegment.adjustEndpoints, SlurSegment.adjustGrip,
      exSegCtxBezier, exSegCtx, exSlur, exSegment]
  have hnz : ¬ ((((exSegment ⟨0, -1⟩ ⟨0, 0⟩ ⟨10, -1⟩ ⟨0, 0⟩).END.p
        + (exSegment ⟨0, -1⟩ ⟨0, 0⟩ ⟨10, -1⟩ ⟨0, 0⟩).END.off)
        - ((exSegment ⟨0, -1⟩ ⟨0, 0⟩ ⟨10, -1⟩ ⟨0, 0⟩).START.p
          + (exSegment ⟨0, -1⟩ ⟨0, 0⟩ ⟨10, -1⟩ ⟨0, 0⟩).START.off)).x = 0
      ∧ (((exSegment ⟨0, -1⟩ ⟨0, 0⟩ ⟨10, -1⟩ ⟨0, 0⟩).END.p
        + (exSegment ⟨0, -1⟩ ⟨0, 0⟩ ⟨10, -1⟩ ⟨0, 0⟩).END.off)
        - ((exSegment ⟨0, -1⟩ ⟨0, 0⟩ ⟨10, -1⟩ ⟨0, 0⟩).START.p
          + (exSegment ⟨0, -1⟩ ⟨0, 0⟩ ⟨10, -1⟩ ⟨0, 0⟩).START.off)).y = 0) := by
    norm_num [exSegment, PointF.add_x, PointF.sub_x]
  obtain ⟨r, hr, hlen, hspan, -⟩ := SlurSegment.computeBezier_shape exSegCtxBezier
    (exSlur true (exChordRest 1 0 false) (exChordRest 2 (1 / 2) false))
    (exSegment ⟨0, -1⟩ ⟨0, 0⟩ ⟨10, -1⟩ ⟨0, 0⟩) _ computeBezierDefaultArg hpass hnz
  have hr' : SlurSegment.computeBezier exSegCtxBezier
      (exSlur true (exChordRest 1 0 false) (exChordRest 2 (1 / 2) false))
      (exSegment ⟨0, -1⟩ ⟨0, 0⟩ ⟨10, -1⟩ ⟨0, 0⟩) computeBezierDefaultArg
      = some (exSlur true (exChordRest 1 0 false) (exChordRest 2 (1 / 2) false),
          SlurSegment.buildBezier exSegCtxBezier
            (exSlur true (exChordRest 1 0 false) (exChordRest 2 (1 / 2) false))
            (exSegment ⟨0, -1⟩ ⟨0, 0⟩ ⟨10, -1⟩ ⟨0, 0⟩) computeBezierDefaultArg) := by
    unfold SlurSegment.computeBezier
    simp only [hpass, if_neg hnz]
  have hreq := Option.some.inj (hr.symm.trans hr')
  obtain ⟨re, a, b, hre, ha, hb, hx, hxw, hh, hy⟩ := hspan 1 (by norm_num)
  have hS : r.2.START.pos = ⟨0, -1⟩ := by
    rw [hreq, PointF.eq_iff]
    norm_num [SlurSegment.buildBezier, SlurSegment.shoulder, UP.pos, UP.zero, exSegment,
      exSegCtxBezier, exSegCtx, exMath, exSlur, computeBezierDefaultArg, PointF.zero,
      PointF.isNull, Transform.map, Transform.rotateRadians, Transform.translate,
      Transform.identity, PointF.add_x, PointF.add_y, PointF.sub_x, PointF.sub_y]
  have hB1 : r.2.BEZIER1.pos = ⟨5 / 2, -3 / 2⟩ := by
    rw [hreq, PointF.eq_iff]
    norm_num [SlurSegment.buildBezier, SlurSegment.shoulder, UP.pos, UP.zero, exSegment,
      exSegCtxBezier, exSegCtx, exMath, exSlur, computeBezierDefaultArg, PointF.zero,
      PointF.isNull, Transform.map, Transform.rotateRadians, Transform.translate,
      Transform.identity, PointF.add_x, PointF.add_y, PointF.sub_x, PointF.sub_y]
  have hB2 : r.2.BEZIER2.pos = ⟨15 / 2, -3 / 2⟩ := by
    rw [hreq, PointF.eq_iff]
    norm_num [SlurSegment.buildBezier, SlurSegment.shoulder, UP.pos, UP.zero, exSegment,
      exSegCtxBezier, exSegCtx, exMath, exSlur, computeBezierDefaultArg, PointF.zero,
      PointF.isNull, Transform.map, Transform.rotateRadians, Transform.translate,
      Transform.identity, PointF.add_x, PointF.add_y, PointF.sub_x, PointF.sub_y]
  have hE : r.2.END.pos = ⟨10, -1⟩ := by
    rw [hreq, PointF.eq_iff]
    norm_num [SlurSegment.buildBezier, SlurSegment.shoulder, UP.pos, UP.zero, exSegment,
      exSegCtxBezier, exSegCtx, exMath, exSlur, computeBezierDefaultArg, PointF.zero,
      PointF.isNull, Transform.map, Transform.rotateRadians, Transform.translate,
      Transform.identity, PointF.add_x, PointF.add_y, PointF.sub_x, PointF.sub_y]
  have hw : SlurSegment.strokeW exSegCtxBezier (exSegment ⟨0, -1⟩ ⟨0, 0⟩ ⟨10, -1⟩ ⟨0, 0⟩)
      computeBezierDefaultArg = 3 / 20 := by
    norm_num [SlurSegment.strokeW, SlurSegment.shoulder, exSegCtxBezier, exSegCtx, exMath,
      exSegment, computeBezierDefaultArg, PointF.zero, Transform.map, Transform.rotateRadians,
      Transform.identity, PointF.add_x, PointF.add_y, PointF.sub_x, PointF.sub_y]
  have ha' : a = ⟨7915 / 32768, -2141 / 2048⟩ := by
    rw [ha, hS, hB1, hB2, hE, PointF.eq_iff]
    norm_num [SlurSegment.shapePoint, exSegCtxBezier, exBezierPoint]
  have hb' : b = ⟨2035 / 4096, -557 / 512⟩ := by
    rw [hb, hS, hB1, hB2, hE, PointF.eq_iff]
    norm_num [SlurSegment.shapePoint, exSegCtxBezier, exBezierPoint]
  rw [ha', hb'] at hx hxw hh hy
  rw [hw] at hh
  refine ⟨r, re, hr, hlen, hre, ?_, ?_, ?_, ?_⟩
  · rw [hx]; norm_num
  · rw [hxw]; norm_num
  · rw [hh]
    norm_num [abs_of_pos]
  · rw [hy]; norm_num

/-! ### Clearance from the staff lines (`adjustEndpoints`) -/

/-- A position at the distance `f` below the integer position `k`, with `f`
between 0.15 and 0.85, is at least 0.15 away from every integer position. -/
theorem staffLine_distance (k : ℤ) (f : ℚ) (hf1 : 15 / 100 ≤ f) (hf2 : f ≤ 85 / 100) (n : ℤ) :
    (15 / 100 : ℚ) ≤ |(k : ℚ) + f - (n : ℚ)| := by
  rcases le_or_lt n k with h | h
  · have h' : (n : ℚ) ≤ (k : ℚ) := by exact_mod_cast h
    rw [abs_of_nonneg (by linarith)]
    linarith
  · have h' : (k : ℚ) + 1 ≤ (n : ℚ) := by exact_mod_cast h
    rw [abs_of_nonpos (by linarith)]
    linarith

/-- The position that `adjustPoint` gives is at least 0.15 staff spaces away
from every integer position, for both bow directions. -/
theorem SlurSegment.adjustPoint_clear (up : Bool) (ysp : ℚ) (n : ℤ) :
    (15 / 100 : ℚ) ≤ |ysp + SlurSegment.adjustPoint up ysp - (n : ℚ)| := by
  have hfl : (⌊ysp⌋ : ℚ) ≤ ysp := Int.floor_le ysp
  have hfl' : ysp < (⌊ysp⌋ : ℚ) + 1 := Int.lt_floor_add_one ysp
  unfold SlurSegment.adjustPoint
  simp only []
  cases up
  · simp only [Bool.false_eq_true, if_false]
    by_cases h2 : ysp - (⌊ysp⌋ : ℚ) > 1 - 15 / 100
    · rw [if_pos h2]
      have := staffLine_distance (⌊ysp⌋ + 1) (15 / 100) (by norm_num) (by norm_num) n
      have he : ysp + (1 - (ysp - (⌊ysp⌋ : ℚ)) + 15 / 100) - (n : ℚ)
          = ((⌊ysp⌋ + 1 : ℤ) : ℚ) + 15 / 100 - (n : ℚ) := by push_cast; ring
      rw [he]; exact this
    · rw [if_neg h2]
      by_cases h1 : ysp - (⌊ysp⌋ : ℚ) < 15 / 100
      · rw [if_pos h1]
        have := staffLine_distance ⌊ysp⌋ (15 / 100) (by norm_num) (by norm_num) n
        have he : ysp + (15 / 100 - (ysp - (⌊ysp⌋ : ℚ))) - (n : ℚ)
            = (⌊ysp⌋ : ℚ) + 15 / 100 - (n : ℚ) := by ring
        rw [he]; exact this
      · rw [if_neg h1]
        have := staffLine_distance ⌊ysp⌋ (ysp - (⌊ysp⌋ : ℚ)) (not_lt.mp h1)
          (by linarith [not_lt.mp h2]) n
        have he : ysp + 0 - (n : ℚ) = (⌊ysp⌋ : ℚ) + (ysp - (⌊ysp⌋ : ℚ)) - (n : ℚ) := by ring
        rw [he]; exact this
  · simp only [if_true]
    by_cases h1 : ysp - (⌊ysp⌋ : ℚ) < 15 / 100
    · rw [if_pos h1]
      have := staffLine_distance (⌊ysp⌋ - 1) (85 / 100) (by norm_num) (by norm_num) n
      have he : ysp + -(ysp - (⌊ysp⌋ : ℚ) + 15 / 100) - (n : ℚ)
          = ((⌊ysp⌋ - 1 : ℤ) : ℚ) + 85 / 100 - (n : ℚ) := by push_cast; ring
      rw [he]; exact this
    · rw [if_neg h1]
      by_cases h2 : ysp - (⌊ysp⌋ : ℚ) > 1 - 15 / 100
      · rw [if_pos h2]
        have := staffLine_distance ⌊ysp⌋ (85 / 100) (by norm_num) (by norm_num) n
        have he : ysp + -(ysp - (⌊ysp⌋ : ℚ) - (1 - 15 / 100)) - (n : ℚ)
            = (⌊ysp⌋ : ℚ) + 85 / 100 - (n : ℚ) := by ring
        rw [he]; exact this
      · rw [if_neg h2]
        have := staffLine_distance ⌊ysp⌋ (ysp - (⌊ysp⌋ : ℚ)) (not_lt.mp h1)
          (by linarith [not_lt.mp h2]) n
        have he : ysp + 0 - (n : ℚ) = (⌊ysp⌋ : ℚ) + (ysp - (⌊ysp⌋ : ℚ)) - (n : ℚ) := by ring
        rw [he]; exact this

/-- A position that is at least 0.15 staff spaces away from both neighbouring
integer positions is not adjusted. -/
theorem SlurSegment.adjustPoint_zero (up : Bool) (ysp : ℚ)
    (h1 : 15 / 100 ≤ ysp - (⌊ysp⌋ : ℚ)) (h2 : ysp - (⌊ysp⌋ : ℚ) ≤ 85 / 100) :
    SlurSegment.adjustPoint up ysp = 0 := by
  unfold SlurSegment.adjustPoint
  simp only []
  have n1 : ¬ ysp - (⌊ysp⌋ : ℚ) < 15 / 100 := not_lt.mpr h1
  have n2 : ¬ ysp - (⌊ysp⌋ : ℚ) > 1 - 15 / 100 := by
    have : (1 : ℚ) - 15 / 100 = 85 / 100 := by norm_num
    rw [this]; exact not_lt.mpr h2
  cases up
  · simp only [Bool.false_eq_true, if_false, if_neg n1, if_neg n2]
  · simp only [if_true, if_neg n1, if_neg n2]

/-- The staff-line pass on one grip: a grip in the range of the staff ends at
least 0.15 staff spaces from every integer position, and a grip that was at
least 0.15 staff spaces from both neighbouring integer positions is left. -/
theorem SlurSegment.adjustGrip_clear (spatium : ℚ) (hsp : 0 < spatium) (lines : ℤ) (up : Bool)
    (u : UP) :
    (-(15 / 100) < u.p.y / spatium → u.p.y / spatium < ((lines : ℚ) - 1) + 15 / 100 →
        ∀ n : ℤ,
          (15 / 100 : ℚ) ≤ |(SlurSegment.adjustGrip spatium lines up u).p.y / spatium - (n : ℚ)|)
      ∧ (15 / 100 ≤ u.p.y / spatium - (⌊u.p.y / spatium⌋ : ℚ) →
          u.p.y / spatium - (⌊u.p.y / spatium⌋ : ℚ) ≤ 85 / 100 →
          SlurSegment.adjustGrip spatium lines up u = u) := by
  constructor
  · intro h1 h2 n
    unfold SlurSegment.adjustGrip
    simp only []
    rw [if_pos ⟨h1, h2⟩]
    simp only []
    have he : (u.p.y + SlurSegment.adjustPoint up (u.p.y / spatium) * spatium) / spatium
        = u.p.y / spatium + SlurSegment.adjustPoint up (u.p.y / spatium) := by
      field_simp
    rw [he]
    exact SlurSegment.adjustPoint_clear up _ n
  · intro h1 h2
    unfold SlurSegment.adjustGrip
    simp only []
    rw [SlurSegment.adjustPoint_zero up _ h1 h2]
    split_ifs
    · simp
    · rfl

/-- C22: after `adjustEndpoints`, for both bow directions and a positive staff
space, every end point (START and END) whose `y` lay strictly between -0.15
and `(lines - 1) + 0.15` staff spaces is at the distance of at least 0.15
staff spaces from every staff line, that is from every integer staff-space
position; and an end point that was at least 0.15 staff spaces away from both
neighbouring lines is not moved. -/
theorem SlurSegment.adjustEndpoints_clearance (ctx : SegCtx) (slur : Slur) (s : SlurSegment)
    (staff : Staff) (hstaff : ctx.staff = some staff) (hsp : 0 < ctx.spatium) :
    ∃ s', SlurSegment.adjustEndpoints ctx slur s = some s'
      ∧ (-(15 / 100) < s.START.p.y / ctx.spatium →
          s.START.p.y / ctx.spatium < ((staff.lines : ℚ) - 1) + 15 / 100 →
          ∀ n : ℤ, (15 / 100 : ℚ) ≤ |s'.START.p.y / ctx.spatium - (n : ℚ)|)
      ∧ (-(15 / 100) < s.END.p.y / ctx.spatium →
          s.END.p.y / ctx.spatium < ((staff.lines : ℚ) - 1) + 15 / 100 →
          ∀ n : ℤ, (15 / 100 : ℚ) ≤ |s'.END.p.y / ctx.spatium - (n : ℚ)|)
      ∧ (15 / 100 ≤ s.START.p.y / ctx.spatium - (⌊s.START.p.y / ctx.spatium⌋ : ℚ) →
          s.START.p.y / ctx.spatium - (⌊s.START.p.y / ctx.spatium⌋ : ℚ) ≤ 85 / 100 →
          s'.START = s.START)
      ∧ (15 / 100 ≤ s.END.p.y / ctx.spatium - (⌊s.END.p.y / ctx.spatium⌋ : ℚ) →
          s.END.p.y / ctx.spatium - (⌊s.END.p.y / ctx.spatium⌋ : ℚ) ≤ 85 / 100 →
          s'.END = s.END) := by
  refine ⟨_, SlurSegment.adjustEndpoints_eq ctx slur s staff hstaff, ?_, ?_, ?_, ?_⟩
  · exact (SlurSegment.adjustGrip_clear ctx.spatium hsp staff.lines slur.up s.START).1
  · exact (SlurSegment.adjustGrip_clear ctx.spatium hsp staff.lines slur.up s.END).1
  · exact (SlurSegment.adjustGrip_clear ctx.spatium hsp staff.lines slur.up s.START).2
  · exact (SlurSegment.adjustGrip_clear ctx.spatium hsp staff.lines slur.up s.END).2

/-- C22 on a down-bowing slur on a five-line staff whose start point lies 0.05
staff spaces below the second line and whose end point lies in the middle of
a space: the start point ends 0.15 staff spaces below the line, and the end
point is not moved. -/
theorem SlurSegment.adjustEndpoints_clearance_witness :
    ∃ s', SlurSegment.adjustEndpoints exSegCtx
          (exSlur false (exChordRest 1 0 true) (exChordRest 2 (1 / 2) true))
          (exSegment ⟨0, 21 / 20⟩ ⟨0, 0⟩ ⟨10, 5 / 2⟩ ⟨0, 0⟩) = some s'
      ∧ (∀ n : ℤ, (15 / 100 : ℚ) ≤ |s'.START.p.y / 1 - (n : ℚ)|)
      ∧ s'.END = ⟨⟨10, 5 / 2⟩, ⟨0, 0⟩⟩ := by
  have h1 : ⌊(5 / 2 : ℚ)⌋ = 2 := by rw [Int.floor_eq_iff]; norm_num
  obtain ⟨s', hs', hstart, -, -, hend⟩ := SlurSegment.adjustEndpoints_clearance exSegCtx
    (exSlur false (exChordRest 1 0 true) (exChordRest 2 (1 / 2) true))
    (exSegment ⟨0, 21 / 20⟩ ⟨0, 0⟩ ⟨10, 5 / 2⟩ ⟨0, 0⟩) ⟨5, 1⟩ rfl (by norm_num [exSegCtx])
  refine ⟨s', hs', ?_, ?_⟩
  · exact hstart (by norm_num [exSegCtx, exSegment]) (by norm_num [exSegCtx, exSegment])
  · exact hend (by norm_num [exSegCtx, exSegment, h1]) (by norm_num [exSegCtx, exSegment, h1])

/-! ### Caps of the clearances of a scan (`layoutSegment`) -/

/-- Folding the update `min (max e d) cap` over clearances gives the smaller of
the cap and the largest value. -/
theorem clearance_fold (cap : ℚ) :
    ∀ (ds : List ℚ) (e : ℚ), 0 ≤ e → e ≤ cap →
      ds.foldl (fun e d => min (max e d) cap) e = min (max e (largestClearance ds)) cap := by
  intro ds
  induction ds with
  | nil =>
    intro e h0 h1
    simp [largestClearance, h0, h1]
  | cons d ds ih =>
    intro e h0 h1
    have hcap : 0 ≤ cap := le_trans h0 h1
    rw [List.foldl_cons, ih (min (max e d) cap) (le_min (le_trans h0 (le_max_left _ _)) hcap)
      (min_le_right _ _)]
    simp only [largestClearance, List.foldr_cons]
    generalize List.foldr max 0 ds = M
    simp only [min_def, max_def]
    split_ifs <;> linarith

theorem largestClearance_nonneg (ds : List ℚ) : 0 ≤ largestClearance ds := by
  unfold largestClearance
  induction ds with
  | nil => simp
  | cons d ds ih => simp only [List.foldr_cons]; exact le_trans ih (le_max_right _ _)

/-- The three distances at the end of a scan, as folds over the positive
clearances of the intersecting elements of each section, and the flag
`intersection`. -/
theorem SlurSegment.scan_fold (ctx : SegCtx) (slur : Slur) (seg : SlurSegment) (up : Bool)
    (pp1 pp2 : PointF) (slurWidth : ℚ) :
    ∀ (segs : List ScanSegment) (st : ScanState),
      (SlurSegment.scan ctx slur seg up pp1 pp2 slurWidth st segs).end1Dist
          = (SlurSegment.sectionClearances ctx seg up pp1 slurWidth .first
              (SlurSegment.scanSeen ctx slur seg pp1 pp2 segs)).foldl
              (fun e d => min (max e d) (3 * ctx.spatium)) st.end1Dist
        ∧ (SlurSegment.scan ctx slur seg up pp1 pp2 slurWidth st segs).end2Dist
          = (SlurSegment.sectionClearances ctx seg up pp1 slurWidth .last
              (SlurSegment.scanSeen ctx slur seg pp1 pp2 segs)).foldl
              (fun e d => min (max e d) (3 * ctx.spatium)) st.end2Dist
        ∧ (SlurSegment.scan ctx slur seg up pp1 pp2 slurWidth st segs).midpointDist
          = (SlurSegment.sectionClearances ctx seg up pp1 slurWidth .middle
              (SlurSegment.scanSeen ctx slur seg pp1 pp2 segs)).foldl
              (fun e d => min (max e d) (4 * ctx.spatium)) st.midpointDist
        ∧ (SlurSegment.scan ctx slur seg up pp1 pp2 slurWidth st segs).intersection
          = (st.intersection || !(SlurSegment.scanSeen ctx slur seg pp1 pp2 segs).isEmpty) := by
  intro segs
  induction segs with
  | nil =>
    intro st
    simp [SlurSegment.scan, SlurSegment.scanSeen, SlurSegment.sectionClearances]
  | cons s rest ih =>
    intro st
    by_cases hen : s.enabled = true
    · by_cases hss : slur.startSegment = some s.id ∨ slur.endSegment = some s.id
      · rw [SlurSegment.scan, SlurSegment.scanSeen]
        simp only [hen, Bool.not_true, Bool.false_eq_true, if_false, if_pos hss]
        exact ih st
      · by_cases hbar : s.isBarLineType = true
        · rw [SlurSegment.scan, SlurSegment.scanSeen]
          simp only [hen, Bool.not_true, Bool.false_eq_true, if_false, if_neg hss, hbar, if_true]
          exact ih st
        · by_cases hx1 : pp1.x > s.pos.x + s.measurePos.x + s.width
          · rw [SlurSegment.scan, SlurSegment.scanSeen]
            simp only [hen, Bool.not_true, Bool.false_eq_true, if_false, if_neg hss, hbar,
              if_pos hx1]
            exact ih st
          · by_cases hx2 : pp2.x < s.pos.x + s.measurePos.x
            · rw [SlurSegment.scan, SlurSegment.scanSeen]
              simp only [hen, Bool.not_true, Bool.false_eq_true, if_false, if_neg hss, hbar,
                if_neg hx1, if_pos hx2]
              simp [SlurSegment.sectionClearances]
            · by_cases hint : ctx.intersects
                  (Shape.translated (s.staffShape seg.staffIdx) (s.pos + s.measurePos))
                  seg.shape = true
              · have hhit : SlurSegment.scanHits ctx slur seg pp1 pp2 s :=
                  ⟨hen, hss, eq_false_of_ne_true hbar, hx1, hx2, hint⟩
                rw [SlurSegment.scan_hit ctx slur seg up pp1 pp2 slurWidth st s rest hhit,
                  SlurSegment.scanSeen]
                simp only [hen, Bool.not_true, Bool.false_eq_true, if_false, if_neg hss, hbar,
                  if_neg hx1, if_neg hx2, hint, if_true]
                obtain ⟨i1, i2, i3, i4⟩ := ih
                  (let dist := SlurSegment.scanDist ctx seg up s
                   let rel := SlurSegment.scanRelativeX pp1 slurWidth s
                   let st1 : ScanState := { st with segRelativeX := rel, intersection := true }
                   if dist > 0 then
                     if rel < 3 / 10 then
                       { st1 with end1Dist := min (max st.end1Dist dist) (3 * ctx.spatium) }
                     else if rel > 1 - 3 / 10 then
                       { st1 with end2Dist := min (max st.end2Dist dist) (3 * ctx.spatium) }
                     else
                       { st1 with midpointDist := min (max st.midpointDist dist) (4 * ctx.spatium) }
                   else st1)
                rw [i1, i2, i3, i4]
                simp only [SlurSegment.sectionClearances, List.filter_cons, SlurSegment.sectionOf]
                by_cases hd : SlurSegment.scanDist ctx seg up s > 0
                · by_cases h1 : SlurSegment.scanRelativeX pp1 slurWidth s < 3 / 10
                  · simp [hd, h1]
                  · by_cases h2 : SlurSegment.scanRelativeX pp1 slurWidth s > 1 - 3 / 10
                    · simp [hd, h1, h2]
                    · simp [hd, h1, h2]
                · simp [hd]
              · rw [SlurSegment.scan, SlurSegment.scanSeen]
                simp only [hen, Bool.not_true, Bool.false_eq_true, if_false, if_neg hss, hbar,
                  if_neg hx1, if_neg hx2, hint]
                exact ih _
    · have hen' : s.enabled = false := eq_false_of_ne_true hen
      rw [SlurSegment.scan, SlurSegment.scanSeen]
      simp only [hen', Bool.not_false, if_true]
      exact ih st

/-- C21: at the end of every scan of `layoutSegment` (which starts from the
distances 0), for every sequence of elements and a staff space that is not
negative, the start-endpoint distance and the end-endpoint distance lie in
[0, 3 staff spaces] and the mid-height distance lies in [0, 4 staff spaces],
and each is the smaller of its cap and the largest positive clearance of the
intersecting elements of its section, 0 if there is none. -/
theorem SlurSegment.scan_clearance_caps (ctx : SegCtx) (slur : Slur) (seg : SlurSegment)
    (up : Bool) (pp1 pp2 : PointF) (slurWidth : ℚ) (segs : List ScanSegment) (rel0 : ℚ)
    (hsp : 0 ≤ ctx.spatium) :
    ((SlurSegment.scan ctx slur seg up pp1 pp2 slurWidth ⟨false, 0, 0, 0, rel0⟩ segs).end1Dist
        = min (3 * ctx.spatium)
            (largestClearance (SlurSegment.sectionClearances ctx seg up pp1 slurWidth .first
              (SlurSegment.scanSeen ctx slur seg pp1 pp2 segs)))
      ∧ 0 ≤ (SlurSegment.scan ctx slur seg up pp1 pp2 slurWidth ⟨false, 0, 0, 0, rel0⟩
              segs).end1Dist
      ∧ (SlurSegment.scan ctx slur seg up pp1 pp2 slurWidth ⟨false, 0, 0, 0, rel0⟩
              segs).end1Dist ≤ 3 * ctx.spatium)
    ∧ ((SlurSegment.scan ctx slur seg up pp1 pp2 slurWidth ⟨false, 0, 0, 0, rel0⟩ segs).end2Dist
        = min (3 * ctx.spatium)
            (largestClearance (SlurSegment.sectionClearances ctx seg up pp1 slurWidth .last
              (SlurSegment.scanSeen ctx slur seg pp1 pp2 segs)))
      ∧ 0 ≤ (SlurSegment.scan ctx slur seg up pp1 pp2 slurWidth ⟨false, 0, 0, 0, rel0⟩
              segs).end2Dist
      ∧ (SlurSegment.scan ctx slur seg up pp1 pp2 slurWidth ⟨false, 0, 0, 0, rel0⟩
              segs).end2Dist ≤ 3 * ctx.spatium)
    ∧ ((SlurSegment.scan ctx slur seg up pp1 pp2 slurWidth ⟨false, 0, 0, 0, rel0⟩
              segs).midpointDist
        = min (4 * ctx.spatium)
            (largestClearance (SlurSegment.sectionClearances ctx seg up pp1 slurWidth .middle
              (SlurSegment.scanSeen ctx slur seg pp1 pp2 segs)))
      ∧ 0 ≤ (SlurSegment.scan ctx slur seg up pp1 pp2 slurWidth ⟨false, 0, 0, 0, rel0⟩
              segs).midpointDist
      ∧ (SlurSegment.scan ctx slur seg up pp1 pp2 slurWidth ⟨false, 0, 0, 0, rel0⟩
              segs).midpointDist ≤ 4 * ctx.spatium) := by
  obtain ⟨h1, h2, h3, -⟩ := SlurSegment.scan_fold ctx slur seg up pp1 pp2 slurWidth segs
    ⟨false, 0, 0, 0, rel0⟩
  have key : ∀ (cap : ℚ) (ds : List ℚ), 0 ≤ cap →
      ds.foldl (fun e d => min (max e d) cap) 0 = min cap (largestClearance ds)
        ∧ 0 ≤ min cap (largestClearance ds) ∧ min cap (largestClearance ds) ≤ cap := by
    intro cap ds hcap
    have hn := largestClearance_nonneg ds
    rw [clearance_fold cap ds 0 le_rfl hcap, max_eq_right hn, min_comm]
    exact ⟨rfl, le_min hcap hn, min_le_left _ _⟩
  have h3sp : 0 ≤ 3 * ctx.spatium := by positivity
  have h4sp : 0 ≤ 4 * ctx.spatium := by positivity
  simp only [] at h1 h2 h3
  rw [h1, h2, h3]
  obtain ⟨a1, a2, a3⟩ := key (3 * ctx.spatium) (SlurSegment.sectionClearances ctx seg up pp1
    slurWidth .first (SlurSegment.scanSeen ctx slur seg pp1 pp2 segs)) h3sp
  obtain ⟨b1, b2, b3⟩ := key (3 * ctx.spatium) (SlurSegment.sectionClearances ctx seg up pp1
    slurWidth .last (SlurSegment.scanSeen ctx slur seg pp1 pp2 segs)) h3sp
  obtain ⟨c1, c2, c3⟩ := key (4 * ctx.spatium) (SlurSegment.sectionClearances ctx seg up pp1
    slurWidth .middle (SlurSegment.scanSeen ctx slur seg pp1 pp2 segs)) h4sp
  rw [a1, b1, c1]
  exact ⟨⟨rfl, a2, a3⟩, ⟨rfl, b2, b3⟩, ⟨rfl, c2, c3⟩⟩

/-- C21 on a scan that meets one element in the middle of the span, with the
clearance 1.5: the distances lie within their caps. -/
theorem SlurSegment.scan_clearance_caps_witness :
    (SlurSegment.scan exSegCtxHit (exSlur true (exChordRest 1 0 false) (exChordRest 2 1 false))
        (exSegment ⟨0, 0⟩ ⟨0, 0⟩ ⟨10, 0⟩ ⟨0, 0⟩) true ⟨0, 0⟩ ⟨10, 0⟩ 10 ⟨false, 0, 0, 0, 0⟩
        [exScanSegment 7 4 2]).midpointDist ≤ 4 * 1
      ∧ 0 ≤ (SlurSegment.scan exSegCtxHit
        (exSlur true (exChordRest 1 0 false) (exChordRest 2 1 false))
        (exSegment ⟨0, 0⟩ ⟨0, 0⟩ ⟨10, 0⟩ ⟨0, 0⟩) true ⟨0, 0⟩ ⟨10, 0⟩ 10 ⟨false, 0, 0, 0, 0⟩
        [exScanSegment 7 4 2]).end1Dist :=
  have h := SlurSegment.scan_clearance_caps exSegCtxHit
    (exSlur true (exChordRest 1 0 false) (exChordRest 2 1 false))
    (exSegment ⟨0, 0⟩ ⟨0, 0⟩ ⟨10, 0⟩ ⟨0, 0⟩) true ⟨0, 0⟩ ⟨10, 0⟩ 10 [exScanSegment 7 4 2] 0
    (by norm_num [exSegCtxHit, exSegCtx])
  ⟨h.2.2.2.2, h.1.2.1⟩

/-! ### Slots of the avoidance loop (`layoutSegment`) -/

/-- Marking one unmarked slot raises the number of marked slots by one. -/
theorem Adjusted.marksOne_count (a b : Adjusted) (h : Adjusted.MarksOne a b) :
    b.count = a.count + 1 := by
  obtain ⟨x, y, z⟩ := a
  obtain ⟨x', y', z'⟩ := b
  cases x <;> cases y <;> cases z <;> cases x' <;> cases y' <;> cases z' <;>
    first
    | rfl
    | (exfalso; revert h; simp [Adjusted.MarksOne])

/-- With at most two slots marked, the three are not all marked. -/
theorem Adjusted.not_all_of_count (a : Adjusted) (h : a.count ≤ 2) :
    (a.a0 && a.a1 && a.a2) = false := by
  obtain ⟨x, y, z⟩ := a
  cases x <;> cases y <;> cases z <;> simp [Adjusted.count] at h ⊢

/-- The corrective action of a pass marks exactly one slot that was unmarked,
when the slots are not all marked. -/
theorem SlurSegment.correct_marks (ctx : SegCtx) (up : Bool) (sc : ScanState) (adj : Adjusted)
    (seg : SlurSegment) (hnot : (adj.a0 && adj.a1 && adj.a2) = false) :
    Adjusted.MarksOne adj (SlurSegment.correct ctx up sc adj seg).2 := by
  have hmax : max (max sc.end1Dist sc.end2Dist) sc.midpointDist = sc.end1Dist
      ∨ max (max sc.end1Dist sc.end2Dist) sc.midpointDist = sc.end2Dist
      ∨ max (max sc.end1Dist sc.end2Dist) sc.midpointDist = sc.midpointDist := by
    rcases max_choice (max sc.end1Dist sc.end2Dist) sc.midpointDist with h | h
    · rcases max_choice sc.end1Dist sc.end2Dist with h' | h'
      · exact Or.inl (h.trans h')
      · exact Or.inr (Or.inl (h.trans h'))
    · exact Or.inr (Or.inr h)
  obtain ⟨a0, a1, a2⟩ := adj
  unfold SlurSegment.correct
  simp only []
  by_cases h1 : max (max sc.end1Dist sc.end2Dist) sc.midpointDist = sc.end1Dist
  · rw [if_pos h1]
    cases a0 <;> cases a1 <;> cases a2 <;> simp [Adjusted.MarksOne] at hnot ⊢
  · rw [if_neg h1]
    by_cases h2 : max (max sc.end1Dist sc.end2Dist) sc.midpointDist = sc.end2Dist
    · rw [if_pos h2]
      cases a0 <;> cases a1 <;> cases a2 <;> simp [Adjusted.MarksOne] at hnot ⊢
    · rw [if_neg h2]
      have h3 : max (max sc.end1Dist sc.end2Dist) sc.midpointDist = sc.midpointDist := by
        rcases hmax with h | h | h
        · exact absurd h h1
        · exact absurd h h2
        · exact h
      rw [if_pos h3]
      by_cases hrel : sc.segRelativeX < 1 / 2
      · simp only [if_pos hrel]
        cases a0 <;> cases a1 <;> cases a2 <;> simp [Adjusted.MarksOne] at hnot ⊢
      · simp only [if_neg hrel]
        cases a0 <;> cases a1 <;> cases a2 <;> simp [Adjusted.MarksOne] at hnot ⊢

/-- A pass of the avoidance loop that finds an intersection and whose
`computeBezier` returns: the loop goes on from the corrected state. -/
theorem SlurSegment.avoidanceLoop_hit (ctx : SegCtx) (up : Bool) (pp1 pp2 : PointF)
    (segs : List ScanSegment) (st : SlurSegment.LoopState) (slur : Slur) (seg : SlurSegment)
    (hnot : (st.adjusted.a0 && st.adjusted.a1 && st.adjusted.a2) = false)
    (hint : (SlurSegment.scan ctx st.slur st.seg up pp1 pp2 (pp2.x - pp1.x)
      ⟨false, 0, 0, 0, st.segRelativeX⟩ segs).intersection = true)
    (hcb : SlurSegment.computeBezier ctx st.slur
      (SlurSegment.correct ctx up
        (SlurSegment.scan ctx st.slur st.seg up pp1 pp2 (pp2.x - pp1.x)
          ⟨false, 0, 0, 0, st.segRelativeX⟩ segs) st.adjusted st.seg).1
      computeBezierDefaultArg = some (slur, seg)) (j : ℕ) :
    SlurSegment.avoidanceLoop ctx up pp1 pp2 segs (j + 1) st
      = SlurSegment.avoidanceLoop ctx up pp1 pp2 segs j
          { slur := slur, seg := seg,
            adjusted := (SlurSegment.correct ctx up
              (SlurSegment.scan ctx st.slur st.seg up pp1 pp2 (pp2.x - pp1.x)
                ⟨false, 0, 0, 0, st.segRelativeX⟩ segs) st.adjusted st.seg).2,
            segRelativeX := (SlurSegment.scan ctx st.slur st.seg up pp1 pp2 (pp2.x - pp1.x)
                ⟨false, 0, 0, 0, st.segRelativeX⟩ segs).segRelativeX,
            bezierCalls := st.bezierCalls + 1, passLog := st.passLog ++ [true] } := by
  rw [SlurSegment.avoidanceLoop]
  simp only [hnot, hint, hcb, Bool.false_eq_true, if_false, Bool.not_true]

/-- Invariant of the avoidance loop, entered with `c` slots marked and at most
`3 - c` values of `tries` left: a run that returns has made `m >= 1` passes
(when `n >= 1`), and before its pass number `k < m` it was in a state `sk`
that the loop reaches after `k` passes, from which the remaining passes lead
to the result, in which `c + k` slots are marked; and the pass from `sk`, when
another pass follows, marks exactly one slot that was unmarked. -/
theorem SlurSegment.avoidanceLoop_passes (ctx : SegCtx) (up : Bool) (pp1 pp2 : PointF)
    (segs : List ScanSegment) :
    ∀ (n : ℕ) (st r : SlurSegment.LoopState),
      SlurSegment.avoidanceLoop ctx up pp1 pp2 segs n st = some r →
      st.adjusted.count + n ≤ 3 →
      ∃ m, m ≤ n ∧ (1 ≤ n → 1 ≤ m) ∧ r.passLog.length = st.passLog.length + m
        ∧ ∀ k, k < m → ∃ sk : SlurSegment.LoopState,
            SlurSegment.avoidanceLoop ctx up pp1 pp2 segs k st = some sk
            ∧ SlurSegment.avoidanceLoop ctx up pp1 pp2 segs (n - k) sk = some r
            ∧ sk.passLog = st.passLog ++ List.replicate k true
            ∧ sk.adjusted.count = st.adjusted.count + k
            ∧ (k + 1 < m → ∃ sk1 : SlurSegment.LoopState,
                SlurSegment.avoidanceLoop ctx up pp1 pp2 segs 1 sk = some sk1
                ∧ SlurSegment.avoidanceLoop ctx up pp1 pp2 segs (k + 1) st = some sk1
                ∧ Adjusted.MarksOne sk.adjusted sk1.adjusted) := by
  intro n
  induction n with
  | zero =>
    intro st r _ _
    exact ⟨0, le_refl _, fun h => absurd h (by norm_num), by simp_all [SlurSegment.avoidanceLoop],
      fun k hk => absurd hk (Nat.not_lt_zero _)⟩
  | succ n ih =>
    intro st r h hc
    have hnot : (st.adjusted.a0 && st.adjusted.a1 && st.adjusted.a2) = false :=
      Adjusted.not_all_of_count _ (by omega)
    have hzero : ∀ s : SlurSegment.LoopState,
        SlurSegment.avoidanceLoop ctx up pp1 pp2 segs 0 s = some s := fun s => rfl
    by_cases hint : (SlurSegment.scan ctx st.slur st.seg up pp1 pp2 (pp2.x - pp1.x)
        ⟨false, 0, 0, 0, st.segRelativeX⟩ segs).intersection = true
    · cases hcb : SlurSegment.computeBezier ctx st.slur
          (SlurSegment.correct ctx up
            (SlurSegment.scan ctx st.slur st.seg up pp1 pp2 (pp2.x - pp1.x)
              ⟨false, 0, 0, 0, st.segRelativeX⟩ segs) st.adjusted st.seg).1
          computeBezierDefaultArg with
      | none =>
        rw [SlurSegment.avoidanceLoop] at h
        simp [hnot, hint, hcb] at h
      | some p =>
        obtain ⟨slur, seg⟩ := p
        have hstep := SlurSegment.avoidanceLoop_hit ctx up pp1 pp2 segs st slur seg hnot hint hcb
        have hm := SlurSegment.correct_marks ctx up
          (SlurSegment.scan ctx st.slur st.seg up pp1 pp2 (pp2.x - pp1.x)
            ⟨false, 0, 0, 0, st.segRelativeX⟩ segs) st.adjusted st.seg hnot
        have hcnt := Adjusted.marksOne_count _ _ hm
        rw [hstep n] at h
        obtain ⟨m, hmn, -, hlen, hk⟩ := ih _ r h (by simp only; omega)
        refine ⟨m + 1, Nat.succ_le_succ hmn, fun _ => Nat.succ_le_succ (Nat.zero_le _), ?_, ?_⟩
        · rw [hlen]
          simp only [List.length_append, List.length_cons, List.length_nil]
          omega
        · intro k hkm
          cases k with
          | zero =>
            refine ⟨st, rfl, ?_, by simp, rfl, ?_⟩
            · rw [Nat.sub_zero, hstep n]
              exact h
            · intro _
              exact ⟨_, (hstep 0).trans (hzero _), (hstep 0).trans (hzero _), hm⟩
          | succ k =>
            obtain ⟨sk, h1, h2, h3, h4, h5⟩ := hk k (by omega)
            refine ⟨sk, (hstep k).trans h1, ?_, ?_, ?_, ?_⟩
            · rw [Nat.succ_sub_succ]
              exact h2
            · rw [h3]
              simp only [List.append_assoc, List.singleton_append, List.replicate_succ]
            · rw [h4]
              simp only
              omega
            · intro hlt
              obtain ⟨sk1, g1, g2, g3⟩ := h5 (by omega)
              exact ⟨sk1, g1, (hstep (k + 1)).trans g2, g3⟩
    · have hint' : (SlurSegment.scan ctx st.slur st.seg up pp1 pp2 (pp2.x - pp1.x)
          ⟨false, 0, 0, 0, st.segRelativeX⟩ segs).intersection = false := by
        simpa using hint
      rw [SlurSegment.avoidanceLoop] at h
      simp only [hnot, hint', Bool.false_eq_true, if_false, Bool.not_false, if_true,
        Option.some.injEq] at h
      refine ⟨1, Nat.succ_le_succ (Nat.zero_le _), fun _ => le_refl _, ?_, ?_⟩
      · rw [← h]
        simp
      · intro k hk
        have hk0 : k = 0 := by omega
        subst hk0
        refine ⟨st, rfl, ?_, by simp, rfl, fun hlt => absurd hlt (by norm_num)⟩
        rw [Nat.sub_zero, SlurSegment.avoidanceLoop]
        simp only [hnot, hint', Bool.false_eq_true, if_false, Bool.not_false, if_true,
          Option.some.injEq]
        exact h

/-- C26: in `slurPos`, for a slur with both chordrests in measures and a first
system, the start anchor is STEM exactly when the two chordrests have the same
stem direction, this direction is the one of the slur, the start chordrest is
a chord with a stem, the staff uses stems (it is no tablature staff at the
tick of the end chordrest, or its stems go through the staff), and the start
chordrest has no beam or is the last element of its beam; the end anchor is
STEM exactly when the same holds of the end chordrest, with the first element
of its beam. -/
theorem Slur.stemAnchors_iff (staff : Option SlurStaff) (slur : Slur) (scr ecr : ChordRest)
    (m1 m2 : Measure) (sys : Nat)
    (hs : slur.startCR = some scr) (he : slur.endCR = some ecr)
    (hm1 : scr.measure = some m1) (hm2 : ecr.measure = some m2)
    (hsys : m1.system = some sys) :
    ∃ sa1 sa2, Slur.stemAnchors staff slur = some (sa1, sa2)
      ∧ (sa1 = SlurAnchor.STEM ↔
          scr.up = ecr.up ∧ scr.up = slur.up
            ∧ (∃ c stem, scr.chord = some c ∧ c.stem = some stem)
            ∧ (∀ st, staff = some st → st.isTabStaff ecr.tick = true →
                st.stemThrough slur.tick = true)
            ∧ (scr.beam = none ∨ ∃ beam, scr.beam = some beam ∧ beam.back = scr.id))
      ∧ (sa2 = SlurAnchor.STEM ↔
          scr.up = ecr.up ∧ scr.up = slur.up
            ∧ (∃ c stem, ecr.chord = some c ∧ c.stem = some stem)
            ∧ (∀ st, staff = some st → st.isTabStaff ecr.tick = true →
                st.stemThrough slur.tick = true)
            ∧ (ecr.beam = none ∨ ∃ beam, ecr.beam = some beam ∧ beam.front = ecr.id)) := by
  unfold Slur.stemAnchors
  simp only [hs, he, hm1, hm2, hsys]
  by_cases hup : scr.up = ecr.up ∧ scr.up = slur.up
  · rw [if_pos hup]
    refine ⟨_, _, rfl, ?_, ?_⟩
    · have h1 := hup.1
      have h2 := hup.2
      rcases staff with _ | st
      · rcases hc : scr.chord with _ | c
        · simp
        · rcases hst : c.stem with _ | stem <;> rcases hb : scr.beam with _ | beam <;>
            simp [h1.symm, h2.symm, h1.symm.trans h2, hst]
      · rcases htab : st.isTabStaff ecr.tick <;> rcases hthr : st.stemThrough slur.tick <;>
          rcases hc : scr.chord with _ | c <;> try simp [htab, hthr]
        all_goals
          rcases hst : c.stem with _ | stem <;> rcases hb : scr.beam with _ | beam <;>
            simp [h1.symm, h2.symm, h1.symm.trans h2, hst, htab, hthr]
    · have h1 := hup.1
      have h2 := hup.2
      rcases staff with _ | st
      · rcases hc : ecr.chord with _ | c
        · simp
        · rcases hst : c.stem with _ | stem <;> rcases hb : ecr.beam with _ | beam <;>
            simp [h1, h1.symm.trans h2, hst]
      · rcases htab : st.isTabStaff ecr.tick <;> rcases hthr : st.stemThrough slur.tick <;>
          rcases hc : ecr.chord with _ | c <;> try simp [htab, hthr]
        all_goals
          rcases hst : c.stem with _ | stem <;> rcases hb : ecr.beam with _ | beam <;>
            simp [h1, h1.symm.trans h2, hst, htab, hthr]
  · rw [if_neg hup]
    refine ⟨_, _, rfl, ?_, ?_⟩
    · constructor
      · intro h; cases h
      · intro h; exact absurd ⟨h.1, h.2.1⟩ hup
    · constructor
      · intro h; cases h
      · intro h; exact absurd ⟨h.1, h.2.1⟩ hup

/-- C26 on a slur above two stem-up chords, the start chord the last element
of its beam and the end chord the first element of the next beam: both
anchors are STEM. -/
theorem Slur.stemAnchors_iff_witness :
    Slur.stemAnchors none
        (exSlur true { exChordRest 1 0 true with beam := some (exBeam 0 1) }
          { exChordRest 2 1 true with beam := some (exBeam 2 3) })
      = some (SlurAnchor.STEM, SlurAnchor.STEM) := by
  obtain ⟨sa1, sa2, h, h1, h2⟩ := Slur.stemAnchors_iff none
    (exSlur true { exChordRest 1 0 true with beam := some (exBeam 0 1) }
      { exChordRest 2 1 true with beam := some (exBeam 2 3) })
    { exChordRest 1 0 true with beam := some (exBeam 0 1) }
    { exChordRest 2 1 true with beam := some (exBeam 2 3) } exMeasure exMeasure 0
    rfl rfl rfl rfl rfl
  have e1 : sa1 = SlurAnchor.STEM :=
    h1.mpr ⟨rfl, rfl, ⟨_, _, rfl, rfl⟩, (fun st hst => by cases hst), Or.inr ⟨_, rfl, rfl⟩⟩
  have e2 : sa2 = SlurAnchor.STEM :=
    h2.mpr ⟨rfl, rfl, ⟨_, _, rfl, rfl⟩, (fun st hst => by cases hst), Or.inr ⟨_, rfl, rfl⟩⟩
  rw [h, e1, e2]

/-- On a tablature staff with the stems beside the staff no anchor is STEM. -/
theorem Slur.stemAnchors_tab : Slur.stemAnchors (some exTabStaff)
        (exSlur true { exChordRest 1 0 true with beam := some (exBeam 0 1) }
          { exChordRest 2 1 true with beam := some (exBeam 2 3) })
      = some (SlurAnchor.NONE, SlurAnchor.NONE) := by
  rfl

/-- A start chord inside its beam gets no STEM anchor. -/
theorem Slur.stemAnchors_interior : Slur.stemAnchors none
        (exSlur true { exChordRest 1 0 true with beam := some (exBeam 0 3) }
          { exChordRest 2 1 true with beam := some (exBeam 2 3) })
      = some (SlurAnchor.NONE, SlurAnchor.STEM) := by
  rfl

/-! ### Tie clearance at the start of a slur (`layoutSystem`) -/

/-- The first part of `layoutSystem` keeps the start chordrest of the slur. -/
theorem Slur.segmentTypeAndDirection_startCR (slur : Slur) (system : System)
    (seg : SlurSegment) :
    (Slur.segmentTypeAndDirection slur system seg).1.startCR = slur.startCR := by
  have hfs : slur.fixTrack2.startCR = slur.startCR := by
    unfold Slur.fixTrack2; cases slur.track2 <;> rfl
  have hfe : ∀ s : Slur, s.fixEnd.startCR = s.startCR := by
    intro s
    unfold Slur.fixEnd
    cases s.endCR <;> rfl
  unfold Slur.segmentTypeAndDirection
  simp only []
  split_ifs
  · rw [← hfs]
    cases hscr : slur.fixTrack2.startCR with
    | none => exact hscr
    | some scr =>
      cases hm : scr.measure with
      | none => simp only [hm]; exact hscr
      | some m1 => simp only [hm]; exact (hfe _).trans hscr
  · rfl
  · rfl

/-- The adjustment for a tie on the side of the slur leaves the anchor at
least `tieClearance` beyond the end point of the tie on the bow side; when it
assigns nothing, the anchor is as before. -/
theorem Slur.tieAdjust_clear (up : Bool) (endPointY tieClearance y : ℚ) :
    (if up then endPointY - (Slur.tieAdjust up up endPointY tieClearance y).1
      else (Slur.tieAdjust up up endPointY tieClearance y).1 - endPointY) ≥ tieClearance
      ∧ ((Slur.tieAdjust up up endPointY tieClearance y).2 = false →
          (Slur.tieAdjust up up endPointY tieClearance y).1 = y) := by
  unfold Slur.tieAdjust
  cases up <;> simp <;> split_ifs <;> constructor <;> first | linarith | simp

/-- The start anchor of a SINGLE or BEGIN segment whose start chord has one
note with a tie that starts there, not inside and on the side of the slur:
the anchor lies at least 0.65 staff spaces beyond the start of the tie, and
it is moved by 0.35 staff spaces to the right only if its height is the one
it came with. -/
theorem Slur.startAnchor_tie (spatium : ℚ) (slur : Slur) (system : System)
    (sst : SpannerSegmentType) (p0 p1 : PointF) (c : Bool)
    (scr : ChordRest) (sc : Chord) (note : Note) (tie : Tie)
    (hsst : sst = .SINGLE ∨ sst = .BEGIN)
    (hs : slur.startCR = some scr) (hc : scr.chord = some sc) (hn : sc.notes = [note])
    (ht : note.tieFor = some tie) (hin : tie.isInside = false) (hup : tie.up = slur.up)
    (h : Slur.startAnchor spatium slur system sst p0 = some (p1, c)) :
    c = false
      ∧ (if slur.up then tie.frontStartPos.y - p1.y else p1.y - tie.frontStartPos.y)
          ≥ 65 / 100 * spatium
      ∧ (p1.x = p0.x ∨ (p1.x = p0.x + 35 / 100 * spatium ∧ p1.y = p0.y)) := by
  have hside : Slur.sameSideTie slur.up note.tieFor = some tie := by
    rw [ht]
    simp [Slur.sameSideTie, hin, hup]
  obtain ⟨hcl, hsame⟩ := Slur.tieAdjust_clear slur.up tie.frontStartPos.y
    (65 / 100 * spatium) p0.y
  unfold Slur.startAnchor at h
  simp only [if_pos hsst, hs, hc, hn, hside, hup] at h
  cases htb : note.tieBack with
  | none =>
    simp only [htb, Option.some.injEq, Prod.mk.injEq] at h
    obtain ⟨h1, h2⟩ := h
    subst h1
    exact ⟨h2.symm, hcl, Or.inl rfl⟩
  | some tb =>
    simp only [htb] at h
    split_ifs at h with hb
    · simp only [Option.some.injEq, Prod.mk.injEq] at h
      obtain ⟨h1, h2⟩ := h
      subst h1
      have hflag : (Slur.tieAdjust slur.up slur.up tie.frontStartPos.y (65 / 100 * spatium)
          p0.y).2 = false := by
        simp only [Bool.and_eq_true, Bool.not_eq_true'] at hb
        exact hb.1.1
      exact ⟨h2.symm, hcl, Or.inr ⟨rfl, hsame hflag⟩⟩
    · simp only [Option.some.injEq, Prod.mk.injEq] at h
      obtain ⟨h1, h2⟩ := h
      subst h1
      exact ⟨h2.symm, hcl, Or.inl rfl⟩

/-- C25: in `layoutSystem`, for a SINGLE or BEGIN segment of a slur whose
start chord has exactly one note, with a tie that starts there, is not inside
and bows to the side of the slur, the start anchor `p1` handed to
`layoutSegment` lies at least 0.65 staff spaces beyond the start point of the
tie on the bow side, and it is moved by 0.35 staff spaces to the right of the
point of `slurPos` only if its height is still the one of `slurPos`, that is,
if no vertical adjustment was made; on well-formed input the call returns and
hands anchors to `layoutSegment`. -/
theorem Slur.layoutSystem_tie_clearance (ctx : SlurCtx) (slur : Slur) (system : System)
    (seg : SlurSegment) (scr : ChordRest) (sc : Chord) (note : Note) (tie : Tie)
    (hs : slur.startCR = some scr) (hc : scr.chord = some sc) (hn : sc.notes = [note])
    (ht : note.tieFor = some tie) (hin : tie.isInside = false) :
    (∀ r p1 p2, Slur.layoutSystem ctx slur system seg = some r →
        r.seg.spannerSegmentType = .SINGLE ∨ r.seg.spannerSegmentType = .BEGIN →
        tie.up = r.slur.up → r.anchors = some (p1, p2) →
        (if r.slur.up then tie.frontStartPos.y - p1.y else p1.y - tie.frontStartPos.y)
            ≥ 65 / 100 * ctx.seg.spatium
          ∧ ∃ sPos, Slur.slurPos ctx (Slur.segmentTypeAndDirection slur system seg).1 = some sPos
            ∧ (p1.x = sPos.p1.x
                ∨ (p1.x = sPos.p1.x + 35 / 100 * ctx.seg.spatium ∧ p1.y = sPos.p1.y)))
      ∧ (Slur.WellFormed ctx slur system seg →
          ∃ r, Slur.layoutSystem ctx slur system seg = some r ∧ r.anchors.isSome) := by
  refine ⟨?_, Slur.layoutSystem_returns ctx slur system seg⟩
  intro r p1 p2 h hsst hup ha
  obtain ⟨slur1, seg1, osst, hT, hb, hnone, hsome⟩ :=
    Slur.layoutSystem_inv ctx slur system seg r h
  have hup1 : r.slur.up = slur1.up := by
    unfold Slur.SameButBroken at hb; rw [hb]
  have hs1 : slur1.startCR = some scr := by
    have := Slur.segmentTypeAndDirection_startCR slur system seg
    rw [hT] at this
    rw [this, hs]
  cases osst with
  | none => rw [hnone rfl] at ha; cases ha
  | some sst =>
    obtain ⟨hty, sPos, q1, c, q2, hp, hsa, -, hanch⟩ := hsome sst rfl
    rw [hty] at hsst
    obtain ⟨hc0, hcl, hx⟩ := Slur.startAnchor_tie ctx.seg.spatium slur1 system sst sPos.p1 q1 c
      scr sc note tie hsst hs1 hc hn ht hin (by rw [hup, hup1]) hsa
    subst hc0
    rw [ha] at hanch
    simp only [Bool.false_eq_true, if_false, Option.some.injEq, Prod.mk.injEq] at hanch
    obtain ⟨hq1, -⟩ := hanch
    subst hq1
    rw [hup1]
    refine ⟨hcl, sPos, ?_, hx⟩
    rw [hT]
    exact hp

/-- C25 on a slur with direction UP from a chord whose note carries a tie
above that starts at height 1/2, on a staff with staff space 1 where `slurPos`
gives the start point (1, 0): the call returns, and the start anchor handed to
`layoutSegment` lies at least 0.65 above the start of the tie. -/
theorem Slur.layoutSystem_tie_clearance_witness :
    ∃ r p1 p2, Slur.layoutSystem exSlurCtx
          { exSlur true (exChordRestOf (exTiedNote true (1 / 2)) 1 0 true)
              (exChordRest 2 (1 / 2) true) with slurDirection := .UP }
          (exSystem 0 (some (exChordRestOf (exTiedNote true (1 / 2)) 1 0 true))
            (some (exChordRest 2 (1 / 2) true)))
          (exSegment ⟨0, 0⟩ ⟨0, 0⟩ ⟨0, 0⟩ ⟨0, 0⟩) = some r
      ∧ r.anchors = some (p1, p2)
      ∧ 1 / 2 - p1.y ≥ 65 / 100 := by
  have hthm := Slur.layoutSystem_tie_clearance exSlurCtx
    { exSlur true (exChordRestOf (exTiedNote true (1 / 2)) 1 0 true)
        (exChordRest 2 (1 / 2) true) with slurDirection := .UP }
    (exSystem 0 (some (exChordRestOf (exTiedNote true (1 / 2)) 1 0 true))
            (some (exChordRest 2 (1 / 2) true)))
    (exSegment ⟨0, 0⟩ ⟨0, 0⟩ ⟨0, 0⟩ ⟨0, 0⟩)
    (exChordRestOf (exTiedNote true (1 / 2)) 1 0 true)
    { exChord true with notes := [exTiedNote true (1 / 2)], upNote := exTiedNote true (1 / 2),
                        downNote := exTiedNote true (1 / 2) }
    (exTiedNote true (1 / 2))
    { isInside := false, up := true, frontStartPos := ⟨0, 1 / 2⟩, frontEndPos := ⟨3, 1 / 2⟩,
      backStartPos := ⟨0, 1 / 2⟩ }
    rfl rfl rfl rfl rfl
  obtain ⟨r, hr, hanch⟩ := hthm.2
    ⟨⟨_, exMeasure, rfl, rfl⟩, ⟨_, exMeasure, rfl, rfl⟩,
      (fun cr c h hc => by
        simp only [exSystem, Option.some.injEq] at h
        subst h
        simp only [exChordRestOf, Option.some.injEq] at hc
        subst hc
        simp),
      exChordRest_notes 2 (1 / 2) true, fun _ => rfl⟩
  obtain ⟨⟨p1, p2⟩, ha⟩ := Option.isSome_iff_exists.mp hanch
  have hty : r.seg.spannerSegmentType = .SINGLE := by
    rw [Slur.layoutSystem_type _ _ _ _ r _ hr
      (Slur.segmentTypeAndDirection_type _ _ _ _ _ exMeasure rfl rfl rfl)]
    norm_num [segmentTypeOfTicks, exSlur, exSystem, exChordRest, exChordRestOf, Slur.tick2]
  have hup : r.slur.up = true := by
    rw [Slur.layoutSystem_up _ _ _ _ r hr,
      Slur.segmentTypeAndDirection_up _ _ _ _ exMeasure
        (by norm_num [exSlur, exSystem, exChordRest, exChordRestOf]) rfl rfl]
    rfl
  have h := (hthm.1 r p1 p2 hr (Or.inl hty) hup.symm ha).1
  rw [hup] at h
  exact ⟨r, p1, p2, hr, ha, by simpa [exSlurCtx, exSegCtx] using h⟩
